import Mathlib

/-!
The GUI script layer (`engine/gui/src/gui_script.cpp`)

A shallow embedding of the Lua binding of the GUI scene: node handles and
their validity check, the node accessors built on `LuaCheckNode`, deferred
deletion, sibling index, tree cloning, `gui.animate` and the completion of
an animation, re-parenting, moving and cloning a node, the render order, the
property setters and getters, `gui.get_parent`, node equality, dynamic
textures and the release of a custom easing curve.

Conventions of the embedding.

* A pointer `InternalNode*` into `scene->m_Nodes` is the slot index it points
  at; reading a field through the pointer reads the slot of the current scene.
* A Lua C function is a function of the world (the running script's scene and
  the Lua side state it touches) and of its argument list; it returns the new
  world together with a `LuaResult` (only the result when it changes
  nothing).  `luaL_error` never returns to its caller: the embedded function
  stops there with `LuaResult.error`.
* Loops whose trip count depends on the linked structure take a `fuel`
  argument and return `none` when it runs out.
* Machine integers are `Nat` with explicit reductions modulo `2 ^ 16` or
  `2 ^ 32` at the places where the C++ code narrows a value.
-/

namespace dmGui

/-! ## Data model -/

/-- Modelled from the spec: the "no slot" value of the optional links
(`parent_slot`, `child_head`, `next_sibling`).  The constant is declared in
`gui_private.h`, which is not part of the sources at hand; the links are
`uint16_t`, and the all-ones value is taken as the marker. -/
def INVALID_INDEX : Nat := 0xffff

/-- Modelled from the spec: the handle that designates no node.  The constant
is declared in `gui.h`; the script layer itself tests `node == 0` and `!node`
for "no node" (`LuaGetNode`, `LuaDoNewNode`). -/
def INVALID_HANDLE : Nat := 0

/-- A `Vectormath::Aos::Vector4`.  Components are kept as the integer that
encodes the stored `float`; the script layer only copies them. -/
structure Vector4 where
  x : Int
  y : Int
  z : Int
  w : Int
deriving DecidableEq, Repr

/-- The fields of `dmGui::Node` that the script layer reads or writes. -/
structure Node where
  m_Properties : List Vector4
  m_NodeType : Nat
  m_IsBone : Bool
  m_SizeMode : Nat
  m_DirtyLocal : Bool
deriving DecidableEq, Repr

/-- The fields of `dmGui::InternalNode` that the script layer reads or
writes.  `m_Version` and `m_Index` are the generation and the self index
of the slot; the three links are slot indices or `INVALID_INDEX`. -/
structure InternalNode where
  m_Node : Node
  m_NameHash : Nat
  m_Version : Nat
  m_Index : Nat
  m_ParentIndex : Nat
  m_ChildHead : Nat
  m_NextIndex : Nat
  m_Deleted : Bool
deriving DecidableEq, Repr

/-- The fields of `dmGui::Scene` used here.  `m_Nodes` is the slot array
(`m_Nodes.Size()` is its length), `m_NodePool` the free list of slot
indices in the order in which they will be handed out. -/
structure Scene where
  m_Nodes : List InternalNode
  m_NodePool : List Nat
  m_RenderHead : Nat
  m_RenderOrder : Nat
deriving DecidableEq, Repr

/-- A `NodeProxy` userdata: the address of the scene it was created in and
the node handle. -/
structure NodeProxy where
  m_Scene : Nat
  m_Node : Nat
deriving DecidableEq, Repr

/-- The Lua values that the embedded functions distinguish.  `none` is an
absent argument (`lua_isnone`).  A string carries the number Lua converts
it to, when it is convertible (`lua_isnumber` accepts such strings). -/
inductive LuaValue where
  | none
  | nil
  | boolean (b : Bool)
  | number (n : Int)
  | string (s : String) (tonumber : Option Int)
  | function (id : Nat)
  | hash (h : Nat)
  | vector3 (x y z : Int)
  | vector4 (v : Vector4)
  | vector (samples : List Int)
  | node (np : NodeProxy)
  | table (id : Nat)
deriving DecidableEq, Repr

/-- How a call into the script layer ends: it returns, it raises a Lua
error with a message, or it stops on a failed `assert`. -/
inductive LuaResult (α : Type) where
  | ok (a : α)
  | error (msg : String)
  | abort
deriving DecidableEq, Repr

/-- One recorded call of `AnimateNodeHash`, with the arguments the script
layer passes.  `complete` holds the callback reference and the node
reference when `LuaAnimationComplete` is installed. -/
structure AnimateCall where
  node : Nat
  property : Nat
  target : Vector4
  curveType : Int
  curveRef : Option Int
  playback : Int
  duration : Int
  delay : Int
  complete : Option (Int × Int)
deriving DecidableEq, Repr

/-- The state a script call runs in: `m_Instance` is what `GetScene(L)`
returns (the address of the running script's scene, `none` for a null
pointer when the current instance is not a gui script), `scene` is the
contents of that scene, `refTable` the Lua table behind
`scene->m_RefTableReference`, and `animations` the calls of
`AnimateNodeHash` made so far. -/
structure World where
  m_Instance : Option Nat
  scene : Scene
  refTable : List (Int × LuaValue)
  animations : List AnimateCall
deriving DecidableEq, Repr

/-- The value at stack position `i` (1-based) of a call with arguments
`args`; positions past the last argument hold `none`. -/
def luaArg (args : List LuaValue) (i : Nat) : LuaValue :=
  (args[i - 1]?).getD LuaValue.none

/-! ## Handles -/

/-- The check `IsValidNode(scene, node)` of the source. -/
def IsValidNode (scene : Scene) (node : Nat) : Bool :=
  let version := (node >>> 16) % 65536
  let index := (node &&& 0xffff) % 65536
  if index < scene.m_Nodes.length then
    match scene.m_Nodes[index]? with
    | some n => n.m_Version == version && n.m_Index == index
    | Option.none => false
  else
    false

/-- Modelled from the spec: `GetNode(scene, node)` of `gui.cpp`, the pool
lookup `resolve(handle)`.  The handle is `generation:16 | slot_index:16`
and the node it resolves to is the slot at `slot_index`; the result is the
pointer to that slot. -/
def GetNode (_scene : Scene) (node : Nat) : Nat :=
  (node &&& 0xffff) % 65536

/-- Modelled from the spec: `GetNodeHandle(n)` of `gui.cpp`, the handle
`generation:16 | slot_index:16` of the slot that `n` points at. -/
def GetNodeHandle (n : InternalNode) : Nat :=
  ((n.m_Version % 65536) <<< 16) ||| (n.m_Index % 65536)

/-- The call `NodeProxy_Check(L, index)`: `dmScript::CheckUserType` raises a
type error unless the value is a `NodeProxy` userdata. -/
def NodeProxy_Check (v : LuaValue) : LuaResult NodeProxy :=
  match v with
  | LuaValue.node np => LuaResult.ok np
  | _ => LuaResult.error "NodeProxy expected"

/-- The call `GetScene(L)`. -/
def GetScene (w : World) : Option Nat :=
  w.m_Instance

/-- The call `LuaCheckNode(L, index, &hnode)`: the pointer to the node and
the handle written to `hnode`. -/
def LuaCheckNode (w : World) (args : List LuaValue) (index : Nat) :
    LuaResult (Nat × Nat) :=
  match NodeProxy_Check (luaArg args index) with
  | LuaResult.ok np =>
    if some np.m_Scene ≠ GetScene w then
      LuaResult.error "Node used in the wrong scene"
    else if IsValidNode w.scene np.m_Node then
      LuaResult.ok (GetNode w.scene np.m_Node, np.m_Node)
    else
      LuaResult.error "Deleted node"
  | LuaResult.error e => LuaResult.error e
  | LuaResult.abort => LuaResult.abort

/-- The call `GuiScriptInstance_Check(L)`: `dmScript::CheckUserType` raises a
type error unless the current instance is a gui script instance. -/
def GuiScriptInstance_Check (w : World) : LuaResult Nat :=
  match w.m_Instance with
  | some p => LuaResult.ok p
  | Option.none => LuaResult.error "GuiScriptInstance expected"

/-! ## Deferred deletion -/

/-- A write through a node pointer: slot `i` of the scene becomes `f` of its
old content. -/
def modifyNode (scene : Scene) (i : Nat) (f : InternalNode → InternalNode) : Scene :=
  match scene.m_Nodes[i]? with
  | some nd => { scene with m_Nodes := scene.m_Nodes.set i (f nd) }
  | Option.none => scene

/-- The assignment `n->m_Deleted = 1` through a node pointer. -/
def setDeleted (scene : Scene) (n : Nat) : Scene :=
  modifyNode scene n (fun nd => { nd with m_Deleted := true })

/-- The function `LuaDeleteNode` (`gui.delete_node`). -/
def LuaDeleteNode (w : World) (args : List LuaValue) : World × LuaResult Unit :=
  match LuaCheckNode w args 1 with
  | LuaResult.ok (n, _) =>
    match w.scene.m_Nodes[n]? with
    | some nd =>
      if nd.m_Node.m_IsBone then
        (w, LuaResult.error "Unable to delete bone nodes of a spine node.")
      else
        ({ w with scene := setDeleted w.scene n }, LuaResult.ok ())
    | Option.none => (w, LuaResult.abort)
  | LuaResult.error e => (w, LuaResult.error e)
  | LuaResult.abort => (w, LuaResult.abort)

/-- Modelled from the spec: the link that replaces a slot in the chain that
references it when the slot is unlinked by the sweep.  The sweep lives in
`gui.cpp`; the spec says that unlinking promotes the children of the node
to its former parent, so the first child takes the place of the node, and
the next sibling does when there are no children. -/
def unlinkSuccessor (d : InternalNode) : Nat :=
  if d.m_ChildHead ≠ INVALID_INDEX then d.m_ChildHead else d.m_NextIndex

/-- Modelled from the spec: the effect on another slot `n` of unlinking slot
`i` (contents `d`): children of `i` get the parent of `i` and the last of
them is followed by the next sibling of `i`; links to `i` are redirected to
its successor. -/
def unlinkFix (i : Nat) (d : InternalNode) (n : InternalNode) : InternalNode :=
  let n1 : InternalNode :=
    if n.m_ParentIndex = i then
      { n with
        m_ParentIndex := d.m_ParentIndex
        m_NextIndex := if n.m_NextIndex = INVALID_INDEX then d.m_NextIndex else n.m_NextIndex }
    else n
  let n2 : InternalNode :=
    if n1.m_NextIndex = i then { n1 with m_NextIndex := unlinkSuccessor d } else n1
  if n2.m_ChildHead = i then { n2 with m_ChildHead := unlinkSuccessor d } else n2

/-- Modelled from the spec: the content of a slot after the sweep has
reclaimed it: generation incremented (16 bits), content cleared, the self
index kept (`slot_index` is immutable for the lifetime of the slot). -/
def sweptSlot (d : InternalNode) : InternalNode :=
  { m_Node :=
      { m_Properties := d.m_Node.m_Properties.map (fun _ => ({ x := 0, y := 0, z := 0, w := 0 } : Vector4))
        m_NodeType := 0
        m_IsBone := false
        m_SizeMode := 0
        m_DirtyLocal := false }
    m_NameHash := 0
    m_Version := (d.m_Version + 1) % 65536
    m_Index := d.m_Index
    m_ParentIndex := INVALID_INDEX
    m_ChildHead := INVALID_INDEX
    m_NextIndex := INVALID_INDEX
    m_Deleted := false }

/-- Modelled from the spec: the sweep of one slot marked deleted: it is
unlinked from the chain that references it, its generation is incremented,
its content is cleared and the slot returns to the free list. -/
def sweepSlot (scene : Scene) (i : Nat) : Scene :=
  match scene.m_Nodes[i]? with
  | Option.none => scene
  | some d =>
    { scene with
      m_Nodes := (scene.m_Nodes.map (unlinkFix i d)).set i (sweptSlot d)
      m_NodePool := scene.m_NodePool ++ [i]
      m_RenderHead := if scene.m_RenderHead = i then unlinkSuccessor d else scene.m_RenderHead }

/-- Modelled from the spec: one step of the sweep, at slot `i`. -/
def sweepStep (scene : Scene) (i : Nat) : Scene :=
  match scene.m_Nodes[i]? with
  | some d => if d.m_Deleted then sweepSlot scene i else scene
  | Option.none => scene

/-- Modelled from the spec: `sweep()`, run once per tick (in `gui.cpp`): every
slot marked deleted is reclaimed, in slot order. -/
def sweep (scene : Scene) : Scene :=
  (List.range scene.m_Nodes.length).foldl sweepStep scene

/-! ## Sibling index -/

/-- The `while` loop of `LuaGetIndex`: `i` walks the chain, `index` (a
`uint32_t`) counts the steps, `target` is `n->m_Index`.  One unit of fuel
is used per evaluation of the loop condition. -/
def LuaGetIndexLoop : Nat → Scene → Nat → Nat → Nat → Option (LuaResult Nat)
  | 0, _, _, _, _ => Option.none
  | fuel + 1, scene, target, i, index =>
    if i ≠ INVALID_INDEX ∧ i ≠ target then
      match scene.m_Nodes[i]? with
      | some nd => LuaGetIndexLoop fuel scene target nd.m_NextIndex ((index + 1) % 2 ^ 32)
      | Option.none => some LuaResult.abort
    else
      some (LuaResult.ok index)

/-- The function `LuaGetIndex` (`gui.get_index`): the number pushed. -/
def LuaGetIndex (fuel : Nat) (w : World) (args : List LuaValue) : Option (LuaResult Nat) :=
  match GuiScriptInstance_Check w with
  | LuaResult.ok _ =>
    match LuaCheckNode w args 1 with
    | LuaResult.ok (n, _) =>
      match w.scene.m_Nodes[n]? with
      | some nd =>
        if nd.m_ParentIndex ≠ INVALID_INDEX then
          match w.scene.m_Nodes[nd.m_ParentIndex]? with
          | some parent => LuaGetIndexLoop fuel w.scene nd.m_Index parent.m_ChildHead 0
          | Option.none => some LuaResult.abort
        else
          LuaGetIndexLoop fuel w.scene nd.m_Index w.scene.m_RenderHead 0
      | Option.none => some LuaResult.abort
    | LuaResult.error e => some (LuaResult.error e)
    | LuaResult.abort => some LuaResult.abort
  | LuaResult.error e => some (LuaResult.error e)
  | LuaResult.abort => some LuaResult.abort

/-- The sibling chain that starts at slot `i`: the slots reached by following
`m_NextIndex` until `INVALID_INDEX`, in order.  The result is `none` when the
end is not reached within `fuel` steps or a link leaves the slot array; a
chain is acyclic exactly when some amount of fuel gives a list. -/
def chainFrom : Nat → Scene → Nat → Option (List Nat)
  | 0, _, _ => Option.none
  | fuel + 1, scene, i =>
    if i = INVALID_INDEX then some []
    else
      match scene.m_Nodes[i]? with
      | some nd => (chainFrom fuel scene nd.m_NextIndex).map (fun l => i :: l)
      | Option.none => Option.none

/-- The head of the chain that owns a node: the child head of its parent
when it has a parent, the render head of the scene otherwise. -/
def owningChainHead (scene : Scene) (nd : InternalNode) : Option Nat :=
  if nd.m_ParentIndex ≠ INVALID_INDEX then
    (scene.m_Nodes[nd.m_ParentIndex]?).map (fun parent => parent.m_ChildHead)
  else
    some scene.m_RenderHead

/-! ## The scene graph operations behind the script layer

`CloneNode` and `SetNodeParent` are defined in `gui.cpp`, which is not among
the sources at hand.  They are modelled from the spec.  For the insertion of
a node into the chain of its new parent the spec leaves the end open ("the
new last-or-first child", the "top" of that chain); here it is the last
position: the source documents `gui.get_index` with "Higher index means the
node is drawn above lower indexed nodes", and `LuaGetIndex` counts the index
from the head of the chain. -/

/-- The result codes of `dmGui::Result` that occur here.  The first three
are named in the script layer; `RESULT_INVALID_HANDLE` stands for the
`InvalidHandle` signal of the spec. -/
inductive Result where
  | RESULT_OK
  | RESULT_OUT_OF_RESOURCES
  | RESULT_INF_RECURSION
  | RESULT_INVALID_HANDLE
deriving DecidableEq, Repr

/-- The head of the chain owned by `parent`: the render head of the scene
when `parent` is `INVALID_INDEX`, the child head of the slot otherwise. -/
def chainHeadOf (scene : Scene) (parent : Nat) : Nat :=
  if parent = INVALID_INDEX then scene.m_RenderHead
  else
    match scene.m_Nodes[parent]? with
    | some p => p.m_ChildHead
    | Option.none => INVALID_INDEX

/-- The head of the chain owned by `parent` becomes `v`. -/
def setChainHead (scene : Scene) (parent v : Nat) : Scene :=
  if parent = INVALID_INDEX then { scene with m_RenderHead := v }
  else modifyNode scene parent (fun p => { p with m_ChildHead := v })

/-- The last slot of the chain through slot `i`: the walk along
`m_NextIndex` stops at the slot that has no next sibling (or when the fuel,
the number of slots, is used up). -/
def lastOfChain : Nat → Scene → Nat → Nat
  | 0, _, i => i
  | fuel + 1, scene, i =>
    match scene.m_Nodes[i]? with
    | some nd =>
      if nd.m_NextIndex = INVALID_INDEX then i else lastOfChain fuel scene nd.m_NextIndex
    | Option.none => i

/-- The slot of the chain starting at `i` whose next sibling is `n`. -/
def prevInChain : Nat → Scene → Nat → Nat → Option Nat
  | 0, _, _, _ => Option.none
  | fuel + 1, scene, i, n =>
    if i = INVALID_INDEX then Option.none
    else
      match scene.m_Nodes[i]? with
      | some nd => if nd.m_NextIndex = n then some i else prevInChain fuel scene nd.m_NextIndex n
      | Option.none => Option.none

/-- Modelled from the spec: a node is removed from its current chain (the
child chain of its parent, or the render chain).  The chain is singly
linked, so the predecessor is found by a walk from the head. -/
def RemoveFromNodeList (scene : Scene) (n : Nat) : Scene :=
  match scene.m_Nodes[n]? with
  | Option.none => scene
  | some nd =>
    let head := chainHeadOf scene nd.m_ParentIndex
    let scene1 :=
      if head = n then setChainHead scene nd.m_ParentIndex nd.m_NextIndex
      else
        match prevInChain scene.m_Nodes.length scene head n with
        | some p => modifyNode scene p (fun x => { x with m_NextIndex := nd.m_NextIndex })
        | Option.none => scene
    modifyNode scene1 n (fun x => { x with m_NextIndex := INVALID_INDEX })

/-- Modelled from the spec: a node is inserted at the top of the chain owned
by `parent` (`INVALID_INDEX` for the render chain), that is after the last
node of the chain, and gets `parent` as its parent. -/
def AddToNodeList (scene : Scene) (n parent : Nat) : Scene :=
  let head := chainHeadOf scene parent
  let scene1 :=
    if head = INVALID_INDEX then setChainHead scene parent n
    else
      modifyNode scene (lastOfChain scene.m_Nodes.length scene head)
        (fun x => { x with m_NextIndex := n })
  modifyNode scene1 n (fun x => { x with m_ParentIndex := parent, m_NextIndex := INVALID_INDEX })

/-- The walk of `set_parent` over the ancestors of the new parent, starting
at the new parent itself: true when slot `n` is met (or when the walk does
not end within the fuel). -/
def isAncestorOrSelf : Nat → Scene → Nat → Nat → Bool
  | 0, _, _, _ => true
  | fuel + 1, scene, n, i =>
    if i = INVALID_INDEX then false
    else if i = n then true
    else
      match scene.m_Nodes[i]? with
      | some nd => isAncestorOrSelf fuel scene n nd.m_ParentIndex
      | Option.none => false

/-- Modelled from the spec: `SetNodeParent(scene, node, parent)` of `gui.cpp`
(`set_parent`).  It walks the ancestor chain of the new parent and fails
with `RESULT_INF_RECURSION`, changing nothing, when `node` is met; otherwise
it removes `node` from its current chain and inserts it at the top of the
child chain of the new parent, or of the render chain when `parent` is
`INVALID_HANDLE`.  Handles are resolved with the validity check of the
source. -/
def SetNodeParent (scene : Scene) (node parent : Nat) : Result × Scene :=
  if IsValidNode scene node then
    let n := GetNode scene node
    if parent = INVALID_HANDLE then
      (Result.RESULT_OK, AddToNodeList (RemoveFromNodeList scene n) n INVALID_INDEX)
    else if IsValidNode scene parent then
      let p := GetNode scene parent
      if isAncestorOrSelf (scene.m_Nodes.length + 1) scene n p then
        (Result.RESULT_INF_RECURSION, scene)
      else
        (Result.RESULT_OK, AddToNodeList (RemoveFromNodeList scene n) n p)
    else (Result.RESULT_INVALID_HANDLE, scene)
  else (Result.RESULT_INVALID_HANDLE, scene)

/-- Modelled from the spec: the slot a clone starts in: the property values
and the type-specific state of the source (`m_Node`), no children, no parent
yet, the generation and the index of the slot taken from the free list; what
the spec does not mention (the identifier hash) is cleared. -/
def clonedSlot (src old : InternalNode) (f : Nat) : InternalNode :=
  { m_Node := src.m_Node
    m_NameHash := 0
    m_Version := old.m_Version
    m_Index := f
    m_ParentIndex := INVALID_INDEX
    m_ChildHead := INVALID_INDEX
    m_NextIndex := INVALID_INDEX
    m_Deleted := false }

/-- Modelled from the spec: `CloneNode(scene, node, &out_node)` of `gui.cpp`.
It allocates a slot from the free list, failing with
`RESULT_OUT_OF_RESOURCES` when the list is empty, copies the source into it
(not its children) and puts the clone at the top of the render chain, so
that it is reachable from a chain.  The third component is the handle
written to `out_node`. -/
def CloneNode (scene : Scene) (node : Nat) : Result × Scene × Nat :=
  if IsValidNode scene node then
    match scene.m_Nodes[GetNode scene node]?, scene.m_NodePool with
    | some src, f :: pool =>
      match scene.m_Nodes[f]? with
      | some old =>
        let scene1 : Scene :=
          { scene with m_Nodes := scene.m_Nodes.set f (clonedSlot src old f), m_NodePool := pool }
        (Result.RESULT_OK, AddToNodeList scene1 f INVALID_INDEX,
          GetNodeHandle (clonedSlot src old f))
      | Option.none => (Result.RESULT_OUT_OF_RESOURCES, scene, INVALID_HANDLE)
    | _, _ => (Result.RESULT_OUT_OF_RESOURCES, scene, INVALID_HANDLE)
  else (Result.RESULT_INVALID_HANDLE, scene, INVALID_HANDLE)

/-! ## Tree cloning -/

/-- The Lua table that `gui.clone_tree` fills: node id hash to node proxy. -/
abbrev CloneTable := List (Nat × NodeProxy)

/-- The call `lua_rawset` on the result table with a hash key: the entry of
the key is replaced, or added when the key is new. -/
def rawset (t : CloneTable) (k : Nat) (v : NodeProxy) : CloneTable :=
  (k, v) :: t.filter (fun e => e.1 != k)

/-- What the two cloning helpers return: the result code, the scene, the
table, and for `CloneNodeToTable` the handle written to `out_node`. -/
abbrev CloneListResult := Option (LuaResult (Result × Scene × CloneTable))

/-- The function `CloneNodeToTable`; `n` is the pointer to the node, `listFn`
the function `CloneNodeListToTable` it calls for the children, and
`sceneAddr` the scene address put into the proxies (`LuaPushNode`). -/
def CloneNodeToTable (sceneAddr : Nat)
    (listFn : Scene → CloneTable → Nat → Nat → CloneListResult)
    (scene : Scene) (table : CloneTable) (n : Nat) :
    Option (LuaResult (Result × Scene × CloneTable × Nat)) :=
  match scene.m_Nodes[n]? with
  | Option.none => some LuaResult.abort
  | some nd =>
    let node := GetNodeHandle nd
    let cloned := CloneNode scene node
    if cloned.1 = Result.RESULT_OK then
      match cloned.2.1.m_Nodes[n]? with
      | Option.none => some LuaResult.abort
      | some nd1 =>
        let table1 := rawset table nd1.m_NameHash { m_Scene := sceneAddr, m_Node := cloned.2.2 }
        match listFn cloned.2.1 table1 nd1.m_ChildHead cloned.2.2 with
        | some (LuaResult.ok r) => some (LuaResult.ok (r.1, r.2.1, r.2.2, cloned.2.2))
        | some (LuaResult.error e) => some (LuaResult.error e)
        | some LuaResult.abort => some LuaResult.abort
        | Option.none => Option.none
    else
      some (LuaResult.ok (cloned.1, cloned.2.1, table, cloned.2.2))

/-- The function `CloneNodeListToTable`.  One unit of fuel is used per
evaluation of the loop condition; a pass through the loop body that ends
with a result other than `RESULT_OK` leaves the loop with that result. -/
def CloneNodeListToTable (sceneAddr : Nat) :
    Nat → Scene → CloneTable → Nat → Nat → CloneListResult
  | 0, _, _, _, _ => Option.none
  | fuel + 1, scene, table, index, parent =>
    if index ≠ INVALID_INDEX then
      match CloneNodeToTable sceneAddr (CloneNodeListToTable sceneAddr fuel) scene table index with
      | some (LuaResult.ok r) =>
        let scene1 := if r.1 = Result.RESULT_OK then (SetNodeParent r.2.1 r.2.2.2 parent).2 else r.2.1
        match scene1.m_Nodes[index]? with
        | some node =>
          if r.1 = Result.RESULT_OK then
            CloneNodeListToTable sceneAddr fuel scene1 r.2.2.1 node.m_NextIndex parent
          else
            some (LuaResult.ok (r.1, scene1, r.2.2.1))
        | Option.none => some LuaResult.abort
      | some (LuaResult.error e) => some (LuaResult.error e)
      | some LuaResult.abort => some LuaResult.abort
      | Option.none => Option.none
    else
      some (LuaResult.ok (Result.RESULT_OK, scene, table))

/-- The `switch (result)` at the end of `LuaCloneTree`. -/
def cloneTreeReturn (w : World) (scene : Scene) (result : Result) (table : CloneTable) :
    World × LuaResult CloneTable :=
  match result with
  | Result.RESULT_OUT_OF_RESOURCES =>
    ({ w with scene := scene }, LuaResult.error "Not enough resources to clone the node tree")
  | Result.RESULT_OK => ({ w with scene := scene }, LuaResult.ok table)
  | _ => ({ w with scene := scene }, LuaResult.error "An unexpected error occurred")

/-- The handle `LuaCloneTree` passes as the parent of the clone of the root:
the handle of the parent of the root, `INVALID_HANDLE` when it has none;
`none` when the parent index is outside the slot array. -/
def rootParentHandle (scene : Scene) (root : Nat) : Option Nat :=
  match scene.m_Nodes[root]? with
  | some rd =>
    if rd.m_ParentIndex ≠ INVALID_INDEX then
      (scene.m_Nodes[rd.m_ParentIndex]?).map GetNodeHandle
    else some INVALID_HANDLE
  | Option.none => Option.none

/-- The function `LuaCloneTree` (`gui.clone_tree`).  The result table is
pushed before the first argument is looked at, so with no argument at all
stack position 1 holds that table. -/
def LuaCloneTree (fuel : Nat) (w : World) (args : List LuaValue) :
    Option (World × LuaResult CloneTable) :=
  let stack := args ++ [LuaValue.table 0]
  match GuiScriptInstance_Check w with
  | LuaResult.ok sceneAddr =>
    if luaArg stack 1 ≠ LuaValue.nil then
      match LuaCheckNode w stack 1 with
      | LuaResult.ok (root, _) =>
        match CloneNodeToTable sceneAddr (CloneNodeListToTable sceneAddr fuel) w.scene [] root with
        | some (LuaResult.ok r) =>
          if r.1 = Result.RESULT_OK then
            match rootParentHandle r.2.1 root with
            | some parent =>
              some (cloneTreeReturn w (SetNodeParent r.2.1 r.2.2.2 parent).2 r.1 r.2.2.1)
            | Option.none => some (w, LuaResult.abort)
          else
            some (cloneTreeReturn w r.2.1 r.1 r.2.2.1)
        | some (LuaResult.error e) => some (w, LuaResult.error e)
        | some LuaResult.abort => some (w, LuaResult.abort)
        | Option.none => Option.none
      | LuaResult.error e => some (w, LuaResult.error e)
      | LuaResult.abort => some (w, LuaResult.abort)
    else
      match CloneNodeListToTable sceneAddr fuel w.scene [] w.scene.m_RenderHead INVALID_HANDLE with
      | some (LuaResult.ok r) => some (cloneTreeReturn w r.2.1 r.1 r.2.2)
      | some (LuaResult.error e) => some (w, LuaResult.error e)
      | some LuaResult.abort => some (w, LuaResult.abort)
      | Option.none => Option.none
  | LuaResult.error e => some (w, LuaResult.error e)
  | LuaResult.abort => some (w, LuaResult.abort)

/-- The forest below a chain, in the order in which `CloneNodeListToTable`
visits it: for the chain that starts at slot `i`, each node paired with its
parent (`parent` for the nodes of the chain itself), followed by the forest
of its children and then by the rest of the chain.  The result is `none`
when the structure is not exhausted within `fuel` levels of nesting or a
link leaves the slot array. -/
def forestFrom : Nat → Scene → Nat → Nat → Option (List (Nat × Nat))
  | 0, _, _, _ => Option.none
  | fuel + 1, scene, i, parent =>
    if i = INVALID_INDEX then some []
    else
      match scene.m_Nodes[i]? with
      | some nd =>
        match forestFrom fuel scene nd.m_ChildHead i, forestFrom fuel scene nd.m_NextIndex parent with
        | some lc, some ls => some ((i, parent) :: lc ++ ls)
        | _, _ => Option.none
      | Option.none => Option.none

/-- The nodes of the subtree rooted at slot `root`, the root first, each
paired with its parent. -/
def subtreeOf (fuel : Nat) (scene : Scene) (root : Nat) : Option (List (Nat × Nat)) :=
  match scene.m_Nodes[root]? with
  | some rd => (forestFrom fuel scene rd.m_ChildHead root).map (fun l => (root, rd.m_ParentIndex) :: l)
  | Option.none => Option.none

/-! ## Predicates used to state the cloning theorems -/

/-- The id hash stored in slot `x` (0 when there is no such slot). -/
def nameHashOf (scene : Scene) (x : Nat) : Nat :=
  match scene.m_Nodes[x]? with
  | some nd => nd.m_NameHash
  | Option.none => 0

/-- The keys of a table after `rawset` with key `h`. -/
def insertKey (ks : List Nat) (h : Nat) : List Nat :=
  h :: ks.filter (fun k => k != h)

/-- The handle that a node allocated in slot `f` gets: the generation the
slot carries and the slot index. -/
def slotHandle (scene : Scene) (f : Nat) : Nat :=
  match scene.m_Nodes[f]? with
  | some old => ((old.m_Version % 65536) <<< 16) ||| (f % 65536)
  | Option.none => INVALID_HANDLE

/-- The entries `CloneNodeListToTable` writes for the forest `pairs`, in the
order of the visit: the id hash of each node with the proxy of its clone,
`c` being the map from a node to the slot of its clone. -/
def cloneEntries (addr : Nat) (c : Nat → Nat) (s : Scene) (pairs : List (Nat × Nat)) :
    List (Nat × NodeProxy) :=
  pairs.map (fun x => (nameHashOf s x.1, { m_Scene := addr, m_Node := slotHandle s (c x.1) }))

/-- The slot of the clone of node `n` when the nodes `nodes` are cloned in
this order with the free list `pool`: the free slot at the position of `n`
(`INVALID_INDEX` when `n` is not among the nodes that get a slot). -/
def cloneSlotOf : List Nat → List Nat → Nat → Nat
  | n' :: nodes, f :: pool, n => if n = n' then f else cloneSlotOf nodes pool n
  | _, _, _ => INVALID_INDEX

/-- The table after a sequence of `rawset` calls. -/
def rawsetAll (t : CloneTable) (entries : List (Nat × NodeProxy)) : CloneTable :=
  entries.foldl (fun t e => rawset t e.1 e.2) t

/-- The parent index stored in slot `m`. -/
def parentIdx (scene : Scene) (m : Nat) : Option Nat :=
  (scene.m_Nodes[m]?).map (fun nd => nd.m_ParentIndex)

/-- The scene `s'` comes from `s` by rewriting links only: slots keep their
generation, self index, id hash and node data; a next or child link that
changed points outside the set `L`, and the child head of slot `r` did not
change; the parent index changed at most in slot `n`, to `p`. -/
structure Relinked (L : List Nat) (r n p : Nat) (s s' : Scene) : Prop where
  length_eq : s'.m_Nodes.length = s.m_Nodes.length
  pool_eq : s'.m_NodePool = s.m_NodePool
  head : s'.m_RenderHead = s.m_RenderHead ∨ s'.m_RenderHead ∉ L
  slot : ∀ m nd', s'.m_Nodes[m]? = some nd' → ∃ nd, s.m_Nodes[m]? = some nd ∧
    nd'.m_Version = nd.m_Version ∧ nd'.m_Index = nd.m_Index ∧
    nd'.m_NameHash = nd.m_NameHash ∧ nd'.m_Node = nd.m_Node ∧
    (nd'.m_NextIndex = nd.m_NextIndex ∨ nd'.m_NextIndex ∉ L) ∧
    (nd'.m_ChildHead = nd.m_ChildHead ∨ (m ≠ r ∧ nd'.m_ChildHead ∉ L)) ∧
    (nd'.m_ParentIndex = nd.m_ParentIndex ∨ (m = n ∧ nd'.m_ParentIndex = p))

/-- Slot `x` keeps its generation, self index, id hash and parent index from
`s` to `s'`, and its child head when it is slot `r`. -/
def SlotKept (r : Nat) (s s' : Scene) (x : Nat) : Prop :=
  ∀ nd, s.m_Nodes[x]? = some nd → ∃ nd', s'.m_Nodes[x]? = some nd' ∧
    nd'.m_Version = nd.m_Version ∧ nd'.m_Index = nd.m_Index ∧
    nd'.m_NameHash = nd.m_NameHash ∧ nd'.m_ParentIndex = nd.m_ParentIndex ∧
    (x = r → nd'.m_ChildHead = nd.m_ChildHead)

/-- No chain leads from outside the set `L` into it, except the child chain
of slot `r`: the render head is outside `L`, the next link of a slot outside
`L` is outside `L`, and so is the child head of every slot outside `L` other
than `r`. -/
structure Outside (L : List Nat) (r : Nat) (s : Scene) : Prop where
  head_out : s.m_RenderHead ∉ L
  next_out : ∀ m nd, m ∉ L → s.m_Nodes[m]? = some nd → nd.m_NextIndex ∉ L
  child_out : ∀ m nd, m ∉ L → m ≠ r → s.m_Nodes[m]? = some nd → nd.m_ChildHead ∉ L

/-- The standing assumptions of the cloning theorems on a scene, relative to
the set `L` of nodes that are cloned from (the strict descendants of the
root `r`): chains lead into `L` only from `L` and from the child head of `r`;
the free slots are distinct slots of the scene outside `L` and other than
`r`, and their handles are not `INVALID_HANDLE`; slot indices and
generations fit 16 bits, with `INVALID_INDEX` no slot; the nodes of `L`
carry their own index. -/
structure CloneCtx (L : List Nat) (r : Nat) (s : Scene) : Prop where
  out : Outside L r s
  mem_lt : ∀ m ∈ L, m < s.m_Nodes.length
  pool_out : ∀ f ∈ s.m_NodePool, f ∉ L
  pool_root : r ∉ s.m_NodePool
  pool_nodup : s.m_NodePool.Nodup
  pool_lt : ∀ f ∈ s.m_NodePool, f < s.m_Nodes.length
  size : s.m_Nodes.length ≤ 65535
  ver_lt : ∀ (m : Nat) (nd : InternalNode), s.m_Nodes[m]? = some nd → nd.m_Version < 65536
  pool_handle : ∀ f ∈ s.m_NodePool, ∀ nd : InternalNode, s.m_Nodes[f]? = some nd →
    nd.m_Version ≠ 0 ∨ f ≠ 0
  self_index : ∀ m ∈ L, ∀ nd : InternalNode, s.m_Nodes[m]? = some nd → nd.m_Index = m

/-- What a successful run of `CloneNodeListToTable` over the forest `pairs`
has done, going from scene `s` and table `table` to `s'` and `table'`, with
`c` the map from a node to the slot of its clone: the clones took the free
slots in the order of the visit, the nodes cloned from are untouched, every
slot that is not one of the new clones is kept, the clone of each node has
the clone of its parent as parent, and the table received, in the order of
the visit, the id hash of each node with the proxy of its clone. -/
structure ClonedForest (addr : Nat) (L : List Nat) (r : Nat) (c : Nat → Nat) (s : Scene)
    (pairs : List (Nat × Nat)) (table : CloneTable) (s' : Scene) (table' : CloneTable) :
    Prop where
  ctx : CloneCtx L r s'
  pool : s.m_NodePool = pairs.map (fun x => c x.1) ++ s'.m_NodePool
  length_eq : s'.m_Nodes.length = s.m_Nodes.length
  frame : ∀ x ∈ L, s'.m_Nodes[x]? = s.m_Nodes[x]?
  kept : ∀ x, x ∉ pairs.map (fun x => c x.1) → SlotKept r s s' x
  parents : ∀ x ∈ pairs, parentIdx s' (c x.1) = some (c x.2)
  entries : table' = rawsetAll table (cloneEntries addr c s pairs)

/-! ## Animation -/

/-- What `LuaAnimate` uses from other translation units: the string hash of
`dlib`, the property lookup of `gui.cpp`, and the two easing constants of
`dmEasing` it names. -/
structure Externals where
  dmHashString64 : String → Nat
  HasPropertyHash : Scene → Nat → Nat → Bool
  GetNodePropertyHash : Scene → Nat → Nat → Vector4
  TYPE_COUNT : Int
  TYPE_FLOAT_VECTOR : Int

/-- The constant `LUA_NOREF` of the Lua auxiliary library. -/
def LUA_NOREF : Int := -2

/-- The error raised by `luaL_typerror` and the `Check` functions for
argument `narg` when a value of type `tname` is expected. -/
def typerror (narg : Nat) (tname : String) : String :=
  "bad argument #" ++ toString narg ++ " (" ++ tname ++ " expected)"

/-- The test `lua_isnumber`: a number, or a string convertible to one. -/
def lua_isnumber (v : LuaValue) : Bool :=
  match v with
  | LuaValue.number _ => true
  | LuaValue.string _ (some _) => true
  | _ => false

/-- The conversion `lua_tonumber`: 0 when the value is not a number. -/
def lua_tonumber (v : LuaValue) : Int :=
  match v with
  | LuaValue.number n => n
  | LuaValue.string _ (some n) => n
  | _ => 0

/-- The checks `luaL_checknumber` and `luaL_checkinteger` on argument
`narg`. -/
def luaL_checknumber (narg : Nat) (v : LuaValue) : LuaResult Int :=
  if lua_isnumber v then LuaResult.ok (lua_tonumber v)
  else LuaResult.error (typerror narg "number")

/-- The check `luaL_checkstring` on argument `narg`: strings, and numbers
converted to their text. -/
def luaL_checkstring (narg : Nat) (v : LuaValue) : LuaResult String :=
  match v with
  | LuaValue.string s _ => LuaResult.ok s
  | LuaValue.number n => LuaResult.ok (toString n)
  | _ => LuaResult.error (typerror narg "string")

/-- The check `dmScript::CheckVector4` on argument `narg`. -/
def CheckVector4 (narg : Nat) (v : LuaValue) : LuaResult Vector4 :=
  match v with
  | LuaValue.vector4 x => LuaResult.ok x
  | _ => LuaResult.error (typerror narg "vector4")

/-- The call `dmScript::Ref(L, table)` on the reference table (`luaL_ref`):
the value is stored under a key that is not in use, and the key is
returned. -/
def luaRef (t : List (Int × LuaValue)) (v : LuaValue) : Int × List (Int × LuaValue) :=
  let r := t.foldl (fun m e => max m e.1) 0 + 1
  (r, t ++ [(r, v)])

/-- Sequencing of a step that may raise: on an error the call ends in the
world reached so far. -/
def orRaise {α : Type} (w : World) (r : LuaResult α) (k : α → World × LuaResult Unit) :
    World × LuaResult Unit :=
  match r with
  | LuaResult.ok a => k a
  | LuaResult.error e => (w, LuaResult.error e)
  | LuaResult.abort => (w, LuaResult.abort)

/-- The property hash of `LuaAnimate`: argument 2 as a hash, or the hash of
argument 2 as a string. -/
def animateProperty (ext : Externals) (v : LuaValue) : LuaResult Nat :=
  match v with
  | LuaValue.hash h => LuaResult.ok h
  | _ =>
    match luaL_checkstring 2 v with
    | LuaResult.ok s => LuaResult.ok (ext.dmHashString64 s)
    | LuaResult.error e => LuaResult.error e
    | LuaResult.abort => LuaResult.abort

/-- The target value `to` of `LuaAnimate` from argument 3. -/
def animateTarget (ext : Externals) (scene : Scene) (hnode property_hash : Nat) (v : LuaValue) :
    LuaResult Vector4 :=
  if lua_isnumber v then
    LuaResult.ok { x := lua_tonumber v, y := lua_tonumber v, z := lua_tonumber v, w := lua_tonumber v }
  else
    match v with
    | LuaValue.vector3 x y z =>
      LuaResult.ok { x := x, y := y, z := z, w := (ext.GetNodePropertyHash scene hnode property_hash).w }
    | _ => CheckVector4 3 v

/-- The easing curve of `LuaAnimate` from argument 4: the curve type and,
for a custom curve, the reference taken on the vector (`curve.userdata2`).
Taking the reference changes the reference table. -/
def animateCurve (ext : Externals) (w : World) (v : LuaValue) :
    World × LuaResult (Int × Option Int) :=
  if lua_isnumber v then
    if lua_tonumber v ≥ ext.TYPE_COUNT then (w, LuaResult.error "invalid easing constant")
    else (w, LuaResult.ok (lua_tonumber v, Option.none))
  else
    match v with
    | LuaValue.vector _ =>
      let r := luaRef w.refTable v
      ({ w with refTable := r.2 }, LuaResult.ok (ext.TYPE_FLOAT_VECTOR, some r.1))
    | _ => (w, LuaResult.error "easing must be either a easing constant or a vmath.vector")

/-- The arguments 6 and 7 of `LuaAnimate`: the delay, and the references
taken on the completion function (argument 7) and on the node (argument 1)
when argument 6 is a number and argument 7 a function. -/
def animateDelay (w : World) (args : List LuaValue) :
    World × LuaResult (Int × Int × Int) :=
  if lua_isnumber (luaArg args 6) then
    match luaArg args 7 with
    | LuaValue.function _ =>
      let r1 := luaRef w.refTable (luaArg args 7)
      let r2 := luaRef r1.2 (luaArg args 1)
      ({ w with refTable := r2.2 }, LuaResult.ok (lua_tonumber (luaArg args 6), r2.1, r1.1))
    | _ => (w, LuaResult.ok (lua_tonumber (luaArg args 6), LUA_NOREF, LUA_NOREF))
  else if luaArg args 6 ≠ LuaValue.none then
    (w, LuaResult.error (typerror 6 "number"))
  else
    (w, LuaResult.ok (0, LUA_NOREF, LUA_NOREF))

/-- Modelled from the spec: the six playback modes (once or loop, each
forward, backward and pingpong) of `enum Playback` in `gui.h`, which is not
among the sources at hand, numbered from 0 in the order in which the source
registers the constants `gui.PLAYBACK_ONCE_FORWARD`, ... (`SETPLAYBACK`). -/
def PLAYBACK_ONCE_FORWARD : Int := 0

/-- Modelled from the spec: see `PLAYBACK_ONCE_FORWARD`. -/
def PLAYBACK_ONCE_BACKWARD : Int := 1

/-- Modelled from the spec: see `PLAYBACK_ONCE_FORWARD`. -/
def PLAYBACK_ONCE_PINGPONG : Int := 2

/-- Modelled from the spec: see `PLAYBACK_ONCE_FORWARD`. -/
def PLAYBACK_LOOP_FORWARD : Int := 3

/-- Modelled from the spec: see `PLAYBACK_ONCE_FORWARD`. -/
def PLAYBACK_LOOP_BACKWARD : Int := 4

/-- Modelled from the spec: see `PLAYBACK_ONCE_FORWARD`. -/
def PLAYBACK_LOOP_PINGPONG : Int := 5

/-- The six defined playback modes. -/
def definedPlaybacks : List Int :=
  [PLAYBACK_ONCE_FORWARD, PLAYBACK_ONCE_BACKWARD, PLAYBACK_ONCE_PINGPONG,
   PLAYBACK_LOOP_FORWARD, PLAYBACK_LOOP_BACKWARD, PLAYBACK_LOOP_PINGPONG]

/-- The function `LuaAnimate` (`gui.animate`).  The call of `AnimateNodeHash`
is recorded in `animations`. -/
def LuaAnimate (ext : Externals) (w : World) (args : List LuaValue) : World × LuaResult Unit :=
  orRaise w (GuiScriptInstance_Check w) fun _ =>
  orRaise w (LuaCheckNode w args 1) fun checked =>
  let hnode := checked.2
  orRaise w (animateProperty ext (luaArg args 2)) fun property_hash =>
  if ext.HasPropertyHash w.scene hnode property_hash = false then
    (w, LuaResult.error "property '%s' not found")
  else
  orRaise w (animateTarget ext w.scene hnode property_hash (luaArg args 3)) fun target =>
  let c := animateCurve ext w (luaArg args 4)
  orRaise c.1 c.2 fun curve =>
  orRaise c.1 (luaL_checknumber 5 (luaArg args 5)) fun duration =>
  let d := animateDelay c.1 args
  orRaise d.1 d.2 fun delayed =>
  let delay := delayed.1
  let node_ref := delayed.2.1
  let animation_complete_ref := delayed.2.2
  let playback : Int :=
    if lua_isnumber (luaArg args 8) then lua_tonumber (luaArg args 8)
    else PLAYBACK_ONCE_FORWARD
  let call : AnimateCall :=
    { node := hnode, property := property_hash, target := target, curveType := curve.1,
      curveRef := curve.2, playback := playback, duration := duration, delay := delay,
      complete :=
        if animation_complete_ref = LUA_NOREF then Option.none
        else some (animation_complete_ref, node_ref) }
  ({ d.1 with animations := d.1.animations ++ [call] }, LuaResult.ok ())

/-! ## Example scenes -/

/-- A box node with no properties set. -/
def plainNode : Node :=
  { m_Properties := [], m_NodeType := 0, m_IsBone := false, m_SizeMode := 0, m_DirtyLocal := false }

/-- A slot holding a live top-level node without children or siblings. -/
def slotOf (version index : Nat) (hash : Nat) : InternalNode :=
  { m_Node := plainNode, m_NameHash := hash, m_Version := version, m_Index := index,
    m_ParentIndex := INVALID_INDEX, m_ChildHead := INVALID_INDEX, m_NextIndex := INVALID_INDEX,
    m_Deleted := false }

/-- A running gui script (scene address 1) with the given scene. -/
def worldOf (scene : Scene) : World :=
  { m_Instance := some 1, scene := scene, refTable := [], animations := [] }

/-- One slot, generation 1, holding a node whose deleted flag is set. -/
def sceneDeletedPending : Scene :=
  { m_Nodes := [{ slotOf 1 0 7 with m_Deleted := true }], m_NodePool := [],
    m_RenderHead := 0, m_RenderOrder := 0 }

/-- One slot, generation 1, holding a live node. -/
def sceneOneNode : Scene :=
  { m_Nodes := [slotOf 1 0 7], m_NodePool := [], m_RenderHead := 0, m_RenderOrder := 0 }

/-- One slot whose generation has moved on to 2. -/
def sceneReallocated : Scene :=
  { m_Nodes := [slotOf 2 0 9], m_NodePool := [], m_RenderHead := 0, m_RenderOrder := 0 }

/-- Three top-level nodes in the order 2, 0, 1 (slot indices), generation 1. -/
def sceneThreeTop : Scene :=
  { m_Nodes :=
      [{ slotOf 1 0 10 with m_NextIndex := 1 },
       slotOf 1 1 11,
       { slotOf 1 2 12 with m_NextIndex := 0 }],
    m_NodePool := [], m_RenderHead := 2, m_RenderOrder := 0 }

/-- A free slot of generation `version`: cleared content. -/
def freeSlot (version index : Nat) : InternalNode :=
  slotOf version index 0

/-- A root node in slot 0 with one child in slot 1, both with id hash 7, and
three more slots, of which those listed in `pool` are free. -/
def sceneParentChild (pool : List Nat) : Scene :=
  { m_Nodes :=
      [{ slotOf 1 0 7 with m_ChildHead := 1 },
       { slotOf 1 1 7 with m_ParentIndex := 0 },
       freeSlot 1 2, freeSlot 1 3, freeSlot 1 4],
    m_NodePool := pool, m_RenderHead := 0, m_RenderOrder := 0 }

/-- One top-level node in slot 0 and three free slots. -/
def sceneOneTopThreeFree : Scene :=
  { m_Nodes := [slotOf 1 0 7, freeSlot 1 1, freeSlot 1 2, freeSlot 1 3],
    m_NodePool := [1, 2, 3], m_RenderHead := 0, m_RenderOrder := 0 }

/-- Externals under which every property exists; 64 easing types. -/
def sampleExternals : Externals :=
  { dmHashString64 := fun s => s.length
    HasPropertyHash := fun _ _ _ => true
    GetNodePropertyHash := fun _ _ _ => { x := 0, y := 0, z := 0, w := 0 }
    TYPE_COUNT := 64
    TYPE_FLOAT_VECTOR := 63 }

/-- A node in slot 0 with one child, the node in slot 1, which has two
children of its own in slots 2 and 3; the id hashes are 10 to 13.  Slots 4
to 7 are free. -/
def sceneFamily : Scene :=
  { m_Nodes :=
      [{ slotOf 1 0 10 with m_ChildHead := 1 },
       { slotOf 1 1 11 with m_ParentIndex := 0, m_ChildHead := 2 },
       { slotOf 1 2 12 with m_ParentIndex := 1, m_NextIndex := 3 },
       { slotOf 1 3 13 with m_ParentIndex := 1 },
       freeSlot 1 4, freeSlot 1 5, freeSlot 1 6, freeSlot 1 7],
    m_NodePool := [4, 5, 6, 7], m_RenderHead := 0, m_RenderOrder := 0 }

/-- The proxy of the node in slot 1 of `sceneFamily`. -/
def familyRoot : NodeProxy :=
  { m_Scene := 1, m_Node := 0x10001 }

/-- The world after `gui.clone_tree` on the node in slot 1 of `sceneFamily`. -/
def familyCloned : World :=
  match LuaCloneTree 10 (worldOf sceneFamily) [LuaValue.node familyRoot] with
  | some r => r.1
  | Option.none => worldOf sceneFamily

/-- The table that `gui.clone_tree` returns for the node in slot 1 of
`sceneFamily`: the clones are in slots 4, 5 and 6. -/
def familyTable : CloneTable :=
  [(13, { m_Scene := 1, m_Node := 0x10006 }), (12, { m_Scene := 1, m_Node := 0x10005 }),
   (11, { m_Scene := 1, m_Node := 0x10004 })]

/-! ## Completion of an animation -/

/-- The read `lua_rawgeti` on the reference table: `nil` under a key that is
not in use. -/
def rawgeti (t : List (Int × LuaValue)) (k : Int) : LuaValue :=
  match t.find? (fun e => e.1 == k) with
  | some e => e.2
  | Option.none => LuaValue.nil

/-- The call `dmScript::Unref(L, table, ref)` on the reference table
(`luaL_unref`): the entry of the reference is freed; a negative reference is
left alone. -/
def luaUnref (t : List (Int × LuaValue)) (ref : Int) : List (Int × LuaValue) :=
  if ref ≥ 0 then t.filter (fun e => e.1 != ref) else t

/-- The pointer value `(void*) ref` that `LuaAnimate` hands to
`AnimateNodeHash` for a reference (an `int`, sign-extended to 64 bits). -/
def userdataOfRef (ref : Int) : Nat :=
  (ref % 2 ^ 64).toNat

/-- The conversion `(int) ((uintptr_t) userdata & 0xffffffff)` of
`LuaAnimationComplete`. -/
def refOfUserdata (userdata : Nat) : Int :=
  if userdata % 2 ^ 32 < 2 ^ 31 then (userdata % 2 ^ 32 : Nat) else (userdata % 2 ^ 32 : Nat) - 2 ^ 32

/-- What `LuaAnimationComplete` does to the script, in order: a call of a
Lua function with the script instance (given by the address of its scene)
and a node as arguments, or the release of a reference. -/
inductive CompletionStep where
  | call (callback : LuaValue) (self : Nat) (node : LuaValue)
  | unref (ref : Int)
deriving DecidableEq, Repr

/-- The function `LuaAnimationComplete`.  `PCall` is the effect on the world
of running a Lua function with the two arguments (`dmScript::PCall`, which
catches the errors of the function); `sceneAddr` is the `HScene` argument,
whose contents are in `w`.  The result lists the calls and releases made. -/
def LuaAnimationComplete (PCall : LuaValue → Nat → LuaValue → World → World)
    (sceneAddr : Nat) (w : World) (_node : Nat) (finished : Bool) (userdata1 userdata2 : Nat) :
    World × LuaResult (List CompletionStep) :=
  let w1 : World := { w with m_Instance := some sceneAddr }
  let callback_ref := refOfUserdata userdata1
  let node_ref := refOfUserdata userdata2
  let called : LuaResult (World × List CompletionStep) :=
    if finished then
      let callback := rawgeti w1.refTable callback_ref
      let node := rawgeti w1.refTable node_ref
      match callback with
      | LuaValue.function _ =>
        LuaResult.ok (PCall callback sceneAddr node w1, [CompletionStep.call callback sceneAddr node])
      | _ => LuaResult.abort
    else LuaResult.ok (w1, [])
  match called with
  | LuaResult.ok (w2, steps) =>
    ({ w2 with
       m_Instance := Option.none
       refTable := luaUnref (luaUnref w2.refTable callback_ref) node_ref },
      LuaResult.ok (steps ++ [CompletionStep.unref callback_ref, CompletionStep.unref node_ref]))
  | LuaResult.error e => (w1, LuaResult.error e)
  | LuaResult.abort => (w1, LuaResult.abort)

/-! ## Re-parenting, moving and cloning a node -/

/-- The expression `GetNodeHandle(LuaCheckNode(L, index, &hnode))`. -/
def checkedNodeHandle (w : World) (args : List LuaValue) (index : Nat) : LuaResult Nat :=
  match LuaCheckNode w args index with
  | LuaResult.ok (p, _) =>
    match w.scene.m_Nodes[p]? with
    | some pd => LuaResult.ok (GetNodeHandle pd)
    | Option.none => LuaResult.abort
  | LuaResult.error e => LuaResult.error e
  | LuaResult.abort => LuaResult.abort

/-- The second argument of `gui.set_parent` and `gui.move_above`: the handle
of the node, `INVALID_HANDLE` for `nil`. -/
def optionalNodeHandle (w : World) (args : List LuaValue) (index : Nat) : LuaResult Nat :=
  if luaArg args index ≠ LuaValue.nil then checkedNodeHandle w args index
  else LuaResult.ok INVALID_HANDLE

/-- The function `LuaSetParent` (`gui.set_parent`). -/
def LuaSetParent (w : World) (args : List LuaValue) : World × LuaResult Unit :=
  match LuaCheckNode w args 1 with
  | LuaResult.ok (n, _) =>
    match w.scene.m_Nodes[n]? with
    | some nd =>
      if nd.m_Node.m_IsBone then (w, LuaResult.ok ())
      else
        match optionalNodeHandle w args 2 with
        | LuaResult.ok parent =>
          match GuiScriptInstance_Check w with
          | LuaResult.ok _ =>
            let r := SetNodeParent w.scene (GetNodeHandle nd) parent
            match r.1 with
            | Result.RESULT_INF_RECURSION =>
              ({ w with scene := r.2 },
                LuaResult.error "Unable to set parent since it would cause an infinite loop")
            | Result.RESULT_OK => ({ w with scene := r.2 }, LuaResult.ok ())
            | _ => ({ w with scene := r.2 }, LuaResult.error "An unexpected error occurred")
          | LuaResult.error e => (w, LuaResult.error e)
          | LuaResult.abort => (w, LuaResult.abort)
        | LuaResult.error e => (w, LuaResult.error e)
        | LuaResult.abort => (w, LuaResult.abort)
    | Option.none => (w, LuaResult.abort)
  | LuaResult.error e => (w, LuaResult.error e)
  | LuaResult.abort => (w, LuaResult.abort)

/-- The slot reached from slot `i` by following the parent link `k` times
(`INVALID_INDEX` when a link leaves the slot array): `b` is `a` itself or a
descendant of `a` when `a` is reached from `b` this way. -/
def ancestorAt (scene : Scene) : Nat → Nat → Nat
  | 0, i => i
  | k + 1, i =>
    match scene.m_Nodes[i]? with
    | some nd => ancestorAt scene k nd.m_ParentIndex
    | Option.none => INVALID_INDEX

/-- Modelled from the spec: a node is inserted immediately after slot `prev`
in the chain of `prev`, and gets the parent of `prev`. -/
def InsertAfter (scene : Scene) (n prev : Nat) : Scene :=
  match scene.m_Nodes[prev]? with
  | Option.none => scene
  | some pd =>
    modifyNode (modifyNode scene prev (fun x => { x with m_NextIndex := n })) n
      (fun x => { x with m_ParentIndex := pd.m_ParentIndex, m_NextIndex := pd.m_NextIndex })

/-- Modelled from the spec: a node is inserted first in the chain owned by
`parent` (`INVALID_INDEX` for the render chain): the old head becomes its
next sibling, it becomes the head, and it gets `parent` as its parent. -/
def InsertFirst (scene : Scene) (n parent : Nat) : Scene :=
  let head := chainHeadOf scene parent
  setChainHead
    (modifyNode scene n (fun x => { x with m_ParentIndex := parent, m_NextIndex := head }))
    parent n

/-- Modelled from the spec: `MoveNodeAbove(scene, node, reference)` of
`gui.cpp` (`move_above`): the node is removed from its chain and reinserted
immediately after `reference`, in the chain of `reference`; with
`INVALID_HANDLE` as the reference it moves to the absolute top of its own
chain, which for this operation the spec gives as the first position
("`move_above(x, nil)` places `x` first in its chain").  Handles are resolved
with the validity check of the source. -/
def MoveNodeAbove (scene : Scene) (node reference : Nat) : Scene :=
  if IsValidNode scene node then
    let n := GetNode scene node
    if reference = INVALID_HANDLE then
      match scene.m_Nodes[n]? with
      | some nd => InsertFirst (RemoveFromNodeList scene n) n nd.m_ParentIndex
      | Option.none => scene
    else if IsValidNode scene reference ∧ GetNode scene reference ≠ n then
      InsertAfter (RemoveFromNodeList scene n) n (GetNode scene reference)
    else scene
  else scene

/-- The function `LuaClone` (`gui.clone`): the node proxy pushed. -/
def LuaClone (w : World) (args : List LuaValue) : World × LuaResult NodeProxy :=
  match LuaCheckNode w args 1 with
  | LuaResult.ok (_, hnode) =>
    match GuiScriptInstance_Check w with
    | LuaResult.ok sceneAddr =>
      let cloned := CloneNode w.scene hnode
      match cloned.1 with
      | Result.RESULT_OUT_OF_RESOURCES =>
        ({ w with scene := cloned.2.1 }, LuaResult.error "Not enough resources to clone the node")
      | Result.RESULT_OK =>
        ({ w with scene := MoveNodeAbove cloned.2.1 cloned.2.2 hnode },
          LuaResult.ok { m_Scene := sceneAddr, m_Node := cloned.2.2 })
      | _ => ({ w with scene := cloned.2.1 }, LuaResult.error "An unexpected error occurred")
    | LuaResult.error e => (w, LuaResult.error e)
    | LuaResult.abort => (w, LuaResult.abort)
  | LuaResult.error e => (w, LuaResult.error e)
  | LuaResult.abort => (w, LuaResult.abort)

/-! ## Render order -/

/-- The narrowing of the `lua_Integer` that `luaL_checkinteger` returns to
the `int` it is assigned to: the value modulo `2 ^ 32`, as a signed number. -/
def toInt32 (n : Int) : Int :=
  (n + 2 ^ 31) % 2 ^ 32 - 2 ^ 31

/-- Modelled from the spec: `dmMath::Clamp(v, min, max)` of `dlib`, which is
not among the sources at hand: `min` when `v` is below it, `max` when `v` is
above it, `v` otherwise. -/
def Clamp (v min max : Int) : Int :=
  if v < min then min else if v > max then max else v

/-- The function `LuaSetRenderOrder` (`gui.set_render_order`).  The warning
that is logged for an order outside the range has no effect on the state. -/
def LuaSetRenderOrder (w : World) (args : List LuaValue) : World × LuaResult Unit :=
  match GuiScriptInstance_Check w with
  | LuaResult.ok _ =>
    match luaL_checknumber 1 (luaArg args 1) with
    | LuaResult.ok n =>
      let order := Clamp (toInt32 n) 0 15
      ({ w with scene := { w.scene with m_RenderOrder := (order % 65536).toNat } }, LuaResult.ok ())
    | LuaResult.error e => (w, LuaResult.error e)
    | LuaResult.abort => (w, LuaResult.abort)
  | LuaResult.error e => (w, LuaResult.error e)
  | LuaResult.abort => (w, LuaResult.abort)

/-! ## More example scenes -/

/-- Externals under which no property exists. -/
def noPropertyExternals : Externals :=
  { sampleExternals with HasPropertyHash := fun _ _ _ => false }

/-- A spine node in slot 0 with one bone node, its child, in slot 1, and a
box node in slot 2 behind the spine node in the render chain. -/
def sceneBone : Scene :=
  { m_Nodes :=
      [{ slotOf 1 0 20 with m_ChildHead := 1, m_NextIndex := 2 },
       { slotOf 1 1 21 with m_ParentIndex := 0, m_Node := { plainNode with m_IsBone := true } },
       slotOf 1 2 22],
    m_NodePool := [], m_RenderHead := 0, m_RenderOrder := 0 }

/-- A running script whose reference table holds a completion function under
reference 1 and the node of `sceneOneNode` under reference 2. -/
def completionWorld : World :=
  { worldOf sceneOneNode with
    refTable := [(1, LuaValue.function 0), (2, LuaValue.node { m_Scene := 1, m_Node := 0x10000 })] }

/-- A completion function that takes a reference of its own. -/
def samplePCall : LuaValue → Nat → LuaValue → World → World :=
  fun _ _ _ w => { w with refTable := (luaRef w.refTable (LuaValue.boolean true)).2 }

/-! ## Chains as lists -/

/-- The slots `l` are, in this order, the chain that starts at slot `i`:
each is followed by the slot its `m_NextIndex` names, and the last one has
no next sibling. -/
def ChainList (s : Scene) : Nat → List Nat → Prop
  | i, [] => i = INVALID_INDEX
  | i, a :: t =>
    a = i ∧ i ≠ INVALID_INDEX ∧ ∃ nd, s.m_Nodes[i]? = some nd ∧ ChainList s nd.m_NextIndex t

/-! ## Predicates used to state the order of the clones -/

/-- The assumptions of a run of `CloneNodeListToTable` over the chain that
starts at `idx`, whose forest is `pairs`, with the clone `ph` as the parent
of the clones: the standing assumptions `CloneCtx`, the nodes are nodes of
`L`, the parent handle is valid and names a clone that is not free, not a
node of `L` or the root, and has no parent yet; `c` assigns the free slots
to the nodes in the order of the visit and the slot of `ph` to `par`. -/
structure CloneRun (L : List Nat) (r : Nat) (c : Nat → Nat) (fuel : Nat) (s : Scene)
    (idx par ph : Nat) (pairs : List (Nat × Nat)) : Prop where
  ctx : CloneCtx L r s
  forest : forestFrom fuel s idx par = some pairs
  inL : ∀ x ∈ pairs, x.1 ∈ L
  valid : IsValidNode s ph = true
  ne : ph ≠ INVALID_HANDLE
  notL : (ph &&& 0xffff) ∉ L
  notRoot : (ph &&& 0xffff) ≠ r
  notPool : (ph &&& 0xffff) ∉ s.m_NodePool
  top : parentIdx s (ph &&& 0xffff) = some INVALID_INDEX
  cpar : c par = ph &&& 0xffff
  slots : ∀ (k : Nat) (x : Nat × Nat) (f : Nat),
    pairs[k]? = some x → s.m_NodePool[k]? = some f → c x.1 = f

/-- The chains a run of `CloneNodeListToTable` works on: the render chain
`lr` and the child chain `lP` of the parent clone `P` end, contain no free
slot and have no slot in common, and `P` is not its own child. -/
structure ChainCtx (c : Nat → Nat) (s : Scene) (P : Nat) (lr lP : List Nat) : Prop where
  cinv : c INVALID_INDEX = INVALID_INDEX
  render : ChainList s s.m_RenderHead lr
  render_pool : ∀ x ∈ lr, x ∉ s.m_NodePool
  chain : ChainList s (chainHeadOf s P) lP
  chain_pool : ∀ x ∈ lP, x ∉ s.m_NodePool
  chain_render : ∀ x ∈ lP, x ∉ lr
  chain_self : P ∉ lP

/-- The slot that gets the link to a node put at the top of the child chain
`lP` of `P`: the last slot of the chain, or `P` when the chain is empty. -/
def attachSlot (P : Nat) (lP : List Nat) : Nat :=
  match lP.getLast? with
  | some z => z
  | Option.none => P

/-- The slot `ad` with the link to a node `n` put at the top of the child
chain `lP`: the next link when `ad` is the last slot of the chain, the child
head when the chain is empty and `ad` is the parent. -/
def attached (lP : List Nat) (ad : InternalNode) (n : Nat) : InternalNode :=
  if lP = [] then { ad with m_ChildHead := n } else { ad with m_NextIndex := n }

/-- What a successful run of `CloneNodeListToTable` over the forest `pairs`
has done to the links, going from scene `s` to `s'`, with `c` the map from a
node to the slot of its clone and `lP` the child chain of the parent clone
`P` before the run: the render head is as before; the slot of the clone of a
node holds the data of the node, with the clone of its parent as parent, the
clone of its first child as child head and the clone of its next sibling as
next link; the clone of the first node of the chain is linked behind `lP`;
every other slot is as before. -/
structure ClonedLinks (c : Nat → Nat) (s : Scene) (pairs : List (Nat × Nat)) (P : Nat)
    (lP : List Nat) (s' : Scene) : Prop where
  head_eq : s'.m_RenderHead = s.m_RenderHead
  others : ∀ m, m ∉ pairs.map (fun x => c x.1) → (pairs = [] ∨ m ≠ attachSlot P lP) →
    s'.m_Nodes[m]? = s.m_Nodes[m]?
  attach : ∀ x t, pairs = x :: t → ∀ ad, s.m_Nodes[attachSlot P lP]? = some ad →
    s'.m_Nodes[attachSlot P lP]? = some (attached lP ad (c x.1))
  clones : ∀ x ∈ pairs, ∀ src old, s.m_Nodes[x.1]? = some src →
    s.m_Nodes[c x.1]? = some old →
    s'.m_Nodes[c x.1]? = some { clonedSlot src old (c x.1) with
      m_ParentIndex := c x.2, m_ChildHead := c src.m_ChildHead, m_NextIndex := c src.m_NextIndex }

/-! ## Node properties -/

/-- Modelled from the spec: `GetNodeProperty(scene, node, property)` of
`gui.cpp`, the read of a property value: the value the property has in the
slot the handle resolves to. -/
def GetNodeProperty (scene : Scene) (node property : Nat) : Option Vector4 :=
  match scene.m_Nodes[GetNode scene node]? with
  | some nd => nd.m_Node.m_Properties[property]?
  | Option.none => Option.none

/-- The assignments `n->m_Node.m_Properties[property] = v` and
`n->m_Node.m_DirtyLocal = 1` through a node pointer. -/
def setProperty (scene : Scene) (n property : Nat) (v : Vector4) : Scene :=
  modifyNode scene n (fun nd =>
    { nd with
      m_Node :=
        { nd.m_Node with
          m_Properties := nd.m_Node.m_Properties.set property v
          m_DirtyLocal := true } })

/-- The value `v` that the setters store, from argument 2: for a vector3 its
three components with the `w` that `GetNodeProperty` reads for the node, and
`*dmScript::CheckVector4(L, 2)` otherwise.  The scene of `GetScene(L)` is the
scene of the world. -/
def setterValue (w : World) (args : List LuaValue) (hnode property : Nat) : LuaResult Vector4 :=
  match luaArg args 2 with
  | LuaValue.vector3 x y z =>
    match GetNodeProperty w.scene hnode property with
    | some original => LuaResult.ok { x := x, y := y, z := z, w := original.w }
    | Option.none => LuaResult.abort
  | v => CheckVector4 2 v

/-- The setter `LuaSet##name` that the macro `LUASET(name, property)`
defines (`gui.set_position`, `gui.set_rotation`, `gui.set_scale`,
`gui.set_color`, `gui.set_outline`, `gui.set_shadow`), for the property with
index `property` in `m_Properties`.  The array has `PROPERTY_COUNT` entries
in the source; a write outside the list stops the model. -/
def LUASET (property : Nat) (w : World) (args : List LuaValue) : World × LuaResult Unit :=
  match LuaCheckNode w args 1 with
  | LuaResult.ok (n, hnode) =>
    match w.scene.m_Nodes[n]? with
    | some nd =>
      if nd.m_Node.m_IsBone then (w, LuaResult.ok ())
      else
        match setterValue w args hnode property with
        | LuaResult.ok v =>
          if property < nd.m_Node.m_Properties.length then
            ({ w with scene := setProperty w.scene n property v }, LuaResult.ok ())
          else (w, LuaResult.abort)
        | LuaResult.error e => (w, LuaResult.error e)
        | LuaResult.abort => (w, LuaResult.abort)
    | Option.none => (w, LuaResult.abort)
  | LuaResult.error e => (w, LuaResult.error e)
  | LuaResult.abort => (w, LuaResult.abort)

/-- The getter `LuaGet##name` that the macro `LUAGETSETV3(name, property)`
defines (`gui.get_position`, `gui.get_rotation`, `gui.get_scale`): the first
three components of the property, pushed as a vector3. -/
def LUAGETV3 (property : Nat) (w : World) (args : List LuaValue) : LuaResult LuaValue :=
  match LuaCheckNode w args 1 with
  | LuaResult.ok (n, _) =>
    match w.scene.m_Nodes[n]? with
    | some nd =>
      match nd.m_Node.m_Properties[property]? with
      | some v => LuaResult.ok (LuaValue.vector3 v.x v.y v.z)
      | Option.none => LuaResult.abort
    | Option.none => LuaResult.abort
  | LuaResult.error e => LuaResult.error e
  | LuaResult.abort => LuaResult.abort

/-- The getter `LuaGet##name` that the macro `LUAGETSETV4(name, property)`
defines (`gui.get_color`, `gui.get_outline`, `gui.get_shadow`): the
property, pushed as a vector4. -/
def LUAGETV4 (property : Nat) (w : World) (args : List LuaValue) : LuaResult LuaValue :=
  match LuaCheckNode w args 1 with
  | LuaResult.ok (n, _) =>
    match w.scene.m_Nodes[n]? with
    | some nd =>
      match nd.m_Node.m_Properties[property]? with
      | some v => LuaResult.ok (LuaValue.vector4 v)
      | Option.none => LuaResult.abort
    | Option.none => LuaResult.abort
  | LuaResult.error e => LuaResult.error e
  | LuaResult.abort => LuaResult.abort

/-- The function `LuaSetSize` (`gui.set_size`).  `SIZE_MODE_MANUAL` and
`PROPERTY_SIZE` are enumerators of `gui.h`, which is not among the sources
at hand; they are parameters.  The warning that is logged for an auto-sized
node has no effect on the state. -/
def LuaSetSize (SIZE_MODE_MANUAL PROPERTY_SIZE : Nat) (w : World) (args : List LuaValue) :
    World × LuaResult Unit :=
  match LuaCheckNode w args 1 with
  | LuaResult.ok (n, hnode) =>
    match w.scene.m_Nodes[n]? with
    | some nd =>
      if nd.m_Node.m_SizeMode ≠ SIZE_MODE_MANUAL then (w, LuaResult.ok ())
      else if nd.m_Node.m_IsBone then (w, LuaResult.ok ())
      else
        match setterValue w args hnode PROPERTY_SIZE with
        | LuaResult.ok v =>
          if PROPERTY_SIZE < nd.m_Node.m_Properties.length then
            ({ w with scene := setProperty w.scene n PROPERTY_SIZE v }, LuaResult.ok ())
          else (w, LuaResult.abort)
        | LuaResult.error e => (w, LuaResult.error e)
        | LuaResult.abort => (w, LuaResult.abort)
    | Option.none => (w, LuaResult.abort)
  | LuaResult.error e => (w, LuaResult.error e)
  | LuaResult.abort => (w, LuaResult.abort)

/-- The function `LuaGetSize` (`gui.get_size`). -/
def LuaGetSize (PROPERTY_SIZE : Nat) (w : World) (args : List LuaValue) : LuaResult LuaValue :=
  match LuaCheckNode w args 1 with
  | LuaResult.ok (n, _) =>
    match w.scene.m_Nodes[n]? with
    | some nd =>
      match nd.m_Node.m_Properties[PROPERTY_SIZE]? with
      | some v => LuaResult.ok (LuaValue.vector3 v.x v.y v.z)
      | Option.none => LuaResult.abort
    | Option.none => LuaResult.abort
  | LuaResult.error e => LuaResult.error e
  | LuaResult.abort => LuaResult.abort

/-! ## The parent of a node and node equality -/

/-- The function `LuaGetParent` (`gui.get_parent`): the value pushed, `nil`
or a new node proxy. -/
def LuaGetParent (w : World) (args : List LuaValue) : LuaResult LuaValue :=
  match GuiScriptInstance_Check w with
  | LuaResult.ok scene =>
    match LuaCheckNode w args 1 with
    | LuaResult.ok (n, _) =>
      match w.scene.m_Nodes[n]? with
      | some nd =>
        if nd.m_ParentIndex ≠ INVALID_INDEX then
          match w.scene.m_Nodes[nd.m_ParentIndex]? with
          | some parent =>
            LuaResult.ok (LuaValue.node { m_Scene := scene, m_Node := GetNodeHandle parent })
          | Option.none => LuaResult.abort
        else LuaResult.ok LuaValue.nil
      | Option.none => LuaResult.abort
    | LuaResult.error e => LuaResult.error e
    | LuaResult.abort => LuaResult.abort
  | LuaResult.error e => LuaResult.error e
  | LuaResult.abort => LuaResult.abort

/-- The characters of a Lua string that the C library sees through the
`const char*` of `luaL_checkstring`: those before the first NUL character
(a Lua string may hold NUL characters; `strcmp` stops at the first). -/
def cString (s : String) : String :=
  String.mk (s.data.takeWhile (fun c => c ≠ Char.ofNat 0))

/-- The arguments of one call of `NewDynamicTexture` or
`SetDynamicTextureData` after the scene. -/
structure TextureCall where
  name : String
  width : Int
  height : Int
  type : Nat
  flip : Bool
  buffer : String
deriving DecidableEq, Repr

/-- What the texture functions take from outside the sources at hand: the
three enumerators of `dmImage::Type` (`dlib`) that `ToImageType` names, and
whether `NewDynamicTexture` and `SetDynamicTextureData` (`gui.cpp`) return
`RESULT_OK` for a call. -/
structure TextureExternals where
  TYPE_RGB : Nat
  TYPE_RGBA : Nat
  TYPE_LUMINANCE : Nat
  NewDynamicTexture : Scene → TextureCall → Bool
  SetDynamicTextureData : Scene → TextureCall → Bool

/-- The function `ToImageType`; `strcmp(type_str, s) == 0` compares the
characters up to the first NUL. -/
def ToImageType (ext : TextureExternals) (type_str : String) : LuaResult Nat :=
  if cString type_str = "rgb" then LuaResult.ok ext.TYPE_RGB
  else if cString type_str = "rgba" then LuaResult.ok ext.TYPE_RGBA
  else if cString type_str = "l" then LuaResult.ok ext.TYPE_LUMINANCE
  else LuaResult.error "unsupported texture format '%s'"

/-- Sequencing of two steps of which the first may raise. -/
def LuaResult.andThen {α β : Type} (r : LuaResult α) (k : α → LuaResult β) : LuaResult β :=
  match r with
  | LuaResult.ok a => k a
  | LuaResult.error e => LuaResult.error e
  | LuaResult.abort => LuaResult.abort

/-- The check `luaL_checktype(L, 5, LUA_TSTRING)` followed by
`lua_tolstring(L, 5, &buffer_size)`: the buffer. -/
def checkBuffer (v : LuaValue) : LuaResult String :=
  match v with
  | LuaValue.string s _ => LuaResult.ok s
  | _ => LuaResult.error (typerror 5 "string")

/-- The flag `flip` before it is inverted: argument 6, which has to be a
boolean, when the call has more than five arguments. -/
def checkFlip (args : List LuaValue) : LuaResult Bool :=
  if args.length > 5 then
    match luaArg args 6 with
    | LuaValue.boolean b => LuaResult.ok b
    | _ => LuaResult.error (typerror 6 "boolean")
  else LuaResult.ok false

/-- The statements that `LuaNewTexture` and `LuaSetTextureData` have in
common, up to the call into `gui.cpp`: the checks of the arguments in the
order of the source, and the arguments of the call they lead to. -/
def textureArguments (ext : TextureExternals) (w : World) (args : List LuaValue) :
    LuaResult TextureCall :=
  (luaL_checkstring 1 (luaArg args 1)).andThen fun name =>
  (luaL_checknumber 2 (luaArg args 2)).andThen fun width =>
  (luaL_checknumber 3 (luaArg args 3)).andThen fun height =>
  (luaL_checkstring 4 (luaArg args 4)).andThen fun type_str =>
  (checkBuffer (luaArg args 5)).andThen fun buffer =>
  (GuiScriptInstance_Check w).andThen fun _ =>
  (checkFlip args).andThen fun flip =>
  (ToImageType ext type_str).andThen fun type =>
  LuaResult.ok
    { name := name, width := toInt32 width, height := toInt32 height, type := type,
      flip := !flip, buffer := buffer }

/-- The function `LuaNewTexture` (`gui.new_texture`): the calls of
`NewDynamicTexture` it makes and the boolean it pushes. -/
def LuaNewTexture (ext : TextureExternals) (w : World) (args : List LuaValue) :
    List TextureCall × LuaResult Bool :=
  match textureArguments ext w args with
  | LuaResult.ok call => ([call], LuaResult.ok (ext.NewDynamicTexture w.scene call))
  | LuaResult.error e => ([], LuaResult.error e)
  | LuaResult.abort => ([], LuaResult.abort)

/-- The function `LuaSetTextureData` (`gui.set_texture_data`): the calls of
`SetDynamicTextureData` it makes and the boolean it pushes. -/
def LuaSetTextureData (ext : TextureExternals) (w : World) (args : List LuaValue) :
    List TextureCall × LuaResult Bool :=
  match textureArguments ext w args with
  | LuaResult.ok call => ([call], LuaResult.ok (ext.SetDynamicTextureData w.scene call))
  | LuaResult.error e => ([], LuaResult.error e)
  | LuaResult.abort => ([], LuaResult.abort)

/-! ## The release of a curve -/

/-- The function `LuaCurveRelease`, the release callback of a custom easing
curve: `userdata2` is the pointer in `curve->userdata2`, and the scene of
`curve->userdata1` is the scene of the world.  The fields of the curve that
are cleared are not part of the world. -/
def LuaCurveRelease (w : World) (userdata2 : Nat) : World :=
  let ref := refOfUserdata userdata2
  { w with refTable := luaUnref w.refTable ref }

/-! ## Example scenes with properties -/

/-- Ten property values that differ from each other in every component. -/
def sampleProperties : List Vector4 :=
  (List.range 10).map fun i =>
    { x := 4 * (i : Int), y := 4 * (i : Int) + 1, z := 4 * (i : Int) + 2, w := 4 * (i : Int) + 3 }

/-- A box node in slot 0 with a child in slot 1 whose size mode is 1, and a
spine node in slot 2 with a bone node, its child, in slot 3.  All four have
the properties of `sampleProperties`; size mode 0 stands for
`SIZE_MODE_MANUAL`. -/
def sceneProperties : Scene :=
  { m_Nodes :=
      [{ slotOf 1 0 30 with
         m_ChildHead := 1, m_NextIndex := 2
         m_Node := { plainNode with m_Properties := sampleProperties } },
       { slotOf 3 1 31 with
         m_ParentIndex := 0
         m_Node := { plainNode with m_Properties := sampleProperties, m_SizeMode := 1 } },
       { slotOf 1 2 32 with
         m_ChildHead := 3
         m_Node := { plainNode with m_Properties := sampleProperties } },
       { slotOf 1 3 33 with
         m_ParentIndex := 2
         m_Node := { plainNode with m_Properties := sampleProperties, m_IsBone := true } }],
    m_NodePool := [], m_RenderHead := 0, m_RenderOrder := 0 }

/-- Texture externals with the enumerators 0, 1 and 2, under which every
call succeeds. -/
def sampleTextureExternals : TextureExternals :=
  { TYPE_RGB := 0, TYPE_RGBA := 1, TYPE_LUMINANCE := 2,
    NewDynamicTexture := fun _ _ => true, SetDynamicTextureData := fun _ _ => true }

/-- The arguments of a call of `gui.animate` on the node of `sceneOneNode`
with a vector4 target, a built-in easing, duration 1, delay 0 and `nil` as
the completion function, followed by the arguments `rest` from position 8
on. -/
def animateArgs (rest : List LuaValue) : List LuaValue :=
  [LuaValue.node { m_Scene := 1, m_Node := 0x10000 }, LuaValue.string "position" Option.none,
   LuaValue.vector4 { x := 1, y := 2, z := 3, w := 4 }, LuaValue.number 0, LuaValue.number 1,
   LuaValue.number 0, LuaValue.nil] ++ rest

/-! ## Theorems -/

/-! ### Handle arithmetic -/

theorem and_ffff_eq_mod (h : Nat) : h &&& 0xffff = h % 65536 := by
  have := Nat.and_pow_two_sub_one_eq_mod h 16
  simpa using this

theorem slotIndex_lt (h : Nat) : h &&& 0xffff < 65536 := by
  rw [and_ffff_eq_mod]; omega

theorem slotIndex_mod (h : Nat) : (h &&& 0xffff) % 65536 = h &&& 0xffff :=
  Nat.mod_eq_of_lt (slotIndex_lt h)

theorem generation_mod (h : Nat) (hh : h < 2 ^ 32) : (h >>> 16) % 65536 = h >>> 16 := by
  rw [Nat.shiftRight_eq_div_pow]
  apply Nat.mod_eq_of_lt
  omega

theorem IsValidNode_eq_true_iff (scene : Scene) (h : Nat) :
    IsValidNode scene h = true ↔
      ∃ n, scene.m_Nodes[h &&& 0xffff]? = some n ∧
        n.m_Version = (h >>> 16) % 65536 ∧ n.m_Index = h &&& 0xffff := by
  unfold IsValidNode
  simp only [slotIndex_mod]
  by_cases hlt : h &&& 0xffff < scene.m_Nodes.length
  · rw [if_pos hlt]
    cases hn : scene.m_Nodes[h &&& 0xffff]? with
    | none => simp
    | some n => simp
  · rw [if_neg hlt]
    have : scene.m_Nodes[h &&& 0xffff]? = Option.none := List.getElem?_eq_none (by omega)
    simp [this]

theorem LuaCheckNode_node (w : World) (args : List LuaValue) (i : Nat) (np : NodeProxy)
    (harg : luaArg args i = LuaValue.node np) :
    LuaCheckNode w args i =
      if some np.m_Scene ≠ w.m_Instance then LuaResult.error "Node used in the wrong scene"
      else if IsValidNode w.scene np.m_Node then
        LuaResult.ok (np.m_Node &&& 0xffff, np.m_Node)
      else LuaResult.error "Deleted node" := by
  simp only [LuaCheckNode, harg, NodeProxy_Check, GetScene, GetNode, slotIndex_mod]

/-! ### C1 -/

/-- C1, as stated, fails: in `sceneDeletedPending` the only slot carries
generation 1, its own index 0 and a set deleted flag; the handle
`0x10000` (generation 1, slot 0) passes `IsValidNode` although the slot is
marked deleted. -/
theorem C1_counterexample :
    IsValidNode sceneDeletedPending 0x10000 = true ∧
      sceneDeletedPending.m_Nodes[0x10000 &&& 0xffff]?.map (fun n => n.m_Deleted) = some true := by
  decide

/-- C1, amended: for every scene and every 32-bit handle `h`,
`IsValidNode scene h` is true exactly when the slot index `h & 0xffff` is
below the number of slots, the generation stored in the slot equals
`h >> 16`, and the self index stored in the slot equals the slot index.  The
deleted flag plays no part. -/
theorem C1_IsValidNode_iff (scene : Scene) (h : Nat) (hh : h < 2 ^ 32) :
    IsValidNode scene h = true ↔
      (h &&& 0xffff) < scene.m_Nodes.length ∧
      ∃ n, scene.m_Nodes[h &&& 0xffff]? = some n ∧
        n.m_Version = h >>> 16 ∧ n.m_Index = h &&& 0xffff := by
  rw [IsValidNode_eq_true_iff, generation_mod h hh]
  constructor
  · rintro ⟨n, hn, hv, hi⟩
    refine ⟨?_, n, hn, hv, hi⟩
    by_contra hlt
    rw [List.getElem?_eq_none (by omega)] at hn
    cases hn
  · rintro ⟨_, n, hn, hv, hi⟩
    exact ⟨n, hn, hv, hi⟩

/-- C1, amended, at the handle `0x10000` of `sceneDeletedPending`. -/
theorem C1_IsValidNode_iff_witness :
    (0x10000 : Nat) < 2 ^ 32 ∧
    (IsValidNode sceneDeletedPending 0x10000 = true ↔
      (0x10000 &&& 0xffff) < sceneDeletedPending.m_Nodes.length ∧
      ∃ n, sceneDeletedPending.m_Nodes[0x10000 &&& 0xffff]? = some n ∧
        n.m_Version = 0x10000 >>> 16 ∧ n.m_Index = 0x10000 &&& 0xffff) :=
  ⟨by decide, C1_IsValidNode_iff sceneDeletedPending 0x10000 (by decide)⟩

/-! ### C3 -/

/-- C3: when the slot index of a 32-bit handle is in range and the
generation stored in the slot differs from the generation of the handle,
`IsValidNode` is false, `LuaCheckNode` returns no node for a proxy carrying
the handle, and for a proxy of the running script's scene it raises
"Deleted node". -/
theorem C3_stale_generation_rejected (w : World) (args : List LuaValue) (i : Nat)
    (np : NodeProxy) (n : InternalNode)
    (harg : luaArg args i = LuaValue.node np)
    (h32 : np.m_Node < 2 ^ 32)
    (_hrange : (np.m_Node &&& 0xffff) < w.scene.m_Nodes.length)
    (hslot : w.scene.m_Nodes[np.m_Node &&& 0xffff]? = some n)
    (hgen : n.m_Version ≠ np.m_Node >>> 16) :
    IsValidNode w.scene np.m_Node = false ∧
    (∀ r, LuaCheckNode w args i ≠ LuaResult.ok r) ∧
    (w.m_Instance = some np.m_Scene →
      LuaCheckNode w args i = LuaResult.error "Deleted node") := by
  have hinv : IsValidNode w.scene np.m_Node = false := by
    rw [Bool.eq_false_iff]
    intro hv
    rw [IsValidNode_eq_true_iff, generation_mod _ h32] at hv
    obtain ⟨m, hm, hver, _⟩ := hv
    rw [hslot] at hm
    cases hm
    exact hgen hver
  rw [LuaCheckNode_node w args i np harg, hinv]
  refine ⟨rfl, ?_, ?_⟩
  · intro r
    by_cases hs : some np.m_Scene ≠ w.m_Instance <;> simp [hs]
  · intro hs
    simp [hs]

/-- C3 at the handle `0x10000` (generation 1) in `sceneReallocated`, whose
slot 0 has moved on to generation 2. -/
theorem C3_stale_generation_rejected_witness :
    IsValidNode (worldOf sceneReallocated).scene 0x10000 = false ∧
    (∀ r, LuaCheckNode (worldOf sceneReallocated)
        [LuaValue.node { m_Scene := 1, m_Node := 0x10000 }] 1 ≠ LuaResult.ok r) ∧
    ((worldOf sceneReallocated).m_Instance = some 1 →
      LuaCheckNode (worldOf sceneReallocated)
        [LuaValue.node { m_Scene := 1, m_Node := 0x10000 }] 1 = LuaResult.error "Deleted node") :=
  C3_stale_generation_rejected (worldOf sceneReallocated)
    [LuaValue.node { m_Scene := 1, m_Node := 0x10000 }] 1 { m_Scene := 1, m_Node := 0x10000 }
    (slotOf 2 0 9) rfl (by decide) (by decide) (by decide) (by decide)

/-! ### C4 -/

/-- C4: for a proxy argument, `LuaCheckNode` returns a node exactly when
the proxy's scene is the running script's scene and the handle passes
`IsValidNode`; it raises "Node used in the wrong scene" whenever the scenes
differ, "Deleted node" when they agree and the handle is invalid; on success
the handle written out is the proxy's handle and the node returned is the
slot at the handle's slot index, which exists. -/
theorem C4_LuaCheckNode_spec (w : World) (args : List LuaValue) (i : Nat) (np : NodeProxy)
    (harg : luaArg args i = LuaValue.node np) :
    ((∃ r, LuaCheckNode w args i = LuaResult.ok r) ↔
      (w.m_Instance = some np.m_Scene ∧ IsValidNode w.scene np.m_Node = true)) ∧
    (w.m_Instance ≠ some np.m_Scene →
      LuaCheckNode w args i = LuaResult.error "Node used in the wrong scene") ∧
    (w.m_Instance = some np.m_Scene → IsValidNode w.scene np.m_Node = false →
      LuaCheckNode w args i = LuaResult.error "Deleted node") ∧
    (∀ n hnode, LuaCheckNode w args i = LuaResult.ok (n, hnode) →
      hnode = np.m_Node ∧ n = np.m_Node &&& 0xffff ∧ n < w.scene.m_Nodes.length) := by
  rw [LuaCheckNode_node w args i np harg]
  by_cases hs : w.m_Instance = some np.m_Scene
  · have hs' : ¬ (some np.m_Scene ≠ w.m_Instance) := by simp [hs]
    cases hv : IsValidNode w.scene np.m_Node with
    | false => simp [hs]
    | true =>
      rw [if_neg hs']
      simp only [if_true]
      refine ⟨by simp [hs], by simp [hs], by simp, ?_⟩
      intro n hnode heq
      simp only [LuaResult.ok.injEq, Prod.mk.injEq] at heq
      obtain ⟨h1, h2⟩ := heq
      refine ⟨h2.symm, h1.symm, ?_⟩
      rw [IsValidNode_eq_true_iff] at hv
      obtain ⟨m, hm, _, _⟩ := hv
      rw [← h1]
      by_contra hlt
      rw [List.getElem?_eq_none (by omega)] at hm
      cases hm
  · have hs' : some np.m_Scene ≠ w.m_Instance := fun h => hs h.symm
    simp [hs, hs']

/-- C4 at a live node of `sceneOneNode`. -/
theorem C4_LuaCheckNode_spec_witness :
    ((∃ r, LuaCheckNode (worldOf sceneOneNode)
        [LuaValue.node { m_Scene := 1, m_Node := 0x10000 }] 1 = LuaResult.ok r) ↔
      ((worldOf sceneOneNode).m_Instance = some 1 ∧
        IsValidNode (worldOf sceneOneNode).scene 0x10000 = true)) ∧
    ((worldOf sceneOneNode).m_Instance ≠ some 1 →
      LuaCheckNode (worldOf sceneOneNode)
        [LuaValue.node { m_Scene := 1, m_Node := 0x10000 }] 1
        = LuaResult.error "Node used in the wrong scene") ∧
    ((worldOf sceneOneNode).m_Instance = some 1 →
      IsValidNode (worldOf sceneOneNode).scene 0x10000 = false →
      LuaCheckNode (worldOf sceneOneNode)
        [LuaValue.node { m_Scene := 1, m_Node := 0x10000 }] 1 = LuaResult.error "Deleted node") ∧
    (∀ n hnode, LuaCheckNode (worldOf sceneOneNode)
        [LuaValue.node { m_Scene := 1, m_Node := 0x10000 }] 1 = LuaResult.ok (n, hnode) →
      hnode = 0x10000 ∧ n = 0x10000 &&& 0xffff ∧ n < (worldOf sceneOneNode).scene.m_Nodes.length) :=
  C4_LuaCheckNode_spec (worldOf sceneOneNode)
    [LuaValue.node { m_Scene := 1, m_Node := 0x10000 }] 1 { m_Scene := 1, m_Node := 0x10000 } rfl

/-! ### C2 -/

theorem modifyNode_getElem? (scene : Scene) (i j : Nat) (f : InternalNode → InternalNode) :
    (modifyNode scene i f).m_Nodes[j]? =
      if i = j then (scene.m_Nodes[j]?).map f else scene.m_Nodes[j]? := by
  unfold modifyNode
  cases hi : scene.m_Nodes[i]? with
  | none =>
    by_cases hij : i = j
    · subst hij; simp [hi]
    · simp [hij]
  | some nd =>
    simp only [List.getElem?_set]
    by_cases hij : i = j
    · subst hij
      have hlt : i < scene.m_Nodes.length := by
        by_contra hlt
        rw [List.getElem?_eq_none (by omega)] at hi
        cases hi
      simp [hi, hlt]
    · simp [hij]

theorem unlinkFix_version (i : Nat) (d n : InternalNode) :
    (unlinkFix i d n).m_Version = n.m_Version := by
  simp only [unlinkFix]
  split_ifs <;> rfl

theorem unlinkFix_deleted (i : Nat) (d n : InternalNode) :
    (unlinkFix i d n).m_Deleted = n.m_Deleted := by
  simp only [unlinkFix]
  split_ifs <;> rfl

/-- A sweep step at another slot leaves generation and deleted flag of slot
`idx` as they are. -/
theorem sweepStep_other (scene : Scene) (idx j : Nat) (hj : j ≠ idx) (d : InternalNode)
    (hd : scene.m_Nodes[idx]? = some d) :
    ∃ d', (sweepStep scene j).m_Nodes[idx]? = some d' ∧
      d'.m_Version = d.m_Version ∧ d'.m_Deleted = d.m_Deleted := by
  unfold sweepStep
  cases hjn : scene.m_Nodes[j]? with
  | none => exact ⟨d, hd, rfl, rfl⟩
  | some dj =>
    by_cases hdel : dj.m_Deleted = true
    · simp only [hdel, if_true, sweepSlot, hjn]
      refine ⟨unlinkFix j dj d, ?_, unlinkFix_version _ _ _, unlinkFix_deleted _ _ _⟩
      rw [List.getElem?_set_ne hj, List.getElem?_map, hd]
      rfl
    · simp only [hdel]
      exact ⟨d, hd, rfl, rfl⟩

/-- The sweep step at a slot marked deleted bumps its generation and
clears the flag. -/
theorem sweepStep_self (scene : Scene) (idx : Nat) (d : InternalNode)
    (hd : scene.m_Nodes[idx]? = some d) (hdel : d.m_Deleted = true) :
    ∃ d', (sweepStep scene idx).m_Nodes[idx]? = some d' ∧
      d'.m_Version = (d.m_Version + 1) % 65536 ∧ d'.m_Deleted = false := by
  have hlt : idx < scene.m_Nodes.length := by
    by_contra hlt
    rw [List.getElem?_eq_none (by omega)] at hd
    cases hd
  unfold sweepStep
  simp only [hd, hdel, if_true, sweepSlot]
  refine ⟨sweptSlot d, ?_, rfl, rfl⟩
  rw [List.getElem?_set_self (by simpa using hlt)]

theorem sweep_fold_generation (idx : Nat) (d : InternalNode) (hdel : d.m_Deleted = true) :
    ∀ (n : Nat) (scene : Scene), scene.m_Nodes[idx]? = some d →
      ∃ d', ((List.range n).foldl sweepStep scene).m_Nodes[idx]? = some d' ∧
        if idx < n then d'.m_Version = (d.m_Version + 1) % 65536 ∧ d'.m_Deleted = false
        else d'.m_Version = d.m_Version ∧ d'.m_Deleted = true := by
  intro n
  induction n with
  | zero =>
    intro scene hd
    exact ⟨d, by simpa using hd, by simp [hdel]⟩
  | succ n ih =>
    intro scene hd
    obtain ⟨d1, hd1, hcase⟩ := ih scene hd
    rw [List.range_succ, List.foldl_append]
    simp only [List.foldl_cons, List.foldl_nil]
    rcases Nat.lt_trichotomy idx n with hlt | heq | hgt
    · rw [if_pos hlt] at hcase
      obtain ⟨d2, hd2, hv, hdl⟩ := sweepStep_other _ idx n (by omega) d1 hd1
      refine ⟨d2, hd2, ?_⟩
      rw [if_pos (by omega)]
      exact ⟨hv.trans hcase.1, hdl.trans hcase.2⟩
    · subst heq
      rw [if_neg (by omega)] at hcase
      obtain ⟨d2, hd2, hv, hdl⟩ := sweepStep_self _ idx d1 hd1 hcase.2
      refine ⟨d2, hd2, ?_⟩
      rw [if_pos (by omega)]
      exact ⟨by rw [hv, hcase.1], hdl⟩
    · rw [if_neg (by omega)] at hcase
      obtain ⟨d2, hd2, hv, hdl⟩ := sweepStep_other _ idx n (by omega) d1 hd1
      refine ⟨d2, hd2, ?_⟩
      rw [if_neg (by omega)]
      exact ⟨hv.trans hcase.1, hdl.trans hcase.2⟩

/-- The sweep bumps the generation of every slot that is marked deleted. -/
theorem sweep_generation (scene : Scene) (idx : Nat) (d : InternalNode)
    (hd : scene.m_Nodes[idx]? = some d) (hdel : d.m_Deleted = true) :
    ∃ d', (sweep scene).m_Nodes[idx]? = some d' ∧
      d'.m_Version = (d.m_Version + 1) % 65536 := by
  have hlt : idx < scene.m_Nodes.length := by
    by_contra hlt
    rw [List.getElem?_eq_none (by omega)] at hd
    cases hd
  obtain ⟨d', hd', hcase⟩ := sweep_fold_generation idx d hdel scene.m_Nodes.length scene hd
  rw [if_pos hlt] at hcase
  exact ⟨d', hd', hcase.1⟩

/-- What a successful `gui.delete_node` did: the argument was a proxy of the
running scene with a valid handle, the node is not a bone, and the new
world differs only in the deleted flag of the slot. -/
theorem LuaDeleteNode_ok (w : World) (args : List LuaValue) (np : NodeProxy)
    (harg : luaArg args 1 = LuaValue.node np)
    (hok : (LuaDeleteNode w args).2 = LuaResult.ok ()) :
    w.m_Instance = some np.m_Scene ∧ IsValidNode w.scene np.m_Node = true ∧
    (∃ nd, w.scene.m_Nodes[np.m_Node &&& 0xffff]? = some nd ∧ nd.m_Node.m_IsBone = false) ∧
    (LuaDeleteNode w args).1 =
      { w with scene := setDeleted w.scene (np.m_Node &&& 0xffff) } := by
  unfold LuaDeleteNode at hok ⊢
  rw [LuaCheckNode_node w args 1 np harg] at hok ⊢
  by_cases hs : some np.m_Scene ≠ w.m_Instance
  · rw [if_pos hs] at hok; simp at hok
  · rw [if_neg hs] at hok ⊢
    cases hv : IsValidNode w.scene np.m_Node with
    | false => rw [hv] at hok; simp at hok
    | true =>
      rw [hv] at hok
      simp only [if_true] at hok ⊢
      cases hn : w.scene.m_Nodes[np.m_Node &&& 0xffff]? with
      | none => rw [hn] at hok; simp at hok
      | some nd =>
        rw [hn] at hok
        simp only at hok ⊢
        by_cases hb : nd.m_Node.m_IsBone = true
        · rw [if_pos hb] at hok; simp at hok
        · rw [if_neg hb]
          refine ⟨?_, trivial, ⟨nd, rfl, by simpa using hb⟩, rfl⟩
          have hs2 : some np.m_Scene = w.m_Instance := by simpa using hs
          exact hs2.symm

/-- C2, as stated, fails before the sweep: in `sceneOneNode` the call
`gui.delete_node` on the node with handle `0x10000` succeeds, and an accessor
resolving the same proxy afterwards gets the node back from `LuaCheckNode`
instead of the "Deleted node" error. -/
theorem C2_counterexample :
    (LuaDeleteNode (worldOf sceneOneNode)
        [LuaValue.node { m_Scene := 1, m_Node := 0x10000 }]).2 = LuaResult.ok () ∧
    LuaCheckNode
        (LuaDeleteNode (worldOf sceneOneNode)
          [LuaValue.node { m_Scene := 1, m_Node := 0x10000 }]).1
        [LuaValue.node { m_Scene := 1, m_Node := 0x10000 }] 1 = LuaResult.ok (0, 0x10000) := by
  decide

/-- C2, amended: after a successful `gui.delete_node(h)` the slot of `h`
keeps its generation and has its deleted flag set; until the sweep every
accessor that resolves `h` through `LuaCheckNode` still gets that slot; once
the sweep has run, `LuaCheckNode` raises "Deleted node" for `h`. -/
theorem C2_deleted_handle (w : World) (args : List LuaValue) (np : NodeProxy)
    (harg : luaArg args 1 = LuaValue.node np)
    (hok : (LuaDeleteNode w args).2 = LuaResult.ok ()) :
    (∃ nd, (LuaDeleteNode w args).1.scene.m_Nodes[np.m_Node &&& 0xffff]? = some nd ∧
      nd.m_Deleted = true ∧ nd.m_Version = (np.m_Node >>> 16) % 65536) ∧
    (∀ args' i, luaArg args' i = LuaValue.node np →
      LuaCheckNode (LuaDeleteNode w args).1 args' i
        = LuaResult.ok (np.m_Node &&& 0xffff, np.m_Node)) ∧
    (∀ args' i, luaArg args' i = LuaValue.node np →
      LuaCheckNode { (LuaDeleteNode w args).1 with
          scene := sweep (LuaDeleteNode w args).1.scene } args' i
        = LuaResult.error "Deleted node") := by
  obtain ⟨hs, hv, ⟨nd, hnd, _⟩, hw⟩ := LuaDeleteNode_ok w args np harg hok
  rw [hw]
  rw [IsValidNode_eq_true_iff] at hv
  obtain ⟨m, hm, hver, hidx⟩ := hv
  rw [hnd] at hm
  cases hm
  have hslot : (setDeleted w.scene (np.m_Node &&& 0xffff)).m_Nodes[np.m_Node &&& 0xffff]?
      = some { nd with m_Deleted := true } := by
    rw [setDeleted, modifyNode_getElem?, if_pos rfl, hnd]
    rfl
  refine ⟨⟨_, hslot, rfl, hver⟩, ?_, ?_⟩
  · intro args' i harg'
    rw [LuaCheckNode_node _ args' i np harg']
    have hv' : IsValidNode (setDeleted w.scene (np.m_Node &&& 0xffff)) np.m_Node = true := by
      rw [IsValidNode_eq_true_iff]
      exact ⟨_, hslot, hver, hidx⟩
    simp [hs, hv']
  · intro args' i harg'
    rw [LuaCheckNode_node _ args' i np harg']
    obtain ⟨d', hd', hver'⟩ := sweep_generation _ _ _ hslot rfl
    have hv' : IsValidNode (sweep (setDeleted w.scene (np.m_Node &&& 0xffff))) np.m_Node
        = false := by
      rw [Bool.eq_false_iff]
      intro hv'
      rw [IsValidNode_eq_true_iff] at hv'
      obtain ⟨m, hm, hmver, _⟩ := hv'
      rw [hd'] at hm
      cases hm
      rw [hver'] at hmver
      simp only at hmver
      rw [hver] at hmver
      omega
    simp [hs, hv']

/-- C2, amended, at the node of `sceneOneNode`. -/
theorem C2_deleted_handle_witness :
    (∃ nd, (LuaDeleteNode (worldOf sceneOneNode)
        [LuaValue.node { m_Scene := 1, m_Node := 0x10000 }]).1.scene.m_Nodes[0x10000 &&& 0xffff]?
          = some nd ∧
      nd.m_Deleted = true ∧ nd.m_Version = (0x10000 >>> 16) % 65536) ∧
    (∀ args' i, luaArg args' i = LuaValue.node { m_Scene := 1, m_Node := 0x10000 } →
      LuaCheckNode (LuaDeleteNode (worldOf sceneOneNode)
          [LuaValue.node { m_Scene := 1, m_Node := 0x10000 }]).1 args' i
        = LuaResult.ok (0x10000 &&& 0xffff, 0x10000)) ∧
    (∀ args' i, luaArg args' i = LuaValue.node { m_Scene := 1, m_Node := 0x10000 } →
      LuaCheckNode { (LuaDeleteNode (worldOf sceneOneNode)
            [LuaValue.node { m_Scene := 1, m_Node := 0x10000 }]).1 with
          scene := sweep (LuaDeleteNode (worldOf sceneOneNode)
            [LuaValue.node { m_Scene := 1, m_Node := 0x10000 }]).1.scene } args' i
        = LuaResult.error "Deleted node") :=
  C2_deleted_handle (worldOf sceneOneNode) [LuaValue.node { m_Scene := 1, m_Node := 0x10000 }]
    { m_Scene := 1, m_Node := 0x10000 } rfl (by decide)

/-! ### C5 -/

theorem getElem?_lt {α : Type} (l : List α) (i : Nat) (a : α) (h : l[i]? = some a) :
    i < l.length := by
  by_contra hlt
  rw [List.getElem?_eq_none (by omega)] at h
  cases h

theorem chainFrom_succ (fuel : Nat) (scene : Scene) (i : Nat) :
    chainFrom (fuel + 1) scene i =
      if i = INVALID_INDEX then some []
      else
        match scene.m_Nodes[i]? with
        | some nd => (chainFrom fuel scene nd.m_NextIndex).map (fun l => i :: l)
        | Option.none => Option.none := rfl

/-- A non-empty chain starts at its head slot, which exists, and continues
with the chain of the next link. -/
theorem chainFrom_cons (fuel : Nat) (scene : Scene) (i a : Nat) (l : List Nat)
    (h : chainFrom fuel scene i = some (a :: l)) :
    a = i ∧ i ≠ INVALID_INDEX ∧ ∃ nd f, scene.m_Nodes[i]? = some nd ∧ f + 1 = fuel ∧
      chainFrom f scene nd.m_NextIndex = some l := by
  cases fuel with
  | zero => simp [chainFrom] at h
  | succ f =>
    rw [chainFrom_succ] at h
    by_cases hi : i = INVALID_INDEX
    · simp [hi] at h
    · rw [if_neg hi] at h
      cases hn : scene.m_Nodes[i]? with
      | none => simp [hn] at h
      | some nd =>
        simp only [hn, Option.map_eq_some'] at h
        obtain ⟨l', hl', hcons⟩ := h
        simp only [List.cons.injEq] at hcons
        obtain ⟨h1, h2⟩ := hcons
        subst h2
        exact ⟨h1.symm, hi, nd, f, rfl, rfl, hl'⟩

/-- An empty chain starts at `INVALID_INDEX`. -/
theorem chainFrom_nil (fuel : Nat) (scene : Scene) (i : Nat)
    (h : chainFrom fuel scene i = some []) : i = INVALID_INDEX := by
  cases fuel with
  | zero => simp [chainFrom] at h
  | succ f =>
    rw [chainFrom_succ] at h
    by_cases hi : i = INVALID_INDEX
    · exact hi
    · rw [if_neg hi] at h
      cases hn : scene.m_Nodes[i]? with
      | none => simp [hn] at h
      | some nd => simp [hn] at h

/-- The chain of a slot does not depend on the fuel that produced it. -/
theorem chainFrom_unique (scene : Scene) :
    ∀ (l l' : List Nat) (f f' i : Nat), chainFrom f scene i = some l →
      chainFrom f' scene i = some l' → l = l' := by
  intro l
  induction l with
  | nil =>
    intro l' f f' i h h'
    have hi := chainFrom_nil f scene i h
    cases l' with
    | nil => rfl
    | cons a t =>
      obtain ⟨_, hne, _⟩ := chainFrom_cons f' scene i a t h'
      exact absurd hi hne
  | cons a t ih =>
    intro l' f f' i h h'
    obtain ⟨ha, hne, nd, g, hnd, _, hrest⟩ := chainFrom_cons f scene i a t h
    cases l' with
    | nil => exact absurd (chainFrom_nil f' scene i h') hne
    | cons a' t' =>
      obtain ⟨ha', _, nd', g', hnd', _, hrest'⟩ := chainFrom_cons f' scene i a' t' h'
      rw [hnd] at hnd'
      cases hnd'
      rw [ha, ha', ih t' g g' _ hrest hrest']

/-- Every member of a chain heads a chain of its own that is no longer. -/
theorem chainFrom_of_mem (scene : Scene) :
    ∀ (l : List Nat) (f i j : Nat), chainFrom f scene i = some l → j ∈ l →
      ∃ f' l', chainFrom f' scene j = some l' ∧ l'.length ≤ l.length := by
  intro l
  induction l with
  | nil => intro f i j _ hj; cases hj
  | cons a t ih =>
    intro f i j h hj
    obtain ⟨ha, _, nd, g, _, _, hrest⟩ := chainFrom_cons f scene i a t h
    rcases List.mem_cons.mp hj with hja | hjt
    · refine ⟨f, a :: t, ?_, le_refl _⟩
      rw [hja]
      rw [ha] at h ⊢
      exact h
    · obtain ⟨f', l', hl', hlen⟩ := ih g _ j hrest hjt
      exact ⟨f', l', hl', by simp only [List.length_cons]; omega⟩

/-- A chain that ends visits no slot twice. -/
theorem chainFrom_nodup (scene : Scene) :
    ∀ (l : List Nat) (f i : Nat), chainFrom f scene i = some l → l.Nodup := by
  intro l
  induction l with
  | nil => intro _ _ _; exact List.nodup_nil
  | cons a t ih =>
    intro f i h
    obtain ⟨ha, _, nd, g, _, _, hrest⟩ := chainFrom_cons f scene i a t h
    refine List.nodup_cons.mpr ⟨?_, ih g _ hrest⟩
    intro hmem
    obtain ⟨f', l', hl', hlen⟩ := chainFrom_of_mem scene t g _ a hrest hmem
    rw [ha] at hl'
    have := chainFrom_unique scene _ _ _ _ _ h hl'
    rw [← this] at hlen
    simp only [List.length_cons] at hlen
    omega

/-- Every member of a chain is a slot of the scene. -/
theorem chainFrom_mem_lt (scene : Scene) :
    ∀ (l : List Nat) (f i j : Nat), chainFrom f scene i = some l → j ∈ l →
      j < scene.m_Nodes.length ∧ j ≠ INVALID_INDEX := by
  intro l
  induction l with
  | nil => intro f i j _ hj; cases hj
  | cons a t ih =>
    intro f i j h hj
    obtain ⟨ha, hne, nd, g, hnd, _, hrest⟩ := chainFrom_cons f scene i a t h
    rcases List.mem_cons.mp hj with hja | hjt
    · rw [hja, ha]
      exact ⟨getElem?_lt _ _ _ hnd, hne⟩
    · exact ih g _ j hrest hjt

/-- A chain that ends is no longer than the slot array. -/
theorem chainFrom_length_le (scene : Scene) (l : List Nat) (f i : Nat)
    (h : chainFrom f scene i = some l) : l.length ≤ scene.m_Nodes.length := by
  have hsub : l ⊆ List.range scene.m_Nodes.length := by
    intro j hj
    exact List.mem_range.mpr (chainFrom_mem_lt scene l f i j h hj).1
  have := (List.subperm_of_subset (chainFrom_nodup scene l f i h) hsub).length_le
  simpa using this

/-- The loop of `LuaGetIndex` on a chain in which `target` first occurs at
position `k`: it ends after `k` steps with the counter advanced by `k`. -/
theorem LuaGetIndexLoop_spec (scene : Scene) (target : Nat) :
    ∀ (k : Nat) (l : List Nat) (f i index fuel : Nat), chainFrom f scene i = some l →
      l[k]? = some target → (∀ j, j < k → l[j]? ≠ some target) → k < fuel →
      index < 2 ^ 32 →
      LuaGetIndexLoop fuel scene target i index = some (LuaResult.ok ((index + k) % 2 ^ 32)) := by
  intro k
  induction k with
  | zero =>
    intro l f i index fuel h hk _ hfuel hindex
    cases l with
    | nil => simp at hk
    | cons a t =>
      obtain ⟨ha, _, _⟩ := chainFrom_cons f scene i a t h
      simp only [List.getElem?_cons_zero, Option.some.injEq] at hk
      obtain ⟨fuel', rfl⟩ : ∃ fuel', fuel = fuel' + 1 := ⟨fuel - 1, by omega⟩
      have hit : i = target := by rw [← ha, hk]
      simp only [LuaGetIndexLoop, hit, ne_eq, not_true_eq_false, and_false, if_false,
        Nat.add_zero, Nat.mod_eq_of_lt hindex]
  | succ k ih =>
    intro l f i index fuel h hk hfirst hfuel hindex
    cases l with
    | nil => simp at hk
    | cons a t =>
      obtain ⟨ha, hne, nd, g, hnd, _, hrest⟩ := chainFrom_cons f scene i a t h
      simp only [List.getElem?_cons_succ] at hk
      obtain ⟨fuel', rfl⟩ : ∃ fuel', fuel = fuel' + 1 := ⟨fuel - 1, by omega⟩
      have hnot : i ≠ target := by
        intro hit
        have := hfirst 0 (by omega)
        simp only [List.getElem?_cons_zero, ne_eq, Option.some.injEq] at this
        exact this (ha.trans hit)
      have hfirst' : ∀ j, j < k → t[j]? ≠ some target := by
        intro j hj
        have := hfirst (j + 1) (by omega)
        simpa using this
      have hrec := ih t g nd.m_NextIndex ((index + 1) % 2 ^ 32) fuel' hrest hk hfirst'
        (by omega) (Nat.mod_lt _ (by norm_num))
      simp only [LuaGetIndexLoop, ne_eq, hne, not_false_eq_true, hnot, and_self, if_true, hnd]
      rw [hrec]
      congr 2
      omega

/-- C5: in a scene with fewer than `2 ^ 32` slots, for a valid node of the
running scene whose owning chain (the child chain of its parent, or the
render chain when it has no parent) ends, and in which the node is at
position `k`, `gui.get_index` returns `k` whenever the fuel exceeds `k`. -/
theorem C5_get_index_position (w : World) (args : List LuaValue) (np : NodeProxy)
    (nd : InternalNode) (head f : Nat) (l : List Nat) (k : Nat)
    (harg : luaArg args 1 = LuaValue.node np)
    (hs : w.m_Instance = some np.m_Scene)
    (hv : IsValidNode w.scene np.m_Node = true)
    (hsize : w.scene.m_Nodes.length < 2 ^ 32)
    (hnd : w.scene.m_Nodes[np.m_Node &&& 0xffff]? = some nd)
    (hhead : owningChainHead w.scene nd = some head)
    (hchain : chainFrom f w.scene head = some l)
    (hpos : l[k]? = some (np.m_Node &&& 0xffff)) :
    ∀ fuel, k < fuel → LuaGetIndex fuel w args = some (LuaResult.ok k) := by
  intro fuel hfuel
  have hidx : nd.m_Index = np.m_Node &&& 0xffff := by
    rw [IsValidNode_eq_true_iff] at hv
    obtain ⟨m, hm, _, hi⟩ := hv
    rw [hnd] at hm
    cases hm
    exact hi
  have hnodup := chainFrom_nodup w.scene l f head hchain
  have hklt : k < l.length := getElem?_lt l k _ hpos
  have hfirst : ∀ j, j < k → l[j]? ≠ some (np.m_Node &&& 0xffff) := by
    intro j hj heq
    have := List.getElem?_inj (by omega : j < l.length) hnodup (heq.trans hpos.symm)
    omega
  have hk32 : k < 2 ^ 32 := by
    have := chainFrom_length_le w.scene l f head hchain
    omega
  have hloop := LuaGetIndexLoop_spec w.scene (np.m_Node &&& 0xffff) k l f head 0 fuel hchain hpos
    hfirst hfuel (by norm_num)
  rw [Nat.zero_add, Nat.mod_eq_of_lt hk32] at hloop
  have hcheck : LuaCheckNode w args 1 = LuaResult.ok (np.m_Node &&& 0xffff, np.m_Node) := by
    rw [LuaCheckNode_node w args 1 np harg]
    simp [hs, hv]
  unfold LuaGetIndex
  simp only [GuiScriptInstance_Check, hs, hcheck, hnd, hidx]
  unfold owningChainHead at hhead
  by_cases hp : nd.m_ParentIndex ≠ INVALID_INDEX
  · rw [if_pos hp] at hhead ⊢
    cases hpn : w.scene.m_Nodes[nd.m_ParentIndex]? with
    | none => rw [hpn] at hhead; simp at hhead
    | some parent =>
      rw [hpn] at hhead
      simp only [Option.map_some', Option.some.injEq] at hhead
      simp only [hhead]
      exact hloop
  · rw [if_neg hp] at hhead ⊢
    simp only [Option.some.injEq] at hhead
    rw [hhead]
    exact hloop

/-- C5 on `sceneThreeTop`, whose render chain is 2, 0, 1: the node in slot 1
is at position 2, and `gui.get_index` returns 2. -/
theorem C5_get_index_position_witness :
    LuaGetIndex 3 (worldOf sceneThreeTop)
      [LuaValue.node { m_Scene := 1, m_Node := 0x10001 }] = some (LuaResult.ok 2) :=
  C5_get_index_position (worldOf sceneThreeTop)
    [LuaValue.node { m_Scene := 1, m_Node := 0x10001 }] { m_Scene := 1, m_Node := 0x10001 }
    (slotOf 1 1 11) 2 4 [2, 0, 1] 2 rfl rfl (by decide) (by decide) (by decide) (by decide)
    (by decide) (by decide) 3 (by decide)

/-! ### C8, C9, C10: the code at the failing inputs -/

/-- C8 at its failing input: `gui.clone_tree(nil)` on a scene with one
top-level node and three free slots.  The clone of the node is put at the
top of the render chain, behind the node, so the walk over the chain goes on
into the clones; the call ends with "Not enough resources to clone the node
tree" after all three free slots have been used, and the render chain then
holds the node and three clones.  With no argument at all the call raises
a type error, since stack position 1 then holds the result table. -/
theorem C8_clone_tree_nil_exhausts_pool :
    (LuaCloneTree 10 (worldOf sceneOneTopThreeFree) [LuaValue.nil]).map
        (fun r => (r.2, r.1.scene.m_NodePool, chainFrom 10 r.1.scene r.1.scene.m_RenderHead))
      = some (LuaResult.error "Not enough resources to clone the node tree", [], some [0, 1, 2, 3]) ∧
    (LuaCloneTree 10 (worldOf sceneOneTopThreeFree) []).map (fun r => r.2)
      = some (LuaResult.error "NodeProxy expected") := by
  decide

/-- C9 at its failing input: `gui.clone_tree(root)` on a root with one child
when a single slot is free.  The call fails with "Not enough resources to
clone the node tree", and the clone of the root, made in slot 2 before the
allocation for the child failed, is left in the render chain with its
deleted flag clear. -/
theorem C9_partial_clone_left_live :
    (LuaCloneTree 10 (worldOf (sceneParentChild [2]))
        [LuaValue.node { m_Scene := 1, m_Node := 0x10000 }]).map
        (fun r => (r.2, r.1.scene.m_NodePool, r.1.scene.m_Nodes[2]?.map (fun n => n.m_Deleted),
          chainFrom 10 r.1.scene r.1.scene.m_RenderHead))
      = some (LuaResult.error "Not enough resources to clone the node tree", [], some false,
          some [0, 2]) := by
  decide

/-- C10 at its failing input: `gui.animate(node, property, to, vector)` with
a custom easing vector and the duration left out.  The call is rejected for
argument 5, no animation is started, and the reference table, empty before
the call, holds a reference to the easing vector afterwards. -/
theorem C10_rejected_animate_keeps_curve_ref :
    (worldOf sceneOneNode).refTable = [] ∧
    LuaAnimate sampleExternals (worldOf sceneOneNode)
        [LuaValue.node { m_Scene := 1, m_Node := 0x10000 }, LuaValue.hash 5,
         LuaValue.vector4 { x := 1, y := 1, z := 1, w := 1 }, LuaValue.vector [0, 1]]
      = ({ worldOf sceneOneNode with refTable := [(1, LuaValue.vector [0, 1])] },
          LuaResult.error "bad argument #5 (number expected)") := by
  decide

/-! ### C6 -/

/-- C6, as stated, fails: in `sceneParentChild` the subtree of the root has
two nodes, the root and its child, which carry the same id hash 7; the table
returned by a successful `gui.clone_tree(root)` has one entry. -/
theorem C6_counterexample :
    (subtreeOf 10 (sceneParentChild [2, 3, 4]) 0).map List.length = some 2 ∧
    (LuaCloneTree 10 (worldOf (sceneParentChild [2, 3, 4]))
        [LuaValue.node { m_Scene := 1, m_Node := 0x10000 }]).map (fun r => r.2)
      = some (LuaResult.ok [(7, { m_Scene := 1, m_Node := 0x10003 })]) := by
  decide

/-! ### Handles of slots -/

theorem handle_arith (v i : Nat) (hi : i < 65536) : (v <<< 16) ||| i = 65536 * v + i := by
  have h := Nat.mul_add_lt_is_or (i := 16) (b := i) (by simpa using hi) v
  rw [Nat.shiftLeft_eq, Nat.mul_comm]
  simpa using h.symm

theorem GetNodeHandle_eq (nd : InternalNode) (hv : nd.m_Version < 65536)
    (hi : nd.m_Index < 65536) : GetNodeHandle nd = 65536 * nd.m_Version + nd.m_Index := by
  unfold GetNodeHandle
  rw [Nat.mod_eq_of_lt hv, Nat.mod_eq_of_lt hi, handle_arith _ _ hi]

theorem GetNodeHandle_slot (nd : InternalNode) (hv : nd.m_Version < 65536)
    (hi : nd.m_Index < 65536) : GetNodeHandle nd &&& 0xffff = nd.m_Index := by
  rw [GetNodeHandle_eq nd hv hi, and_ffff_eq_mod]
  omega

theorem GetNodeHandle_generation (nd : InternalNode) (hv : nd.m_Version < 65536)
    (hi : nd.m_Index < 65536) : (GetNodeHandle nd >>> 16) % 65536 = nd.m_Version := by
  rw [GetNodeHandle_eq nd hv hi, Nat.shiftRight_eq_div_pow]
  omega

/-- The handle of a slot whose self index is its position passes the
validity check. -/
theorem IsValidNode_GetNodeHandle (s : Scene) (m : Nat) (nd : InternalNode)
    (hnd : s.m_Nodes[m]? = some nd) (hv : nd.m_Version < 65536) (hi : nd.m_Index = m)
    (hm : m < 65536) : IsValidNode s (GetNodeHandle nd) = true := by
  rw [IsValidNode_eq_true_iff, GetNodeHandle_slot nd hv (by omega),
    GetNodeHandle_generation nd hv (by omega), hi]
  exact ⟨nd, hnd, rfl, hi⟩

/-! ### Writes through node pointers -/

theorem modifyNode_length (s : Scene) (i : Nat) (f : InternalNode → InternalNode) :
    (modifyNode s i f).m_Nodes.length = s.m_Nodes.length := by
  unfold modifyNode
  cases s.m_Nodes[i]? <;> simp

theorem modifyNode_pool (s : Scene) (i : Nat) (f : InternalNode → InternalNode) :
    (modifyNode s i f).m_NodePool = s.m_NodePool := by
  unfold modifyNode
  cases s.m_Nodes[i]? <;> rfl

theorem modifyNode_renderHead (s : Scene) (i : Nat) (f : InternalNode → InternalNode) :
    (modifyNode s i f).m_RenderHead = s.m_RenderHead := by
  unfold modifyNode
  cases s.m_Nodes[i]? <;> rfl

theorem modifyNode_getElem?_ne (s : Scene) (i j : Nat) (f : InternalNode → InternalNode)
    (h : i ≠ j) : (modifyNode s i f).m_Nodes[j]? = s.m_Nodes[j]? := by
  rw [modifyNode_getElem?, if_neg h]

theorem modifyNode_getElem?_self (s : Scene) (i : Nat) (f : InternalNode → InternalNode) :
    (modifyNode s i f).m_Nodes[i]? = (s.m_Nodes[i]?).map f := by
  rw [modifyNode_getElem?, if_pos rfl]

theorem Relinked.same (L : List Nat) (r n p : Nat) (s : Scene) : Relinked L r n p s s :=
  { length_eq := rfl
    pool_eq := rfl
    head := Or.inl rfl
    slot := fun _ nd' h => ⟨nd', h, rfl, rfl, rfl, rfl, Or.inl rfl, Or.inl rfl, Or.inl rfl⟩ }

theorem Relinked.comp {L : List Nat} {r n p : Nat} {s1 s2 s3 : Scene}
    (h12 : Relinked L r n p s1 s2) (h23 : Relinked L r n p s2 s3) : Relinked L r n p s1 s3 := by
  refine
    { length_eq := h23.length_eq.trans h12.length_eq
      pool_eq := h23.pool_eq.trans h12.pool_eq
      head := ?_
      slot := ?_ }
  · rcases h23.head with h | h
    · rw [h]; exact h12.head
    · exact Or.inr h
  · intro m nd3 h3
    obtain ⟨nd2, h2, hv, hi, hh, hn, hnx, hch, hpa⟩ := h23.slot m nd3 h3
    obtain ⟨nd1, h1, hv', hi', hh', hn', hnx', hch', hpa'⟩ := h12.slot m nd2 h2
    refine ⟨nd1, h1, hv.trans hv', hi.trans hi', hh.trans hh', hn.trans hn', ?_, ?_, ?_⟩
    · rcases hnx with h | h
      · rw [h]; exact hnx'
      · exact Or.inr h
    · rcases hch with h | h
      · rw [h]; exact hch'
      · exact Or.inr h
    · rcases hpa with h | h
      · rw [h]; exact hpa'
      · exact Or.inr h

/-- A write to one slot that rewrites links only. -/
theorem Relinked.of_modifyNode (L : List Nat) (r n p : Nat) (s : Scene) (i : Nat)
    (f : InternalNode → InternalNode)
    (hf : ∀ x, (f x).m_Version = x.m_Version ∧ (f x).m_Index = x.m_Index ∧
      (f x).m_NameHash = x.m_NameHash ∧ (f x).m_Node = x.m_Node ∧
      ((f x).m_NextIndex = x.m_NextIndex ∨ (f x).m_NextIndex ∉ L) ∧
      ((f x).m_ChildHead = x.m_ChildHead ∨ (i ≠ r ∧ (f x).m_ChildHead ∉ L)) ∧
      ((f x).m_ParentIndex = x.m_ParentIndex ∨ (i = n ∧ (f x).m_ParentIndex = p))) :
    Relinked L r n p s (modifyNode s i f) := by
  refine
    { length_eq := modifyNode_length s i f
      pool_eq := modifyNode_pool s i f
      head := Or.inl (modifyNode_renderHead s i f)
      slot := ?_ }
  intro m nd' h
  rw [modifyNode_getElem?] at h
  by_cases him : i = m
  · rw [if_pos him] at h
    cases hm : s.m_Nodes[m]? with
    | none => rw [hm] at h; simp at h
    | some nd =>
      rw [hm] at h
      simp only [Option.map_some', Option.some.injEq] at h
      subst h
      obtain ⟨h1, h2, h3, h4, h5, h6, h7⟩ := hf nd
      refine ⟨nd, rfl, h1, h2, h3, h4, h5, ?_, ?_⟩
      · rcases h6 with h6 | ⟨h6, h6'⟩
        · exact Or.inl h6
        · exact Or.inr ⟨fun hmr => h6 (him.trans hmr), h6'⟩
      · rcases h7 with h7 | ⟨h7, h8⟩
        · exact Or.inl h7
        · exact Or.inr ⟨him.symm.trans h7, h8⟩
  · rw [if_neg him] at h
    exact ⟨nd', h, rfl, rfl, rfl, rfl, Or.inl rfl, Or.inl rfl, Or.inl rfl⟩

/-- A new render head outside `L`. -/
theorem Relinked.of_renderHead (L : List Nat) (r n p : Nat) (s : Scene) (v : Nat)
    (hv : v ∉ L) : Relinked L r n p s { s with m_RenderHead := v } :=
  { length_eq := rfl
    pool_eq := rfl
    head := Or.inr hv
    slot := fun _ nd' h => ⟨nd', h, rfl, rfl, rfl, rfl, Or.inl rfl, Or.inl rfl, Or.inl rfl⟩ }

/-- Slots exist in both scenes or in neither. -/
theorem Relinked.slot_fwd {L : List Nat} {r n p : Nat} {s s' : Scene}
    (h : Relinked L r n p s s') (m : Nat) (nd : InternalNode)
    (hnd : s.m_Nodes[m]? = some nd) :
    ∃ nd', s'.m_Nodes[m]? = some nd' ∧
      nd'.m_Version = nd.m_Version ∧ nd'.m_Index = nd.m_Index ∧
      nd'.m_NameHash = nd.m_NameHash ∧ nd'.m_Node = nd.m_Node ∧
      (nd'.m_NextIndex = nd.m_NextIndex ∨ nd'.m_NextIndex ∉ L) ∧
      (nd'.m_ChildHead = nd.m_ChildHead ∨ (m ≠ r ∧ nd'.m_ChildHead ∉ L)) ∧
      (nd'.m_ParentIndex = nd.m_ParentIndex ∨ (m = n ∧ nd'.m_ParentIndex = p)) := by
  have hlt : m < s'.m_Nodes.length := by
    rw [h.length_eq]; exact getElem?_lt _ _ _ hnd
  obtain ⟨nd', hnd'⟩ : ∃ nd', s'.m_Nodes[m]? = some nd' :=
    ⟨s'.m_Nodes[m], List.getElem?_eq_getElem hlt⟩
  obtain ⟨nd0, h0, rest⟩ := h.slot m nd' hnd'
  rw [hnd] at h0
  cases h0
  exact ⟨nd', hnd', rest⟩

/-- Rewriting links keeps chains from leading into `L`. -/
theorem Relinked.outside {L : List Nat} {r n p : Nat} {s s' : Scene}
    (h : Relinked L r n p s s') (ho : Outside L r s) : Outside L r s' := by
  refine { head_out := ?_, next_out := ?_, child_out := ?_ }
  · rcases h.head with hh | hh
    · rw [hh]; exact ho.head_out
    · exact hh
  · intro m nd' hm hnd'
    obtain ⟨nd, hnd, _, _, _, _, hnx, _, _⟩ := h.slot m nd' hnd'
    rcases hnx with hh | hh
    · rw [hh]; exact ho.next_out m nd hm hnd
    · exact hh
  · intro m nd' hm hr hnd'
    obtain ⟨nd, hnd, _, _, _, _, _, hch, _⟩ := h.slot m nd' hnd'
    rcases hch with hh | hh
    · rw [hh]; exact ho.child_out m nd hm hr hnd
    · exact hh.2

/-- Every slot other than the one that was given a parent is kept. -/
theorem Relinked.kept {L : List Nat} {r n p : Nat} {s s' : Scene}
    (h : Relinked L r n p s s') (x : Nat) (hx : x ≠ n) : SlotKept r s s' x := by
  intro nd hnd
  obtain ⟨nd', hnd', h1, h2, h3, _, _, hch, hpa⟩ := h.slot_fwd x nd hnd
  refine ⟨nd', hnd', h1, h2, h3, ?_, ?_⟩
  · rcases hpa with hh | ⟨hh, _⟩
    · exact hh
    · exact absurd hh hx
  · intro hxr
    rcases hch with hh | ⟨hh, _⟩
    · exact hh
    · exact absurd hxr hh

theorem SlotKept.refl (r : Nat) (s : Scene) (x : Nat) : SlotKept r s s x :=
  fun nd hnd => ⟨nd, hnd, rfl, rfl, rfl, rfl, fun _ => rfl⟩

theorem SlotKept.trans {r : Nat} {s1 s2 s3 : Scene} {x : Nat} (h12 : SlotKept r s1 s2 x)
    (h23 : SlotKept r s2 s3 x) : SlotKept r s1 s3 x := by
  intro nd hnd
  obtain ⟨nd2, hnd2, a1, a2, a3, a4, a5⟩ := h12 nd hnd
  obtain ⟨nd3, hnd3, b1, b2, b3, b4, b5⟩ := h23 nd2 hnd2
  exact ⟨nd3, hnd3, b1.trans a1, b2.trans a2, b3.trans a3, b4.trans a4,
    fun hx => (b5 hx).trans (a5 hx)⟩

/-- A valid handle stays valid as long as its slot is kept. -/
theorem SlotKept.valid {r : Nat} {s s' : Scene} (hnode : Nat)
    (h : SlotKept r s s' (hnode &&& 0xffff)) (hv : IsValidNode s hnode = true) :
    IsValidNode s' hnode = true := by
  rw [IsValidNode_eq_true_iff] at hv ⊢
  obtain ⟨nd, hnd, hver, hidx⟩ := hv
  obtain ⟨nd', hnd', h1, h2, _⟩ := h nd hnd
  exact ⟨nd', hnd', h1.trans hver, h2.trans hidx⟩

theorem SlotKept.parentIdx {r : Nat} {s s' : Scene} {x : Nat} (h : SlotKept r s s' x)
    (q : Nat) (hq : parentIdx s x = some q) : parentIdx s' x = some q := by
  unfold dmGui.parentIdx at hq ⊢
  cases hnd : s.m_Nodes[x]? with
  | none => rw [hnd] at hq; cases hq
  | some nd =>
    rw [hnd] at hq
    obtain ⟨nd', hnd', _, _, _, h4, _⟩ := h nd hnd
    rw [hnd']
    simp only [Option.map_some', Option.some.injEq] at hq ⊢
    exact h4.trans hq

/-! ### Walks along a chain -/

theorem lastOfChain_out (L : List Nat) (r : Nat) (s : Scene) (ho : Outside L r s) :
    ∀ (fuel i : Nat), i ∉ L → lastOfChain fuel s i ∉ L := by
  intro fuel
  induction fuel with
  | zero => intro i hi; exact hi
  | succ fuel ih =>
    intro i hi
    unfold lastOfChain
    cases hnd : s.m_Nodes[i]? with
    | none => exact hi
    | some nd =>
      simp only
      by_cases hnx : nd.m_NextIndex = INVALID_INDEX
      · rw [if_pos hnx]; exact hi
      · rw [if_neg hnx]
        exact ih _ (ho.next_out i nd hi hnd)

theorem prevInChain_out (L : List Nat) (r : Nat) (s : Scene) (ho : Outside L r s) (n : Nat) :
    ∀ (fuel i q : Nat), i ∉ L → prevInChain fuel s i n = some q → q ∉ L := by
  intro fuel
  induction fuel with
  | zero => intro i q _ h; simp [prevInChain] at h
  | succ fuel ih =>
    intro i q hi h
    unfold prevInChain at h
    by_cases hinv : i = INVALID_INDEX
    · rw [if_pos hinv] at h; cases h
    · rw [if_neg hinv] at h
      cases hnd : s.m_Nodes[i]? with
      | none => rw [hnd] at h; cases h
      | some nd =>
        rw [hnd] at h
        simp only at h
        by_cases hnx : nd.m_NextIndex = n
        · rw [if_pos hnx] at h
          cases h
          exact hi
        · rw [if_neg hnx] at h
          exact ih _ q (ho.next_out i nd hi hnd) h

/-! ### Insertion into and removal from a chain -/

theorem setChainHead_relinked (L : List Nat) (r n p : Nat) (s : Scene) (q v : Nat)
    (hv : v ∉ L) (hqr : q = INVALID_INDEX ∨ q ≠ r) :
    Relinked L r n p s (setChainHead s q v) := by
  unfold setChainHead
  by_cases hq : q = INVALID_INDEX
  · rw [if_pos hq]
    exact Relinked.of_renderHead L r n p s v hv
  · rw [if_neg hq]
    apply Relinked.of_modifyNode
    intro x
    rcases hqr with hqr | hqr
    · exact absurd hqr hq
    · exact ⟨rfl, rfl, rfl, rfl, Or.inl rfl, Or.inr ⟨hqr, hv⟩, Or.inl rfl⟩

theorem setChainHead_frame (L : List Nat) (s : Scene) (q v : Nat)
    (hq : q = INVALID_INDEX ∨ q ∉ L) :
    ∀ m ∈ L, (setChainHead s q v).m_Nodes[m]? = s.m_Nodes[m]? := by
  intro m hm
  unfold setChainHead
  by_cases hqi : q = INVALID_INDEX
  · rw [if_pos hqi]
  · rw [if_neg hqi]
    rcases hq with hq | hq
    · exact absurd hq hqi
    · exact modifyNode_getElem?_ne s q m _ (fun h => hq (h ▸ hm))

theorem AddToNodeList_relinked (L : List Nat) (r : Nat) (s : Scene) (n p : Nat) (hn : n ∉ L)
    (hinv : INVALID_INDEX ∉ L) (hpr : p = INVALID_INDEX ∨ p ≠ r) :
    Relinked L r n p s (AddToNodeList s n p) := by
  unfold AddToNodeList
  simp only
  refine Relinked.comp ?_ (Relinked.of_modifyNode L r n p _ n _ ?_)
  · by_cases hh : chainHeadOf s p = INVALID_INDEX
    · rw [if_pos hh]
      exact setChainHead_relinked L r n p s p n hn hpr
    · rw [if_neg hh]
      apply Relinked.of_modifyNode
      intro x
      exact ⟨rfl, rfl, rfl, rfl, Or.inr hn, Or.inl rfl, Or.inl rfl⟩
  · intro x
    exact ⟨rfl, rfl, rfl, rfl, Or.inr hinv, Or.inl rfl, Or.inr ⟨rfl, rfl⟩⟩

theorem chainHeadOf_out (L : List Nat) (r : Nat) (s : Scene) (ho : Outside L r s) (q : Nat)
    (hq : q = INVALID_INDEX ∨ (q ∉ L ∧ q ≠ r)) (hinv : INVALID_INDEX ∉ L) :
    chainHeadOf s q ∉ L := by
  unfold chainHeadOf
  by_cases hqi : q = INVALID_INDEX
  · rw [if_pos hqi]; exact ho.head_out
  · rw [if_neg hqi]
    rcases hq with hq | hq
    · exact absurd hq hqi
    · cases hnd : s.m_Nodes[q]? with
      | none => exact hinv
      | some nd => exact ho.child_out q nd hq.1 hq.2 hnd

theorem AddToNodeList_frame (L : List Nat) (r : Nat) (s : Scene) (n p : Nat)
    (ho : Outside L r s) (hn : n ∉ L) (hp : p = INVALID_INDEX ∨ (p ∉ L ∧ p ≠ r))
    (hinv : INVALID_INDEX ∉ L) :
    ∀ m ∈ L, (AddToNodeList s n p).m_Nodes[m]? = s.m_Nodes[m]? := by
  intro m hm
  unfold AddToNodeList
  simp only
  rw [modifyNode_getElem?_ne _ n m _ (fun h => hn (h ▸ hm))]
  by_cases hh : chainHeadOf s p = INVALID_INDEX
  · rw [if_pos hh]
    exact setChainHead_frame L s p n (hp.imp id (fun h => h.1)) m hm
  · rw [if_neg hh]
    have hlast := lastOfChain_out L r s ho s.m_Nodes.length _
      (chainHeadOf_out L r s ho p hp hinv)
    exact modifyNode_getElem?_ne s _ m _ (fun h => hlast (h ▸ hm))

/-- After the insertion the node carries the new parent. -/
theorem AddToNodeList_parent (s : Scene) (n p : Nat) (hn : n < s.m_Nodes.length) :
    parentIdx (AddToNodeList s n p) n = some p := by
  unfold parentIdx AddToNodeList
  simp only
  rw [modifyNode_getElem?_self]
  have hlen : ∀ s1 : Scene, s1.m_Nodes.length = s.m_Nodes.length →
      ∃ x, s1.m_Nodes[n]? = some x := fun s1 h =>
    ⟨s1.m_Nodes[n], List.getElem?_eq_getElem (by omega)⟩
  by_cases hh : chainHeadOf s p = INVALID_INDEX
  · rw [if_pos hh]
    obtain ⟨x, hx⟩ := hlen (setChainHead s p n) (by
      unfold setChainHead
      split_ifs
      · rfl
      · exact modifyNode_length _ _ _)
    rw [hx]; rfl
  · rw [if_neg hh]
    obtain ⟨x, hx⟩ := hlen (modifyNode s (lastOfChain s.m_Nodes.length s (chainHeadOf s p))
      (fun x => { x with m_NextIndex := n })) (modifyNode_length _ _ _)
    rw [hx]; rfl

theorem RemoveFromNodeList_relinked (L : List Nat) (r : Nat) (s : Scene) (n n' p' : Nat)
    (ho : ∀ nd, s.m_Nodes[n]? = some nd → nd.m_NextIndex ∉ L ∧
      (nd.m_ParentIndex = INVALID_INDEX ∨ nd.m_ParentIndex ≠ r))
    (hinv : INVALID_INDEX ∉ L) : Relinked L r n' p' s (RemoveFromNodeList s n) := by
  unfold RemoveFromNodeList
  cases hnd : s.m_Nodes[n]? with
  | none => exact Relinked.same L r n' p' s
  | some nd =>
    simp only
    have hnx := (ho nd hnd).1
    refine Relinked.comp ?_ (Relinked.of_modifyNode L r n' p' _ n _ ?_)
    · by_cases hh : chainHeadOf s nd.m_ParentIndex = n
      · rw [if_pos hh]
        exact setChainHead_relinked L r n' p' s _ _ hnx (ho nd hnd).2
      · rw [if_neg hh]
        cases hprev : prevInChain s.m_Nodes.length s (chainHeadOf s nd.m_ParentIndex) n with
        | none => exact Relinked.same L r n' p' s
        | some q =>
          apply Relinked.of_modifyNode
          intro x
          exact ⟨rfl, rfl, rfl, rfl, Or.inr hnx, Or.inl rfl, Or.inl rfl⟩
    · intro x
      exact ⟨rfl, rfl, rfl, rfl, Or.inr hinv, Or.inl rfl, Or.inl rfl⟩

theorem RemoveFromNodeList_frame (L : List Nat) (r : Nat) (s : Scene) (n : Nat)
    (ho : Outside L r s) (hn : n ∉ L)
    (hp : ∀ nd, s.m_Nodes[n]? = some nd →
      nd.m_ParentIndex = INVALID_INDEX ∨ (nd.m_ParentIndex ∉ L ∧ nd.m_ParentIndex ≠ r))
    (hinv : INVALID_INDEX ∉ L) :
    ∀ m ∈ L, (RemoveFromNodeList s n).m_Nodes[m]? = s.m_Nodes[m]? := by
  intro m hm
  unfold RemoveFromNodeList
  cases hnd : s.m_Nodes[n]? with
  | none => rfl
  | some nd =>
    simp only
    rw [modifyNode_getElem?_ne _ n m _ (fun h => hn (h ▸ hm))]
    have hpar := hp nd hnd
    by_cases hh : chainHeadOf s nd.m_ParentIndex = n
    · rw [if_pos hh]
      exact setChainHead_frame L s _ _ (hpar.imp id (fun h => h.1)) m hm
    · rw [if_neg hh]
      cases hprev : prevInChain s.m_Nodes.length s (chainHeadOf s nd.m_ParentIndex) n with
      | none => rfl
      | some q =>
        have hq := prevInChain_out L r s ho n s.m_Nodes.length _ q
          (chainHeadOf_out L r s ho _ hpar hinv) hprev
        exact modifyNode_getElem?_ne s q m _ (fun h => hq (h ▸ hm))

/-! ### `SetNodeParent` and `CloneNode` under the standing assumptions -/

theorem CloneCtx.inv_out {L : List Nat} {r : Nat} {s : Scene} (ctx : CloneCtx L r s) :
    INVALID_INDEX ∉ L := by
  intro h
  have h1 := ctx.mem_lt _ h
  have h2 := ctx.size
  unfold INVALID_INDEX at h1
  omega

/-- The standing assumptions survive a rewriting of links that leaves the
slots of `L` alone. -/
theorem CloneCtx.of_relinked {L : List Nat} {r n p : Nat} {s s' : Scene}
    (ctx : CloneCtx L r s) (h : Relinked L r n p s s')
    (hframe : ∀ x ∈ L, s'.m_Nodes[x]? = s.m_Nodes[x]?) : CloneCtx L r s' := by
  refine
    { out := h.outside ctx.out
      mem_lt := fun m hm => by rw [h.length_eq]; exact ctx.mem_lt m hm
      pool_out := fun f hf => ctx.pool_out f (by rw [← h.pool_eq]; exact hf)
      pool_root := by rw [h.pool_eq]; exact ctx.pool_root
      pool_nodup := by rw [h.pool_eq]; exact ctx.pool_nodup
      pool_lt := fun f hf => by
        rw [h.length_eq]; exact ctx.pool_lt f (by rw [← h.pool_eq]; exact hf)
      size := by rw [h.length_eq]; exact ctx.size
      ver_lt := ?_
      pool_handle := ?_
      self_index := ?_ }
  · intro m nd' hnd'
    obtain ⟨nd, hnd, hv, _⟩ := h.slot m nd' hnd'
    rw [hv]; exact ctx.ver_lt m nd hnd
  · intro f hf nd' hnd'
    obtain ⟨nd, hnd, hv, _⟩ := h.slot f nd' hnd'
    rw [hv]; exact ctx.pool_handle f (by rw [← h.pool_eq]; exact hf) nd hnd
  · intro m hm nd' hnd'
    rw [hframe m hm] at hnd'
    exact ctx.self_index m hm nd' hnd'

/-- Taking a node out of its chain and putting it at the top of another one
rewrites links only, provided neither the node nor its old and new parents
belong to `L` or are `r`. -/
theorem reparent_relinked (L : List Nat) (r : Nat) (s : Scene) (f p : Nat)
    (ho : Outside L r s) (hinv : INVALID_INDEX ∉ L) (hf : f ∉ L)
    (hold : ∀ nd, s.m_Nodes[f]? = some nd →
      nd.m_ParentIndex = INVALID_INDEX ∨ nd.m_ParentIndex ≠ r)
    (hp : p = INVALID_INDEX ∨ p ≠ r) :
    Relinked L r f p s (AddToNodeList (RemoveFromNodeList s f) f p) := by
  refine Relinked.comp (RemoveFromNodeList_relinked L r s f f p ?_ hinv)
    (AddToNodeList_relinked L r _ f p hf hinv hp)
  intro nd hnd
  exact ⟨ho.next_out f nd hf hnd, hold nd hnd⟩

theorem reparent_frame (L : List Nat) (r : Nat) (s : Scene) (f p : Nat)
    (ho : Outside L r s) (hinv : INVALID_INDEX ∉ L) (hf : f ∉ L)
    (hold : ∀ nd, s.m_Nodes[f]? = some nd →
      nd.m_ParentIndex = INVALID_INDEX ∨ (nd.m_ParentIndex ∉ L ∧ nd.m_ParentIndex ≠ r))
    (hp : p = INVALID_INDEX ∨ (p ∉ L ∧ p ≠ r)) :
    ∀ x ∈ L, (AddToNodeList (RemoveFromNodeList s f) f p).m_Nodes[x]? = s.m_Nodes[x]? := by
  intro x hx
  have hrel := RemoveFromNodeList_relinked L r s f f p
    (fun nd hnd => ⟨ho.next_out f nd hf hnd, (hold nd hnd).imp id (fun h => h.2)⟩) hinv
  rw [AddToNodeList_frame L r _ f p (hrel.outside ho) hf hp hinv x hx]
  exact RemoveFromNodeList_frame L r s f ho hf hold hinv x hx

theorem setChainHead_length (s : Scene) (q v : Nat) :
    (setChainHead s q v).m_Nodes.length = s.m_Nodes.length := by
  unfold setChainHead
  split_ifs
  · rfl
  · exact modifyNode_length _ _ _

theorem RemoveFromNodeList_length (s : Scene) (n : Nat) :
    (RemoveFromNodeList s n).m_Nodes.length = s.m_Nodes.length := by
  unfold RemoveFromNodeList
  cases hnd : s.m_Nodes[n]? with
  | none => rfl
  | some nd =>
    simp only
    rw [modifyNode_length]
    split_ifs
    · exact setChainHead_length _ _ _
    · cases prevInChain s.m_Nodes.length s (chainHeadOf s nd.m_ParentIndex) n with
      | none => rfl
      | some q => exact modifyNode_length _ _ _

theorem reparent_parent (s : Scene) (f p : Nat) (hf : f < s.m_Nodes.length) :
    parentIdx (AddToNodeList (RemoveFromNodeList s f) f p) f = some p := by
  apply AddToNodeList_parent
  rw [RemoveFromNodeList_length]
  exact hf

theorem GetNode_eq (s : Scene) (h : Nat) : GetNode s h = h &&& 0xffff := by
  unfold GetNode
  exact slotIndex_mod h

/-- With a valid node, a valid parent other than `INVALID_HANDLE` and no
cycle in sight, `SetNodeParent` moves the node to the top of the child chain
of the parent. -/
theorem SetNodeParent_eq (s : Scene) (node parent : Nat)
    (hnode : IsValidNode s node = true) (hparent : IsValidNode s parent = true)
    (hne : parent ≠ INVALID_HANDLE)
    (hanc : isAncestorOrSelf (s.m_Nodes.length + 1) s (node &&& 0xffff) (parent &&& 0xffff)
      = false) :
    SetNodeParent s node parent =
      (Result.RESULT_OK,
        AddToNodeList (RemoveFromNodeList s (node &&& 0xffff)) (node &&& 0xffff)
          (parent &&& 0xffff)) := by
  unfold SetNodeParent
  simp only [hnode, hparent, if_true, if_neg hne, GetNode_eq, hanc, Bool.false_eq_true, if_false]

/-- With a valid node and `INVALID_HANDLE` as the parent, `SetNodeParent`
moves the node to the top of the render chain. -/
theorem SetNodeParent_none (s : Scene) (node : Nat) (hnode : IsValidNode s node = true) :
    SetNodeParent s node INVALID_HANDLE =
      (Result.RESULT_OK,
        AddToNodeList (RemoveFromNodeList s (node &&& 0xffff)) (node &&& 0xffff)
          INVALID_INDEX) := by
  unfold SetNodeParent
  simp only [hnode, if_true, GetNode_eq]

/-- The ancestor walk from a slot that has no parent and is not the node
itself finds nothing. -/
theorem isAncestorOrSelf_top (s : Scene) (n q : Nat) (fuel : Nat) (hq : q ≠ n)
    (hpar : parentIdx s q = some INVALID_INDEX) :
    isAncestorOrSelf (fuel + 2) s n q = false := by
  unfold parentIdx at hpar
  cases hnd : s.m_Nodes[q]? with
  | none => rw [hnd] at hpar; cases hpar
  | some nd =>
    rw [hnd] at hpar
    simp only [Option.map_some', Option.some.injEq] at hpar
    unfold isAncestorOrSelf
    by_cases hqi : q = INVALID_INDEX
    · rw [if_pos hqi]
    · rw [if_neg hqi, if_neg hq, hnd]
      simp only [hpar]
      unfold isAncestorOrSelf
      rw [if_pos rfl]

theorem IsValidNode_slot (s : Scene) (h : Nat) (hv : IsValidNode s h = true) :
    ∃ nd, s.m_Nodes[h &&& 0xffff]? = some nd ∧ (h &&& 0xffff) < s.m_Nodes.length := by
  rw [IsValidNode_eq_true_iff] at hv
  obtain ⟨nd, hnd, _, _⟩ := hv
  exact ⟨nd, hnd, getElem?_lt _ _ _ hnd⟩

theorem parentIdx_some (s : Scene) (x q : Nat) (h : parentIdx s x = some q) :
    ∀ nd, s.m_Nodes[x]? = some nd → nd.m_ParentIndex = q := by
  intro nd hnd
  unfold parentIdx at h
  rw [hnd] at h
  simpa using h

/-- The step `SetNodeParent(scene, out_node, parent)` of the cloning loop:
a clone without a parent yet is put under another clone without a parent. -/
theorem attach_step (L : List Nat) (r : Nat) (s : Scene) (ctx : CloneCtx L r s)
    (out ph : Nat)
    (hout : IsValidNode s out = true) (hf : (out &&& 0xffff) ∉ L)
    (hfpar : parentIdx s (out &&& 0xffff) = some INVALID_INDEX)
    (hph : IsValidNode s ph = true) (hne : ph ≠ INVALID_HANDLE)
    (hp : (ph &&& 0xffff) ∉ L) (hpr : (ph &&& 0xffff) ≠ r)
    (hpf : (ph &&& 0xffff) ≠ (out &&& 0xffff))
    (hppar : parentIdx s (ph &&& 0xffff) = some INVALID_INDEX) :
    ∃ s3, SetNodeParent s out ph = (Result.RESULT_OK, s3) ∧ CloneCtx L r s3 ∧
      Relinked L r (out &&& 0xffff) (ph &&& 0xffff) s s3 ∧
      (∀ x ∈ L, s3.m_Nodes[x]? = s.m_Nodes[x]?) ∧
      parentIdx s3 (out &&& 0xffff) = some (ph &&& 0xffff) := by
  obtain ⟨_, _, hflt⟩ := IsValidNode_slot s out hout
  have hanc : isAncestorOrSelf (s.m_Nodes.length + 1) s (out &&& 0xffff) (ph &&& 0xffff)
      = false := by
    have : s.m_Nodes.length + 1 = (s.m_Nodes.length - 1) + 2 := by omega
    rw [this]
    exact isAncestorOrSelf_top s _ _ _ hpf hppar
  refine ⟨_, SetNodeParent_eq s out ph hout hph hne hanc, ?_⟩
  have hold := parentIdx_some s _ _ hfpar
  have hrel := reparent_relinked L r s (out &&& 0xffff) (ph &&& 0xffff) ctx.out ctx.inv_out hf
    (fun nd hnd => Or.inl (hold nd hnd)) (Or.inr hpr)
  have hframe := reparent_frame L r s (out &&& 0xffff) (ph &&& 0xffff) ctx.out ctx.inv_out hf
    (fun nd hnd => Or.inl (hold nd hnd)) (Or.inr ⟨hp, hpr⟩)
  exact ⟨ctx.of_relinked hrel hframe, hrel, hframe, reparent_parent s _ _ hflt⟩

/-- The scene after the allocation in `CloneNode`, before the clone is put
into the render chain. -/
theorem allocated_getElem? (s : Scene) (f : Nat) (fresh : InternalNode) (rest : List Nat)
    (x : Nat) (hx : x ≠ f) :
    ({ s with m_Nodes := s.m_Nodes.set f fresh, m_NodePool := rest } : Scene).m_Nodes[x]?
      = s.m_Nodes[x]? := by
  simp only
  exact List.getElem?_set_ne (Ne.symm hx)

/-- The call `CloneNode` in the cloning loop when a slot is free. -/
theorem CloneNode_ok (L : List Nat) (r : Nat) (s : Scene) (ctx : CloneCtx L r s)
    (m : Nat) (nd : InternalNode) (hnd : s.m_Nodes[m]? = some nd) (hidx : nd.m_Index = m)
    (f : Nat) (rest : List Nat) (hpool : s.m_NodePool = f :: rest) :
    ∃ s1 out, CloneNode s (GetNodeHandle nd) = (Result.RESULT_OK, s1, out) ∧
      CloneCtx L r s1 ∧ s1.m_NodePool = rest ∧
      (∀ x ∈ L, s1.m_Nodes[x]? = s.m_Nodes[x]?) ∧
      IsValidNode s1 out = true ∧ out ≠ INVALID_HANDLE ∧ out &&& 0xffff = f ∧
      parentIdx s1 f = some INVALID_INDEX ∧
      (∀ x, x ≠ f → SlotKept r s s1 x) ∧ out = slotHandle s f ∧
      s1.m_Nodes.length = s.m_Nodes.length := by
  have hmlt : m < s.m_Nodes.length := getElem?_lt _ _ _ hnd
  have hsize := ctx.size
  have hfmem : f ∈ s.m_NodePool := by rw [hpool]; exact List.mem_cons_self _ _
  have hflt : f < s.m_Nodes.length := ctx.pool_lt f hfmem
  have hfL : f ∉ L := ctx.pool_out f hfmem
  obtain ⟨old, hold⟩ : ∃ old, s.m_Nodes[f]? = some old :=
    ⟨s.m_Nodes[f], List.getElem?_eq_getElem hflt⟩
  have hvlt := ctx.ver_lt m nd hnd
  have hvalid : IsValidNode s (GetNodeHandle nd) = true :=
    IsValidNode_GetNodeHandle s m nd hnd hvlt hidx (by omega)
  have hslot : GetNode s (GetNodeHandle nd) = m := by
    rw [GetNode_eq, GetNodeHandle_slot nd hvlt (by omega), hidx]
  have hinv := ctx.inv_out
  -- the scene right after the allocation
  let sA : Scene :=
    { s with m_Nodes := s.m_Nodes.set f (clonedSlot nd old f), m_NodePool := rest }
  have hA : ∀ x, x ≠ f →
      sA.m_Nodes[x]? = s.m_Nodes[x]? :=
    fun x hx => allocated_getElem? s f _ rest x hx
  have hAf : sA.m_Nodes[f]? = some (clonedSlot nd old f) :=
    List.getElem?_set_self hflt
  have hAout : Outside L r sA := by
    refine { head_out := ctx.out.head_out, next_out := ?_, child_out := ?_ }
    · intro x ndx hx hndx
      by_cases hxf : x = f
      · subst hxf
        rw [hAf] at hndx
        cases hndx
        exact hinv
      · rw [hA x hxf] at hndx
        exact ctx.out.next_out x ndx hx hndx
    · intro x ndx hx hxr hndx
      by_cases hxf : x = f
      · subst hxf
        rw [hAf] at hndx
        cases hndx
        exact hinv
      · rw [hA x hxf] at hndx
        exact ctx.out.child_out x ndx hx hxr hndx
  have hrel := AddToNodeList_relinked L r sA f INVALID_INDEX hfL hinv (Or.inl rfl)
  have hframeA := AddToNodeList_frame L r sA f INVALID_INDEX hAout hfL (Or.inl rfl) hinv
  have hlenA : sA.m_Nodes.length = s.m_Nodes.length := List.length_set _ _ _
  have hpoolA : sA.m_NodePool = rest := rfl
  have hrestsub : ∀ x ∈ rest, x ∈ s.m_NodePool := by
    intro x hx; rw [hpool]; exact List.mem_cons_of_mem _ hx
  have hnodup : (f :: rest).Nodup := by rw [← hpool]; exact ctx.pool_nodup
  have hfrest : f ∉ rest := (List.nodup_cons.mp hnodup).1
  have hframe : ∀ x ∈ L, (AddToNodeList sA f INVALID_INDEX).m_Nodes[x]? = s.m_Nodes[x]? := by
    intro x hx
    rw [hframeA x hx]
    exact hA x (fun h => hfL (h ▸ hx))
  refine ⟨AddToNodeList sA f INVALID_INDEX, GetNodeHandle (clonedSlot nd old f),
    ?_, ?_, ?_, hframe, ?_, ?_, ?_, ?_, ?_, ?_, ?_⟩
  · unfold CloneNode
    simp only [hvalid, if_true, hslot, hnd, hpool, hold]
  · refine
      { out := hrel.outside hAout
        mem_lt := fun x hx => by rw [hrel.length_eq, hlenA]; exact ctx.mem_lt x hx
        pool_out := fun x hx => ctx.pool_out x (hrestsub x (by rw [hrel.pool_eq] at hx; exact hx))
        pool_root := by
          rw [hrel.pool_eq]
          exact fun h => ctx.pool_root (hrestsub r h)
        pool_nodup := by
          rw [hrel.pool_eq]
          exact (List.nodup_cons.mp hnodup).2
        pool_lt := fun x hx => by
          rw [hrel.length_eq, hlenA]
          exact ctx.pool_lt x (hrestsub x (by rw [hrel.pool_eq] at hx; exact hx))
        size := by rw [hrel.length_eq, hlenA]; exact hsize
        ver_lt := ?_
        pool_handle := ?_
        self_index := ?_ }
    · intro x ndx' hndx'
      obtain ⟨ndx, hndx, hv, _⟩ := hrel.slot x ndx' hndx'
      rw [hv]
      by_cases hxf : x = f
      · subst hxf
        rw [hAf] at hndx
        cases hndx
        exact ctx.ver_lt x old hold
      · rw [hA x hxf] at hndx
        exact ctx.ver_lt x ndx hndx
    · intro x hx ndx' hndx'
      rw [hrel.pool_eq] at hx
      have hx' : x ∈ rest := hx
      obtain ⟨ndx, hndx, hv, _⟩ := hrel.slot x ndx' hndx'
      rw [hv]
      have hxf : x ≠ f := fun h => hfrest (h ▸ hx')
      rw [hA x hxf] at hndx
      exact ctx.pool_handle x (hrestsub x hx') ndx hndx
    · intro x hx ndx' hndx'
      rw [hframe x hx] at hndx'
      exact ctx.self_index x hx ndx' hndx'
  · exact hrel.pool_eq.trans hpoolA
  · obtain ⟨nd', hnd', hv, hi, _⟩ := hrel.slot_fwd f _ hAf
    have hv' : nd'.m_Version = old.m_Version := hv
    have hi' : nd'.m_Index = f := hi
    have hver := ctx.ver_lt f old hold
    rw [IsValidNode_eq_true_iff,
      GetNodeHandle_slot (clonedSlot nd old f) hver (by show f < 65536; omega),
      GetNodeHandle_generation (clonedSlot nd old f) hver (by show f < 65536; omega)]
    exact ⟨nd', hnd', hv', hi'⟩
  · have hver := ctx.ver_lt f old hold
    rw [GetNodeHandle_eq (clonedSlot nd old f) hver (by show f < 65536; omega)]
    have := ctx.pool_handle f hfmem old hold
    show 65536 * old.m_Version + f ≠ INVALID_HANDLE
    unfold INVALID_HANDLE
    omega
  · have hver := ctx.ver_lt f old hold
    exact GetNodeHandle_slot (clonedSlot nd old f) hver (by show f < 65536; omega)
  · apply AddToNodeList_parent
    rw [hlenA]; exact hflt
  · intro x hxf
    have hk := hrel.kept x hxf
    intro ndx hndx
    exact hk ndx (by rw [hA x hxf]; exact hndx)
  · unfold slotHandle
    rw [hold]
    rfl
  · rw [hrel.length_eq, hlenA]

/-- The call `CloneNode` when no slot is free. -/
theorem CloneNode_empty (s : Scene) (node : Nat) (hpool : s.m_NodePool = []) :
    (CloneNode s node).1 ≠ Result.RESULT_OK := by
  unfold CloneNode
  by_cases hv : IsValidNode s node = true
  · rw [if_pos hv, hpool]
    cases s.m_Nodes[GetNode s node]? <;> simp
  · rw [if_neg hv]; simp

theorem CloneNode_fail (s : Scene) (node : Nat)
    (h : (CloneNode s node).1 ≠ Result.RESULT_OK) : (CloneNode s node).2.1 = s := by
  unfold CloneNode at h ⊢
  by_cases hv : IsValidNode s node = true
  · rw [if_pos hv] at h ⊢
    cases hsrc : s.m_Nodes[GetNode s node]? with
    | none => simp
    | some src =>
      cases hpool : s.m_NodePool with
      | nil => simp
      | cons f rest =>
        cases hold : s.m_Nodes[f]? with
        | none => simp [hold]
        | some old =>
          rw [hsrc, hpool] at h
          simp [hold] at h
  · rw [if_neg hv]

/-! ### The forest of a chain -/

theorem forestFrom_cases (fuel : Nat) (s : Scene) (i par : Nat) (pairs : List (Nat × Nat))
    (h : forestFrom (fuel + 1) s i par = some pairs) :
    (i = INVALID_INDEX ∧ pairs = []) ∨
    (i ≠ INVALID_INDEX ∧ ∃ nd lc ls, s.m_Nodes[i]? = some nd ∧
      forestFrom fuel s nd.m_ChildHead i = some lc ∧
      forestFrom fuel s nd.m_NextIndex par = some ls ∧ pairs = (i, par) :: lc ++ ls) := by
  unfold forestFrom at h
  by_cases hi : i = INVALID_INDEX
  · rw [if_pos hi] at h
    cases h
    exact Or.inl ⟨hi, rfl⟩
  · rw [if_neg hi] at h
    right
    refine ⟨hi, ?_⟩
    cases hnd : s.m_Nodes[i]? with
    | none => rw [hnd] at h; cases h
    | some nd =>
      rw [hnd] at h
      simp only at h
      cases hlc : forestFrom fuel s nd.m_ChildHead i with
      | none => rw [hlc] at h; cases h
      | some lc =>
        cases hls : forestFrom fuel s nd.m_NextIndex par with
        | none => rw [hlc, hls] at h; cases h
        | some ls =>
          rw [hlc, hls] at h
          cases h
          exact ⟨nd, lc, ls, rfl, hlc, hls, rfl⟩

/-- The forest of a chain is the same in every scene that agrees on its
nodes. -/
theorem forestFrom_frame (s s' : Scene) :
    ∀ (fuel i par : Nat) (pairs : List (Nat × Nat)), forestFrom fuel s i par = some pairs →
      (∀ x ∈ pairs, s'.m_Nodes[x.1]? = s.m_Nodes[x.1]?) →
      forestFrom fuel s' i par = some pairs := by
  intro fuel
  induction fuel with
  | zero => intro i par pairs h; simp [forestFrom] at h
  | succ fuel ih =>
    intro i par pairs h hsame
    rcases forestFrom_cases fuel s i par pairs h with ⟨hi, hp⟩ | ⟨hi, nd, lc, ls, hnd, hlc, hls, hp⟩
    · subst hp
      unfold forestFrom
      rw [if_pos hi]
    · subst hp
      have h1 : s'.m_Nodes[i]? = some nd := by
        rw [hsame (i, par) (List.mem_cons_self _ _)]; exact hnd
      have h2 := ih _ _ lc hlc (fun x hx => hsame x
        (List.mem_cons_of_mem _ (List.mem_append_left _ hx)))
      have h3 := ih _ _ ls hls (fun x hx => hsame x
        (List.mem_cons_of_mem _ (List.mem_append_right _ hx)))
      unfold forestFrom
      rw [if_neg hi, h1]
      simp only [h2, h3]

theorem rawset_keys (t : CloneTable) (k : Nat) (v : NodeProxy) :
    (rawset t k v).map Prod.fst = insertKey (t.map Prod.fst) k := by
  unfold rawset insertKey
  simp only [List.map_cons, List.cons.injEq, true_and]
  induction t with
  | nil => rfl
  | cons e t ih =>
    simp only [List.filter_cons, List.map_cons]
    by_cases he : e.1 = k
    · simp [he, ih]
    · simp [he, ih]

theorem nameHashOf_frame (s s' : Scene) (x : Nat) (h : s'.m_Nodes[x]? = s.m_Nodes[x]?) :
    nameHashOf s' x = nameHashOf s x := by
  unfold nameHashOf
  rw [h]

/-! ### The cloning loop -/

theorem slotHandle_kept (r : Nat) (s s' : Scene) (y : Nat) (h : SlotKept r s s' y)
    (hy : y < s.m_Nodes.length) : slotHandle s' y = slotHandle s y := by
  obtain ⟨nd, hnd⟩ : ∃ nd, s.m_Nodes[y]? = some nd :=
    ⟨s.m_Nodes[y], List.getElem?_eq_getElem hy⟩
  obtain ⟨nd', hnd', hv, _⟩ := h nd hnd
  unfold slotHandle
  simp only [hnd, hnd', hv]

theorem cloneEntries_congr (addr : Nat) (c : Nat → Nat) (s s' : Scene)
    (pairs : List (Nat × Nat))
    (h : ∀ x ∈ pairs, nameHashOf s' x.1 = nameHashOf s x.1 ∧
      slotHandle s' (c x.1) = slotHandle s (c x.1)) :
    cloneEntries addr c s' pairs = cloneEntries addr c s pairs := by
  unfold cloneEntries
  apply List.map_congr_left
  intro x hx
  rw [(h x hx).1, (h x hx).2]

theorem CloneNodeListToTable_end (addr fuel : Nat) (s : Scene) (t : CloneTable) (ph : Nat) :
    CloneNodeListToTable addr (fuel + 1) s t INVALID_INDEX ph
      = some (LuaResult.ok (Result.RESULT_OK, s, t)) := by
  unfold CloneNodeListToTable
  simp

/-- The run of `CloneNodeListToTable` over a chain of nodes of `L` with enough
fuel for its forest ends, and when it ends with `RESULT_OK` it has cloned
the forest as `ClonedForest` says.  The parent handle `ph` is a clone that
has no parent yet. -/
theorem cloneList_spec (addr : Nat) (L : List Nat) (r : Nat) (c : Nat → Nat) :
    ∀ (fuel : Nat) (s : Scene) (table : CloneTable) (idx par ph : Nat)
      (pairs : List (Nat × Nat)),
      CloneCtx L r s →
      forestFrom fuel s idx par = some pairs →
      (∀ x ∈ pairs, x.1 ∈ L) →
      IsValidNode s ph = true → ph ≠ INVALID_HANDLE →
      (ph &&& 0xffff) ∉ L → (ph &&& 0xffff) ≠ r → (ph &&& 0xffff) ∉ s.m_NodePool →
      parentIdx s (ph &&& 0xffff) = some INVALID_INDEX →
      c par = ph &&& 0xffff →
      (∀ (k : Nat) (x : Nat × Nat) (f : Nat),
        pairs[k]? = some x → s.m_NodePool[k]? = some f → c x.1 = f) →
      ∃ out, CloneNodeListToTable addr fuel s table idx ph = some out ∧
        ∀ s' table', out = LuaResult.ok (Result.RESULT_OK, s', table') →
          ClonedForest addr L r c s pairs table s' table' := by
  intro fuel
  induction fuel with
  | zero => intro s table idx par ph pairs _ h; simp [forestFrom] at h
  | succ fuel ih =>
    intro s table idx par ph pairs ctx hforest hL hph hne hpL hpr hppool hppar hcpar hc
    rcases forestFrom_cases fuel s idx par pairs hforest with
      ⟨hi, hp⟩ | ⟨hi, nd, lc, ls, hnd, hlc, hls, hp⟩
    · subst hp; subst hi
      refine ⟨_, CloneNodeListToTable_end addr fuel s table ph, ?_⟩
      intro s' table' h
      simp only [LuaResult.ok.injEq, Prod.mk.injEq, true_and] at h
      obtain ⟨h1, h2⟩ := h
      subst h1; subst h2
      exact
        { ctx := ctx
          pool := by simp
          length_eq := rfl
          frame := fun _ _ => rfl
          kept := fun x _ => SlotKept.refl r s x
          parents := fun x hx => by cases hx
          entries := rfl }
    · subst hp
      have hidxL : idx ∈ L := hL (idx, par) (List.mem_cons_self _ _)
      unfold CloneNodeListToTable
      rw [if_pos hi]
      unfold CloneNodeToTable
      simp only [hnd]
      cases hpool : s.m_NodePool with
      | nil =>
        have hfail := CloneNode_empty s (GetNodeHandle nd) hpool
        have hsame := CloneNode_fail s (GetNodeHandle nd) hfail
        rw [if_neg hfail]
        simp only [if_neg hfail, hsame, hnd]
        refine ⟨_, rfl, ?_⟩
        intro s' table' h
        simp only [LuaResult.ok.injEq, Prod.mk.injEq] at h
        exact absurd h.1 hfail
      | cons f rest =>
        obtain ⟨s1, out, hclone, ctx1, hpool1, hframe1, hvout, hout0, houtf, hfpar, hkept1,
            houth, hlen1⟩ :=
          CloneNode_ok L r s ctx idx nd hnd (ctx.self_index idx hidxL nd hnd) f rest hpool
        rw [hclone]
        simp only [if_true]
        have hnd1 : s1.m_Nodes[idx]? = some nd := by rw [hframe1 idx hidxL]; exact hnd
        rw [hnd1]
        simp only
        -- facts about the free list
        have hfmem : f ∈ s.m_NodePool := by rw [hpool]; exact List.mem_cons_self _ _
        have hnodup : (f :: rest).Nodup := by rw [← hpool]; exact ctx.pool_nodup
        have hfrest : f ∉ rest := (List.nodup_cons.mp hnodup).1
        have hrestnodup : rest.Nodup := (List.nodup_cons.mp hnodup).2
        have hfL : f ∉ L := ctx.pool_out f hfmem
        have hfr : f ≠ r := fun h => ctx.pool_root (h ▸ hfmem)
        have hpf : (ph &&& 0xffff) ≠ f := fun h => hppool (h ▸ hfmem)
        have hprest : (ph &&& 0xffff) ∉ rest := fun h =>
          hppool (by rw [hpool]; exact List.mem_cons_of_mem _ h)
        have hc0 : c idx = f := hc 0 (idx, par) f (by simp) (by rw [hpool]; simp)
        have hlcL : ∀ x ∈ lc, x.1 ∈ L := fun x hx =>
          hL x (List.mem_cons_of_mem _ (List.mem_append_left _ hx))
        have hlsL : ∀ x ∈ ls, x.1 ∈ L := fun x hx =>
          hL x (List.mem_cons_of_mem _ (List.mem_append_right _ hx))
        -- the children
        have hlc1 : forestFrom fuel s1 nd.m_ChildHead idx = some lc :=
          forestFrom_frame s s1 fuel _ _ lc hlc (fun x hx => hframe1 x.1 (hlcL x hx))
        have hclc : ∀ (k : Nat) (x : Nat × Nat) (f' : Nat),
            lc[k]? = some x → s1.m_NodePool[k]? = some f' → c x.1 = f' := by
          intro k x f' hx hf'
          have hk : k < lc.length := getElem?_lt _ _ _ hx
          apply hc (k + 1) x f'
          · rw [List.cons_append, List.getElem?_cons_succ, List.getElem?_append_left hk]
            exact hx
          · rw [hpool, List.getElem?_cons_succ, ← hpool1]; exact hf'
        obtain ⟨out2, hcall2, hspec2⟩ := ih s1
          (rawset table nd.m_NameHash { m_Scene := addr, m_Node := out }) nd.m_ChildHead idx out lc
          ctx1 hlc1 hlcL hvout hout0 (by rw [houtf]; exact hfL) (by rw [houtf]; exact hfr)
          (by rw [houtf, hpool1]; exact hfrest) (by rw [houtf]; exact hfpar)
          (by rw [houtf]; exact hc0) hclc
        rw [hcall2]
        cases out2 with
        | error e =>
          refine ⟨_, rfl, ?_⟩
          intro s' table' h
          cases h
        | abort =>
          refine ⟨_, rfl, ?_⟩
          intro s' table' h
          cases h
        | ok r2 =>
          obtain ⟨res2, s2, table2⟩ := r2
          simp only
          by_cases hres2 : res2 = Result.RESULT_OK
          · subst hres2
            simp only [if_true]
            have post2 := hspec2 s2 table2 rfl
            have hpool2 : rest = lc.map (fun x => c x.1) ++ s2.m_NodePool := by
              rw [← hpool1]; exact post2.pool
            have hf2 : f ∉ lc.map (fun x => c x.1) := fun h =>
              hfrest (by rw [hpool2]; exact List.mem_append_left _ h)
            have hp2 : (ph &&& 0xffff) ∉ lc.map (fun x => c x.1) := fun h =>
              hprest (by rw [hpool2]; exact List.mem_append_left _ h)
            have hkeptp1 : SlotKept r s s1 (ph &&& 0xffff) := hkept1 _ hpf
            have hkeptp2 : SlotKept r s1 s2 (ph &&& 0xffff) := post2.kept _ hp2
            have hkeptf2 : SlotKept r s1 s2 f := post2.kept _ hf2
            obtain ⟨s3, hset, ctx3, hrel3, hframe3, hpar3⟩ := attach_step L r s2 post2.ctx out ph
              (SlotKept.valid out (by rw [houtf]; exact hkeptf2) hvout)
              (by rw [houtf]; exact hfL)
              (by rw [houtf]; exact hkeptf2.parentIdx _ hfpar)
              (SlotKept.valid ph (hkeptp1.trans hkeptp2) hph) hne hpL hpr
              (by rw [houtf]; exact hpf)
              ((hkeptp1.trans hkeptp2).parentIdx _ hppar)
            rw [houtf] at hrel3 hpar3
            rw [hset]
            simp only
            have hnd3 : s3.m_Nodes[idx]? = some nd := by
              rw [hframe3 idx hidxL, post2.frame idx hidxL]; exact hnd1
            rw [hnd3]
            simp only
            -- the rest of the chain
            have hframe03 : ∀ x ∈ L, s3.m_Nodes[x]? = s.m_Nodes[x]? := fun x hx => by
              rw [hframe3 x hx, post2.frame x hx, hframe1 x hx]
            have hls3 : forestFrom fuel s3 nd.m_NextIndex par = some ls :=
              forestFrom_frame s s3 fuel _ _ ls hls (fun x hx => hframe03 x.1 (hlsL x hx))
            have hpool3 : s3.m_NodePool = s2.m_NodePool := hrel3.pool_eq
            have hcls : ∀ (k : Nat) (x : Nat × Nat) (f' : Nat),
                ls[k]? = some x → s3.m_NodePool[k]? = some f' → c x.1 = f' := by
              intro k x f' hx hf'
              apply hc (lc.length + k + 1) x f'
              · rw [List.cons_append, List.getElem?_cons_succ,
                  List.getElem?_append_right (by omega)]
                have : lc.length + k - lc.length = k := by omega
                rw [this]; exact hx
              · rw [hpool, List.getElem?_cons_succ, hpool2,
                  List.getElem?_append_right (by simp)]
                have : lc.length + k - (lc.map (fun x => c x.1)).length = k := by simp
                rw [this, ← hpool3]; exact hf'
            have hkeptp3 : SlotKept r s2 s3 (ph &&& 0xffff) := hrel3.kept _ hpf
            have hp3pool : (ph &&& 0xffff) ∉ s3.m_NodePool := fun h =>
              hprest (by rw [hpool2]; exact List.mem_append_right _ (hpool3 ▸ h))
            obtain ⟨out3, hcall3, hspec3⟩ := ih s3 table2 nd.m_NextIndex par ph ls
              ctx3 hls3 hlsL
              (SlotKept.valid ph ((hkeptp1.trans hkeptp2).trans hkeptp3) hph) hne hpL hpr hp3pool
              (((hkeptp1.trans hkeptp2).trans hkeptp3).parentIdx _ hppar) hcpar hcls
            refine ⟨out3, hcall3, ?_⟩
            intro s' table' hout3
            have post3 := hspec3 s' table' hout3
            have hpoolall : rest = lc.map (fun x => c x.1) ++
                (ls.map (fun x => c x.1) ++ s'.m_NodePool) := by
              rw [hpool2, ← hpool3, post3.pool]
            have hdisj : ∀ x, x ∈ lc.map (fun x => c x.1) → x ∉ ls.map (fun x => c x.1) := by
              intro x hx1 hx2
              rw [hpoolall] at hrestnodup
              exact (List.nodup_append.mp hrestnodup).2.2 hx1 (List.mem_append_left _ hx2)
            have hf3 : f ∉ ls.map (fun x => c x.1) := fun h =>
              hfrest (by
                rw [hpoolall]
                exact List.mem_append_right _ (List.mem_append_left _ h))
            refine
              { ctx := post3.ctx
                pool := ?_
                length_eq := by
                  rw [post3.length_eq, hrel3.length_eq, post2.length_eq, hlen1]
                frame := fun x hx => by rw [post3.frame x hx, hframe03 x hx]
                kept := ?_
                parents := ?_
                entries := ?_ }
            · rw [hpool, hpoolall]
              simp [hc0]
            · intro x hx
              have hxf : x ≠ f := by
                intro h
                apply hx
                rw [h, ← hc0]
                simp
              have hxlc : x ∉ lc.map (fun x => c x.1) := fun h => hx (by
                simp only [List.cons_append, List.map_cons, List.map_append]
                exact List.mem_cons_of_mem _ (List.mem_append_left _ h))
              have hxls : x ∉ ls.map (fun x => c x.1) := fun h => hx (by
                simp only [List.cons_append, List.map_cons, List.map_append]
                exact List.mem_cons_of_mem _ (List.mem_append_right _ h))
              exact (((hkept1 x hxf).trans (post2.kept x hxlc)).trans (hrel3.kept x hxf)).trans
                (post3.kept x hxls)
            · intro x hx
              rcases List.mem_cons.mp hx with hx | hx
              · subst hx
                simp only
                rw [hc0, hcpar]
                exact (post3.kept f hf3).parentIdx _ hpar3
              · rcases List.mem_append.mp hx with hx | hx
                · have hcx : c x.1 ∈ lc.map (fun x => c x.1) := List.mem_map_of_mem _ hx
                  have hcxf : c x.1 ≠ f := fun h => hf2 (h ▸ hcx)
                  exact ((hrel3.kept _ hcxf).trans (post3.kept _ (hdisj _ hcx))).parentIdx _
                    (post2.parents x hx)
                · exact post3.parents x hx
            · rw [post3.entries, post2.entries]
              have hsub : ∀ y, y ∈ rest → y < s.m_Nodes.length := fun y hy =>
                ctx.pool_lt y (by rw [hpool]; exact List.mem_cons_of_mem _ hy)
              have e1 : cloneEntries addr c s1 lc = cloneEntries addr c s lc := by
                apply cloneEntries_congr
                intro x hx
                have hcx : c x.1 ∈ lc.map (fun x => c x.1) := List.mem_map_of_mem _ hx
                have hcxf : c x.1 ≠ f := fun h => hf2 (h ▸ hcx)
                exact ⟨nameHashOf_frame s s1 x.1 (hframe1 x.1 (hlcL x hx)),
                  slotHandle_kept r s s1 _ (hkept1 _ hcxf)
                    (hsub _ (by rw [hpool2]; exact List.mem_append_left _ hcx))⟩
              have e3 : cloneEntries addr c s3 ls = cloneEntries addr c s ls := by
                apply cloneEntries_congr
                intro x hx
                have hcx : c x.1 ∈ ls.map (fun x => c x.1) := List.mem_map_of_mem _ hx
                have hcxf : c x.1 ≠ f := fun h => hf3 (h ▸ hcx)
                have hcxlc : c x.1 ∉ lc.map (fun x => c x.1) := fun h => hdisj _ h hcx
                exact ⟨nameHashOf_frame s s3 x.1 (hframe03 x.1 (hlsL x hx)),
                  slotHandle_kept r s s3 _
                    (((hkept1 _ hcxf).trans (post2.kept _ hcxlc)).trans (hrel3.kept _ hcxf))
                    (hsub _ (by
                      rw [hpoolall]
                      exact List.mem_append_right _ (List.mem_append_left _ hcx)))⟩
              have h0 : nameHashOf s idx = nd.m_NameHash := by
                unfold nameHashOf; rw [hnd]
              rw [e1, e3]
              unfold rawsetAll cloneEntries
              simp only [List.cons_append, List.map_cons, List.map_append, List.foldl_cons,
                List.foldl_append, h0, hc0, houth]
          · simp only [if_neg hres2]
            cases s2.m_Nodes[idx]? with
            | none =>
              refine ⟨_, rfl, ?_⟩
              intro s' table' h
              cases h
            | some node =>
              refine ⟨_, rfl, ?_⟩
              intro s' table' h
              simp only [LuaResult.ok.injEq, Prod.mk.injEq] at h
              exact absurd h.1 hres2

/-! ### `gui.clone_tree` on a root node -/

theorem cloneSlotOf_getElem? :
    ∀ (nodes pool : List Nat) (k n f : Nat), nodes.Nodup → nodes[k]? = some n →
      pool[k]? = some f → cloneSlotOf nodes pool n = f := by
  intro nodes
  induction nodes with
  | nil => intro pool k n f _ h; simp at h
  | cons a nodes ih =>
    intro pool k n f hnd hn hf
    cases pool with
    | nil => simp at hf
    | cons g pool =>
      cases k with
      | zero =>
        simp only [List.getElem?_cons_zero, Option.some.injEq] at hn hf
        subst hn; subst hf
        simp [cloneSlotOf]
      | succ k =>
        simp only [List.getElem?_cons_succ] at hn hf
        have hmem : n ∈ nodes := List.getElem?_mem hn
        have hna : n ≠ a := fun h => (List.nodup_cons.mp hnd).1 (h ▸ hmem)
        simp only [cloneSlotOf, if_neg hna]
        exact ih pool k n f (List.nodup_cons.mp hnd).2 hn hf

theorem luaArg_cons_one (v : LuaValue) (rest extra : List LuaValue) :
    luaArg ((v :: rest) ++ extra) 1 = v := by
  simp [luaArg]

/-- What a successful `gui.clone_tree(root)` has gone through: the clone of
the root took the first free slot, the loop over the children ran to the
end as `ClonedForest` says, and the clone of the root was handed to
`SetNodeParent` with the handle of the parent of the root. -/
theorem cloneTree_run (fuel : Nat) (w w' : World) (np : NodeProxy) (rest : List LuaValue)
    (table : CloneTable) (rd : InternalNode) (pairs : List (Nat × Nat))
    (hs : w.m_Instance = some np.m_Scene)
    (hv : IsValidNode w.scene np.m_Node = true)
    (hrd : w.scene.m_Nodes[np.m_Node &&& 0xffff]? = some rd)
    (hforest : forestFrom fuel w.scene rd.m_ChildHead (np.m_Node &&& 0xffff) = some pairs)
    (ctx : CloneCtx (pairs.map Prod.fst) (np.m_Node &&& 0xffff) w.scene)
    (hnodup : ((np.m_Node &&& 0xffff) :: pairs.map Prod.fst).Nodup)
    (hrun : LuaCloneTree fuel w (LuaValue.node np :: rest) = some (w', LuaResult.ok table)) :
    ∃ f0 pool s1 s2 ph,
      w.scene.m_NodePool = f0 :: pool ∧
      CloneCtx (pairs.map Prod.fst) (np.m_Node &&& 0xffff) s1 ∧
      s1.m_NodePool = pool ∧ s1.m_Nodes.length = w.scene.m_Nodes.length ∧
      IsValidNode s1 (slotHandle w.scene f0) = true ∧
      slotHandle w.scene f0 &&& 0xffff = f0 ∧
      parentIdx s1 f0 = some INVALID_INDEX ∧
      (∀ x, x ≠ f0 → SlotKept (np.m_Node &&& 0xffff) w.scene s1 x) ∧
      ClonedForest np.m_Scene (pairs.map Prod.fst) (np.m_Node &&& 0xffff)
        (cloneSlotOf ((np.m_Node &&& 0xffff) :: pairs.map Prod.fst) w.scene.m_NodePool)
        s1 pairs (rawset [] rd.m_NameHash
          { m_Scene := np.m_Scene, m_Node := slotHandle w.scene f0 }) s2 table ∧
      rootParentHandle s2 (np.m_Node &&& 0xffff) = some ph ∧
      w' = { w with scene := (SetNodeParent s2 (slotHandle w.scene f0) ph).2 } := by
  have hidx : rd.m_Index = np.m_Node &&& 0xffff := by
    rw [IsValidNode_eq_true_iff] at hv
    obtain ⟨m, hm, _, hi⟩ := hv
    rw [hrd] at hm
    cases hm
    exact hi
  have hcheck : LuaCheckNode w ((LuaValue.node np :: rest) ++ [LuaValue.table 0]) 1
      = LuaResult.ok (np.m_Node &&& 0xffff, np.m_Node) := by
    rw [LuaCheckNode_node w _ 1 np (luaArg_cons_one _ _ _)]
    simp [hs, hv]
  unfold LuaCloneTree at hrun
  simp only [GuiScriptInstance_Check, hs, luaArg_cons_one, ne_eq, reduceCtorEq,
    not_false_eq_true, if_true, hcheck] at hrun
  unfold CloneNodeToTable at hrun
  simp only [hrd] at hrun
  cases hpool : w.scene.m_NodePool with
  | nil =>
    have hfail := CloneNode_empty w.scene (GetNodeHandle rd) hpool
    simp only [if_neg hfail] at hrun
    simp only [Option.some.injEq, Prod.mk.injEq] at hrun
    exfalso
    generalize (CloneNode w.scene (GetNodeHandle rd)).1 = res at hfail hrun
    revert hrun
    unfold cloneTreeReturn
    cases res <;> simp at hfail ⊢
  | cons f0 pool =>
    obtain ⟨s1, out, hclone, ctx1, hpool1, hframe1, hvout, hout0, houtf, hfpar, hkept1, houth,
        hlen1⟩ :=
      CloneNode_ok _ _ w.scene ctx _ rd hrd hidx f0 pool hpool
    have hf0mem : f0 ∈ w.scene.m_NodePool := by rw [hpool]; exact List.mem_cons_self _ _
    have hrootf : (np.m_Node &&& 0xffff) ≠ f0 := fun h => ctx.pool_root (h ▸ hf0mem)
    obtain ⟨rd1, hrd1, _, _, hhash1, hpar1, hchild1⟩ := hkept1 _ hrootf rd hrd
    have hnodupP : (f0 :: pool).Nodup := by rw [← hpool]; exact ctx.pool_nodup
    rw [hclone] at hrun
    simp only [if_true, hrd1, hhash1, hchild1 rfl] at hrun
    have hL : ∀ x ∈ pairs, x.1 ∈ pairs.map Prod.fst := fun x hx => List.mem_map_of_mem _ hx
    have hforest1 : forestFrom fuel s1 rd.m_ChildHead (np.m_Node &&& 0xffff) = some pairs :=
      forestFrom_frame w.scene s1 fuel _ _ pairs hforest (fun x hx => hframe1 x.1 (hL x hx))
    have hc : ∀ (k : Nat) (x : Nat × Nat) (f : Nat), pairs[k]? = some x →
        s1.m_NodePool[k]? = some f →
        cloneSlotOf ((np.m_Node &&& 0xffff) :: pairs.map Prod.fst) w.scene.m_NodePool x.1 = f := by
      intro k x f hx hf
      apply cloneSlotOf_getElem? _ _ (k + 1) x.1 f hnodup
      · rw [List.getElem?_cons_succ, List.getElem?_map, hx]; rfl
      · rw [hpool, List.getElem?_cons_succ, ← hpool1]; exact hf
    have hc0 : cloneSlotOf ((np.m_Node &&& 0xffff) :: pairs.map Prod.fst) w.scene.m_NodePool
        (np.m_Node &&& 0xffff) = out &&& 0xffff := by
      rw [houtf, hpool]
      simp [cloneSlotOf]
    obtain ⟨out2, hcall2, hspec2⟩ := cloneList_spec np.m_Scene (pairs.map Prod.fst)
      (np.m_Node &&& 0xffff)
      (cloneSlotOf ((np.m_Node &&& 0xffff) :: pairs.map Prod.fst) w.scene.m_NodePool)
      fuel s1 (rawset [] rd.m_NameHash { m_Scene := np.m_Scene, m_Node := out })
      rd.m_ChildHead (np.m_Node &&& 0xffff) out pairs ctx1 hforest1 hL hvout hout0
      (by rw [houtf]; exact ctx.pool_out f0 hf0mem)
      (by rw [houtf]; exact fun h => hrootf h.symm)
      (by rw [houtf, hpool1]; exact (List.nodup_cons.mp hnodupP).1)
      (by rw [houtf]; exact hfpar) hc0 hc
    rw [hcall2] at hrun
    cases out2 with
    | error e => simp at hrun
    | abort => simp at hrun
    | ok r2 =>
      obtain ⟨res2, s2, table2⟩ := r2
      simp only at hrun
      by_cases hres : res2 = Result.RESULT_OK
      · subst hres
        simp only [if_true] at hrun
        have post2 := hspec2 s2 table2 rfl
        cases hph : rootParentHandle s2 (np.m_Node &&& 0xffff) with
        | none => rw [hph] at hrun; simp at hrun
        | some ph =>
          rw [hph] at hrun
          simp only [cloneTreeReturn, Option.some.injEq, Prod.mk.injEq, LuaResult.ok.injEq] at hrun
          obtain ⟨hw, ht⟩ := hrun
          subst ht
          subst houth
          rw [hpool] at post2
          exact ⟨f0, pool, s1, s2, ph, rfl, ctx1, hpool1, hlen1, hvout, houtf, hfpar, hkept1,
            post2, hph, hw.symm⟩
      · simp only [if_neg hres] at hrun
        exfalso
        revert hrun
        unfold cloneTreeReturn
        cases res2 <;> simp at hres ⊢


theorem subtreeOf_eq (fuel : Nat) (s : Scene) (root : Nat) (nodes : List (Nat × Nat))
    (h : subtreeOf fuel s root = some nodes) :
    ∃ rd pairs, s.m_Nodes[root]? = some rd ∧
      forestFrom fuel s rd.m_ChildHead root = some pairs ∧
      nodes = (root, rd.m_ParentIndex) :: pairs := by
  unfold subtreeOf at h
  cases hrd : s.m_Nodes[root]? with
  | none => rw [hrd] at h; cases h
  | some rd =>
    rw [hrd] at h
    simp only [Option.map_eq_some'] at h
    obtain ⟨pairs, hp, hn⟩ := h
    exact ⟨rd, pairs, rfl, hp, hn.symm⟩

theorem rawsetAll_keys (t : CloneTable) (es : List (Nat × NodeProxy)) :
    (rawsetAll t es).map Prod.fst = (es.map Prod.fst).foldl insertKey (t.map Prod.fst) := by
  unfold rawsetAll
  induction es generalizing t with
  | nil => rfl
  | cons e es ih =>
    simp only [List.foldl_cons, List.map_cons]
    rw [ih, rawset_keys]

theorem insertKey_nodup (ks : List Nat) (h : Nat) (hn : ks.Nodup) : (insertKey ks h).Nodup := by
  unfold insertKey
  refine List.nodup_cons.mpr ⟨?_, hn.filter _⟩
  simp [List.mem_filter]

theorem mem_insertKey (ks : List Nat) (h x : Nat) : x ∈ insertKey ks h ↔ x = h ∨ x ∈ ks := by
  unfold insertKey
  simp only [List.mem_cons, List.mem_filter, bne_iff_ne, ne_eq]
  by_cases hx : x = h <;> simp [hx]

theorem foldl_insertKey_nodup (hs : List Nat) :
    ∀ ks : List Nat, ks.Nodup → (hs.foldl insertKey ks).Nodup := by
  induction hs with
  | nil => intro ks h; exact h
  | cons a hs ih => intro ks h; exact ih _ (insertKey_nodup ks a h)

theorem mem_foldl_insertKey (hs : List Nat) :
    ∀ (ks : List Nat) (x : Nat), x ∈ hs.foldl insertKey ks ↔ x ∈ ks ∨ x ∈ hs := by
  induction hs with
  | nil => intro ks x; simp
  | cons a hs ih =>
    intro ks x
    rw [List.foldl_cons, ih, mem_insertKey]
    simp only [List.mem_cons]
    tauto

/-- The table returned by a successful `gui.clone_tree(root)`, entry by
entry. -/
theorem cloneTree_table (fuel : Nat) (w w' : World) (np : NodeProxy) (rest : List LuaValue)
    (table : CloneTable) (nodes : List (Nat × Nat))
    (hs : w.m_Instance = some np.m_Scene)
    (hv : IsValidNode w.scene np.m_Node = true)
    (hsub : subtreeOf fuel w.scene (np.m_Node &&& 0xffff) = some nodes)
    (ctx : CloneCtx (nodes.tail.map Prod.fst) (np.m_Node &&& 0xffff) w.scene)
    (hnodup : (nodes.map Prod.fst).Nodup)
    (hrun : LuaCloneTree fuel w (LuaValue.node np :: rest) = some (w', LuaResult.ok table)) :
    table = rawsetAll []
      (cloneEntries np.m_Scene (cloneSlotOf (nodes.map Prod.fst) w.scene.m_NodePool)
        w.scene nodes) := by
  obtain ⟨rd, pairs, hrd, hforest, hnodes⟩ := subtreeOf_eq fuel w.scene _ nodes hsub
  subst hnodes
  simp only [List.tail_cons, List.map_cons] at ctx hnodup ⊢
  obtain ⟨f0, pool, s1, s2, ph, hpool, ctx1, hpool1, _, _, _, _, hkept1, post, _, _⟩ :=
    cloneTree_run fuel w w' np rest table rd pairs hs hv hrd hforest ctx hnodup hrun
  rw [post.entries]
  have hframe1 : ∀ x ∈ pairs.map Prod.fst, SlotKept (np.m_Node &&& 0xffff) w.scene s1 x := by
    intro x hx
    apply hkept1
    intro h
    exact ctx.pool_out f0 (by rw [hpool]; exact List.mem_cons_self _ _) (h ▸ hx)
  have hnodupP : (f0 :: pool).Nodup := by rw [← hpool]; exact ctx.pool_nodup
  have hpoolsub : pool = pairs.map (fun x =>
      cloneSlotOf ((np.m_Node &&& 0xffff) :: pairs.map Prod.fst) w.scene.m_NodePool x.1)
      ++ s2.m_NodePool := by
    rw [← hpool1]; exact post.pool
  have e1 : cloneEntries np.m_Scene
        (cloneSlotOf ((np.m_Node &&& 0xffff) :: pairs.map Prod.fst) w.scene.m_NodePool) s1 pairs
      = cloneEntries np.m_Scene
        (cloneSlotOf ((np.m_Node &&& 0xffff) :: pairs.map Prod.fst) w.scene.m_NodePool)
        w.scene pairs := by
    apply cloneEntries_congr
    intro x hx
    have hx1 : x.1 ∈ pairs.map Prod.fst := List.mem_map_of_mem _ hx
    have hcx : cloneSlotOf ((np.m_Node &&& 0xffff) :: pairs.map Prod.fst) w.scene.m_NodePool x.1
        ∈ pool := by
      rw [hpoolsub]
      exact List.mem_append_left _ (List.mem_map_of_mem
        (fun x => cloneSlotOf ((np.m_Node &&& 0xffff) :: pairs.map Prod.fst)
          w.scene.m_NodePool x.1) hx)
    refine ⟨?_, slotHandle_kept _ _ _ _ (hkept1 _ ?_) (ctx.pool_lt _ ?_)⟩
    · have hlt : x.1 < w.scene.m_Nodes.length := ctx.mem_lt _ hx1
      obtain ⟨nd, hnd⟩ : ∃ nd, w.scene.m_Nodes[x.1]? = some nd :=
        ⟨w.scene.m_Nodes[x.1], List.getElem?_eq_getElem hlt⟩
      obtain ⟨nd', hnd', _, _, hh, _⟩ := hframe1 _ hx1 nd hnd
      unfold nameHashOf
      rw [hnd, hnd']
      exact hh
    · intro h
      exact (List.nodup_cons.mp hnodupP).1 (h ▸ hcx)
    · have hmem := List.mem_cons_of_mem f0 hcx
      rw [← hpool] at hmem
      exact hmem
  have h0 : nameHashOf w.scene (np.m_Node &&& 0xffff) = rd.m_NameHash := by
    unfold nameHashOf; rw [hrd]
  have hc0 : cloneSlotOf ((np.m_Node &&& 0xffff) :: pairs.map Prod.fst) w.scene.m_NodePool
      (np.m_Node &&& 0xffff) = f0 := by
    rw [hpool]; simp [cloneSlotOf]
  rw [e1]
  unfold rawsetAll cloneEntries
  simp only [List.map_cons, List.foldl_cons, h0, hc0]

/-- The standing assumptions from checks that range over the slots of the
scene. -/
theorem CloneCtx.of_checks (L : List Nat) (r : Nat) (s : Scene)
    (h1 : s.m_RenderHead ∉ L)
    (h2 : ∀ m ∈ List.range s.m_Nodes.length, ∀ nd ∈ s.m_Nodes[m]?,
      (m ∉ L → nd.m_NextIndex ∉ L) ∧ (m ∉ L → m ≠ r → nd.m_ChildHead ∉ L) ∧
      nd.m_Version < 65536 ∧ (m ∈ L → nd.m_Index = m) ∧
      (m ∈ s.m_NodePool → nd.m_Version ≠ 0 ∨ m ≠ 0))
    (h3 : ∀ m ∈ L, m < s.m_Nodes.length)
    (h4 : ∀ f ∈ s.m_NodePool, f ∉ L ∧ f ≠ r ∧ f < s.m_Nodes.length)
    (h5 : s.m_NodePool.Nodup) (h6 : s.m_Nodes.length ≤ 65535) : CloneCtx L r s := by
  have hs : ∀ (m : Nat) (nd : InternalNode), s.m_Nodes[m]? = some nd →
      (m ∉ L → nd.m_NextIndex ∉ L) ∧ (m ∉ L → m ≠ r → nd.m_ChildHead ∉ L) ∧
      nd.m_Version < 65536 ∧ (m ∈ L → nd.m_Index = m) ∧
      (m ∈ s.m_NodePool → nd.m_Version ≠ 0 ∨ m ≠ 0) := fun m nd hnd =>
    h2 m (List.mem_range.mpr (getElem?_lt _ _ _ hnd)) nd hnd
  exact
    { out :=
        { head_out := h1
          next_out := fun m nd hm hnd => (hs m nd hnd).1 hm
          child_out := fun m nd hm hr hnd => (hs m nd hnd).2.1 hm hr }
      mem_lt := h3
      pool_out := fun f hf => (h4 f hf).1
      pool_root := fun h => (h4 r h).2.1 rfl
      pool_nodup := h5
      pool_lt := fun f hf => (h4 f hf).2.2
      size := h6
      ver_lt := fun m nd hnd => (hs m nd hnd).2.2.1
      pool_handle := fun f hf nd hnd => (hs f nd hnd).2.2.2.2 hf
      self_index := fun m hm nd hnd => (hs m nd hnd).2.2.2.1 hm }

/-! ### C6, amended -/

/-- C6, amended: for a valid root of the running scene whose subtree is a
tree of `nodes` (under the standing assumptions on the scene), the table
returned by a successful `gui.clone_tree(root)` has one entry per id hash
that occurs among the nodes of the subtree: its keys are distinct, they are
exactly the id hashes of the nodes, so the number of entries is the number
of distinct id hashes; it equals the number of nodes when the id hashes of
the nodes are pairwise distinct. -/
theorem C6_clone_tree_table_size (fuel : Nat) (w w' : World) (np : NodeProxy)
    (rest : List LuaValue) (table : CloneTable) (nodes : List (Nat × Nat))
    (hs : w.m_Instance = some np.m_Scene)
    (hv : IsValidNode w.scene np.m_Node = true)
    (hsub : subtreeOf fuel w.scene (np.m_Node &&& 0xffff) = some nodes)
    (ctx : CloneCtx (nodes.tail.map Prod.fst) (np.m_Node &&& 0xffff) w.scene)
    (hnodup : (nodes.map Prod.fst).Nodup)
    (hrun : LuaCloneTree fuel w (LuaValue.node np :: rest) = some (w', LuaResult.ok table)) :
    (table.map Prod.fst).Nodup ∧
    (∀ h, h ∈ table.map Prod.fst ↔ h ∈ nodes.map (fun x => nameHashOf w.scene x.1)) ∧
    table.length = (nodes.map (fun x => nameHashOf w.scene x.1)).dedup.length ∧
    ((nodes.map (fun x => nameHashOf w.scene x.1)).Nodup → table.length = nodes.length) := by
  have htable := cloneTree_table fuel w w' np rest table nodes hs hv hsub ctx hnodup hrun
  have hkeys : table.map Prod.fst
      = (nodes.map (fun x => nameHashOf w.scene x.1)).foldl insertKey [] := by
    rw [htable, rawsetAll_keys]
    unfold cloneEntries
    simp only [List.map_map, List.map_nil]
    rfl
  have hnd : (table.map Prod.fst).Nodup := by
    rw [hkeys]; exact foldl_insertKey_nodup _ _ List.nodup_nil
  have hmem : ∀ h, h ∈ table.map Prod.fst ↔ h ∈ nodes.map (fun x => nameHashOf w.scene x.1) := by
    intro h
    rw [hkeys, mem_foldl_insertKey]
    simp
  have hlen : table.length = (nodes.map (fun x => nameHashOf w.scene x.1)).dedup.length := by
    have hperm : (table.map Prod.fst).Perm (nodes.map (fun x => nameHashOf w.scene x.1)).dedup :=
      (List.perm_ext_iff_of_nodup hnd (List.nodup_dedup _)).mpr (fun a => by
        rw [hmem a, List.mem_dedup])
    have := hperm.length_eq
    simpa using this
  refine ⟨hnd, hmem, hlen, ?_⟩
  intro hh
  rw [hlen, hh.dedup]
  simp


/-! ### C7 -/

theorem Relinked.parentIdx_other {L : List Nat} {r n p : Nat} {s s' : Scene}
    (h : Relinked L r n p s s') (x : Nat) (hx : x ≠ n) : parentIdx s' x = parentIdx s x := by
  cases hs : s.m_Nodes[x]? with
  | none =>
    have hs' : s'.m_Nodes[x]? = Option.none := by
      apply List.getElem?_eq_none
      rw [h.length_eq]
      by_contra hlt
      rw [List.getElem?_eq_getElem (by omega)] at hs
      cases hs
    unfold parentIdx
    rw [hs, hs']
  | some nd =>
    have h1 : parentIdx s x = some nd.m_ParentIndex := by
      unfold parentIdx; rw [hs]; rfl
    rw [h1]
    exact (h.kept x hx).parentIdx _ h1

/-- The call `SetNodeParent` changes the parent index of no slot but that of
the node. -/
theorem SetNodeParent_parent_other (s : Scene) (node parent x : Nat)
    (hx : x ≠ node &&& 0xffff) : parentIdx (SetNodeParent s node parent).2 x = parentIdx s x := by
  have hre : ∀ p : Nat, parentIdx (AddToNodeList (RemoveFromNodeList s (node &&& 0xffff))
      (node &&& 0xffff) p) x = parentIdx s x := by
    intro p
    cases hnd : s.m_Nodes[node &&& 0xffff]? with
    | none =>
      have hrel := reparent_relinked [] (p + 1) s (node &&& 0xffff) p
        ⟨by simp, fun _ _ _ _ => by simp, fun _ _ _ _ _ => by simp⟩ (by simp) (by simp)
        (fun nd h => by rw [hnd] at h; cases h) (Or.inr (by omega))
      exact hrel.parentIdx_other x hx
    | some nd0 =>
      have hrel := reparent_relinked [] (p + nd0.m_ParentIndex + 1) s (node &&& 0xffff) p
        ⟨by simp, fun _ _ _ _ => by simp, fun _ _ _ _ _ => by simp⟩ (by simp) (by simp)
        (fun nd h => by
          rw [hnd] at h
          cases h
          exact Or.inr (by omega)) (Or.inr (by omega))
      exact hrel.parentIdx_other x hx
  unfold SetNodeParent
  simp only [GetNode_eq]
  split_ifs
  · exact hre _
  · rfl
  · exact hre _
  · rfl
  · rfl

/-- The ancestor walk gives the same answer in a scene that keeps every slot
outside `T`, as long as the walk of the old scene meets no slot of `T`. -/
theorem isAncestorOrSelf_transport (r : Nat) (s s' : Scene) (T : List Nat)
    (hlen : s'.m_Nodes.length = s.m_Nodes.length)
    (hkept : ∀ x, x ∉ T → SlotKept r s s' x) :
    ∀ (fuel q n : Nat), n ∈ T → (∀ f ∈ T, isAncestorOrSelf fuel s f q = false) →
      isAncestorOrSelf fuel s' n q = false := by
  intro fuel
  induction fuel with
  | zero =>
    intro q n hn h
    have := h n hn
    simp [isAncestorOrSelf] at this
  | succ fuel ih =>
    intro q n hn h
    unfold isAncestorOrSelf
    by_cases hq : q = INVALID_INDEX
    · rw [if_pos hq]
    · rw [if_neg hq]
      have hqT : q ∉ T := by
        intro hqT
        have := h q hqT
        unfold isAncestorOrSelf at this
        rw [if_neg hq, if_pos rfl] at this
        cases this
      have hqn : q ≠ n := fun hh => hqT (hh ▸ hn)
      rw [if_neg hqn]
      cases hs : s.m_Nodes[q]? with
      | none =>
        have hs' : s'.m_Nodes[q]? = Option.none := by
          apply List.getElem?_eq_none
          rw [hlen]
          by_contra hlt
          rw [List.getElem?_eq_getElem (by omega)] at hs
          cases hs
        rw [hs']
      | some nd =>
        obtain ⟨nd', hnd', _, _, _, hpar, _⟩ := hkept q hqT nd hs
        rw [hnd']
        simp only [hpar]
        apply ih _ n hn
        intro f hf
        have := h f hf
        unfold isAncestorOrSelf at this
        have hqf : q ≠ f := fun hh => hqT (hh ▸ hf)
        rw [if_neg hq, if_neg hqf, hs] at this
        exact this

/-- The parent of every node of a forest is the parent of the chain or a
node of the forest. -/
theorem forestFrom_parent_mem (s : Scene) :
    ∀ (fuel i par : Nat) (pairs : List (Nat × Nat)), forestFrom fuel s i par = some pairs →
      ∀ x ∈ pairs, x.2 = par ∨ x.2 ∈ pairs.map Prod.fst := by
  intro fuel
  induction fuel with
  | zero => intro i par pairs h; simp [forestFrom] at h
  | succ fuel ih =>
    intro i par pairs h x hx
    rcases forestFrom_cases fuel s i par pairs h with ⟨_, hp⟩ | ⟨_, nd, lc, ls, _, hlc, hls, hp⟩
    · subst hp; cases hx
    · subst hp
      simp only [List.cons_append, List.mem_cons, List.mem_append] at hx
      simp only [List.cons_append, List.map_cons, List.map_append, List.mem_cons,
        List.mem_append]
      rcases hx with hx | hx | hx
      · subst hx; exact Or.inl rfl
      · rcases ih _ _ lc hlc x hx with h1 | h1
        · exact Or.inr (Or.inl h1)
        · exact Or.inr (Or.inr (Or.inl h1))
      · rcases ih _ _ ls hls x hx with h1 | h1
        · exact Or.inl h1
        · exact Or.inr (Or.inr (Or.inr h1))

/-- C7: for a valid root of the running scene whose subtree is a tree of
`nodes` (each node paired with its parent), under the standing assumptions
on the scene and on the parent of the root, a successful
`gui.clone_tree(root)` leaves the clones linked like the originals.  With
`c` the map from a node to the slot of its clone (the free slots in the
order of the visit; the returned table holds the proxies of these slots
under the id hashes of the nodes): the clone of every node other than the
root has the clone of the parent of the node as parent, the clone of the
root has the parent of the root as parent (none when the root has none),
and no clone has a node of the subtree as parent. -/
theorem C7_clone_tree_parents (fuel : Nat) (w w' : World) (np : NodeProxy)
    (rest : List LuaValue) (table : CloneTable) (nodes : List (Nat × Nat))
    (hs : w.m_Instance = some np.m_Scene)
    (hv : IsValidNode w.scene np.m_Node = true)
    (hsub : subtreeOf fuel w.scene (np.m_Node &&& 0xffff) = some nodes)
    (ctx : CloneCtx (nodes.tail.map Prod.fst) (np.m_Node &&& 0xffff) w.scene)
    (hnodup : (nodes.map Prod.fst).Nodup)
    (hq : ∀ q, parentIdx w.scene (np.m_Node &&& 0xffff) = some q →
      q ∉ nodes.map Prod.fst ∧
      (q ≠ INVALID_INDEX →
        (∃ qd, w.scene.m_Nodes[q]? = some qd ∧ qd.m_Index = q ∧ (qd.m_Version ≠ 0 ∨ q ≠ 0)) ∧
        ∀ f ∈ w.scene.m_NodePool,
          isAncestorOrSelf (w.scene.m_Nodes.length + 1) w.scene f q = false))
    (hrun : LuaCloneTree fuel w (LuaValue.node np :: rest) = some (w', LuaResult.ok table)) :
    table = rawsetAll []
      (cloneEntries np.m_Scene (cloneSlotOf (nodes.map Prod.fst) w.scene.m_NodePool)
        w.scene nodes) ∧
    (∀ x ∈ nodes, cloneSlotOf (nodes.map Prod.fst) w.scene.m_NodePool x.1 ∈ w.scene.m_NodePool) ∧
    (∀ x ∈ nodes.tail,
      parentIdx w'.scene (cloneSlotOf (nodes.map Prod.fst) w.scene.m_NodePool x.1)
        = some (cloneSlotOf (nodes.map Prod.fst) w.scene.m_NodePool x.2)) ∧
    parentIdx w'.scene (cloneSlotOf (nodes.map Prod.fst) w.scene.m_NodePool (np.m_Node &&& 0xffff))
      = parentIdx w.scene (np.m_Node &&& 0xffff) ∧
    (∀ x ∈ nodes, ∀ q,
      parentIdx w'.scene (cloneSlotOf (nodes.map Prod.fst) w.scene.m_NodePool x.1) = some q →
      q ∉ nodes.map Prod.fst) := by
  have htable := cloneTree_table fuel w w' np rest table nodes hs hv hsub ctx hnodup hrun
  refine ⟨htable, ?_⟩
  obtain ⟨rd, pairs, hrd, hforest, hnodes⟩ := subtreeOf_eq fuel w.scene _ nodes hsub
  subst hnodes
  simp only [List.tail_cons, List.map_cons] at ctx hnodup hq ⊢
  obtain ⟨f0, pool, s1, s2, ph, hpool, ctx1, hpool1, hlen1, hvout, houtf, hfpar, hkept1, post,
    hph, hw'⟩ := cloneTree_run fuel w w' np rest table rd pairs hs hv hrd hforest ctx hnodup hrun
  -- abbreviations
  generalize hc : cloneSlotOf ((np.m_Node &&& 0xffff) :: pairs.map Prod.fst) w.scene.m_NodePool
    = c at post ⊢
  have hc0 : c (np.m_Node &&& 0xffff) = f0 := by
    rw [← hc, hpool]; simp [cloneSlotOf]
  have hf0mem : f0 ∈ w.scene.m_NodePool := by rw [hpool]; exact List.mem_cons_self _ _
  have hnodupP : (f0 :: pool).Nodup := by rw [← hpool]; exact ctx.pool_nodup
  have hf0pool : f0 ∉ pool := (List.nodup_cons.mp hnodupP).1
  have hpoolsub : pool = pairs.map (fun x => c x.1) ++ s2.m_NodePool := by
    rw [← hpool1]; exact post.pool
  have hcmem : ∀ x ∈ pairs, c x.1 ∈ pool := fun x hx => by
    rw [hpoolsub]
    exact List.mem_append_left _ (List.mem_map_of_mem (fun x => c x.1) hx)
  have hcpool : ∀ x ∈ pairs, c x.1 ∈ w.scene.m_NodePool := fun x hx => by
    rw [hpool]; exact List.mem_cons_of_mem _ (hcmem x hx)
  have hcf0 : ∀ x ∈ pairs, c x.1 ≠ f0 := fun x hx h => hf0pool (h ▸ hcmem x hx)
  have hf0map : f0 ∉ pairs.map (fun x => c x.1) := fun h =>
    hf0pool (by rw [hpoolsub]; exact List.mem_append_left _ h)
  -- every slot that is not a clone is kept up to the scene after the loop
  have hkept02 : ∀ x, x ∉ w.scene.m_NodePool → SlotKept (np.m_Node &&& 0xffff) w.scene s2 x := by
    intro x hx
    have hxf : x ≠ f0 := fun h => hx (h ▸ hf0mem)
    have hxm : x ∉ pairs.map (fun x => c x.1) := fun h =>
      hx (by
        rw [hpool, hpoolsub]
        exact List.mem_cons_of_mem _ (List.mem_append_left _ h))
    exact (hkept1 x hxf).trans (post.kept x hxm)
  have hlen2 : s2.m_Nodes.length = w.scene.m_Nodes.length := post.length_eq.trans hlen1
  have hvout2 : IsValidNode s2 (slotHandle w.scene f0) = true :=
    SlotKept.valid _ (by rw [houtf]; exact post.kept f0 hf0map) hvout
  have hf0lt : f0 < s2.m_Nodes.length := by
    rw [hlen2]; exact ctx.pool_lt f0 hf0mem
  have hparent_root : parentIdx w.scene (np.m_Node &&& 0xffff) = some rd.m_ParentIndex := by
    unfold parentIdx; rw [hrd]; rfl
  obtain ⟨hqout, hqin⟩ := hq _ hparent_root
  rw [hw']
  simp only
  have hroot : parentIdx (SetNodeParent s2 (slotHandle w.scene f0) ph).2 f0
      = some rd.m_ParentIndex := by
    -- the root as the loop left it
    obtain ⟨rd2, hrd2, _, _, _, hpar2, _⟩ := hkept02 _ ctx.pool_root rd hrd
    unfold rootParentHandle at hph
    rw [hrd2] at hph
    simp only [hpar2] at hph
    by_cases hqi : rd.m_ParentIndex = INVALID_INDEX
    · simp only [hqi, ne_eq, not_true_eq_false, if_false, Option.some.injEq] at hph
      subst hph
      rw [SetNodeParent_none s2 _ hvout2, houtf, hqi]
      exact reparent_parent s2 f0 INVALID_INDEX hf0lt
    · obtain ⟨⟨qd, hqd, hqidx, hqver⟩, hanc⟩ := hqin hqi
      have hqpool : rd.m_ParentIndex ∉ w.scene.m_NodePool := by
        intro hmem
        have := hanc _ hmem
        unfold isAncestorOrSelf at this
        rw [if_neg hqi, if_pos rfl] at this
        cases this
      obtain ⟨qd2, hqd2, hv2, hi2, _⟩ := hkept02 _ hqpool qd hqd
      simp only [ne_eq, hqi, not_false_eq_true, if_true, hqd2, Option.map_some',
        Option.some.injEq] at hph
      have hqlt : rd.m_ParentIndex < 65536 := by
        have h1 := getElem?_lt _ _ _ hqd
        have h2 := ctx.size
        omega
      have hqv : qd2.m_Version < 65536 := by rw [hv2]; exact ctx.ver_lt _ qd hqd
      have hqi2 : qd2.m_Index = rd.m_ParentIndex := hi2.trans hqidx
      have hphslot : ph &&& 0xffff = rd.m_ParentIndex := by
        rw [← hph, GetNodeHandle_slot qd2 hqv (by omega), hqi2]
      have hphvalid : IsValidNode s2 ph = true := by
        rw [← hph]
        exact IsValidNode_GetNodeHandle s2 _ qd2 hqd2 hqv hqi2 hqlt
      have hphne : ph ≠ INVALID_HANDLE := by
        rw [← hph, GetNodeHandle_eq qd2 hqv (by omega), hv2, hqi2]
        unfold INVALID_HANDLE
        omega
      have hT : ∀ x, x ∉ f0 :: pairs.map (fun x => c x.1) →
          SlotKept (np.m_Node &&& 0xffff) w.scene s2 x := by
        intro x hx
        have hxf : x ≠ f0 := fun h => hx (h ▸ List.mem_cons_self _ _)
        have hxm : x ∉ pairs.map (fun x => c x.1) := fun h => hx (List.mem_cons_of_mem _ h)
        exact (hkept1 x hxf).trans (post.kept x hxm)
      have hancs : isAncestorOrSelf (s2.m_Nodes.length + 1) s2 f0 rd.m_ParentIndex = false := by
        rw [hlen2]
        apply isAncestorOrSelf_transport _ w.scene s2 (f0 :: pairs.map (fun x => c x.1)) hlen2 hT
          _ _ f0 (List.mem_cons_self _ _)
        intro f hf
        apply hanc
        rcases List.mem_cons.mp hf with hf | hf
        · rw [hf]; exact hf0mem
        · rw [hpool, hpoolsub]
          exact List.mem_cons_of_mem _ (List.mem_append_left _ hf)
      rw [SetNodeParent_eq s2 _ ph hvout2 hphvalid hphne (by rw [houtf, hphslot]; exact hancs),
        houtf, hphslot]
      exact reparent_parent s2 f0 _ hf0lt
  refine ⟨?_, ?_, ?_, ?_⟩
  · intro x hx
    rcases List.mem_cons.mp hx with hx | hx
    · subst hx; rw [hc0]; exact hf0mem
    · exact hcpool x hx
  · intro x hx
    rw [SetNodeParent_parent_other _ _ _ _ (by rw [houtf]; exact hcf0 x hx)]
    exact post.parents x hx
  · rw [hc0, hparent_root]
    exact hroot
  · intro x hx q hq'
    rcases List.mem_cons.mp hx with hx | hx
    · subst hx
      simp only at hq'
      rw [hc0, hroot] at hq'
      cases hq'
      exact hqout
    · rw [SetNodeParent_parent_other _ _ _ _ (by rw [houtf]; exact hcf0 x hx),
        post.parents x hx] at hq'
      cases hq'
      have hmem : c x.2 ∈ w.scene.m_NodePool := by
        rcases forestFrom_parent_mem w.scene fuel _ _ pairs hforest x hx with h | h
        · rw [h, hc0]; exact hf0mem
        · obtain ⟨y, hy, hy2⟩ := List.mem_map.mp h
          rw [← hy2]; exact hcpool y hy
      intro hin
      rcases List.mem_cons.mp hin with h | h
      · exact ctx.pool_root (h ▸ hmem)
      · exact ctx.pool_out _ hmem h


/-- C6, amended, on `sceneFamily`: `gui.clone_tree` on the node in slot 1,
whose subtree has the three nodes 1, 2 and 3 with the id hashes 11, 12 and
13, returns `familyTable`, a table of three entries. -/
theorem C6_clone_tree_table_size_witness :
    (familyTable.map Prod.fst).Nodup ∧
    (∀ h, h ∈ familyTable.map Prod.fst ↔
      h ∈ [((1 : Nat), (0 : Nat)), (2, 1), (3, 1)].map
        (fun x => nameHashOf (worldOf sceneFamily).scene x.1)) ∧
    familyTable.length = ([((1 : Nat), (0 : Nat)), (2, 1), (3, 1)].map
        (fun x => nameHashOf (worldOf sceneFamily).scene x.1)).dedup.length ∧
    (([((1 : Nat), (0 : Nat)), (2, 1), (3, 1)].map
        (fun x => nameHashOf (worldOf sceneFamily).scene x.1)).Nodup →
      familyTable.length = [((1 : Nat), (0 : Nat)), (2, 1), (3, 1)].length) :=
  C6_clone_tree_table_size 10 (worldOf sceneFamily) familyCloned familyRoot [] familyTable
    [(1, 0), (2, 1), (3, 1)] rfl (by decide) (by decide)
    (CloneCtx.of_checks [2, 3] 1 sceneFamily (by decide) (by decide) (by decide) (by decide)
      (by decide) (by decide))
    (by decide) (by decide)

/-- C7 on `sceneFamily`: after `gui.clone_tree` on the node in slot 1 (parent:
the node in slot 0; children: the nodes in slots 2 and 3) the clones are in
slots 4, 5 and 6; the clones in 5 and 6 have the clone in slot 4 as parent,
and the clone in slot 4 has the node in slot 0 as parent. -/
theorem C7_clone_tree_parents_witness :
    familyTable = rawsetAll []
      (cloneEntries familyRoot.m_Scene
        (cloneSlotOf ([((1 : Nat), (0 : Nat)), (2, 1), (3, 1)].map Prod.fst)
          (worldOf sceneFamily).scene.m_NodePool)
        (worldOf sceneFamily).scene [(1, 0), (2, 1), (3, 1)]) ∧
    (∀ x ∈ [((1 : Nat), (0 : Nat)), (2, 1), (3, 1)],
      cloneSlotOf ([((1 : Nat), (0 : Nat)), (2, 1), (3, 1)].map Prod.fst)
        (worldOf sceneFamily).scene.m_NodePool x.1 ∈ (worldOf sceneFamily).scene.m_NodePool) ∧
    (∀ x ∈ [((1 : Nat), (0 : Nat)), (2, 1), (3, 1)].tail,
      parentIdx familyCloned.scene
          (cloneSlotOf ([((1 : Nat), (0 : Nat)), (2, 1), (3, 1)].map Prod.fst)
            (worldOf sceneFamily).scene.m_NodePool x.1)
        = some (cloneSlotOf ([((1 : Nat), (0 : Nat)), (2, 1), (3, 1)].map Prod.fst)
            (worldOf sceneFamily).scene.m_NodePool x.2)) ∧
    parentIdx familyCloned.scene
        (cloneSlotOf ([((1 : Nat), (0 : Nat)), (2, 1), (3, 1)].map Prod.fst)
          (worldOf sceneFamily).scene.m_NodePool (familyRoot.m_Node &&& 0xffff))
      = parentIdx (worldOf sceneFamily).scene (familyRoot.m_Node &&& 0xffff) ∧
    (∀ x ∈ [((1 : Nat), (0 : Nat)), (2, 1), (3, 1)], ∀ q,
      parentIdx familyCloned.scene
          (cloneSlotOf ([((1 : Nat), (0 : Nat)), (2, 1), (3, 1)].map Prod.fst)
            (worldOf sceneFamily).scene.m_NodePool x.1) = some q →
      q ∉ [((1 : Nat), (0 : Nat)), (2, 1), (3, 1)].map Prod.fst) :=
  C7_clone_tree_parents 10 (worldOf sceneFamily) familyCloned familyRoot [] familyTable
    [(1, 0), (2, 1), (3, 1)] rfl (by decide) (by decide)
    (CloneCtx.of_checks [2, 3] 1 sceneFamily (by decide) (by decide) (by decide) (by decide)
      (by decide) (by decide))
    (by decide)
    (fun q hq => by
      have hq0 : q = 0 :=
        Option.some.inj (hq.symm.trans (by decide : parentIdx (worldOf sceneFamily).scene
          (familyRoot.m_Node &&& 0xffff) = some 0))
      subst hq0
      exact ⟨by decide, fun _ => ⟨⟨_, rfl, by decide, by decide⟩, by decide⟩⟩)
    (by decide)

/-! ### C11 -/

/-- C11: `LuaAnimationComplete` on a scene whose reference table holds a Lua
function under the callback reference whenever `finished` is set.  The call
returns; it runs the callback exactly once, with the script instance and the
value under the node reference as arguments, when `finished` is set and not
at all otherwise; after that it releases the callback reference and then the
node reference, once each, in the table as the callback left it. -/
theorem C11_completion_callback (PCall : LuaValue → Nat → LuaValue → World → World)
    (sceneAddr : Nat) (w : World) (node : Nat) (finished : Bool) (userdata1 userdata2 : Nat)
    (hf : finished = true →
      ∃ id, rawgeti w.refTable (refOfUserdata userdata1) = LuaValue.function id) :
    ∃ w2 : World,
      w2 = (if finished then
              PCall (rawgeti w.refTable (refOfUserdata userdata1)) sceneAddr
                (rawgeti w.refTable (refOfUserdata userdata2))
                { w with m_Instance := some sceneAddr }
            else { w with m_Instance := some sceneAddr }) ∧
      LuaAnimationComplete PCall sceneAddr w node finished userdata1 userdata2 =
        ({ w2 with
           m_Instance := Option.none
           refTable := luaUnref (luaUnref w2.refTable (refOfUserdata userdata1))
             (refOfUserdata userdata2) },
         LuaResult.ok
          ((if finished then
              [CompletionStep.call (rawgeti w.refTable (refOfUserdata userdata1)) sceneAddr
                (rawgeti w.refTable (refOfUserdata userdata2))]
            else []) ++
           [CompletionStep.unref (refOfUserdata userdata1),
            CompletionStep.unref (refOfUserdata userdata2)])) := by
  refine ⟨_, rfl, ?_⟩
  cases finished with
  | false => simp [LuaAnimationComplete]
  | true =>
    obtain ⟨id, hid⟩ := hf rfl
    simp [LuaAnimationComplete, hid]

/-! ### C12 -/

/-- C12: for a valid node of the running gui script and a property given as
a hash or a string for which `HasPropertyHash` is false, `gui.animate` raises
the "property not found" error and leaves the world as it was: no reference
is taken and `AnimateNodeHash` is not called.  And whatever the arguments,
`gui.animate` calls `AnimateNodeHash` at most once, with a node and a
property for which `HasPropertyHash` is true. -/
theorem C12_animate_unknown_property (ext : Externals) (w : World) (args : List LuaValue)
    (np : NodeProxy) (property_hash : Nat)
    (harg : luaArg args 1 = LuaValue.node np)
    (hs : w.m_Instance = some np.m_Scene)
    (hv : IsValidNode w.scene np.m_Node = true)
    (hprop : animateProperty ext (luaArg args 2) = LuaResult.ok property_hash)
    (hhas : ext.HasPropertyHash w.scene np.m_Node property_hash = false) :
    LuaAnimate ext w args = (w, LuaResult.error "property '%s' not found") ∧
    ∀ (w0 : World) (args0 : List LuaValue),
      (LuaAnimate ext w0 args0).1.animations = w0.animations ∨
      ∃ call, (LuaAnimate ext w0 args0).1.animations = w0.animations ++ [call] ∧
        ext.HasPropertyHash w0.scene call.node call.property = true := by
  constructor
  · have hcheck : LuaCheckNode w args 1 = LuaResult.ok (np.m_Node &&& 0xffff, np.m_Node) := by
      rw [LuaCheckNode_node w args 1 np harg]
      simp [hs, hv]
    simp [LuaAnimate, orRaise, GuiScriptInstance_Check, hs, hcheck, hprop, hhas]
  · intro w0 args0
    unfold LuaAnimate
    cases h1 : GuiScriptInstance_Check w0 with
    | error e => left; rfl
    | abort => left; rfl
    | ok a =>
      simp only [orRaise]
      cases h2 : LuaCheckNode w0 args0 1 with
      | error e => left; rfl
      | abort => left; rfl
      | ok checked =>
        simp only
        cases h3 : animateProperty ext (luaArg args0 2) with
        | error e => left; rfl
        | abort => left; rfl
        | ok ph =>
          simp only
          by_cases hh : ext.HasPropertyHash w0.scene checked.2 ph = false
          · rw [if_pos hh]; left; rfl
          · rw [if_neg hh]
            have hh' : ext.HasPropertyHash w0.scene checked.2 ph = true := by
              simpa using hh
            cases h4 : animateTarget ext w0.scene checked.2 ph (luaArg args0 3) with
            | error e => left; rfl
            | abort => left; rfl
            | ok target =>
              simp only
              have hc : (animateCurve ext w0 (luaArg args0 4)).1.animations = w0.animations := by
                unfold animateCurve
                split_ifs
                · rfl
                · rfl
                · split <;> rfl
              have hd : ∀ w1 : World, (animateDelay w1 args0).1.animations = w1.animations := by
                intro w1
                unfold animateDelay
                split_ifs
                · split <;> rfl
                · rfl
                · rfl
              cases h5 : (animateCurve ext w0 (luaArg args0 4)).2 with
              | error e => left; exact hc
              | abort => left; exact hc
              | ok curve =>
                simp only
                cases h6 : luaL_checknumber 5 (luaArg args0 5) with
                | error e => left; exact hc
                | abort => left; exact hc
                | ok duration =>
                  simp only
                  cases h7 : (animateDelay (animateCurve ext w0 (luaArg args0 4)).1 args0).2 with
                  | error e => left; exact (hd _).trans hc
                  | abort => left; exact (hd _).trans hc
                  | ok delayed =>
                    right
                    simp only
                    refine ⟨?c, ?h1, ?h2⟩
                    case h1 => rw [hd, hc]; exact rfl
                    case h2 => exact hh'

/-! ### C13 and C14 -/

/-- C13: `gui.delete_node` on a valid node of the running gui script that is
a bone raises an error and leaves the world, and so the deleted flag of the
node and the rest of the scene, as it was. -/
theorem C13_delete_bone_rejected (w : World) (args : List LuaValue) (np : NodeProxy)
    (nd : InternalNode)
    (harg : luaArg args 1 = LuaValue.node np)
    (hs : w.m_Instance = some np.m_Scene)
    (hv : IsValidNode w.scene np.m_Node = true)
    (hnd : w.scene.m_Nodes[np.m_Node &&& 0xffff]? = some nd)
    (hbone : nd.m_Node.m_IsBone = true) :
    LuaDeleteNode w args = (w, LuaResult.error "Unable to delete bone nodes of a spine node.") := by
  have hcheck : LuaCheckNode w args 1 = LuaResult.ok (np.m_Node &&& 0xffff, np.m_Node) := by
    rw [LuaCheckNode_node w args 1 np harg]
    simp [hs, hv]
  simp [LuaDeleteNode, hcheck, hnd, hbone]

/-- C14: `gui.delete_node` on a valid node of the running gui script that is
not a bone returns, and the only change is the deleted flag of the slot of
the node, which is set: the other fields of the slot, every other slot, the
free list, the render head, the render order and the rest of the world are
as before. -/
theorem C14_delete_sets_flag_only (w : World) (args : List LuaValue) (np : NodeProxy)
    (nd : InternalNode)
    (harg : luaArg args 1 = LuaValue.node np)
    (hs : w.m_Instance = some np.m_Scene)
    (hv : IsValidNode w.scene np.m_Node = true)
    (hnd : w.scene.m_Nodes[np.m_Node &&& 0xffff]? = some nd)
    (hbone : nd.m_Node.m_IsBone = false) :
    (LuaDeleteNode w args).2 = LuaResult.ok () ∧
    (LuaDeleteNode w args).1.scene.m_Nodes[np.m_Node &&& 0xffff]? =
      some { nd with m_Deleted := true } ∧
    (∀ m, m ≠ (np.m_Node &&& 0xffff) →
      (LuaDeleteNode w args).1.scene.m_Nodes[m]? = w.scene.m_Nodes[m]?) ∧
    (LuaDeleteNode w args).1.scene.m_Nodes.length = w.scene.m_Nodes.length ∧
    (LuaDeleteNode w args).1.scene.m_NodePool = w.scene.m_NodePool ∧
    (LuaDeleteNode w args).1.scene.m_RenderHead = w.scene.m_RenderHead ∧
    (LuaDeleteNode w args).1.scene.m_RenderOrder = w.scene.m_RenderOrder ∧
    (LuaDeleteNode w args).1.m_Instance = w.m_Instance ∧
    (LuaDeleteNode w args).1.refTable = w.refTable ∧
    (LuaDeleteNode w args).1.animations = w.animations := by
  have hcheck : LuaCheckNode w args 1 = LuaResult.ok (np.m_Node &&& 0xffff, np.m_Node) := by
    rw [LuaCheckNode_node w args 1 np harg]
    simp [hs, hv]
  have hrun : LuaDeleteNode w args =
      ({ w with scene := setDeleted w.scene (np.m_Node &&& 0xffff) }, LuaResult.ok ()) := by
    simp [LuaDeleteNode, hcheck, hnd, hbone]
  rw [hrun]
  refine ⟨rfl, ?_, ?_, ?_, ?_, ?_, ?_, rfl, rfl, rfl⟩
  · simp only [setDeleted]
    rw [modifyNode_getElem?_self, hnd]
    rfl
  · intro m hm
    simp only [setDeleted]
    exact modifyNode_getElem?_ne _ _ _ _ (Ne.symm hm)
  · simp only [setDeleted, modifyNode_length]
  · simp only [setDeleted, modifyNode_pool]
  · simp only [setDeleted, modifyNode_renderHead]
  · simp only [setDeleted, modifyNode, hnd]
/-! ### C15 and C16 -/

/-- C15: `gui.set_parent` on a valid node of the running gui script that is
a bone returns at once: the second argument is not looked at,
`SetNodeParent` is not called and the world, with every link of every node,
is as before. -/
theorem C15_set_parent_bone_noop (w : World) (args : List LuaValue) (np : NodeProxy)
    (nd : InternalNode)
    (harg : luaArg args 1 = LuaValue.node np)
    (hs : w.m_Instance = some np.m_Scene)
    (hv : IsValidNode w.scene np.m_Node = true)
    (hnd : w.scene.m_Nodes[np.m_Node &&& 0xffff]? = some nd)
    (hbone : nd.m_Node.m_IsBone = true) :
    LuaSetParent w args = (w, LuaResult.ok ()) := by
  have hcheck : LuaCheckNode w args 1 = LuaResult.ok (np.m_Node &&& 0xffff, np.m_Node) := by
    rw [LuaCheckNode_node w args 1 np harg]
    simp [hs, hv]
  simp [LuaSetParent, hcheck, hnd, hbone]

/-- The ancestor walk of `set_parent` meets a slot that is reached from the
new parent along the parent links. -/
theorem isAncestorOrSelf_of_ancestorAt (s : Scene) (a : Nat) (ha : a ≠ INVALID_INDEX)
    (hsize : s.m_Nodes.length ≤ INVALID_INDEX) :
    ∀ (fuel k b : Nat), ancestorAt s k b = a → isAncestorOrSelf fuel s a b = true := by
  intro fuel
  induction fuel with
  | zero => intro k b _; rfl
  | succ fuel ih =>
    intro k b hk
    unfold isAncestorOrSelf
    by_cases hba : b = a
    · rw [if_neg (by rw [hba]; exact ha), if_pos hba]
    · cases k with
      | zero => exact absurd hk hba
      | succ k =>
        unfold ancestorAt at hk
        cases hnd : s.m_Nodes[b]? with
        | none => rw [hnd] at hk; exact absurd hk.symm ha
        | some nd =>
          rw [hnd] at hk
          simp only at hk
          by_cases hbi : b = INVALID_INDEX
          · rw [if_pos hbi]
            have := getElem?_lt _ _ _ hnd
            omega
          · rw [if_neg hbi, if_neg hba]
            simp only
            exact ih k _ hk

/-- A handle of 32 bits is put together again from its two halves. -/
theorem handle_halves (h : Nat) (hh : h < 2 ^ 32) :
    65536 * ((h >>> 16) % 65536) + (h &&& 0xffff) = h := by
  rw [generation_mod h hh, Nat.shiftRight_eq_div_pow, and_ffff_eq_mod]
  omega

/-- The handle of the slot a valid handle of 32 bits resolves to is the
handle itself. -/
theorem GetNodeHandle_of_valid (s : Scene) (h : Nat) (nd : InternalNode) (hh : h < 2 ^ 32)
    (hv : IsValidNode s h = true) (hnd : s.m_Nodes[h &&& 0xffff]? = some nd) :
    GetNodeHandle nd = h := by
  rw [IsValidNode_eq_true_iff] at hv
  obtain ⟨m, hm, hver, hidx⟩ := hv
  rw [hnd] at hm
  cases hm
  rw [GetNodeHandle_eq nd (by rw [hver]; exact Nat.mod_lt _ (by norm_num))
    (by rw [hidx]; exact slotIndex_lt h), hver, hidx]
  exact handle_halves h hh


/-- C16: in a scene in which `INVALID_INDEX` is no slot, for a valid node
`a` of the running gui script that is not a bone and a valid node `b` of the
same scene, with a handle of 32 bits other than `INVALID_HANDLE`, that is `a`
itself or a descendant of `a` (`a` is reached from `b` in `k` steps along
the parent links), `gui.set_parent(a, b)` raises the infinite-loop error and
leaves the world, and so every chain, as it was. -/
theorem C16_set_parent_cycle_rejected (w : World) (args : List LuaValue) (npa npb : NodeProxy)
    (nda : InternalNode) (k : Nat)
    (harg1 : luaArg args 1 = LuaValue.node npa)
    (harg2 : luaArg args 2 = LuaValue.node npb)
    (hs : w.m_Instance = some npa.m_Scene)
    (hsb : npb.m_Scene = npa.m_Scene)
    (hva : IsValidNode w.scene npa.m_Node = true)
    (hvb : IsValidNode w.scene npb.m_Node = true)
    (hnda : w.scene.m_Nodes[npa.m_Node &&& 0xffff]? = some nda)
    (hbone : nda.m_Node.m_IsBone = false)
    (hsize : w.scene.m_Nodes.length ≤ INVALID_INDEX)
    (hb32 : npb.m_Node < 2 ^ 32)
    (hb0 : npb.m_Node ≠ INVALID_HANDLE)
    (hdesc : ancestorAt w.scene k (npb.m_Node &&& 0xffff) = npa.m_Node &&& 0xffff) :
    LuaSetParent w args =
      (w, LuaResult.error "Unable to set parent since it would cause an infinite loop") := by
  have hcheck1 : LuaCheckNode w args 1 = LuaResult.ok (npa.m_Node &&& 0xffff, npa.m_Node) := by
    rw [LuaCheckNode_node w args 1 npa harg1]
    simp [hs, hva]
  have hcheck2 : LuaCheckNode w args 2 = LuaResult.ok (npb.m_Node &&& 0xffff, npb.m_Node) := by
    rw [LuaCheckNode_node w args 2 npb harg2]
    simp [hs, hsb, hvb]
  obtain ⟨ndb, hndb, _⟩ := IsValidNode_slot w.scene npb.m_Node hvb
  have hhb : GetNodeHandle ndb = npb.m_Node := GetNodeHandle_of_valid w.scene _ ndb hb32 hvb hndb
  have halt := getElem?_lt _ _ _ hnda
  have hva' := hva
  rw [IsValidNode_eq_true_iff] at hva'
  obtain ⟨m, hm, hver, hidx⟩ := hva'
  rw [hnda] at hm
  cases hm
  have hvalid : IsValidNode w.scene (GetNodeHandle nda) = true :=
    IsValidNode_GetNodeHandle w.scene _ nda hnda
      (by rw [hver]; exact Nat.mod_lt _ (by norm_num)) hidx (slotIndex_lt _)
  have hslot : GetNodeHandle nda &&& 0xffff = npa.m_Node &&& 0xffff := by
    rw [GetNodeHandle_slot nda (by rw [hver]; exact Nat.mod_lt _ (by norm_num))
      (by rw [hidx]; exact slotIndex_lt _), hidx]
  have hanc : isAncestorOrSelf (w.scene.m_Nodes.length + 1) w.scene (npa.m_Node &&& 0xffff)
      (npb.m_Node &&& 0xffff) = true :=
    isAncestorOrSelf_of_ancestorAt w.scene _ (by unfold INVALID_INDEX at hsize ⊢; omega) hsize
      _ k _ hdesc
  have hset : SetNodeParent w.scene (GetNodeHandle nda) npb.m_Node =
      (Result.RESULT_INF_RECURSION, w.scene) := by
    unfold SetNodeParent
    simp only [hvalid, hvb, if_true, if_neg hb0, GetNode_eq, hslot, hanc]
  have hopt : optionalNodeHandle w args 2 = LuaResult.ok npb.m_Node := by
    unfold optionalNodeHandle checkedNodeHandle
    rw [harg2, if_pos (by simp), hcheck2]
    simp only [hndb, hhb]
  have hgsi : GuiScriptInstance_Check w = LuaResult.ok npa.m_Scene := by
    simp [GuiScriptInstance_Check, hs]
  unfold LuaSetParent
  simp only [hcheck1, hnda, hbone, hopt, hgsi, hset, Bool.false_eq_true, if_false]

/-! ### C20 -/

/-- C20 as stated fails for a number that does not fit the `int` it is
assigned to: `gui.set_render_order(4294967301)` stores 5, not 15. -/
theorem C20_counterexample :
    (LuaSetRenderOrder (worldOf sceneOneNode) [LuaValue.number 4294967301]).1.scene.m_RenderOrder
      = 5 := by
  decide

/-- C20, amended: called from a gui script with an integer `n`,
`gui.set_render_order` returns and changes the render order only; the order
stored lies in the range 0 to 15 whatever `n` is, and for `n` in the range
of an `int` it is `n` clamped into that range: 0 when `n < 0`, 15 when
`n > 15`, `n` otherwise. -/
theorem C20_set_render_order_clamps (w : World) (args : List LuaValue) (a : Nat) (n : Int)
    (hs : w.m_Instance = some a)
    (harg : luaArg args 1 = LuaValue.number n) :
    (LuaSetRenderOrder w args).2 = LuaResult.ok () ∧
    (LuaSetRenderOrder w args).1 =
      { w with scene := { w.scene with
          m_RenderOrder := (LuaSetRenderOrder w args).1.scene.m_RenderOrder } } ∧
    (LuaSetRenderOrder w args).1.scene.m_RenderOrder ≤ 15 ∧
    (-2 ^ 31 ≤ n → n < 2 ^ 31 →
      (n < 0 → (LuaSetRenderOrder w args).1.scene.m_RenderOrder = 0) ∧
      (n > 15 → (LuaSetRenderOrder w args).1.scene.m_RenderOrder = 15) ∧
      (0 ≤ n → n ≤ 15 → ((LuaSetRenderOrder w args).1.scene.m_RenderOrder : Int) = n)) := by
  have hrun : LuaSetRenderOrder w args =
      ({ w with scene := { w.scene with
          m_RenderOrder := (Clamp (toInt32 n) 0 15 % 65536).toNat } }, LuaResult.ok ()) := by
    simp [LuaSetRenderOrder, GuiScriptInstance_Check, hs, harg, luaL_checknumber, lua_isnumber,
      lua_tonumber]
  rw [hrun]
  refine ⟨rfl, rfl, ?_, ?_⟩
  · simp only [Clamp]
    split_ifs <;> omega
  · intro hlo hhi
    have h32 : toInt32 n = n := by
      unfold toInt32
      omega
    simp only [h32, Clamp]
    refine ⟨?_, ?_, ?_⟩
    · intro hn
      rw [if_pos hn]
      rfl
    · intro hn
      rw [if_neg (by omega), if_pos hn]
      rfl
    · intro h0 h15
      rw [if_neg (by omega), if_neg (by omega)]
      omega
/-- C11 on `completionWorld` with `finished` set: the function under
reference 1 is called once with the instance of scene 1 and the node under
reference 2; the two references are released and the reference the callback
took stays. -/
theorem C11_completion_callback_witness :
    (∃ id, rawgeti completionWorld.refTable (refOfUserdata 1) = LuaValue.function id) ∧
    LuaAnimationComplete samplePCall 1 completionWorld 0x10000 true 1 2 =
      ({ completionWorld with
         m_Instance := Option.none
         refTable := [(3, LuaValue.boolean true)] },
       LuaResult.ok
        [CompletionStep.call (LuaValue.function 0) 1
           (LuaValue.node { m_Scene := 1, m_Node := 0x10000 }),
         CompletionStep.unref 1, CompletionStep.unref 2]) := by
  refine ⟨⟨0, by decide⟩, ?_⟩
  obtain ⟨w2, hw2, hrun⟩ := C11_completion_callback samplePCall 1 completionWorld 0x10000 true 1 2
    (fun _ => ⟨0, by decide⟩)
  rw [hrun, hw2]
  decide

/-- C12 on `sceneOneNode` with externals under which no property exists. -/
theorem C12_animate_unknown_property_witness :
    LuaAnimate noPropertyExternals (worldOf sceneOneNode)
        [LuaValue.node { m_Scene := 1, m_Node := 0x10000 }, LuaValue.hash 5,
          LuaValue.number 1, LuaValue.vector [0, 1], LuaValue.number 1, LuaValue.number 0,
          LuaValue.function 0]
      = (worldOf sceneOneNode, LuaResult.error "property '%s' not found") ∧
    ∀ (w0 : World) (args0 : List LuaValue),
      (LuaAnimate noPropertyExternals w0 args0).1.animations = w0.animations ∨
      ∃ call, (LuaAnimate noPropertyExternals w0 args0).1.animations = w0.animations ++ [call] ∧
        noPropertyExternals.HasPropertyHash w0.scene call.node call.property = true :=
  C12_animate_unknown_property noPropertyExternals (worldOf sceneOneNode)
    [LuaValue.node { m_Scene := 1, m_Node := 0x10000 }, LuaValue.hash 5,
      LuaValue.number 1, LuaValue.vector [0, 1], LuaValue.number 1, LuaValue.number 0,
      LuaValue.function 0]
    { m_Scene := 1, m_Node := 0x10000 } 5 rfl rfl (by decide) rfl rfl

/-- C13 on the bone node in slot 1 of `sceneBone`. -/
theorem C13_delete_bone_rejected_witness :
    LuaDeleteNode (worldOf sceneBone) [LuaValue.node { m_Scene := 1, m_Node := 0x10001 }] =
      (worldOf sceneBone, LuaResult.error "Unable to delete bone nodes of a spine node.") :=
  C13_delete_bone_rejected (worldOf sceneBone) [LuaValue.node { m_Scene := 1, m_Node := 0x10001 }]
    { m_Scene := 1, m_Node := 0x10001 }
    { slotOf 1 1 21 with m_ParentIndex := 0, m_Node := { plainNode with m_IsBone := true } }
    rfl rfl (by decide) (by decide) rfl

/-- C14 on the box node in slot 2 of `sceneBone`: the slot differs from the
slot before in the deleted flag only. -/
theorem C14_delete_sets_flag_only_witness :
    (LuaDeleteNode (worldOf sceneBone) [LuaValue.node { m_Scene := 1, m_Node := 0x10002 }]).1.scene.m_Nodes[2]?
      = some { slotOf 1 2 22 with m_Deleted := true } :=
  (C14_delete_sets_flag_only (worldOf sceneBone)
    [LuaValue.node { m_Scene := 1, m_Node := 0x10002 }] { m_Scene := 1, m_Node := 0x10002 }
    (slotOf 1 2 22) rfl rfl (by decide) (by decide) rfl).2.1

/-- C15 on the bone node in slot 1 of `sceneBone`, with a second argument
that is no node at all. -/
theorem C15_set_parent_bone_noop_witness :
    LuaSetParent (worldOf sceneBone)
        [LuaValue.node { m_Scene := 1, m_Node := 0x10001 }, LuaValue.number 3] =
      (worldOf sceneBone, LuaResult.ok ()) :=
  C15_set_parent_bone_noop (worldOf sceneBone)
    [LuaValue.node { m_Scene := 1, m_Node := 0x10001 }, LuaValue.number 3]
    { m_Scene := 1, m_Node := 0x10001 }
    { slotOf 1 1 21 with m_ParentIndex := 0, m_Node := { plainNode with m_IsBone := true } }
    rfl rfl (by decide) (by decide) rfl

/-- C16 on `sceneFamily`: the node in slot 3 is a grandchild of the node in
slot 0, and `gui.set_parent` of slot 0 under slot 3 is rejected. -/
theorem C16_set_parent_cycle_rejected_witness :
    ancestorAt (worldOf sceneFamily).scene 2 3 = 0 ∧
    LuaSetParent (worldOf sceneFamily)
        [LuaValue.node { m_Scene := 1, m_Node := 0x10000 },
         LuaValue.node { m_Scene := 1, m_Node := 0x10003 }] =
      (worldOf sceneFamily,
        LuaResult.error "Unable to set parent since it would cause an infinite loop") :=
  ⟨by decide,
   C16_set_parent_cycle_rejected (worldOf sceneFamily)
    [LuaValue.node { m_Scene := 1, m_Node := 0x10000 },
     LuaValue.node { m_Scene := 1, m_Node := 0x10003 }]
    { m_Scene := 1, m_Node := 0x10000 } { m_Scene := 1, m_Node := 0x10003 }
    { slotOf 1 0 10 with m_ChildHead := 1 } 2 rfl rfl rfl rfl (by decide) (by decide) (by decide)
    rfl (by decide) (by decide) (by decide) (by decide)⟩

/-- C20 at `n = 20` and a scene of its own: the order stored is at most 15,
and it is 15. -/
theorem C20_set_render_order_clamps_witness :
    (LuaSetRenderOrder (worldOf sceneOneNode) [LuaValue.number 20]).2 = LuaResult.ok () ∧
    (LuaSetRenderOrder (worldOf sceneOneNode) [LuaValue.number 20]).1.scene.m_RenderOrder = 15 :=
  ⟨(C20_set_render_order_clamps (worldOf sceneOneNode) [LuaValue.number 20] 1 20 rfl rfl).1,
   ((C20_set_render_order_clamps (worldOf sceneOneNode) [LuaValue.number 20] 1 20 rfl
      rfl).2.2.2 (by decide) (by decide)).2.1 (by decide)⟩

/-! ### Chains as lists -/

theorem ChainList_of_chainFrom (s : Scene) :
    ∀ (l : List Nat) (f i : Nat), chainFrom f s i = some l → ChainList s i l := by
  intro l
  induction l with
  | nil => intro f i h; exact chainFrom_nil f s i h
  | cons a t ih =>
    intro f i h
    obtain ⟨ha, hne, nd, g, hnd, _, hrest⟩ := chainFrom_cons f s i a t h
    exact ⟨ha, hne, nd, hnd, ih g _ hrest⟩

theorem chainFrom_of_ChainList (s : Scene) :
    ∀ (l : List Nat) (i f : Nat), ChainList s i l → l.length < f → chainFrom f s i = some l := by
  intro l
  induction l with
  | nil =>
    intro i f h hf
    obtain ⟨f', rfl⟩ : ∃ f', f = f' + 1 := ⟨f - 1, by omega⟩
    have hi : i = INVALID_INDEX := h
    rw [chainFrom_succ, if_pos hi]
  | cons a t ih =>
    intro i f h hf
    obtain ⟨ha, hne, nd, hnd, hrest⟩ := h
    obtain ⟨f', rfl⟩ : ∃ f', f = f' + 1 := ⟨f - 1, by omega⟩
    rw [chainFrom_succ, if_neg hne, hnd]
    simp only
    rw [ih _ f' hrest (by simp only [List.length_cons] at hf; omega), ha]
    rfl

theorem ChainList.nodup {s : Scene} {i : Nat} {l : List Nat} (h : ChainList s i l) : l.Nodup :=
  chainFrom_nodup s l _ i (chainFrom_of_ChainList s l i (l.length + 1) h (by omega))

theorem ChainList.mem_lt {s : Scene} {i : Nat} {l : List Nat} (h : ChainList s i l) (j : Nat)
    (hj : j ∈ l) : j < s.m_Nodes.length ∧ j ≠ INVALID_INDEX :=
  chainFrom_mem_lt s l _ i j (chainFrom_of_ChainList s l i (l.length + 1) h (by omega)) hj

theorem ChainList.length_le {s : Scene} {i : Nat} {l : List Nat} (h : ChainList s i l) :
    l.length ≤ s.m_Nodes.length :=
  chainFrom_length_le s l _ i (chainFrom_of_ChainList s l i (l.length + 1) h (by omega))

theorem ChainList.unique {s : Scene} {i : Nat} {l l' : List Nat} (h : ChainList s i l)
    (h' : ChainList s i l') : l = l' :=
  chainFrom_unique s l l' _ _ i (chainFrom_of_ChainList s l i (l.length + 1) h (by omega))
    (chainFrom_of_ChainList s l' i (l'.length + 1) h' (by omega))

/-- The head of a chain: `INVALID_INDEX` for the empty one. -/
theorem ChainList.head_eq {s : Scene} {i : Nat} {l : List Nat} (h : ChainList s i l) :
    i = l.headD INVALID_INDEX := by
  cases l with
  | nil => exact h
  | cons a t => exact h.1.symm

/-- A chain is the same chain in a scene in which its slots have the same
next links. -/
theorem ChainList.congr {s s' : Scene} :
    ∀ (l : List Nat) (i : Nat), ChainList s i l →
      (∀ x ∈ l, ∀ nd, s.m_Nodes[x]? = some nd →
        ∃ nd', s'.m_Nodes[x]? = some nd' ∧ nd'.m_NextIndex = nd.m_NextIndex) →
      ChainList s' i l := by
  intro l
  induction l with
  | nil => intro i h _; exact h
  | cons a t ih =>
    intro i h hsame
    obtain ⟨ha, hne, nd, hnd, hrest⟩ := h
    obtain ⟨nd', hnd', hnext⟩ := hsame a (List.mem_cons_self _ _) nd (by rw [ha]; exact hnd)
    refine ⟨ha, hne, nd', by rw [← ha]; exact hnd', ?_⟩
    rw [hnext]
    exact ih _ hrest (fun x hx => hsame x (List.mem_cons_of_mem _ hx))

/-- A chain whose slots are untouched is the same chain. -/
theorem ChainList.frame {s s' : Scene} {l : List Nat} {i : Nat} (h : ChainList s i l)
    (hsame : ∀ x ∈ l, s'.m_Nodes[x]? = s.m_Nodes[x]?) : ChainList s' i l :=
  ChainList.congr l i h (fun x hx nd hnd => ⟨nd, by rw [hsame x hx]; exact hnd, rfl⟩)

/-- The part of a chain from one of its slots on is the chain of that slot. -/
theorem ChainList.tail_of {s : Scene} :
    ∀ (init : List Nat) (i a : Nat) (t : List Nat), ChainList s i (init ++ a :: t) →
      ChainList s a (a :: t) := by
  intro init
  induction init with
  | nil =>
    intro i a t h
    have ha : a = i := h.1
    rw [ha]
    rw [ha] at h
    exact h
  | cons b init ih =>
    intro i a t h
    obtain ⟨_, _, nd, _, hrest⟩ := h
    exact ih _ a t hrest

/-- A chain is rebuilt behind an initial part whose next links are the same:
what replaces the rest must be a chain from the same slot. -/
theorem ChainList.splice {s s' : Scene} :
    ∀ (init : List Nat) (i a : Nat) (t rest' : List Nat), ChainList s i (init ++ a :: t) →
      (∀ x ∈ init, ∀ nd, s.m_Nodes[x]? = some nd →
        ∃ nd', s'.m_Nodes[x]? = some nd' ∧ nd'.m_NextIndex = nd.m_NextIndex) →
      ChainList s' a rest' → ChainList s' i (init ++ rest') := by
  intro init
  induction init with
  | nil =>
    intro i a t rest' h _ hrest'
    have ha : a = i := h.1
    rw [← ha]
    exact hrest'
  | cons b init ih =>
    intro i a t rest' h hsame hrest'
    obtain ⟨hb, hne, nd, hnd, hrest⟩ := h
    obtain ⟨nd', hnd', hnext⟩ := hsame b (List.mem_cons_self _ _) nd (by rw [hb]; exact hnd)
    refine ⟨hb, hne, nd', by rw [← hb]; exact hnd', ?_⟩
    rw [hnext]
    exact ih _ a t rest' hrest (fun x hx => hsame x (List.mem_cons_of_mem _ hx)) hrest'

/-- The walk of `lastOfChain` along a chain ends at its last slot. -/
theorem lastOfChain_eq (s : Scene) :
    ∀ (init : List Nat) (i z fuel : Nat), ChainList s i (init ++ [z]) → init.length < fuel →
      lastOfChain fuel s i = z := by
  intro init
  induction init with
  | nil =>
    intro i z fuel h hf
    obtain ⟨hz, _, nd, hnd, hrest⟩ := h
    have hnext : nd.m_NextIndex = INVALID_INDEX := hrest
    obtain ⟨fuel', rfl⟩ : ∃ f', fuel = f' + 1 := ⟨fuel - 1, by omega⟩
    unfold lastOfChain
    rw [hnd]
    simp only [hnext, if_true, hz]
  | cons b init ih =>
    intro i z fuel h hf
    obtain ⟨_, _, nd, hnd, hrest⟩ := h
    obtain ⟨fuel', rfl⟩ : ∃ f', fuel = f' + 1 := ⟨fuel - 1, by omega⟩
    have hne : nd.m_NextIndex ≠ INVALID_INDEX := by
      cases init with
      | nil => exact hrest.2.1
      | cons c init => exact hrest.2.1
    unfold lastOfChain
    rw [hnd]
    simp only [if_neg hne]
    exact ih _ z fuel' hrest (by simp only [List.length_cons] at hf; omega)

/-- The walk of `prevInChain` along a chain finds the slot in front of a
slot of the chain that is not its head. -/
theorem prevInChain_eq (s : Scene) :
    ∀ (init : List Nat) (i p n : Nat) (t : List Nat) (fuel : Nat),
      ChainList s i (init ++ p :: n :: t) → init.length < fuel →
      prevInChain fuel s i n = some p := by
  intro init
  induction init with
  | nil =>
    intro i p n t fuel h hf
    obtain ⟨hp, hne, nd, hnd, hrest⟩ := h
    have hnext : n = nd.m_NextIndex := hrest.1
    obtain ⟨fuel', rfl⟩ : ∃ f', fuel = f' + 1 := ⟨fuel - 1, by omega⟩
    unfold prevInChain
    rw [if_neg hne, hnd]
    simp only [hnext, if_true, hp]
  | cons b init ih =>
    intro i p n t fuel h hf
    have hnodup := h.nodup
    obtain ⟨hb, hne, nd, hnd, hrest⟩ := h
    obtain ⟨fuel', rfl⟩ : ∃ f', fuel = f' + 1 := ⟨fuel - 1, by omega⟩
    have hnn : nd.m_NextIndex ≠ n := by
      intro heq
      have hhd : (init ++ p :: n :: t).head? = some nd.m_NextIndex := by
        cases init with
        | nil => exact congrArg some hrest.1
        | cons c init => exact congrArg some hrest.1
      have hnd2 := (List.nodup_cons.mp hnodup).2
      rw [heq] at hhd
      cases init with
      | nil =>
        simp only [List.nil_append, List.head?_cons, Option.some.injEq] at hhd
        rw [hhd] at hnd2
        simp at hnd2
      | cons c init =>
        simp only [List.cons_append, List.head?_cons, Option.some.injEq] at hhd
        rw [hhd] at hnd2
        simp at hnd2
    unfold prevInChain
    rw [if_neg hne, hnd]
    simp only [if_neg hnn]
    exact ih _ p n t fuel' hrest (by simp only [List.length_cons] at hf; omega)
/-! ### Insertion and removal, on chains given as lists -/

theorem AddToNodeList_nil (s : Scene) (n p : Nat) (h : chainHeadOf s p = INVALID_INDEX) :
    AddToNodeList s n p =
      modifyNode (setChainHead s p n) n
        (fun x => { x with m_ParentIndex := p, m_NextIndex := INVALID_INDEX }) := by
  unfold AddToNodeList
  simp only [h, if_true]

theorem AddToNodeList_snoc (s : Scene) (n p : Nat) (init : List Nat) (z : Nat)
    (h : ChainList s (chainHeadOf s p) (init ++ [z])) :
    AddToNodeList s n p =
      modifyNode (modifyNode s z (fun x => { x with m_NextIndex := n })) n
        (fun x => { x with m_ParentIndex := p, m_NextIndex := INVALID_INDEX }) := by
  have hne : chainHeadOf s p ≠ INVALID_INDEX := by
    cases init with
    | nil => exact h.2.1
    | cons a init => exact h.2.1
  have hlen := h.length_le
  simp only [List.length_append, List.length_singleton] at hlen
  unfold AddToNodeList
  simp only [if_neg hne, lastOfChain_eq s init (chainHeadOf s p) z s.m_Nodes.length h (by omega)]

theorem RemoveFromNodeList_head (s : Scene) (n : Nat) (nd : InternalNode)
    (hnd : s.m_Nodes[n]? = some nd) (h : chainHeadOf s nd.m_ParentIndex = n) :
    RemoveFromNodeList s n =
      modifyNode (setChainHead s nd.m_ParentIndex nd.m_NextIndex) n
        (fun x => { x with m_NextIndex := INVALID_INDEX }) := by
  unfold RemoveFromNodeList
  simp only [hnd, h, if_true]

theorem RemoveFromNodeList_mid (s : Scene) (n : Nat) (nd : InternalNode)
    (hnd : s.m_Nodes[n]? = some nd) (init : List Nat) (p : Nat) (t : List Nat)
    (h : ChainList s (chainHeadOf s nd.m_ParentIndex) (init ++ p :: n :: t)) :
    RemoveFromNodeList s n =
      modifyNode (modifyNode s p (fun x => { x with m_NextIndex := nd.m_NextIndex })) n
        (fun x => { x with m_NextIndex := INVALID_INDEX }) := by
  have hnodup := h.nodup
  have hne : chainHeadOf s nd.m_ParentIndex ≠ n := by
    intro heq
    have hhead := h.head_eq
    rw [heq] at hhead
    cases init with
    | nil =>
      simp only [List.nil_append, List.headD_cons] at hhead
      rw [← hhead] at hnodup
      simp at hnodup
    | cons a init =>
      simp only [List.cons_append, List.headD_cons] at hhead
      rw [← hhead] at hnodup
      simp at hnodup
  have hlen := h.length_le
  simp only [List.length_append, List.length_cons] at hlen
  unfold RemoveFromNodeList
  simp only [hnd, if_neg hne, prevInChain_eq s init (chainHeadOf s nd.m_ParentIndex) p n t s.m_Nodes.length h (by omega)]

theorem setChainHead_getElem? (s : Scene) (p v m : Nat) :
    (setChainHead s p v).m_Nodes[m]? =
      if p ≠ INVALID_INDEX ∧ p = m then
        (s.m_Nodes[m]?).map (fun x => { x with m_ChildHead := v })
      else s.m_Nodes[m]? := by
  unfold setChainHead
  by_cases hpi : p = INVALID_INDEX
  · simp [hpi]
  · simp only [if_neg hpi, ne_eq, hpi, not_false_eq_true, true_and]
    exact modifyNode_getElem? _ _ _ _

theorem setChainHead_renderHead (s : Scene) (p v : Nat) :
    (setChainHead s p v).m_RenderHead = if p = INVALID_INDEX then v else s.m_RenderHead := by
  unfold setChainHead
  by_cases hpi : p = INVALID_INDEX
  · simp [hpi]
  · simp only [if_neg hpi]
    exact modifyNode_renderHead _ _ _

theorem setChainHead_pool (s : Scene) (p v : Nat) :
    (setChainHead s p v).m_NodePool = s.m_NodePool := by
  unfold setChainHead
  split_ifs
  · rfl
  · exact modifyNode_pool _ _ _

/-- What `AddToNodeList` writes when the chain is empty. -/
theorem AddToNodeList_nil_effect (s : Scene) (n p : Nat) (nd : InternalNode)
    (hhead : chainHeadOf s p = INVALID_INDEX) (hnd : s.m_Nodes[n]? = some nd) (hnp : n ≠ p) :
    (AddToNodeList s n p).m_Nodes[n]? =
      some { nd with m_ParentIndex := p, m_NextIndex := INVALID_INDEX } ∧
    (∀ m, m ≠ n → (p = INVALID_INDEX ∨ m ≠ p) →
      (AddToNodeList s n p).m_Nodes[m]? = s.m_Nodes[m]?) ∧
    (p ≠ INVALID_INDEX → ∀ pd, s.m_Nodes[p]? = some pd →
      (AddToNodeList s n p).m_Nodes[p]? = some { pd with m_ChildHead := n }) ∧
    (AddToNodeList s n p).m_RenderHead = (if p = INVALID_INDEX then n else s.m_RenderHead) ∧
    (AddToNodeList s n p).m_NodePool = s.m_NodePool ∧
    (AddToNodeList s n p).m_Nodes.length = s.m_Nodes.length := by
  rw [AddToNodeList_nil s n p hhead]
  refine ⟨?_, ?_, ?_, ?_, ?_, ?_⟩
  · rw [modifyNode_getElem?_self, setChainHead_getElem?,
      if_neg (fun h => hnp h.2.symm), hnd]
    rfl
  · intro m hmn hmp
    rw [modifyNode_getElem?_ne _ _ _ _ (Ne.symm hmn), setChainHead_getElem?,
      if_neg (fun h => hmp.elim h.1 (fun hne => hne h.2.symm))]
  · intro hpi pd hpd
    rw [modifyNode_getElem?_ne _ _ _ _ hnp, setChainHead_getElem?, if_pos ⟨hpi, rfl⟩, hpd]
    rfl
  · rw [modifyNode_renderHead, setChainHead_renderHead]
  · rw [modifyNode_pool, setChainHead_pool]
  · rw [modifyNode_length, setChainHead_length]

/-- What `AddToNodeList` writes when the chain has a last slot `z`. -/
theorem AddToNodeList_snoc_effect (s : Scene) (n p : Nat) (init : List Nat) (z : Nat)
    (nd zd : InternalNode) (h : ChainList s (chainHeadOf s p) (init ++ [z]))
    (hnd : s.m_Nodes[n]? = some nd) (hzd : s.m_Nodes[z]? = some zd) (hnz : n ≠ z) :
    (AddToNodeList s n p).m_Nodes[n]? =
      some { nd with m_ParentIndex := p, m_NextIndex := INVALID_INDEX } ∧
    (AddToNodeList s n p).m_Nodes[z]? = some { zd with m_NextIndex := n } ∧
    (∀ m, m ≠ n → m ≠ z → (AddToNodeList s n p).m_Nodes[m]? = s.m_Nodes[m]?) ∧
    (AddToNodeList s n p).m_RenderHead = s.m_RenderHead ∧
    (AddToNodeList s n p).m_NodePool = s.m_NodePool ∧
    (AddToNodeList s n p).m_Nodes.length = s.m_Nodes.length := by
  rw [AddToNodeList_snoc s n p init z h]
  refine ⟨?_, ?_, ?_, ?_, ?_, ?_⟩
  · rw [modifyNode_getElem?_self, modifyNode_getElem?_ne _ _ _ _ (Ne.symm hnz), hnd]
    rfl
  · rw [modifyNode_getElem?_ne _ _ _ _ hnz, modifyNode_getElem?_self, hzd]
    rfl
  · intro m hmn hmz
    rw [modifyNode_getElem?_ne _ _ _ _ (Ne.symm hmn), modifyNode_getElem?_ne _ _ _ _ (Ne.symm hmz)]
  · rw [modifyNode_renderHead, modifyNode_renderHead]
  · rw [modifyNode_pool, modifyNode_pool]
  · rw [modifyNode_length, modifyNode_length]

/-- What `RemoveFromNodeList` writes when the node is the head of its chain. -/
theorem RemoveFromNodeList_head_effect (s : Scene) (n : Nat) (nd : InternalNode)
    (hnd : s.m_Nodes[n]? = some nd) (hhead : chainHeadOf s nd.m_ParentIndex = n)
    (hnp : n ≠ nd.m_ParentIndex) :
    (RemoveFromNodeList s n).m_Nodes[n]? = some { nd with m_NextIndex := INVALID_INDEX } ∧
    (∀ m, m ≠ n → (nd.m_ParentIndex = INVALID_INDEX ∨ m ≠ nd.m_ParentIndex) →
      (RemoveFromNodeList s n).m_Nodes[m]? = s.m_Nodes[m]?) ∧
    (nd.m_ParentIndex ≠ INVALID_INDEX → ∀ pd, s.m_Nodes[nd.m_ParentIndex]? = some pd →
      (RemoveFromNodeList s n).m_Nodes[nd.m_ParentIndex]? =
        some { pd with m_ChildHead := nd.m_NextIndex }) ∧
    (RemoveFromNodeList s n).m_RenderHead =
      (if nd.m_ParentIndex = INVALID_INDEX then nd.m_NextIndex else s.m_RenderHead) ∧
    (RemoveFromNodeList s n).m_NodePool = s.m_NodePool ∧
    (RemoveFromNodeList s n).m_Nodes.length = s.m_Nodes.length := by
  rw [RemoveFromNodeList_head s n nd hnd hhead]
  refine ⟨?_, ?_, ?_, ?_, ?_, ?_⟩
  · rw [modifyNode_getElem?_self, setChainHead_getElem?,
      if_neg (fun h => hnp h.2.symm), hnd]
    rfl
  · intro m hmn hmp
    rw [modifyNode_getElem?_ne _ _ _ _ (Ne.symm hmn), setChainHead_getElem?,
      if_neg (fun h => hmp.elim h.1 (fun hne => hne h.2.symm))]
  · intro hpi pd hpd
    rw [modifyNode_getElem?_ne _ _ _ _ hnp, setChainHead_getElem?, if_pos ⟨hpi, rfl⟩, hpd]
    rfl
  · rw [modifyNode_renderHead, setChainHead_renderHead]
  · rw [modifyNode_pool, setChainHead_pool]
  · rw [modifyNode_length, setChainHead_length]

/-- What `RemoveFromNodeList` writes when the node follows slot `p` in its
chain. -/
theorem RemoveFromNodeList_mid_effect (s : Scene) (n : Nat) (nd pd : InternalNode)
    (hnd : s.m_Nodes[n]? = some nd) (init : List Nat) (p : Nat) (t : List Nat)
    (h : ChainList s (chainHeadOf s nd.m_ParentIndex) (init ++ p :: n :: t))
    (hpd : s.m_Nodes[p]? = some pd) :
    (RemoveFromNodeList s n).m_Nodes[n]? = some { nd with m_NextIndex := INVALID_INDEX } ∧
    (RemoveFromNodeList s n).m_Nodes[p]? = some { pd with m_NextIndex := nd.m_NextIndex } ∧
    (∀ m, m ≠ n → m ≠ p → (RemoveFromNodeList s n).m_Nodes[m]? = s.m_Nodes[m]?) ∧
    (RemoveFromNodeList s n).m_RenderHead = s.m_RenderHead ∧
    (RemoveFromNodeList s n).m_NodePool = s.m_NodePool ∧
    (RemoveFromNodeList s n).m_Nodes.length = s.m_Nodes.length := by
  have hpn : p ≠ n := by
    have hnodup := h.nodup
    intro heq
    rw [heq] at hnodup
    have := (List.nodup_append.mp hnodup).2.1
    simp at this
  rw [RemoveFromNodeList_mid s n nd hnd init p t h]
  refine ⟨?_, ?_, ?_, ?_, ?_, ?_⟩
  · rw [modifyNode_getElem?_self, modifyNode_getElem?_ne _ _ _ _ hpn, hnd]
    rfl
  · rw [modifyNode_getElem?_ne _ _ _ _ (Ne.symm hpn), modifyNode_getElem?_self, hpd]
    rfl
  · intro m hmn hmp
    rw [modifyNode_getElem?_ne _ _ _ _ (Ne.symm hmn), modifyNode_getElem?_ne _ _ _ _ (Ne.symm hmp)]
  · rw [modifyNode_renderHead, modifyNode_renderHead]
  · rw [modifyNode_pool, modifyNode_pool]
  · rw [modifyNode_length, modifyNode_length]
/-- The head of the chain owned by `p` depends on the render head and on
the child head of slot `p` only. -/
theorem chainHeadOf_congr (s s' : Scene) (p : Nat)
    (hhead : s'.m_RenderHead = s.m_RenderHead)
    (hlen : s'.m_Nodes.length = s.m_Nodes.length)
    (hp : ∀ pd, s.m_Nodes[p]? = some pd →
      ∃ pd', s'.m_Nodes[p]? = some pd' ∧ pd'.m_ChildHead = pd.m_ChildHead) :
    chainHeadOf s' p = chainHeadOf s p := by
  unfold chainHeadOf
  by_cases hpi : p = INVALID_INDEX
  · simp only [hpi, if_true, hhead]
  · simp only [if_neg hpi]
    cases hpd : s.m_Nodes[p]? with
    | none =>
      have : s'.m_Nodes[p]? = Option.none := by
        apply List.getElem?_eq_none
        rw [hlen]
        by_contra hlt
        rw [List.getElem?_eq_getElem (by omega)] at hpd
        cases hpd
      rw [this]
    | some pd =>
      obtain ⟨pd', hpd', hc⟩ := hp pd hpd
      rw [hpd']
      exact hc

theorem getElem?_of_lt {α : Type} (l : List α) (i : Nat) (h : i < l.length) :
    ∃ a, l[i]? = some a :=
  ⟨l[i], List.getElem?_eq_getElem h⟩

theorem list_nil_or_snoc {α : Type} (l : List α) : l = [] ∨ ∃ init z, l = init ++ [z] := by
  rcases List.eq_nil_or_concat l with h | ⟨init, z, h⟩
  · exact Or.inl h
  · exact Or.inr ⟨init, z, by rw [h, List.concat_eq_append]⟩

/-- A node put at the top of a chain is its new last slot. -/
theorem AddToNodeList_chain (s : Scene) (n p : Nat) (l : List Nat) (nd : InternalNode)
    (hl : ChainList s (chainHeadOf s p) l) (hn : n ∉ l) (hnd : s.m_Nodes[n]? = some nd)
    (hnI : n ≠ INVALID_INDEX) (hnp : n ≠ p)
    (hp : p = INVALID_INDEX ∨ ∃ pd, s.m_Nodes[p]? = some pd) :
    ChainList (AddToNodeList s n p) (chainHeadOf (AddToNodeList s n p) p) (l ++ [n]) ∧
    (AddToNodeList s n p).m_Nodes[n]? =
      some { nd with m_ParentIndex := p, m_NextIndex := INVALID_INDEX } ∧
    (AddToNodeList s n p).m_Nodes.length = s.m_Nodes.length := by
  rcases list_nil_or_snoc l with hnil | ⟨init, z, hl'⟩
  · subst hnil
    have hhead : chainHeadOf s p = INVALID_INDEX := hl
    obtain ⟨e1, _, e3, e4, _, e6⟩ := AddToNodeList_nil_effect s n p nd hhead hnd hnp
    refine ⟨?_, e1, e6⟩
    have hh : chainHeadOf (AddToNodeList s n p) p = n := by
      unfold chainHeadOf
      by_cases hpi : p = INVALID_INDEX
      · rw [if_pos hpi, e4, if_pos hpi]
      · rw [if_neg hpi]
        rcases hp with hp | ⟨pd, hpd⟩
        · exact absurd hp hpi
        · rw [e3 hpi pd hpd]
    rw [hh]
    exact ⟨rfl, hnI, _, e1, rfl⟩
  · subst hl'
    have hzl : z ∈ init ++ [z] := by simp
    have hnz : n ≠ z := fun h => hn (h ▸ hzl)
    obtain ⟨zd, hzd⟩ := getElem?_of_lt s.m_Nodes z (hl.mem_lt z hzl).1
    obtain ⟨e1, e2, e3, e4, _, e6⟩ := AddToNodeList_snoc_effect s n p init z nd zd hl hnd hzd hnz
    have hh : chainHeadOf (AddToNodeList s n p) p = chainHeadOf s p := by
      apply chainHeadOf_congr _ _ _ e4 e6
      intro pd hpd
      rcases eq_or_ne p z with hpz | hpz
      · subst hpz
        rw [hzd] at hpd
        cases hpd
        exact ⟨_, e2, rfl⟩
      · exact ⟨pd, by rw [e3 p (Ne.symm hnp) hpz]; exact hpd, rfl⟩
    refine ⟨?_, e1, e6⟩
    rw [hh, List.append_assoc]
    have hnodup := hl.nodup
    refine ChainList.splice init _ z [] _ hl ?_ ?_
    · intro x hx xd hxd
      have hxz : x ≠ z := by
        intro h
        rw [h] at hx
        have := (List.nodup_append.mp hnodup).2.2 hx (List.mem_singleton_self z)
        exact this
      have hxn : x ≠ n := fun h => hn (h ▸ List.mem_append_left _ hx)
      exact ⟨xd, by rw [e3 x hxn hxz]; exact hxd, rfl⟩
    · exact ⟨rfl, (hl.mem_lt z hzl).2, _, e2, rfl, hnI, _, e1, rfl⟩

/-- The last slot of a chain has no next sibling. -/
theorem ChainList.last_next {s : Scene} {i : Nat} (init : List Nat) (z : Nat) (zd : InternalNode)
    (h : ChainList s i (init ++ [z])) (hzd : s.m_Nodes[z]? = some zd) :
    zd.m_NextIndex = INVALID_INDEX := by
  obtain ⟨_, _, nd, hnd, hrest⟩ := ChainList.tail_of init i z [] h
  rw [hzd] at hnd
  cases hnd
  exact hrest

/-- The effect of `CloneNode` on a scene whose render chain `lr` ends and
does not contain the free slot `f` that is handed out: the clone is in slot
`f`, which is the new last slot of the render chain, and nothing else
changes but the link to it. -/
theorem CloneNode_links (s : Scene) (h : Nat) (src old : InternalNode) (f : Nat)
    (rest lr : List Nat)
    (hv : IsValidNode s h = true) (hsrc : s.m_Nodes[h &&& 0xffff]? = some src)
    (hpool : s.m_NodePool = f :: rest) (hold : s.m_Nodes[f]? = some old)
    (hlr : ChainList s s.m_RenderHead lr) (hflr : f ∉ lr) (hfI : f ≠ INVALID_INDEX) :
    ∃ s1, CloneNode s h = (Result.RESULT_OK, s1, GetNodeHandle (clonedSlot src old f)) ∧
      s1.m_NodePool = rest ∧ s1.m_Nodes.length = s.m_Nodes.length ∧
      s1.m_Nodes[f]? = some (clonedSlot src old f) ∧
      ChainList s1 s1.m_RenderHead (lr ++ [f]) ∧
      (lr = [] → s1.m_RenderHead = f ∧ ∀ m, m ≠ f → s1.m_Nodes[m]? = s.m_Nodes[m]?) ∧
      (∀ init z, lr = init ++ [z] → s1.m_RenderHead = s.m_RenderHead ∧
        (∀ zd, s.m_Nodes[z]? = some zd → s1.m_Nodes[z]? = some { zd with m_NextIndex := f }) ∧
        ∀ m, m ≠ f → m ≠ z → s1.m_Nodes[m]? = s.m_Nodes[m]?) := by
  have hflt : f < s.m_Nodes.length := getElem?_lt _ _ _ hold
  obtain ⟨sA, hsA⟩ : ∃ sA : Scene, sA =
      { s with m_Nodes := s.m_Nodes.set f (clonedSlot src old f), m_NodePool := rest } :=
    ⟨_, rfl⟩
  have hA : ∀ x, x ≠ f → sA.m_Nodes[x]? = s.m_Nodes[x]? := by
    intro x hx
    rw [hsA]
    exact allocated_getElem? s f _ rest x hx
  have hAf : sA.m_Nodes[f]? = some (clonedSlot src old f) := by
    rw [hsA]
    exact List.getElem?_set_self hflt
  have hAhead : sA.m_RenderHead = s.m_RenderHead := by rw [hsA]
  have hApool : sA.m_NodePool = rest := by rw [hsA]
  have hAlen : sA.m_Nodes.length = s.m_Nodes.length := by rw [hsA]; exact List.length_set _ _ _
  have hclone : CloneNode s h = (Result.RESULT_OK, AddToNodeList sA f INVALID_INDEX,
      GetNodeHandle (clonedSlot src old f)) := by
    unfold CloneNode
    simp only [hv, if_true, GetNode_eq, hsrc, hpool, hold, hsA]
  have hchainA : ChainList sA (chainHeadOf sA INVALID_INDEX) lr := by
    have : chainHeadOf sA INVALID_INDEX = s.m_RenderHead := by
      unfold chainHeadOf
      rw [if_pos rfl, hAhead]
    rw [this]
    exact hlr.frame (fun x hx => hA x (fun hxf => hflr (hxf ▸ hx)))
  obtain ⟨hc1, hn1, hlen1⟩ := AddToNodeList_chain sA f INVALID_INDEX lr _ hchainA hflr hAf hfI hfI
    (Or.inl rfl)
  have hhead1 : chainHeadOf (AddToNodeList sA f INVALID_INDEX) INVALID_INDEX =
      (AddToNodeList sA f INVALID_INDEX).m_RenderHead := by
    unfold chainHeadOf
    rw [if_pos rfl]
  rw [hhead1] at hc1
  refine ⟨_, hclone, ?_, hlen1.trans hAlen, hn1, hc1, ?_, ?_⟩
  · rcases list_nil_or_snoc lr with hnil | ⟨init, z, hl'⟩
    · subst hnil
      exact ((AddToNodeList_nil_effect sA f INVALID_INDEX _ hchainA hAf hfI).2.2.2.2.1).trans hApool
    · subst hl'
      have hzl : z ∈ init ++ [z] := by simp
      obtain ⟨zd, hzd⟩ := getElem?_of_lt sA.m_Nodes z (hchainA.mem_lt z hzl).1
      exact ((AddToNodeList_snoc_effect sA f INVALID_INDEX init z _ zd hchainA hAf hzd
        (fun hfz => hflr (hfz ▸ hzl))).2.2.2.2.1).trans hApool
  · intro hnil
    subst hnil
    obtain ⟨_, e2, _, e4, _, _⟩ := AddToNodeList_nil_effect sA f INVALID_INDEX _ hchainA hAf hfI
    refine ⟨by rw [e4, if_pos rfl], ?_⟩
    intro m hm
    rw [e2 m hm (Or.inl rfl), hA m hm]
  · intro init z hl'
    subst hl'
    have hzl : z ∈ init ++ [z] := by simp
    have hfz : f ≠ z := fun hfz => hflr (hfz ▸ hzl)
    obtain ⟨zd, hzd⟩ := getElem?_of_lt sA.m_Nodes z (hchainA.mem_lt z hzl).1
    obtain ⟨_, e2, e3, e4, _, _⟩ :=
      AddToNodeList_snoc_effect sA f INVALID_INDEX init z _ zd hchainA hAf hzd hfz
    refine ⟨e4.trans hAhead, ?_, ?_⟩
    · intro zd' hzd'
      rw [hA z (Ne.symm hfz)] at hzd
      rw [hzd'] at hzd
      cases hzd
      exact e2
    · intro m hmf hmz
      rw [e3 m hmf hmz, hA m hmf]

/-- The effect of `RemoveFromNodeList` on the last slot `f` of the render
chain. -/
theorem RemoveFromNodeList_last (s : Scene) (f : Nat) (fd : InternalNode) (lr : List Nat)
    (hfd : s.m_Nodes[f]? = some fd) (hpar : fd.m_ParentIndex = INVALID_INDEX)
    (hlr : ChainList s s.m_RenderHead (lr ++ [f])) :
    (RemoveFromNodeList s f).m_Nodes[f]? = some fd ∧
    (RemoveFromNodeList s f).m_NodePool = s.m_NodePool ∧
    (RemoveFromNodeList s f).m_Nodes.length = s.m_Nodes.length ∧
    (lr = [] → (RemoveFromNodeList s f).m_RenderHead = INVALID_INDEX ∧
      ∀ m, m ≠ f → (RemoveFromNodeList s f).m_Nodes[m]? = s.m_Nodes[m]?) ∧
    (∀ init z, lr = init ++ [z] → (RemoveFromNodeList s f).m_RenderHead = s.m_RenderHead ∧
      (∀ zd, s.m_Nodes[z]? = some zd →
        (RemoveFromNodeList s f).m_Nodes[z]? = some { zd with m_NextIndex := INVALID_INDEX }) ∧
      ∀ m, m ≠ f → m ≠ z → (RemoveFromNodeList s f).m_Nodes[m]? = s.m_Nodes[m]?) := by
  have hnext : fd.m_NextIndex = INVALID_INDEX := ChainList.last_next lr f fd hlr hfd
  have hfI : f ≠ INVALID_INDEX := (hlr.mem_lt f (by simp)).2
  have hself : ({ fd with m_NextIndex := INVALID_INDEX } : InternalNode) = fd := by
    cases fd
    simp only at hnext
    simp only [hnext]
  have hchain : ChainList s (chainHeadOf s fd.m_ParentIndex) (lr ++ [f]) := by
    unfold chainHeadOf
    rw [if_pos hpar]
    exact hlr
  rcases list_nil_or_snoc lr with hnil | ⟨init, z, hl'⟩
  · subst hnil
    have hhead : chainHeadOf s fd.m_ParentIndex = f := hchain.1.symm
    obtain ⟨e1, e2, _, e4, e5, e6⟩ := RemoveFromNodeList_head_effect s f fd hfd hhead
      (by rw [hpar]; exact hfI)
    rw [hself] at e1
    refine ⟨e1, e5, e6, ?_, ?_⟩
    · intro _
      refine ⟨by rw [e4, if_pos hpar, hnext], ?_⟩
      intro m hm
      exact e2 m hm (Or.inl hpar)
    · intro init z hl'
      cases init <;> cases hl'
  · subst hl'
    have hzl : z ∈ init ++ [z] ++ [f] := by simp
    obtain ⟨zd, hzd⟩ := getElem?_of_lt s.m_Nodes z (hchain.mem_lt z hzl).1
    rw [List.append_assoc] at hchain
    obtain ⟨e1, e2, e3, e4, e5, e6⟩ :=
      RemoveFromNodeList_mid_effect s f fd zd hfd init z [] hchain hzd
    rw [hself] at e1
    refine ⟨e1, e5, e6, ?_, ?_⟩
    · intro hnil
      cases init <;> cases hnil
    · intro init' z' hl'
      obtain ⟨hi, hz⟩ := List.append_inj' hl' rfl
      simp only [List.cons.injEq, and_true] at hz
      subst hi
      subst hz
      refine ⟨e4, ?_, e3⟩
      intro zd' hzd'
      rw [hzd'] at hzd
      cases hzd
      rw [hnext] at e2
      exact e2

/-- What `InsertAfter` writes. -/
theorem InsertAfter_effect (s : Scene) (n prev : Nat) (nd pd : InternalNode)
    (hnd : s.m_Nodes[n]? = some nd) (hpd : s.m_Nodes[prev]? = some pd) (hne : n ≠ prev) :
    (InsertAfter s n prev).m_Nodes[n]? =
      some { nd with m_ParentIndex := pd.m_ParentIndex, m_NextIndex := pd.m_NextIndex } ∧
    (InsertAfter s n prev).m_Nodes[prev]? = some { pd with m_NextIndex := n } ∧
    (∀ m, m ≠ n → m ≠ prev → (InsertAfter s n prev).m_Nodes[m]? = s.m_Nodes[m]?) ∧
    (InsertAfter s n prev).m_RenderHead = s.m_RenderHead ∧
    (InsertAfter s n prev).m_NodePool = s.m_NodePool ∧
    (InsertAfter s n prev).m_Nodes.length = s.m_Nodes.length := by
  unfold InsertAfter
  simp only [hpd]
  refine ⟨?_, ?_, ?_, ?_, ?_, ?_⟩
  · rw [modifyNode_getElem?_self, modifyNode_getElem?_ne _ _ _ _ (Ne.symm hne), hnd]
    rfl
  · rw [modifyNode_getElem?_ne _ _ _ _ hne, modifyNode_getElem?_self, hpd]
    rfl
  · intro m hmn hmp
    rw [modifyNode_getElem?_ne _ _ _ _ (Ne.symm hmn), modifyNode_getElem?_ne _ _ _ _ (Ne.symm hmp)]
  · rw [modifyNode_renderHead, modifyNode_renderHead]
  · rw [modifyNode_pool, modifyNode_pool]
  · rw [modifyNode_length, modifyNode_length]
/-! ### C18 -/

/-- C18: in a scene in which `INVALID_INDEX` is no slot and whose render
chain ends without passing through the first free slot `f`, for a valid node
of the running gui script with a handle other than `INVALID_HANDLE`,
`gui.clone` returns the proxy of the node that `CloneNode` produced for that
source, after one call of `MoveNodeAbove` on the clone and the source.  The
clone is in slot `f` and directly behind the source in the chain of the
source: the source is followed by the clone, the clone by what followed the
source, and the clone has the parent of the source; no other slot and no
head of a chain changes, and the children of the source are not copied. -/
theorem C18_clone_above_source (w : World) (args : List LuaValue) (np : NodeProxy)
    (src old : InternalNode) (f : Nat) (rest lr : List Nat) (fr : Nat)
    (harg : luaArg args 1 = LuaValue.node np)
    (hs : w.m_Instance = some np.m_Scene)
    (hv : IsValidNode w.scene np.m_Node = true)
    (hne : np.m_Node ≠ INVALID_HANDLE)
    (hsrc : w.scene.m_Nodes[np.m_Node &&& 0xffff]? = some src)
    (hpool : w.scene.m_NodePool = f :: rest)
    (hold : w.scene.m_Nodes[f]? = some old)
    (hfa : f ≠ np.m_Node &&& 0xffff)
    (hsize : w.scene.m_Nodes.length ≤ INVALID_INDEX)
    (hver : old.m_Version < 65536)
    (hrender : chainFrom fr w.scene w.scene.m_RenderHead = some lr)
    (hflr : f ∉ lr) :
    ∃ s1 out,
      CloneNode w.scene np.m_Node = (Result.RESULT_OK, s1, out) ∧
      LuaClone w args =
        ({ w with scene := MoveNodeAbove s1 out np.m_Node },
          LuaResult.ok { m_Scene := np.m_Scene, m_Node := out }) ∧
      IsValidNode (MoveNodeAbove s1 out np.m_Node) out = true ∧
      out &&& 0xffff = f ∧
      (MoveNodeAbove s1 out np.m_Node).m_Nodes[np.m_Node &&& 0xffff]? =
        some { src with m_NextIndex := f } ∧
      (MoveNodeAbove s1 out np.m_Node).m_Nodes[f]? =
        some { clonedSlot src old f with
          m_ParentIndex := src.m_ParentIndex, m_NextIndex := src.m_NextIndex } ∧
      (∀ m, m ≠ (np.m_Node &&& 0xffff) → m ≠ f →
        (MoveNodeAbove s1 out np.m_Node).m_Nodes[m]? = w.scene.m_Nodes[m]?) ∧
      (MoveNodeAbove s1 out np.m_Node).m_RenderHead = w.scene.m_RenderHead ∧
      (MoveNodeAbove s1 out np.m_Node).m_NodePool = rest := by
  have hflt : f < w.scene.m_Nodes.length := getElem?_lt _ _ _ hold
  have hf16 : f < 65536 := by unfold INVALID_INDEX at hsize; omega
  have hfI : f ≠ INVALID_INDEX := by unfold INVALID_INDEX at hsize ⊢; omega
  have hlr := ChainList_of_chainFrom w.scene lr fr _ hrender
  obtain ⟨s1, hclone, hpool1, hlen1, hf1, hchain1, hnil1, hsnoc1⟩ :=
    CloneNode_links w.scene np.m_Node src old f rest lr hv hsrc hpool hold hlr hflr hfI
  obtain ⟨hf2, hpool2, hlen2, hnil2, hsnoc2⟩ :=
    RemoveFromNodeList_last s1 f (clonedSlot src old f) lr hf1 rfl hchain1
  -- the scene after the removal is the scene after the allocation
  have hsame2 : ∀ m, m ≠ f → (RemoveFromNodeList s1 f).m_Nodes[m]? = w.scene.m_Nodes[m]? := by
    intro m hm
    rcases list_nil_or_snoc lr with hnil | ⟨init, z, hl'⟩
    · rw [(hnil2 hnil).2 m hm, (hnil1 hnil).2 m hm]
    · obtain ⟨_, hz1, ho1⟩ := hsnoc1 init z hl'
      obtain ⟨_, hz2, ho2⟩ := hsnoc2 init z hl'
      by_cases hmz : m = z
      · subst hmz
        have hzl : m ∈ lr := by rw [hl']; simp
        obtain ⟨zd, hzd⟩ := getElem?_of_lt w.scene.m_Nodes m (hlr.mem_lt m hzl).1
        have hnext : zd.m_NextIndex = INVALID_INDEX :=
          ChainList.last_next init m zd (hl' ▸ hlr) hzd
        rw [hz2 _ (hz1 zd hzd), hzd]
        cases zd
        simp only at hnext
        simp only [hnext]
      · rw [ho2 m hm hmz, ho1 m hm hmz]
  have hhead2 : (RemoveFromNodeList s1 f).m_RenderHead = w.scene.m_RenderHead := by
    rcases list_nil_or_snoc lr with hnil | ⟨init, z, hl'⟩
    · rw [(hnil2 hnil).1]
      subst hnil
      exact hlr.symm
    · rw [(hsnoc2 init z hl').1, (hsnoc1 init z hl').1]
  have hsrc2 : (RemoveFromNodeList s1 f).m_Nodes[np.m_Node &&& 0xffff]? = some src := by
    rw [hsame2 _ (Ne.symm hfa)]
    exact hsrc
  obtain ⟨i1, i2, i3, i4, i5, _⟩ :=
    InsertAfter_effect (RemoveFromNodeList s1 f) f (np.m_Node &&& 0xffff) _ src hf2 hsrc2 hfa
  -- the handles
  have hslot : GetNodeHandle (clonedSlot src old f) &&& 0xffff = f :=
    GetNodeHandle_slot (clonedSlot src old f) hver hf16
  have hgen : (GetNodeHandle (clonedSlot src old f) >>> 16) % 65536 = old.m_Version :=
    GetNodeHandle_generation (clonedSlot src old f) hver hf16
  have hvout1 : IsValidNode s1 (GetNodeHandle (clonedSlot src old f)) = true := by
    rw [IsValidNode_eq_true_iff, hslot, hgen]
    exact ⟨_, hf1, rfl, rfl⟩
  have hv' := hv
  rw [IsValidNode_eq_true_iff] at hv'
  obtain ⟨m0, hm0, hver0, hidx0⟩ := hv'
  rw [hsrc] at hm0
  cases hm0
  have hvsrc1 : IsValidNode s1 np.m_Node = true := by
    rw [IsValidNode_eq_true_iff]
    rcases list_nil_or_snoc lr with hnil | ⟨init, z, hl'⟩
    · exact ⟨src, by rw [(hnil1 hnil).2 _ (Ne.symm hfa)]; exact hsrc, hver0, hidx0⟩
    · obtain ⟨_, hz1, ho1⟩ := hsnoc1 init z hl'
      by_cases haz : (np.m_Node &&& 0xffff) = z
      · exact ⟨{ src with m_NextIndex := f }, by rw [haz] at hsrc ⊢; exact hz1 src hsrc,
          hver0, hidx0⟩
      · exact ⟨src, by rw [ho1 _ (Ne.symm hfa) haz]; exact hsrc, hver0, hidx0⟩
  have hmove : MoveNodeAbove s1 (GetNodeHandle (clonedSlot src old f)) np.m_Node =
      InsertAfter (RemoveFromNodeList s1 f) f (np.m_Node &&& 0xffff) := by
    unfold MoveNodeAbove
    simp only [hvout1, if_true, GetNode_eq, hslot, if_neg hne, hvsrc1, true_and,
      if_pos (Ne.symm hfa)]
  have hcheck : LuaCheckNode w args 1 = LuaResult.ok (np.m_Node &&& 0xffff, np.m_Node) := by
    rw [LuaCheckNode_node w args 1 np harg]
    simp [hs, hv]
  have hgsi : GuiScriptInstance_Check w = LuaResult.ok np.m_Scene := by
    simp [GuiScriptInstance_Check, hs]
  refine ⟨s1, _, hclone, ?_, ?_, hslot, ?_, ?_, ?_, ?_, ?_⟩
  · unfold LuaClone
    simp only [hcheck, hgsi, hclone]
  · rw [hmove, IsValidNode_eq_true_iff, hslot, hgen]
    exact ⟨_, i1, rfl, rfl⟩
  · rw [hmove]; exact i2
  · rw [hmove]; exact i1
  · intro m hma hmf
    rw [hmove, i3 m hmf hma, hsame2 m hmf]
  · rw [hmove, i4, hhead2]
  · rw [hmove, i5, hpool2, hpool1]
/-- C18 on the child node (slot 1) of `sceneParentChild` with slot 2 free:
the clone is in slot 2, behind the source in the child chain of slot 0. -/
theorem C18_clone_above_source_witness :
    (LuaClone (worldOf (sceneParentChild [2]))
      [LuaValue.node { m_Scene := 1, m_Node := 0x10001 }]).2 =
      LuaResult.ok { m_Scene := 1, m_Node := 0x10002 } ∧
    (LuaClone (worldOf (sceneParentChild [2]))
      [LuaValue.node { m_Scene := 1, m_Node := 0x10001 }]).1.scene.m_Nodes[1]? =
      some { slotOf 1 1 7 with m_ParentIndex := 0, m_NextIndex := 2 } ∧
    (LuaClone (worldOf (sceneParentChild [2]))
      [LuaValue.node { m_Scene := 1, m_Node := 0x10001 }]).1.scene.m_Nodes[2]? =
      some { slotOf 1 2 0 with m_ParentIndex := 0 } := by
  obtain ⟨s1, out, hclone, hrun, _, _, hsrc, hf, _⟩ :=
    C18_clone_above_source (worldOf (sceneParentChild [2]))
      [LuaValue.node { m_Scene := 1, m_Node := 0x10001 }] { m_Scene := 1, m_Node := 0x10001 }
      { slotOf 1 1 7 with m_ParentIndex := 0 } (freeSlot 1 2) 2 [] [0] 2
      rfl rfl (by decide) (by decide) (by decide) rfl (by decide) (by decide) (by decide)
      (by decide) (by decide) (by decide)
  have hout : out = 0x10002 := by
    have := congrArg (fun r => r.2.2) hclone
    simp only at this
    rw [← this]
    decide
  rw [hrun]
  refine ⟨by rw [hout], hsrc, ?_⟩
  rw [hf]
  decide

/-! ### The steps of the cloning loop -/

/-- One pass of the loop of `CloneNodeListToTable` that ends with
`RESULT_OK`: the node is cloned, the loop runs over its children with the
clone as parent, the clone is handed to `SetNodeParent`, and the loop goes
on with the next sibling. -/
theorem cloneList_unfold (addr fuel : Nat) (s : Scene) (table : CloneTable) (idx ph : Nat)
    (nd : InternalNode) (s' : Scene) (table' : CloneTable)
    (hi : idx ≠ INVALID_INDEX) (hnd : s.m_Nodes[idx]? = some nd)
    (hrun : CloneNodeListToTable addr (fuel + 1) s table idx ph =
      some (LuaResult.ok (Result.RESULT_OK, s', table'))) :
    ∃ s1 out nd1 s2 table2 nd3,
      CloneNode s (GetNodeHandle nd) = (Result.RESULT_OK, s1, out) ∧
      s1.m_Nodes[idx]? = some nd1 ∧
      CloneNodeListToTable addr fuel s1
        (rawset table nd1.m_NameHash { m_Scene := addr, m_Node := out }) nd1.m_ChildHead out =
        some (LuaResult.ok (Result.RESULT_OK, s2, table2)) ∧
      (SetNodeParent s2 out ph).2.m_Nodes[idx]? = some nd3 ∧
      CloneNodeListToTable addr fuel (SetNodeParent s2 out ph).2 table2 nd3.m_NextIndex ph =
        some (LuaResult.ok (Result.RESULT_OK, s', table')) := by
  unfold CloneNodeListToTable at hrun
  rw [if_pos hi] at hrun
  unfold CloneNodeToTable at hrun
  simp only [hnd] at hrun
  by_cases hok : (CloneNode s (GetNodeHandle nd)).1 = Result.RESULT_OK
  · simp only [hok, if_true] at hrun
    cases hnd1 : (CloneNode s (GetNodeHandle nd)).2.1.m_Nodes[idx]? with
    | none => simp [hnd1] at hrun
    | some nd1 =>
      simp only [hnd1] at hrun
      cases hcall : CloneNodeListToTable addr fuel (CloneNode s (GetNodeHandle nd)).2.1
          (rawset table nd1.m_NameHash
            { m_Scene := addr, m_Node := (CloneNode s (GetNodeHandle nd)).2.2 })
          nd1.m_ChildHead (CloneNode s (GetNodeHandle nd)).2.2 with
      | none => simp [hcall] at hrun
      | some out2 =>
        cases out2 with
        | error e => simp [hcall] at hrun
        | abort => simp [hcall] at hrun
        | ok r2 =>
          obtain ⟨res2, s2, table2⟩ := r2
          simp only [hcall] at hrun
          by_cases hres2 : res2 = Result.RESULT_OK
          · subst hres2
            simp only [if_true] at hrun
            cases hnd3 : (SetNodeParent s2 (CloneNode s (GetNodeHandle nd)).2.2 ph).2.m_Nodes[idx]? with
            | none => simp [hnd3] at hrun
            | some nd3 =>
              simp only [hnd3] at hrun
              exact ⟨_, _, nd1, s2, table2, nd3, by rw [← hok], hnd1, hcall, hnd3, hrun⟩
          · simp only [if_neg hres2] at hrun
            cases hnd3 : s2.m_Nodes[idx]? with
            | none => simp [hnd3] at hrun
            | some nd3 =>
              simp only [hnd3, Option.some.injEq, LuaResult.ok.injEq, Prod.mk.injEq] at hrun
              exact absurd hrun.1 hres2
  · simp only [if_neg hok] at hrun
    cases hnd3 : (CloneNode s (GetNodeHandle nd)).2.1.m_Nodes[idx]? with
    | none => simp [hnd3] at hrun
    | some nd3 =>
      simp only [hnd3, Option.some.injEq, LuaResult.ok.injEq, Prod.mk.injEq] at hrun
      exact absurd hrun.1 hok

/-- A successful `gui.clone_tree(root)`: the root is cloned, the loop runs
over its children with the clone as parent, and the clone is handed to
`SetNodeParent` with the handle of the parent of the root. -/
theorem cloneTree_unfold (fuel : Nat) (w w' : World) (np : NodeProxy) (rest : List LuaValue)
    (table : CloneTable) (rd : InternalNode)
    (hs : w.m_Instance = some np.m_Scene)
    (hv : IsValidNode w.scene np.m_Node = true)
    (hrd : w.scene.m_Nodes[np.m_Node &&& 0xffff]? = some rd)
    (hrun : LuaCloneTree fuel w (LuaValue.node np :: rest) = some (w', LuaResult.ok table)) :
    ∃ s1 out rd1 s2 ph,
      CloneNode w.scene (GetNodeHandle rd) = (Result.RESULT_OK, s1, out) ∧
      s1.m_Nodes[np.m_Node &&& 0xffff]? = some rd1 ∧
      CloneNodeListToTable np.m_Scene fuel s1
        (rawset [] rd1.m_NameHash { m_Scene := np.m_Scene, m_Node := out }) rd1.m_ChildHead out =
        some (LuaResult.ok (Result.RESULT_OK, s2, table)) ∧
      rootParentHandle s2 (np.m_Node &&& 0xffff) = some ph ∧
      w' = { w with scene := (SetNodeParent s2 out ph).2 } := by
  have hcheck : LuaCheckNode w ((LuaValue.node np :: rest) ++ [LuaValue.table 0]) 1
      = LuaResult.ok (np.m_Node &&& 0xffff, np.m_Node) := by
    rw [LuaCheckNode_node w _ 1 np (luaArg_cons_one _ _ _)]
    simp [hs, hv]
  unfold LuaCloneTree at hrun
  simp only [GuiScriptInstance_Check, hs, luaArg_cons_one, ne_eq, reduceCtorEq,
    not_false_eq_true, if_true, hcheck] at hrun
  unfold CloneNodeToTable at hrun
  simp only [hrd] at hrun
  by_cases hok : (CloneNode w.scene (GetNodeHandle rd)).1 = Result.RESULT_OK
  · simp only [hok, if_true] at hrun
    cases hrd1 : (CloneNode w.scene (GetNodeHandle rd)).2.1.m_Nodes[np.m_Node &&& 0xffff]? with
    | none => simp [hrd1] at hrun
    | some rd1 =>
      simp only [hrd1] at hrun
      cases hcall : CloneNodeListToTable np.m_Scene fuel (CloneNode w.scene (GetNodeHandle rd)).2.1
          (rawset [] rd1.m_NameHash
            { m_Scene := np.m_Scene, m_Node := (CloneNode w.scene (GetNodeHandle rd)).2.2 })
          rd1.m_ChildHead (CloneNode w.scene (GetNodeHandle rd)).2.2 with
      | none => simp [hcall] at hrun
      | some out2 =>
        cases out2 with
        | error e => simp [hcall] at hrun
        | abort => simp [hcall] at hrun
        | ok r2 =>
          obtain ⟨res2, s2, table2⟩ := r2
          simp only [hcall] at hrun
          by_cases hres2 : res2 = Result.RESULT_OK
          · subst hres2
            simp only [if_true] at hrun
            cases hph : rootParentHandle s2 (np.m_Node &&& 0xffff) with
            | none => simp [hph] at hrun
            | some ph =>
              simp only [hph, cloneTreeReturn, Option.some.injEq, Prod.mk.injEq,
                LuaResult.ok.injEq] at hrun
              obtain ⟨hw, ht⟩ := hrun
              subst ht
              exact ⟨_, _, rd1, s2, ph, by rw [← hok], hrd1, hcall, hph, hw.symm⟩
          · simp only [if_neg hres2] at hrun
            exfalso
            revert hrun
            unfold cloneTreeReturn
            cases res2 <;> simp at hres2 ⊢
  · simp only [if_neg hok] at hrun
    exfalso
    generalize (CloneNode w.scene (GetNodeHandle rd)).1 = res at hok hrun
    revert hrun
    unfold cloneTreeReturn
    cases res <;> simp at hok ⊢
theorem attachSlot_nil (P : Nat) : attachSlot P [] = P := rfl

theorem attachSlot_snoc (P : Nat) (init : List Nat) (z : Nat) :
    attachSlot P (init ++ [z]) = z := by
  simp [attachSlot]

theorem attached_nil (ad : InternalNode) (n : Nat) :
    attached [] ad n = { ad with m_ChildHead := n } := rfl

theorem attached_snoc (init : List Nat) (z : Nat) (ad : InternalNode) (n : Nat) :
    attached (init ++ [z]) ad n = { ad with m_NextIndex := n } := by
  simp [attached]

theorem attachSlot_mem (P : Nat) (lP : List Nat) :
    attachSlot P lP = P ∨ attachSlot P lP ∈ lP := by
  rcases list_nil_or_snoc lP with h | ⟨init, z, h⟩
  · left; rw [h]; rfl
  · right; rw [h, attachSlot_snoc]; simp

/-- What `AddToNodeList` writes when the node is put at the top of the
child chain `lP` of slot `P`. -/
theorem AddToNodeList_attach (s : Scene) (n P : Nat) (lP : List Nat) (nd : InternalNode)
    (hl : ChainList s (chainHeadOf s P) lP) (hn : n ∉ lP) (hnd : s.m_Nodes[n]? = some nd)
    (hnP : n ≠ P) (hP : P ≠ INVALID_INDEX) :
    (AddToNodeList s n P).m_Nodes[n]? =
      some { nd with m_ParentIndex := P, m_NextIndex := INVALID_INDEX } ∧
    (∀ ad, s.m_Nodes[attachSlot P lP]? = some ad →
      (AddToNodeList s n P).m_Nodes[attachSlot P lP]? = some (attached lP ad n)) ∧
    (∀ m, m ≠ n → m ≠ attachSlot P lP → (AddToNodeList s n P).m_Nodes[m]? = s.m_Nodes[m]?) ∧
    (AddToNodeList s n P).m_RenderHead = s.m_RenderHead ∧
    (AddToNodeList s n P).m_NodePool = s.m_NodePool ∧
    (AddToNodeList s n P).m_Nodes.length = s.m_Nodes.length := by
  rcases list_nil_or_snoc lP with hnil | ⟨init, z, hl'⟩
  · subst hnil
    have hhead : chainHeadOf s P = INVALID_INDEX := hl
    obtain ⟨e1, e2, e3, e4, e5, e6⟩ := AddToNodeList_nil_effect s n P nd hhead hnd hnP
    refine ⟨e1, ?_, ?_, ?_, e5, e6⟩
    · intro ad had
      rw [attachSlot_nil] at had ⊢
      rw [attached_nil]
      exact e3 hP ad had
    · intro m hmn hma
      rw [attachSlot_nil] at hma
      exact e2 m hmn (Or.inr hma)
    · rw [e4, if_neg hP]
  · subst hl'
    have hzl : z ∈ init ++ [z] := by simp
    have hnz : n ≠ z := fun h => hn (h ▸ hzl)
    obtain ⟨zd, hzd⟩ := getElem?_of_lt s.m_Nodes z (hl.mem_lt z hzl).1
    obtain ⟨e1, e2, e3, e4, e5, e6⟩ :=
      AddToNodeList_snoc_effect s n P init z nd zd hl hnd hzd hnz
    refine ⟨e1, ?_, ?_, e4, e5, e6⟩
    · intro ad had
      rw [attachSlot_snoc] at had ⊢
      rw [attached_snoc]
      rw [hzd] at had
      cases had
      exact e2
    · intro m hmn hma
      rw [attachSlot_snoc] at hma
      exact e3 m hmn hma

/-- The clone put at the end of the render chain by `CloneNode` and taken
out of it again by `SetNodeParent`: when the steps in between leave the
slots other than the clone and the slots `C` alone, the removal brings the
render chain and every slot outside `C` other than the clone back to what
they were before `CloneNode`. -/
theorem clone_remove_restore (s s1 s2 : Scene) (f : Nat) (lr C : List Nat) (fd2 : InternalNode)
    (hlr : ChainList s s.m_RenderHead lr)
    (hnil1 : lr = [] → s1.m_RenderHead = f ∧ ∀ m, m ≠ f → s1.m_Nodes[m]? = s.m_Nodes[m]?)
    (hsnoc1 : ∀ init z, lr = init ++ [z] → s1.m_RenderHead = s.m_RenderHead ∧
      (∀ zd, s.m_Nodes[z]? = some zd → s1.m_Nodes[z]? = some { zd with m_NextIndex := f }) ∧
      ∀ m, m ≠ f → m ≠ z → s1.m_Nodes[m]? = s.m_Nodes[m]?)
    (hchain1 : ChainList s1 s1.m_RenderHead (lr ++ [f]))
    (hhead2 : s2.m_RenderHead = s1.m_RenderHead)
    (hmid : ∀ m, m ∉ C → m ≠ f → s2.m_Nodes[m]? = s1.m_Nodes[m]?)
    (hC : ∀ x ∈ lr, x ∉ C)
    (hf2 : s2.m_Nodes[f]? = some fd2) (hpar2 : fd2.m_ParentIndex = INVALID_INDEX)
    (hnext2 : fd2.m_NextIndex = INVALID_INDEX) :
    (RemoveFromNodeList s2 f).m_Nodes[f]? = some fd2 ∧
    (RemoveFromNodeList s2 f).m_RenderHead = s.m_RenderHead ∧
    (∀ m, m ≠ f → m ∉ C → (RemoveFromNodeList s2 f).m_Nodes[m]? = s.m_Nodes[m]?) ∧
    (∀ m, m ≠ f → m ∈ C → (RemoveFromNodeList s2 f).m_Nodes[m]? = s2.m_Nodes[m]?) ∧
    (RemoveFromNodeList s2 f).m_NodePool = s2.m_NodePool ∧
    (RemoveFromNodeList s2 f).m_Nodes.length = s2.m_Nodes.length := by
  have hflr : f ∉ lr := by
    have := hchain1.nodup
    intro h
    exact (List.nodup_append.mp this).2.2 h (List.mem_singleton_self f)
  have hchain2 : ChainList s2 s2.m_RenderHead (lr ++ [f]) := by
    rw [hhead2]
    apply ChainList.congr _ _ hchain1
    intro x hx xd hxd
    rcases List.mem_append.mp hx with hx | hx
    · exact ⟨xd, by rw [hmid x (hC x hx) (fun h => hflr (h ▸ hx))]; exact hxd, rfl⟩
    · have hxf : x = f := List.mem_singleton.mp hx
      subst hxf
      refine ⟨fd2, hf2, ?_⟩
      rw [hnext2]
      exact (ChainList.last_next lr x xd hchain1 hxd).symm
  obtain ⟨r1, r2, r3, rnil, rsnoc⟩ := RemoveFromNodeList_last s2 f fd2 lr hf2 hpar2 hchain2
  refine ⟨r1, ?_, ?_, ?_, r2, r3⟩
  · rcases list_nil_or_snoc lr with hnil | ⟨init, z, hl'⟩
    · rw [(rnil hnil).1]
      subst hnil
      exact hlr.symm
    · rw [(rsnoc init z hl').1, hhead2, (hsnoc1 init z hl').1]
  · intro m hmf hmC
    rcases list_nil_or_snoc lr with hnil | ⟨init, z, hl'⟩
    · rw [(rnil hnil).2 m hmf, hmid m hmC hmf, (hnil1 hnil).2 m hmf]
    · obtain ⟨_, hz1, ho1⟩ := hsnoc1 init z hl'
      obtain ⟨_, hz2, ho2⟩ := rsnoc init z hl'
      by_cases hmz : m = z
      · subst hmz
        have hzl : m ∈ lr := by rw [hl']; simp
        obtain ⟨zd, hzd⟩ := getElem?_of_lt s.m_Nodes m (hlr.mem_lt m hzl).1
        have hnext : zd.m_NextIndex = INVALID_INDEX :=
          ChainList.last_next init m zd (hl' ▸ hlr) hzd
        rw [hz2 _ (by rw [hmid m hmC hmf]; exact hz1 zd hzd), hzd]
        cases zd
        simp only at hnext
        simp only [hnext]
      · rw [ho2 m hmf hmz, hmid m hmC hmf, ho1 m hmf hmz]
  · intro m hmf hmC
    rcases list_nil_or_snoc lr with hnil | ⟨init, z, hl'⟩
    · exact (rnil hnil).2 m hmf
    · have hzl : z ∈ lr := by rw [hl']; simp
      exact (rsnoc init z hl').2.2 m hmf (fun h => hC z hzl (h ▸ hmC))

/-! ### The forest of a chain and its chains -/

/-- The forest of a chain starts with the head of the chain. -/
theorem forestFrom_first (s : Scene) (fuel i par : Nat) (pairs : List (Nat × Nat))
    (h : forestFrom fuel s i par = some pairs) :
    (i = INVALID_INDEX ∧ pairs = []) ∨ ∃ t, pairs = (i, par) :: t := by
  cases fuel with
  | zero => simp [forestFrom] at h
  | succ fuel =>
    rcases forestFrom_cases fuel s i par pairs h with ⟨hi, hp⟩ | ⟨_, nd, lc, ls, _, _, _, hp⟩
    · exact Or.inl ⟨hi, hp⟩
    · exact Or.inr ⟨lc ++ ls, by rw [hp, List.cons_append]⟩

/-- The chain a forest was built from ends, and its slots are the nodes of
the forest that are paired with the parent of the chain. -/
theorem forestFrom_roots (s : Scene) :
    ∀ (fuel i par : Nat) (pairs : List (Nat × Nat)), forestFrom fuel s i par = some pairs →
      ∃ l, ChainList s i l ∧ ∀ y ∈ l, (y, par) ∈ pairs := by
  intro fuel
  induction fuel with
  | zero => intro i par pairs h; simp [forestFrom] at h
  | succ fuel ih =>
    intro i par pairs h
    rcases forestFrom_cases fuel s i par pairs h with ⟨hi, hp⟩ | ⟨hi, nd, lc, ls, hnd, _, hls, hp⟩
    · exact ⟨[], hi, fun y hy => by cases hy⟩
    · obtain ⟨l, hl, hmem⟩ := ih _ _ _ hls
      refine ⟨i :: l, ⟨rfl, hi, nd, hnd, hl⟩, ?_⟩
      intro y hy
      rw [hp, List.cons_append]
      rcases List.mem_cons.mp hy with hy | hy
      · rw [hy]; exact List.mem_cons_self _ _
      · exact List.mem_cons_of_mem _ (List.mem_append_right _ (hmem y hy))

/-- The child chain of every node of a forest ends, and its slots are the
nodes of the forest that are paired with the node. -/
theorem forestFrom_children (s : Scene) :
    ∀ (fuel i par : Nat) (pairs : List (Nat × Nat)), forestFrom fuel s i par = some pairs →
      ∀ x ∈ pairs, ∀ nd, s.m_Nodes[x.1]? = some nd →
        ∃ l, ChainList s nd.m_ChildHead l ∧ ∀ y ∈ l, (y, x.1) ∈ pairs := by
  intro fuel
  induction fuel with
  | zero => intro i par pairs h; simp [forestFrom] at h
  | succ fuel ih =>
    intro i par pairs h x hx xd hxd
    rcases forestFrom_cases fuel s i par pairs h with ⟨hi, hp⟩ | ⟨hi, nd, lc, ls, hnd, hlc, hls, hp⟩
    · rw [hp] at hx; cases hx
    · rw [hp, List.cons_append] at hx ⊢
      rcases List.mem_cons.mp hx with hx | hx
      · subst hx
        rw [hnd] at hxd
        cases hxd
        obtain ⟨l, hl, hmem⟩ := forestFrom_roots s _ _ _ _ hlc
        exact ⟨l, hl, fun y hy => List.mem_cons_of_mem _ (List.mem_append_left _ (hmem y hy))⟩
      · rcases List.mem_append.mp hx with hx | hx
        · obtain ⟨l, hl, hmem⟩ := ih _ _ _ hlc x hx xd hxd
          exact ⟨l, hl, fun y hy => List.mem_cons_of_mem _ (List.mem_append_left _ (hmem y hy))⟩
        · obtain ⟨l, hl, hmem⟩ := ih _ _ _ hls x hx xd hxd
          exact ⟨l, hl, fun y hy => List.mem_cons_of_mem _ (List.mem_append_right _ (hmem y hy))⟩

/-- A chain whose links are carried over by `c` is carried over by `c`. -/
theorem ChainList.map_clone {s s' : Scene} (c : Nat → Nat) (hc : c INVALID_INDEX = INVALID_INDEX) :
    ∀ (l : List Nat) (i : Nat), ChainList s i l →
      (∀ y ∈ l, c y ≠ INVALID_INDEX ∧ ∀ src, s.m_Nodes[y]? = some src →
        ∃ cd, s'.m_Nodes[c y]? = some cd ∧ cd.m_NextIndex = c src.m_NextIndex) →
      ChainList s' (c i) (l.map c) := by
  intro l
  induction l with
  | nil =>
    intro i h _
    have hi : i = INVALID_INDEX := h
    rw [hi]
    exact hc
  | cons a t ih =>
    intro i h hlinks
    obtain ⟨ha, _, nd, hnd, hrest⟩ := h
    obtain ⟨hne, hsrc⟩ := hlinks a (List.mem_cons_self _ _)
    obtain ⟨cd, hcd, hnext⟩ := hsrc nd (by rw [ha]; exact hnd)
    rw [List.map_cons, ha]
    refine ⟨rfl, by rw [← ha]; exact hne, cd, by rw [← ha]; exact hcd, ?_⟩
    rw [hnext]
    exact ih _ hrest (fun y hy => hlinks y (List.mem_cons_of_mem _ hy))

/-- The link structure after a successful run of `CloneNodeListToTable`. -/
theorem cloneList_links (addr : Nat) (L : List Nat) (r : Nat) (c : Nat → Nat) :
    ∀ (fuel : Nat) (s : Scene) (table : CloneTable) (idx par ph : Nat)
      (pairs : List (Nat × Nat)) (lr lP : List Nat) (s' : Scene) (table' : CloneTable),
      CloneRun L r c fuel s idx par ph pairs →
      ChainCtx c s (ph &&& 0xffff) lr lP →
      CloneNodeListToTable addr fuel s table idx ph =
        some (LuaResult.ok (Result.RESULT_OK, s', table')) →
      ClonedLinks c s pairs (ph &&& 0xffff) lP s' := by
  intro fuel
  induction fuel with
  | zero =>
    intro s table idx par ph pairs lr lP s' table' run
    have := run.forest
    simp [forestFrom] at this
  | succ fuel ih =>
    intro s table idx par ph pairs lr lP s' table' run cc hrun
    have ctx := run.ctx
    rcases forestFrom_cases fuel s idx par pairs run.forest with
      ⟨hi, hp⟩ | ⟨hi, nd, lc, ls, hnd, hlc, hls, hp⟩
    · subst hp; subst hi
      rw [CloneNodeListToTable_end] at hrun
      simp only [Option.some.injEq, LuaResult.ok.injEq, Prod.mk.injEq, true_and] at hrun
      obtain ⟨h1, _⟩ := hrun
      subst h1
      exact
        { head_eq := rfl
          others := fun _ _ _ => rfl
          attach := fun x t h => by cases h
          clones := fun x hx => by cases hx }
    · subst hp
      have hL := run.inL
      have hidxL : idx ∈ L := hL (idx, par) (List.mem_cons_self _ _)
      obtain ⟨s1, out, nd1, s2, table2, nd3, hclone, hnd1, hcall2, hnd3, hcall3⟩ :=
        cloneList_unfold addr fuel s table idx ph nd s' table' hi hnd hrun
      -- the free list
      cases hpool : s.m_NodePool with
      | nil =>
        have hfail := CloneNode_empty s (GetNodeHandle nd) hpool
        rw [hclone] at hfail
        exact absurd rfl hfail
      | cons f rest =>
        obtain ⟨P, hP⟩ : ∃ P, P = ph &&& 0xffff := ⟨_, rfl⟩
        -- the clone of the node
        obtain ⟨s1', out', hclone', ctx1, hpool1, hframe1, hvout, hout0, houtf, hfpar, hkept1,
            houth, hlen1⟩ :=
          CloneNode_ok L r s ctx idx nd hnd (ctx.self_index idx hidxL nd hnd) f rest hpool
        rw [hclone] at hclone'
        simp only [Prod.mk.injEq, true_and] at hclone'
        obtain ⟨e1, e2⟩ := hclone'
        subst e1; subst e2
        have hfmem : f ∈ s.m_NodePool := by rw [hpool]; exact List.mem_cons_self _ _
        have hnodup : (f :: rest).Nodup := by rw [← hpool]; exact ctx.pool_nodup
        have hfrest : f ∉ rest := (List.nodup_cons.mp hnodup).1
        have hrestnodup : rest.Nodup := (List.nodup_cons.mp hnodup).2
        have hrestsub : ∀ x ∈ rest, x ∈ s.m_NodePool := fun x hx => by
          rw [hpool]; exact List.mem_cons_of_mem _ hx
        have hfL : f ∉ L := ctx.pool_out f hfmem
        have hfr : f ≠ r := fun h => ctx.pool_root (h ▸ hfmem)
        have hflt : f < s.m_Nodes.length := ctx.pool_lt f hfmem
        have hsize := ctx.size
        have hfI : f ≠ INVALID_INDEX := by unfold INVALID_INDEX; omega
        have hflr : f ∉ lr := fun h => cc.render_pool f h hfmem
        have hPf : P ≠ f := fun h => run.notPool (by rw [← hP, h]; exact hfmem)
        have hPpool : P ∉ s.m_NodePool := by rw [hP]; exact run.notPool
        have hPrest : P ∉ rest := fun h => hPpool (hrestsub P h)
        have hc0 : c idx = f := run.slots 0 (idx, par) f (by simp) (by rw [hpool]; simp)
        have hlcL : ∀ x ∈ lc, x.1 ∈ L := fun x hx =>
          hL x (List.mem_cons_of_mem _ (List.mem_append_left _ hx))
        have hlsL : ∀ x ∈ ls, x.1 ∈ L := fun x hx =>
          hL x (List.mem_cons_of_mem _ (List.mem_append_right _ hx))
        obtain ⟨old, hold⟩ := getElem?_of_lt s.m_Nodes f hflt
        have hvlt := ctx.ver_lt idx nd hnd
        have hidx := ctx.self_index idx hidxL nd hnd
        have hidxlt : idx < s.m_Nodes.length := getElem?_lt _ _ _ hnd
        have hvalid : IsValidNode s (GetNodeHandle nd) = true :=
          IsValidNode_GetNodeHandle s idx nd hnd hvlt hidx (by omega)
        have hslot : GetNodeHandle nd &&& 0xffff = idx := by
          rw [GetNodeHandle_slot nd hvlt (by omega), hidx]
        obtain ⟨s1'', hclone'', _, _, hf1, hchain1, hnil1, hsnoc1⟩ :=
          CloneNode_links s (GetNodeHandle nd) nd old f rest lr hvalid
            (by rw [hslot]; exact hnd) hpool hold cc.render hflr hfI
        rw [hclone] at hclone''
        simp only [Prod.mk.injEq, true_and] at hclone''
        obtain ⟨e1, _⟩ := hclone''
        subst e1
        have hs1 : ∀ m, m ≠ f → m ∉ lr → s1.m_Nodes[m]? = s.m_Nodes[m]? := by
          intro m hmf hmlr
          rcases list_nil_or_snoc lr with hnil | ⟨init, z, hl'⟩
          · exact (hnil1 hnil).2 m hmf
          · exact (hsnoc1 init z hl').2.2 m hmf (fun h => hmlr (by rw [hl', h]; simp))
        have hnd1' : s1.m_Nodes[idx]? = some nd := by rw [hframe1 idx hidxL]; exact hnd
        rw [hnd1'] at hnd1
        cases hnd1
        -- the children
        have run2 : CloneRun L r c fuel s1 nd.m_ChildHead idx out lc :=
          { ctx := ctx1
            forest := forestFrom_frame s s1 fuel _ _ lc hlc (fun x hx => hframe1 x.1 (hlcL x hx))
            inL := hlcL
            valid := hvout
            ne := hout0
            notL := by rw [houtf]; exact hfL
            notRoot := by rw [houtf]; exact hfr
            notPool := by rw [houtf, hpool1]; exact hfrest
            top := by rw [houtf]; exact hfpar
            cpar := by rw [houtf]; exact hc0
            slots := by
              intro k x f' hx hf'
              have hk : k < lc.length := getElem?_lt _ _ _ hx
              apply run.slots (k + 1) x f'
              · rw [List.cons_append, List.getElem?_cons_succ, List.getElem?_append_left hk]
                exact hx
              · rw [hpool, List.getElem?_cons_succ, ← hpool1]; exact hf' }
        have hchild1 : chainHeadOf s1 f = INVALID_INDEX := by
          unfold chainHeadOf
          rw [if_neg hfI, hf1]
          rfl
        have cc2 : ChainCtx c s1 (out &&& 0xffff) (lr ++ [f]) [] :=
          { cinv := cc.cinv
            render := hchain1
            render_pool := by
              intro x hx
              rw [hpool1]
              rcases List.mem_append.mp hx with hx | hx
              · exact fun h => cc.render_pool x hx (hrestsub x h)
              · rw [List.mem_singleton.mp hx]; exact hfrest
            chain := by rw [houtf]; exact hchild1
            chain_pool := fun x hx => by cases hx
            chain_render := fun x hx => by cases hx
            chain_self := fun hx => by cases hx }
        have links2 := ih s1 _ nd.m_ChildHead idx out lc (lr ++ [f]) [] s2 table2 run2 cc2 hcall2
        rw [houtf] at links2
        obtain ⟨out2, hcall2', hspec2⟩ := cloneList_spec addr L r c fuel s1
          (rawset table nd.m_NameHash { m_Scene := addr, m_Node := out }) nd.m_ChildHead idx out lc
          run2.ctx run2.forest run2.inL run2.valid run2.ne run2.notL run2.notRoot run2.notPool
          run2.top run2.cpar run2.slots
        rw [hcall2] at hcall2'
        have post2 := hspec2 s2 table2 (Option.some.inj hcall2').symm
        have hpool2 : rest = lc.map (fun x => c x.1) ++ s2.m_NodePool := by
          rw [← hpool1]; exact post2.pool
        have hCrest : ∀ m ∈ lc.map (fun x => c x.1), m ∈ rest := fun m hm => by
          rw [hpool2]; exact List.mem_append_left _ hm
        have hCpool : ∀ m ∈ lc.map (fun x => c x.1), m ∈ s.m_NodePool := fun m hm =>
          hrestsub m (hCrest m hm)
        have hfC : f ∉ lc.map (fun x => c x.1) := fun h => hfrest (hCrest f h)
        have hPC : P ∉ lc.map (fun x => c x.1) := fun h => hPpool (hCpool P h)
        -- the slot of the clone after the loop over the children
        have hf2 : s2.m_Nodes[f]? =
            some { clonedSlot nd old f with m_ChildHead := c nd.m_ChildHead } := by
          rcases forestFrom_first s fuel _ _ lc hlc with ⟨hch, hnil⟩ | ⟨t, hcons⟩
          · rw [links2.others f (by rw [hnil]; simp) (Or.inl hnil), hf1, hch, cc.cinv]
            rfl
          · have := links2.attach (nd.m_ChildHead, idx) t hcons _ (by rw [attachSlot_nil]; exact hf1)
            rw [attachSlot_nil, attached_nil] at this
            exact this
        -- the clone is handed to `SetNodeParent`
        have hkeptp1 : SlotKept r s s1 (ph &&& 0xffff) := hkept1 _ (by rw [← hP]; exact hPf)
        have hkeptp2 : SlotKept r s1 s2 (ph &&& 0xffff) := post2.kept _ (by rw [← hP]; exact hPC)
        have hkeptf2 : SlotKept r s1 s2 f := post2.kept _ hfC
        have hvout2 : IsValidNode s2 out = true :=
          SlotKept.valid out (by rw [houtf]; exact hkeptf2) hvout
        have hph2 : IsValidNode s2 ph = true :=
          SlotKept.valid ph (hkeptp1.trans hkeptp2) run.valid
        have hppar2 : parentIdx s2 (ph &&& 0xffff) = some INVALID_INDEX :=
          (hkeptp1.trans hkeptp2).parentIdx _ run.top
        obtain ⟨s3, hset, ctx3, hrel3, hframe3, hpar3⟩ := attach_step L r s2 post2.ctx out ph
          hvout2 (by rw [houtf]; exact hfL) (by rw [houtf]; exact hkeptf2.parentIdx _ hfpar)
          hph2 run.ne run.notL run.notRoot (by rw [houtf, ← hP]; exact hPf) hppar2
        have hlen2 : s2.m_Nodes.length = s.m_Nodes.length := by rw [post2.length_eq, hlen1]
        have hanc : isAncestorOrSelf (s2.m_Nodes.length + 1) s2 (out &&& 0xffff) (ph &&& 0xffff)
            = false := by
          have : s2.m_Nodes.length + 1 = (s2.m_Nodes.length - 1) + 2 := by omega
          rw [this]
          exact isAncestorOrSelf_top s2 _ _ _ (by rw [houtf, ← hP]; exact hPf) hppar2
        have hset' := SetNodeParent_eq s2 out ph hvout2 hph2 run.ne hanc
        rw [houtf, ← hP] at hset'
        rw [hset] at hset'
        simp only [Prod.mk.injEq, true_and] at hset'
        rw [hset] at hnd3 hcall3
        simp only at hnd3 hcall3
        -- the removal from the render chain
        obtain ⟨q1, q2, q3, q4, q5, q6⟩ := clone_remove_restore s s1 s2 f lr
          (lc.map (fun x => c x.1)) _ cc.render hnil1 hsnoc1 hchain1 links2.head_eq
          (fun m hmC hmf => links2.others m hmC (Or.inr (by rw [attachSlot_nil]; exact hmf)))
          (fun x hx hxC => cc.render_pool x hx (hCpool x hxC)) hf2 rfl rfl
        -- the insertion into the child chain of the parent clone
        obtain ⟨pd, hpd, hPlt⟩ := IsValidNode_slot s ph run.valid
        rw [← hP] at hpd hPlt
        have hPI : P ≠ INVALID_INDEX := by unfold INVALID_INDEX; omega
        have hchainP : ChainList (RemoveFromNodeList s2 f)
            (chainHeadOf (RemoveFromNodeList s2 f) P) lP := by
          have hh : chainHeadOf (RemoveFromNodeList s2 f) P = chainHeadOf s P := by
            apply chainHeadOf_congr _ _ _ q2 (by rw [q6, hlen2])
            intro pd' hpd'
            exact ⟨pd', by rw [q3 P hPf hPC]; exact hpd', rfl⟩
          rw [hh]
          have hch := cc.chain
          rw [← hP] at hch
          exact hch.frame (fun x hx => q3 x (fun h => cc.chain_pool x hx (h ▸ hfmem))
            (fun h => cc.chain_pool x hx (hCpool x h)))
        have hflP : f ∉ lP := fun h => cc.chain_pool f h hfmem
        have hPlP : P ∉ lP := by rw [hP]; exact cc.chain_self
        obtain ⟨a1, a2, a3, a4, a5, a6⟩ := AddToNodeList_attach (RemoveFromNodeList s2 f) f P lP _
          hchainP hflP q1 (Ne.symm hPf) hPI
        obtain ⟨hchain3, _, _⟩ := AddToNodeList_chain (RemoveFromNodeList s2 f) f P lP _
          hchainP hflP q1 hfI (Ne.symm hPf)
          (Or.inr (getElem?_of_lt _ _ (by rw [q6, hlen2]; exact hPlt)))
        rw [← hset'] at a1 a2 a3 a4 a5 a6 hchain3
        -- the rest of the chain
        have hframe03 : ∀ x ∈ L, s3.m_Nodes[x]? = s.m_Nodes[x]? := fun x hx => by
          rw [hframe3 x hx, post2.frame x hx, hframe1 x hx]
        rw [hframe03 idx hidxL, hnd] at hnd3
        cases hnd3
        have hpool3 : s3.m_NodePool = s2.m_NodePool := hrel3.pool_eq
        rw [houtf] at hrel3 hpar3
        have hkeptp3 : SlotKept r s2 s3 (ph &&& 0xffff) :=
          hrel3.kept _ (by rw [← hP]; exact hPf)
        have hs2sub : ∀ x ∈ s2.m_NodePool, x ∈ rest := fun x hx => by
          rw [hpool2]; exact List.mem_append_right _ hx
        have run3 : CloneRun L r c fuel s3 nd.m_NextIndex par ph ls :=
          { ctx := ctx3
            forest := forestFrom_frame s s3 fuel _ _ ls hls
              (fun x hx => hframe03 x.1 (hlsL x hx))
            inL := hlsL
            valid := SlotKept.valid ph ((hkeptp1.trans hkeptp2).trans hkeptp3) run.valid
            ne := run.ne
            notL := run.notL
            notRoot := run.notRoot
            notPool := by
              rw [hpool3, ← hP]
              exact fun h => hPrest (hs2sub P h)
            top := ((hkeptp1.trans hkeptp2).trans hkeptp3).parentIdx _ run.top
            cpar := run.cpar
            slots := by
              intro k x f' hx hf'
              apply run.slots (lc.length + k + 1) x f'
              · rw [List.cons_append, List.getElem?_cons_succ,
                  List.getElem?_append_right (by omega)]
                have : lc.length + k - lc.length = k := by omega
                rw [this]; exact hx
              · rw [hpool, List.getElem?_cons_succ, hpool2,
                  List.getElem?_append_right (by simp)]
                have : lc.length + k - (lc.map (fun x => c x.1)).length = k := by simp
                rw [this, ← hpool3]; exact hf' }
        have hattpool : attachSlot P lP ∉ s.m_NodePool := by
          rcases attachSlot_mem P lP with h | h
          · rw [h]; exact hPpool
          · exact cc.chain_pool _ h
        have hattf : attachSlot P lP ≠ f := fun h => hattpool (h ▸ hfmem)
        have hattC : attachSlot P lP ∉ lc.map (fun x => c x.1) := fun h =>
          hattpool (hCpool _ h)
        have cc3 : ChainCtx c s3 (ph &&& 0xffff) lr (lP ++ [f]) :=
          { cinv := cc.cinv
            render := by
              rw [a4, q2]
              apply ChainList.congr _ _ cc.render
              intro x hx xd hxd
              have hxf : x ≠ f := fun h => hflr (h ▸ hx)
              have hxC : x ∉ lc.map (fun x => c x.1) := fun h =>
                cc.render_pool x hx (hCpool x h)
              have hx2 : (RemoveFromNodeList s2 f).m_Nodes[x]? = some xd := by
                rw [q3 x hxf hxC]; exact hxd
              by_cases hxa : x = attachSlot P lP
              · rcases list_nil_or_snoc lP with hnil | ⟨init, z, hl'⟩
                · rw [hxa] at hx2 ⊢
                  refine ⟨_, a2 xd hx2, ?_⟩
                  rw [hnil, attached_nil]
                · exfalso
                  rw [hl', attachSlot_snoc] at hxa
                  exact cc.chain_render z (by rw [hl']; simp) (hxa ▸ hx)
              · exact ⟨xd, by rw [a3 x hxf hxa]; exact hx2, rfl⟩
            render_pool := fun x hx h =>
              cc.render_pool x hx (hrestsub x (hs2sub x (hpool3 ▸ h)))
            chain := by rw [← hP]; exact hchain3
            chain_pool := by
              intro x hx h
              have hx' : x ∈ rest := hs2sub x (hpool3 ▸ h)
              rcases List.mem_append.mp hx with hx | hx
              · exact cc.chain_pool x hx (hrestsub x hx')
              · rw [List.mem_singleton.mp hx] at hx'
                exact hfrest hx'
            chain_render := by
              intro x hx
              rcases List.mem_append.mp hx with hx | hx
              · exact cc.chain_render x hx
              · rw [List.mem_singleton.mp hx]; exact hflr
            chain_self := by
              rw [← hP]
              intro hx
              rcases List.mem_append.mp hx with hx | hx
              · exact hPlP hx
              · exact hPf (List.mem_singleton.mp hx) }
        have links3 := ih s3 table2 nd.m_NextIndex par ph ls lr (lP ++ [f]) s' table' run3 cc3
          hcall3
        rw [← hP] at links3
        obtain ⟨out3, hcall3', hspec3⟩ := cloneList_spec addr L r c fuel s3 table2
          nd.m_NextIndex par ph ls
          run3.ctx run3.forest run3.inL run3.valid run3.ne run3.notL run3.notRoot run3.notPool
          run3.top run3.cpar run3.slots
        rw [hcall3] at hcall3'
        have post3 := hspec3 s' table' (Option.some.inj hcall3').symm
        have hpoolall : rest = lc.map (fun x => c x.1) ++
            (ls.map (fun x => c x.1) ++ s'.m_NodePool) := by
          rw [hpool2, ← hpool3, post3.pool]
        have hdisj : ∀ x, x ∈ lc.map (fun x => c x.1) → x ∉ ls.map (fun x => c x.1) := by
          intro x hx1 hx2
          rw [hpoolall] at hrestnodup
          exact (List.nodup_append.mp hrestnodup).2.2 hx1 (List.mem_append_left _ hx2)
        have hC'rest : ∀ m ∈ ls.map (fun x => c x.1), m ∈ rest := fun m hm => by
          rw [hpoolall]; exact List.mem_append_right _ (List.mem_append_left _ hm)
        have hfC' : f ∉ ls.map (fun x => c x.1) := fun h => hfrest (hC'rest f h)
        have hattC' : attachSlot P lP ∉ ls.map (fun x => c x.1) := fun h =>
          hattpool (hrestsub _ (hC'rest _ h))
        rw [← hP]
        -- the slot of the clone at the end
        have hs'f : s'.m_Nodes[f]? =
            some { clonedSlot nd old f with
              m_ParentIndex := P, m_ChildHead := c nd.m_ChildHead,
              m_NextIndex := c nd.m_NextIndex } := by
          rcases forestFrom_first s fuel _ _ ls hls with ⟨hnx, hnil⟩ | ⟨t, hcons⟩
          · rw [links3.others f (by rw [hnil]; simp) (Or.inl hnil), a1, hnx, cc.cinv]
          · have := links3.attach (nd.m_NextIndex, par) t hcons _
              (by rw [attachSlot_snoc]; exact a1)
            rw [attachSlot_snoc, attached_snoc] at this
            exact this
        refine { head_eq := ?_, others := ?_, attach := ?_, clones := ?_ }
        · rw [links3.head_eq, a4, q2]
        · intro m hm hatt
          rw [List.cons_append, List.map_cons, List.map_append] at hm
          simp only [hc0, List.mem_cons, List.mem_append, not_or] at hm
          obtain ⟨hmf, hmC, hmC'⟩ := hm
          have hma : m ≠ attachSlot P lP := hatt.resolve_left (by simp)
          rw [links3.others m hmC' (Or.inr (by rw [attachSlot_snoc]; exact hmf)), a3 m hmf hma,
            q3 m hmf hmC]
        · intro x t hxt ad had
          rw [List.cons_append] at hxt
          have hx : x = (idx, par) := (List.cons.inj hxt).1.symm
          rw [links3.others _ hattC' (Or.inr (by rw [attachSlot_snoc]; exact hattf)), hx]
          simp only [hc0]
          exact a2 ad (by rw [q3 _ hattf hattC]; exact had)
        · intro x hx src old' hsrc hold'
          rw [List.cons_append] at hx
          rcases List.mem_cons.mp hx with hx | hx
          · subst hx
            simp only at hsrc hold' ⊢
            rw [hc0] at hold' ⊢
            rw [hnd] at hsrc
            cases hsrc
            rw [hold] at hold'
            cases hold'
            rw [run.cpar, ← hP]
            exact hs'f
          · rcases List.mem_append.mp hx with hx | hx
            · have hcx : c x.1 ∈ lc.map (fun x => c x.1) := List.mem_map_of_mem _ hx
              have hcxf : c x.1 ≠ f := fun h => hfC (h ▸ hcx)
              have hcxlr : c x.1 ∉ lr := fun h => cc.render_pool _ h (hCpool _ hcx)
              have hcxa : c x.1 ≠ attachSlot P lP := fun h => hattC (h ▸ hcx)
              have h2 := links2.clones x hx src old'
                (by rw [hframe1 x.1 (hlcL x hx)]; exact hsrc)
                (by rw [hs1 _ hcxf hcxlr]; exact hold')
              rw [links3.others _ (hdisj _ hcx) (Or.inr (by rw [attachSlot_snoc]; exact hcxf)),
                a3 _ hcxf hcxa, q4 _ hcxf hcx]
              exact h2
            · have hcx : c x.1 ∈ ls.map (fun x => c x.1) := List.mem_map_of_mem _ hx
              have hcxf : c x.1 ≠ f := fun h => hfC' (h ▸ hcx)
              have hcxC : c x.1 ∉ lc.map (fun x => c x.1) := fun h => hdisj _ h hcx
              have hcxa : c x.1 ≠ attachSlot P lP := fun h => hattC' (h ▸ hcx)
              exact links3.clones x hx src old'
                (by rw [hframe03 x.1 (hlsL x hx)]; exact hsrc)
                (by rw [a3 _ hcxf hcxa, q3 _ hcxf hcxC]; exact hold')

/-! ### C19 -/

theorem cloneSlotOf_not_mem :
    ∀ (nodes pool : List Nat) (n : Nat), n ∉ nodes → cloneSlotOf nodes pool n = INVALID_INDEX := by
  intro nodes
  induction nodes with
  | nil => intro pool n _; cases pool <;> rfl
  | cons a nodes ih =>
    intro pool n hn
    cases pool with
    | nil => rfl
    | cons g pool =>
      have hna : n ≠ a := fun h => hn (h ▸ List.mem_cons_self _ _)
      simp only [cloneSlotOf, if_neg hna]
      exact ih pool n (fun h => hn (List.mem_cons_of_mem _ h))

/-- The three ways `SetNodeParent` ends for a valid node: the scene is left
alone, or the node is moved to the top of the render chain, or to the top of
the child chain of the parent. -/
theorem SetNodeParent_cases (s : Scene) (node parent : Nat) (hv : IsValidNode s node = true) :
    (SetNodeParent s node parent).2 = s ∨
    (SetNodeParent s node parent).2 =
      AddToNodeList (RemoveFromNodeList s (node &&& 0xffff)) (node &&& 0xffff) INVALID_INDEX ∨
    (parent ≠ INVALID_HANDLE ∧ IsValidNode s parent = true ∧
      (SetNodeParent s node parent).2 =
        AddToNodeList (RemoveFromNodeList s (node &&& 0xffff)) (node &&& 0xffff)
          (parent &&& 0xffff)) := by
  unfold SetNodeParent
  simp only [hv, if_true, GetNode_eq]
  by_cases hp : parent = INVALID_HANDLE
  · right; left
    rw [if_pos hp]
  · rw [if_neg hp]
    by_cases hvp : IsValidNode s parent = true
    · rw [if_pos hvp]
      by_cases hanc : isAncestorOrSelf (s.m_Nodes.length + 1) s (node &&& 0xffff)
          (parent &&& 0xffff) = true
      · left; rw [if_pos hanc]
      · right; right
        rw [if_neg hanc]
        exact ⟨hp, hvp, rfl⟩
    · left; rw [if_neg hvp]

/-- The last step of `gui.clone_tree`, in which the clone `f` of the root,
the last slot of the render chain, is handed to `SetNodeParent`: the slots
`C` of the other clones and the child head of `f` are left alone, when the
chain the clone is put into contains none of them. -/
theorem reparent_clone_frame (s s1 s2 : Scene) (out ph f : Nat) (lr C : List Nat)
    (fd2 : InternalNode)
    (hout : IsValidNode s2 out = true) (houtf : out &&& 0xffff = f)
    (hlr : ChainList s s.m_RenderHead lr)
    (hnil1 : lr = [] → s1.m_RenderHead = f ∧ ∀ m, m ≠ f → s1.m_Nodes[m]? = s.m_Nodes[m]?)
    (hsnoc1 : ∀ init z, lr = init ++ [z] → s1.m_RenderHead = s.m_RenderHead ∧
      (∀ zd, s.m_Nodes[z]? = some zd → s1.m_Nodes[z]? = some { zd with m_NextIndex := f }) ∧
      ∀ m, m ≠ f → m ≠ z → s1.m_Nodes[m]? = s.m_Nodes[m]?)
    (hchain1 : ChainList s1 s1.m_RenderHead (lr ++ [f]))
    (hhead2 : s2.m_RenderHead = s1.m_RenderHead)
    (hmid : ∀ m, m ∉ C → m ≠ f → s2.m_Nodes[m]? = s1.m_Nodes[m]?)
    (hC : ∀ x ∈ lr, x ∉ C) (hfC : f ∉ C)
    (hf2 : s2.m_Nodes[f]? = some fd2) (hpar2 : fd2.m_ParentIndex = INVALID_INDEX)
    (hnext2 : fd2.m_NextIndex = INVALID_INDEX)
    (hlen2 : s2.m_Nodes.length = s.m_Nodes.length)
    (hsize : s.m_Nodes.length ≤ INVALID_INDEX)
    (hparent : ph ≠ INVALID_HANDLE → IsValidNode s2 ph = true →
      (ph &&& 0xffff) ≠ f ∧ (ph &&& 0xffff) ∉ C ∧
      ∃ lq, ChainList s (chainHeadOf s (ph &&& 0xffff)) lq ∧ f ∉ lq ∧ ∀ x ∈ lq, x ∉ C) :
    (∀ m ∈ C, (SetNodeParent s2 out ph).2.m_Nodes[m]? = s2.m_Nodes[m]?) ∧
    ∃ fd3, (SetNodeParent s2 out ph).2.m_Nodes[f]? = some fd3 ∧
      fd3.m_ChildHead = fd2.m_ChildHead := by
  have hflt : f < s2.m_Nodes.length := getElem?_lt _ _ _ hf2
  have hfI : f ≠ INVALID_INDEX := by omega
  have hflr : f ∉ lr := by
    have := hchain1.nodup
    intro h
    exact (List.nodup_append.mp this).2.2 h (List.mem_singleton_self f)
  obtain ⟨q1, q2, q3, q4, q5, q6⟩ := clone_remove_restore s s1 s2 f lr C fd2 hlr hnil1 hsnoc1
    hchain1 hhead2 hmid hC hf2 hpar2 hnext2
  rcases SetNodeParent_cases s2 out ph hout with h | h | ⟨hne, hvp, h⟩
  · rw [h]
    exact ⟨fun _ _ => rfl, fd2, hf2, rfl⟩
  · rw [h, houtf]
    have hchainr : ChainList (RemoveFromNodeList s2 f)
        (chainHeadOf (RemoveFromNodeList s2 f) INVALID_INDEX) lr := by
      have : chainHeadOf (RemoveFromNodeList s2 f) INVALID_INDEX = s.m_RenderHead := by
        unfold chainHeadOf
        rw [if_pos rfl, q2]
      rw [this]
      exact hlr.frame (fun x hx => q3 x (fun hxf => hflr (hxf ▸ hx)) (hC x hx))
    rcases list_nil_or_snoc lr with hnil | ⟨init, z, hl'⟩
    · subst hnil
      obtain ⟨e1, e2, _⟩ := AddToNodeList_nil_effect (RemoveFromNodeList s2 f) f INVALID_INDEX
        fd2 hchainr q1 hfI
      refine ⟨?_, _, e1, rfl⟩
      intro m hm
      have hmf : m ≠ f := fun hmf => hfC (hmf ▸ hm)
      rw [e2 m hmf (Or.inl rfl), q4 m hmf hm]
    · subst hl'
      have hzl : z ∈ init ++ [z] := by simp
      obtain ⟨zd, hzd⟩ := getElem?_of_lt (RemoveFromNodeList s2 f).m_Nodes z
        (hchainr.mem_lt z hzl).1
      obtain ⟨e1, _, e3, _⟩ := AddToNodeList_snoc_effect (RemoveFromNodeList s2 f) f
        INVALID_INDEX init z fd2 zd hchainr q1 hzd (fun hfz => hflr (hfz ▸ hzl))
      refine ⟨?_, _, e1, rfl⟩
      intro m hm
      have hmf : m ≠ f := fun hmf => hfC (hmf ▸ hm)
      rw [e3 m hmf (fun hmz => hC z hzl (hmz ▸ hm)), q4 m hmf hm]
  · rw [h, houtf]
    obtain ⟨hqf, hqC, lq, hlq, hflq, hlqC⟩ := hparent hne hvp
    obtain ⟨_, _, hqlt⟩ := IsValidNode_slot s2 ph hvp
    have hqI : (ph &&& 0xffff) ≠ INVALID_INDEX := by omega
    have hchainq : ChainList (RemoveFromNodeList s2 f)
        (chainHeadOf (RemoveFromNodeList s2 f) (ph &&& 0xffff)) lq := by
      have hh : chainHeadOf (RemoveFromNodeList s2 f) (ph &&& 0xffff) =
          chainHeadOf s (ph &&& 0xffff) := by
        apply chainHeadOf_congr _ _ _ q2 (by rw [q6, hlen2])
        intro pd' hpd'
        exact ⟨pd', by rw [q3 _ hqf hqC]; exact hpd', rfl⟩
      rw [hh]
      exact hlq.frame (fun x hx => q3 x (fun hxf => hflq (hxf ▸ hx)) (hlqC x hx))
    obtain ⟨a1, _, a3, _⟩ := AddToNodeList_attach (RemoveFromNodeList s2 f) f (ph &&& 0xffff) lq
      fd2 hchainq hflq q1 (Ne.symm hqf) hqI
    refine ⟨?_, _, a1, rfl⟩
    intro m hm
    have hmf : m ≠ f := fun hmf => hfC (hmf ▸ hm)
    have hma : m ≠ attachSlot (ph &&& 0xffff) lq := by
      intro hma
      rcases attachSlot_mem (ph &&& 0xffff) lq with h' | h'
      · exact hqC (by rw [← h', ← hma]; exact hm)
      · exact hlqC _ h' (by rw [← hma]; exact hm)
    rw [a3 m hmf hma, q4 m hmf hm]
/-- C19: for a valid root of the running scene whose subtree is a tree of
`nodes`, under the standing assumptions on the scene, with a render chain
that ends and contains no free slot, and with the same for the child chain
of the parent of the root when it has one, a successful
`gui.clone_tree(root)` leaves the clones of the children of every node of
the subtree in the order of the children.  With `c` the map from a node to
the slot of its clone: the child chain of every node of the subtree ends,
consists of nodes of the subtree that have the node as parent, and the
child chain of the clone of the node is the list of the clones of these
children, in the same order. -/
theorem C19_clone_tree_sibling_order (fuel : Nat) (w w' : World) (np : NodeProxy)
    (rest : List LuaValue) (table : CloneTable) (nodes : List (Nat × Nat))
    (lr : List Nat) (fr : Nat)
    (hs : w.m_Instance = some np.m_Scene)
    (hv : IsValidNode w.scene np.m_Node = true)
    (hsub : subtreeOf fuel w.scene (np.m_Node &&& 0xffff) = some nodes)
    (ctx : CloneCtx (nodes.tail.map Prod.fst) (np.m_Node &&& 0xffff) w.scene)
    (hnodup : (nodes.map Prod.fst).Nodup)
    (hrender : chainFrom fr w.scene w.scene.m_RenderHead = some lr)
    (hrpool : ∀ x ∈ lr, x ∉ w.scene.m_NodePool)
    (hq : ∀ q, parentIdx w.scene (np.m_Node &&& 0xffff) = some q → q ≠ INVALID_INDEX →
      q ∉ w.scene.m_NodePool ∧ (∃ qd, w.scene.m_Nodes[q]? = some qd ∧ qd.m_Index = q) ∧
      ∃ fq lq, chainFrom fq w.scene (chainHeadOf w.scene q) = some lq ∧
        ∀ x ∈ lq, x ∉ w.scene.m_NodePool)
    (hrun : LuaCloneTree fuel w (LuaValue.node np :: rest) = some (w', LuaResult.ok table)) :
    ∀ x ∈ nodes, ∀ src, w.scene.m_Nodes[x.1]? = some src →
      ∃ l cd, chainFrom (l.length + 1) w.scene src.m_ChildHead = some l ∧
        (∀ y ∈ l, (y, x.1) ∈ nodes) ∧
        w'.scene.m_Nodes[cloneSlotOf (nodes.map Prod.fst) w.scene.m_NodePool x.1]? = some cd ∧
        chainFrom (l.length + 1) w'.scene cd.m_ChildHead =
          some (l.map (cloneSlotOf (nodes.map Prod.fst) w.scene.m_NodePool)) := by
  obtain ⟨rd, pairs, hrd, hforest, hnodes⟩ := subtreeOf_eq fuel w.scene _ nodes hsub
  subst hnodes
  simp only [List.tail_cons, List.map_cons] at ctx hnodup ⊢
  obtain ⟨s1, out, rd1, s2, ph, hclone, hrd1, hcall, hph, hw'⟩ :=
    cloneTree_unfold fuel w w' np rest table rd hs hv hrd hrun
  have hidx : rd.m_Index = np.m_Node &&& 0xffff := by
    rw [IsValidNode_eq_true_iff] at hv
    obtain ⟨m, hm, _, hi⟩ := hv
    rw [hrd] at hm
    cases hm
    exact hi
  have hsize := ctx.size
  have hlr := ChainList_of_chainFrom w.scene lr fr _ hrender
  cases hpool : w.scene.m_NodePool with
  | nil =>
    have hfail := CloneNode_empty w.scene (GetNodeHandle rd) hpool
    rw [hclone] at hfail
    exact absurd rfl hfail
  | cons f0 pool =>
    obtain ⟨s1', out', hclone', ctx1, hpool1, hframe1, hvout, hout0, houtf, hfpar, hkept1, houth,
        hlen1⟩ :=
      CloneNode_ok _ _ w.scene ctx _ rd hrd hidx f0 pool hpool
    rw [hclone] at hclone'
    simp only [Prod.mk.injEq, true_and] at hclone'
    obtain ⟨e1, e2⟩ := hclone'
    subst e1; subst e2
    have hf0mem : f0 ∈ w.scene.m_NodePool := by rw [hpool]; exact List.mem_cons_self _ _
    have hrootf : (np.m_Node &&& 0xffff) ≠ f0 := fun h => ctx.pool_root (h ▸ hf0mem)
    have hnodupP : (f0 :: pool).Nodup := by rw [← hpool]; exact ctx.pool_nodup
    have hf0pool : f0 ∉ pool := (List.nodup_cons.mp hnodupP).1
    have hpoolsub : ∀ x ∈ pool, x ∈ w.scene.m_NodePool := fun x hx => by
      rw [hpool]; exact List.mem_cons_of_mem _ hx
    have hf0lt : f0 < w.scene.m_Nodes.length := ctx.pool_lt f0 hf0mem
    have hf0I : f0 ≠ INVALID_INDEX := by unfold INVALID_INDEX; omega
    have hf0lr : f0 ∉ lr := fun h => hrpool f0 h hf0mem
    obtain ⟨old, hold⟩ := getElem?_of_lt w.scene.m_Nodes f0 hf0lt
    have hrootlt : (np.m_Node &&& 0xffff) < w.scene.m_Nodes.length := getElem?_lt _ _ _ hrd
    have hvlt := ctx.ver_lt _ rd hrd
    have hvalid : IsValidNode w.scene (GetNodeHandle rd) = true :=
      IsValidNode_GetNodeHandle w.scene _ rd hrd hvlt hidx (by omega)
    have hslot : GetNodeHandle rd &&& 0xffff = np.m_Node &&& 0xffff := by
      rw [GetNodeHandle_slot rd hvlt (by omega), hidx]
    obtain ⟨s1'', hclone'', _, _, hf1, hchain1, hnil1, hsnoc1⟩ :=
      CloneNode_links w.scene (GetNodeHandle rd) rd old f0 pool lr hvalid
        (by rw [hslot]; exact hrd) hpool hold hlr hf0lr hf0I
    rw [hclone] at hclone''
    simp only [Prod.mk.injEq, true_and] at hclone''
    obtain ⟨e1, _⟩ := hclone''
    subst e1
    have hs1 : ∀ m, m ≠ f0 → m ∉ lr → s1.m_Nodes[m]? = w.scene.m_Nodes[m]? := by
      intro m hmf hmlr
      rcases list_nil_or_snoc lr with hnil | ⟨init, z, hl'⟩
      · exact (hnil1 hnil).2 m hmf
      · exact (hsnoc1 init z hl').2.2 m hmf (fun h => hmlr (by rw [hl', h]; simp))
    obtain ⟨rd1', hrd1', _, _, hhash1, hpar1, hchild1⟩ := hkept1 _ hrootf rd hrd
    rw [hrd1] at hrd1'
    cases hrd1'
    rw [hhash1, hchild1 rfl] at hcall
    -- the map from a node to the slot of its clone
    have hL : ∀ x ∈ pairs, x.1 ∈ pairs.map Prod.fst := fun x hx => List.mem_map_of_mem _ hx
    have hcslots : ∀ (k : Nat) (x : Nat × Nat) (f : Nat), pairs[k]? = some x →
        s1.m_NodePool[k]? = some f →
        cloneSlotOf ((np.m_Node &&& 0xffff) :: pairs.map Prod.fst) w.scene.m_NodePool x.1 = f := by
      intro k x f hx hf
      apply cloneSlotOf_getElem? _ _ (k + 1) x.1 f hnodup
      · rw [List.getElem?_cons_succ, List.getElem?_map, hx]; rfl
      · rw [hpool, List.getElem?_cons_succ, ← hpool1]; exact hf
    have hcinv : cloneSlotOf ((np.m_Node &&& 0xffff) :: pairs.map Prod.fst) w.scene.m_NodePool
        INVALID_INDEX = INVALID_INDEX := by
      apply cloneSlotOf_not_mem
      intro h
      rcases List.mem_cons.mp h with h | h
      · unfold INVALID_INDEX at h; omega
      · have := ctx.mem_lt _ h
        unfold INVALID_INDEX at this; omega
    rw [← hpool]
    generalize hc : cloneSlotOf ((np.m_Node &&& 0xffff) :: pairs.map Prod.fst) w.scene.m_NodePool
      = c at hcslots hcinv ⊢
    have hc0 : c (np.m_Node &&& 0xffff) = f0 := by
      rw [← hc, hpool]; simp [cloneSlotOf]
    -- the loop over the children of the root
    have run : CloneRun (pairs.map Prod.fst) (np.m_Node &&& 0xffff) c fuel s1 rd.m_ChildHead
        (np.m_Node &&& 0xffff) out pairs :=
      { ctx := ctx1
        forest := forestFrom_frame w.scene s1 fuel _ _ pairs hforest
          (fun x hx => hframe1 x.1 (hL x hx))
        inL := hL
        valid := hvout
        ne := hout0
        notL := by rw [houtf]; exact ctx.pool_out f0 hf0mem
        notRoot := by rw [houtf]; exact fun h => hrootf h.symm
        notPool := by rw [houtf, hpool1]; exact hf0pool
        top := by rw [houtf]; exact hfpar
        cpar := by rw [houtf]; exact hc0
        slots := hcslots }
    have hchildf : chainHeadOf s1 f0 = INVALID_INDEX := by
      unfold chainHeadOf
      rw [if_neg hf0I, hf1]
      rfl
    have cc : ChainCtx c s1 (out &&& 0xffff) (lr ++ [f0]) [] :=
      { cinv := hcinv
        render := hchain1
        render_pool := by
          intro x hx
          rw [hpool1]
          rcases List.mem_append.mp hx with hx | hx
          · exact fun h => hrpool x hx (hpoolsub x h)
          · rw [List.mem_singleton.mp hx]; exact hf0pool
        chain := by rw [houtf]; exact hchildf
        chain_pool := fun x hx => by cases hx
        chain_render := fun x hx => by cases hx
        chain_self := fun hx => by cases hx }
    have links := cloneList_links np.m_Scene _ _ c fuel s1 _ rd.m_ChildHead _ out pairs
      (lr ++ [f0]) [] s2 table run cc hcall
    rw [houtf] at links
    obtain ⟨out2, hcall', hspec⟩ := cloneList_spec np.m_Scene _ _ c fuel s1
      (rawset [] rd.m_NameHash { m_Scene := np.m_Scene, m_Node := out }) rd.m_ChildHead
      (np.m_Node &&& 0xffff) out pairs
      run.ctx run.forest run.inL run.valid run.ne run.notL run.notRoot run.notPool
      run.top run.cpar run.slots
    rw [hcall] at hcall'
    have post := hspec s2 table (Option.some.inj hcall').symm
    have hpool2 : pool = pairs.map (fun x => c x.1) ++ s2.m_NodePool := by
      rw [← hpool1]; exact post.pool
    have hCpool : ∀ m ∈ pairs.map (fun x => c x.1), m ∈ w.scene.m_NodePool := fun m hm =>
      hpoolsub m (by rw [hpool2]; exact List.mem_append_left _ hm)
    have hfC : f0 ∉ pairs.map (fun x => c x.1) := fun h =>
      hf0pool (by rw [hpool2]; exact List.mem_append_left _ h)
    have hlen2 : s2.m_Nodes.length = w.scene.m_Nodes.length := by rw [post.length_eq, hlen1]
    have hf2 : s2.m_Nodes[f0]? =
        some { clonedSlot rd old f0 with m_ChildHead := c rd.m_ChildHead } := by
      rcases forestFrom_first w.scene fuel _ _ pairs hforest with ⟨hch, hnil⟩ | ⟨t, hcons⟩
      · rw [links.others f0 (by rw [hnil]; simp) (Or.inl hnil), hf1, hch, hcinv]
        rfl
      · have := links.attach (rd.m_ChildHead, np.m_Node &&& 0xffff) t hcons _
          (by rw [attachSlot_nil]; exact hf1)
        rw [attachSlot_nil, attached_nil] at this
        exact this
    have hvout2 : IsValidNode s2 out = true :=
      SlotKept.valid out (by rw [houtf]; exact post.kept f0 hfC) hvout
    -- the parent of the root
    obtain ⟨rd2, hrd2, _, _, _, hpar2, _⟩ := post.kept _
      (fun h => ctx.pool_root (hCpool _ h)) rd1 hrd1
    have hparent : ph ≠ INVALID_HANDLE → IsValidNode s2 ph = true →
        (ph &&& 0xffff) ≠ f0 ∧ (ph &&& 0xffff) ∉ pairs.map (fun x => c x.1) ∧
        ∃ lq, ChainList w.scene (chainHeadOf w.scene (ph &&& 0xffff)) lq ∧ f0 ∉ lq ∧
          ∀ x ∈ lq, x ∉ pairs.map (fun x => c x.1) := by
      intro hne _
      unfold rootParentHandle at hph
      rw [hrd2] at hph
      simp only [hpar2, hpar1] at hph
      by_cases hqi : rd.m_ParentIndex = INVALID_INDEX
      · rw [if_neg (by simpa using hqi)] at hph
        exact absurd (Option.some.inj hph).symm hne
      · rw [if_pos hqi] at hph
        obtain ⟨hqpool, ⟨qd, hqd, hqidx⟩, fq, lq, hlq, hlqpool⟩ := hq rd.m_ParentIndex
          (by unfold parentIdx; rw [hrd]; rfl) hqi
        have hqf : rd.m_ParentIndex ≠ f0 := fun h => hqpool (h ▸ hf0mem)
        have hqC : rd.m_ParentIndex ∉ pairs.map (fun x => c x.1) := fun h => hqpool (hCpool _ h)
        obtain ⟨qd1, hqd1, hv1, hi1, _⟩ := hkept1 _ hqf qd hqd
        obtain ⟨qd2, hqd2, hv2, hi2, _⟩ := post.kept _ hqC qd1 hqd1
        rw [hqd2] at hph
        simp only [Option.map_some', Option.some.injEq] at hph
        have hqlt : rd.m_ParentIndex < w.scene.m_Nodes.length := getElem?_lt _ _ _ hqd
        have hslotq : ph &&& 0xffff = rd.m_ParentIndex := by
          rw [← hph, GetNodeHandle_slot qd2 (by rw [hv2, hv1]; exact ctx.ver_lt _ qd hqd)
            (by rw [hi2, hi1, hqidx]; omega), hi2, hi1, hqidx]
        rw [hslotq]
        exact ⟨hqf, hqC, lq, ChainList_of_chainFrom _ _ _ _ hlq,
          fun h => hlqpool f0 h hf0mem, fun x hx h => hlqpool x hx (hCpool x h)⟩
    obtain ⟨hframeC, fd3, hfd3, hchild3⟩ := reparent_clone_frame w.scene s1 s2 out ph f0 lr
      (pairs.map (fun x => c x.1)) _ hvout2 houtf hlr hnil1 hsnoc1 hchain1 links.head_eq
      (fun m hmC hmf => links.others m hmC (Or.inr (by rw [attachSlot_nil]; exact hmf)))
      (fun x hx hxC => hrpool x hx (hCpool x hxC)) hfC hf2 rfl rfl hlen2
      (by unfold INVALID_INDEX; omega) hparent
    -- the links of the clones at the end
    have hlink : ∀ y ∈ pairs, c y.1 ≠ INVALID_INDEX ∧
        ∀ src, w.scene.m_Nodes[y.1]? = some src →
          ∃ cd, (SetNodeParent s2 out ph).2.m_Nodes[c y.1]? = some cd ∧
            cd.m_NextIndex = c src.m_NextIndex ∧ cd.m_ChildHead = c src.m_ChildHead := by
      intro y hy
      have hcy : c y.1 ∈ pairs.map (fun x => c x.1) := List.mem_map_of_mem _ hy
      have hcypool := hCpool _ hcy
      have hcylt := ctx.pool_lt _ hcypool
      refine ⟨by unfold INVALID_INDEX; omega, ?_⟩
      intro src hsrc
      obtain ⟨oldy, holdy⟩ := getElem?_of_lt w.scene.m_Nodes (c y.1) hcylt
      have h2 := links.clones y hy src oldy
        (by rw [hframe1 y.1 (hL y hy)]; exact hsrc)
        (by rw [hs1 _ (fun h => hfC (h ▸ hcy)) (fun h => hrpool _ h hcypool)]; exact holdy)
      exact ⟨_, by rw [hframeC _ hcy]; exact h2, rfl, rfl⟩
    have hmap : ∀ (l : List Nat) (i p : Nat), ChainList w.scene i l → (∀ y ∈ l, (y, p) ∈ pairs) →
        chainFrom (l.length + 1) (SetNodeParent s2 out ph).2 (c i) = some (l.map c) := by
      intro l i p hl hmem
      have := @ChainList.map_clone w.scene (SetNodeParent s2 out ph).2 c hcinv l i hl
        (fun y hy => ⟨(hlink _ (hmem y hy)).1, fun src hsrc => by
          obtain ⟨cd, hcd, hnext, _⟩ := (hlink _ (hmem y hy)).2 src hsrc
          exact ⟨cd, hcd, hnext⟩⟩)
      exact chainFrom_of_ChainList _ _ _ _ this (by simp)
    rw [hw']
    simp only
    intro x hx src hsrc
    rcases List.mem_cons.mp hx with hx | hx
    · subst hx
      simp only at hsrc ⊢
      rw [hrd] at hsrc
      cases hsrc
      obtain ⟨l, hl, hmem⟩ := forestFrom_roots w.scene _ _ _ _ hforest
      refine ⟨l, fd3, chainFrom_of_ChainList _ _ _ _ hl (by omega),
        fun y hy => List.mem_cons_of_mem _ (hmem y hy), by rw [hc0]; exact hfd3, ?_⟩
      rw [hchild3]
      exact hmap l _ _ hl hmem
    · obtain ⟨l, hl, hmem⟩ := forestFrom_children w.scene _ _ _ _ hforest x hx src hsrc
      obtain ⟨cd, hcd, _, hchild⟩ := (hlink x hx).2 src hsrc
      refine ⟨l, cd, chainFrom_of_ChainList _ _ _ _ hl (by omega),
        fun y hy => List.mem_cons_of_mem _ (hmem y hy), hcd, ?_⟩
      rw [hchild]
      exact hmap l _ _ hl hmem
/-- C19 on `sceneFamily` and the node in slot 1, whose children are the
nodes in slots 2 and 3, in this order: the clone of the node is in slot 4,
and its children are the clones in slots 5 and 6, in this order. -/
theorem C19_clone_tree_sibling_order_witness :
    chainFrom 3 (worldOf sceneFamily).scene 2 = some [2, 3] ∧
    ∃ cd, familyCloned.scene.m_Nodes[4]? = some cd ∧
      chainFrom 3 familyCloned.scene cd.m_ChildHead = some [5, 6] := by
  obtain ⟨l, cd, hl, _, hcd, hchain⟩ :=
    C19_clone_tree_sibling_order 10 (worldOf sceneFamily) familyCloned familyRoot []
      familyTable [(1, 0), (2, 1), (3, 1)] [0] 2 rfl (by decide) (by decide)
      (CloneCtx.of_checks [2, 3] 1 sceneFamily (by decide) (by decide) (by decide) (by decide)
        (by decide) (by decide))
      (by decide) (by decide) (by decide)
      (fun q hq _ => by
        have hq0 : q = 0 := Option.some.inj (hq.symm.trans
          (by decide : parentIdx (worldOf sceneFamily).scene (familyRoot.m_Node &&& 0xffff)
            = some 0))
        subst hq0
        exact ⟨by decide, ⟨_, rfl, rfl⟩, 2, [1], by decide, by decide⟩)
      (by decide) (1, 0) (by decide)
      { slotOf 1 1 11 with m_ParentIndex := 0, m_ChildHead := 2 } (by decide)
  have h23 : chainFrom 3 (worldOf sceneFamily).scene 2 = some [2, 3] := by decide
  have hl' : l = [2, 3] := chainFrom_unique _ _ _ _ _ _ hl h23
  subst hl'
  exact ⟨h23, cd, hcd, hchain⟩

/-! ### Property setters and getters -/

/-- A node proxy of the running script with a valid handle passes
`LuaCheckNode`, which yields the slot index and the handle. -/
theorem LuaCheckNode_valid (w : World) (args : List LuaValue) (i : Nat) (np : NodeProxy)
    (harg : luaArg args i = LuaValue.node np)
    (hs : w.m_Instance = some np.m_Scene)
    (hv : IsValidNode w.scene np.m_Node = true) :
    LuaCheckNode w args i = LuaResult.ok (np.m_Node &&& 0xffff, np.m_Node) := by
  rw [LuaCheckNode_node w args i np harg]
  simp [hs, hv]

/-- A successful `LuaCheckNode` has seen a node proxy of the running script
with a valid handle, and yields the slot index of the handle. -/
theorem LuaCheckNode_ok_inv (w : World) (args : List LuaValue) (i n h : Nat)
    (hc : LuaCheckNode w args i = LuaResult.ok (n, h)) :
    ∃ np, luaArg args i = LuaValue.node np ∧ w.m_Instance = some np.m_Scene ∧
      IsValidNode w.scene np.m_Node = true ∧ n = (np.m_Node &&& 0xffff) ∧ h = np.m_Node := by
  cases harg : luaArg args i with
  | node np =>
    rw [LuaCheckNode_node w args i np harg] at hc
    by_cases hs : some np.m_Scene ≠ w.m_Instance
    · rw [if_pos hs] at hc
      cases hc
    · rw [if_neg hs] at hc
      by_cases hv : IsValidNode w.scene np.m_Node = true
      · rw [if_pos hv] at hc
        injection hc with hc
        injection hc with h1 h2
        exact ⟨np, rfl, (not_not.mp hs).symm, hv, h1.symm, h2.symm⟩
      · rw [if_neg hv] at hc
        cases hc
  | _ => simp [LuaCheckNode, harg, NodeProxy_Check] at hc

theorem setProperty_getElem?_self (s : Scene) (n p : Nat) (v : Vector4) (nd : InternalNode)
    (hnd : s.m_Nodes[n]? = some nd) :
    (setProperty s n p v).m_Nodes[n]? =
      some { nd with
             m_Node := { nd.m_Node with
                         m_Properties := nd.m_Node.m_Properties.set p v
                         m_DirtyLocal := true } } := by
  unfold setProperty
  rw [modifyNode_getElem?_self, hnd]
  rfl

theorem setProperty_getElem?_ne (s : Scene) (n p m : Nat) (v : Vector4) (h : m ≠ n) :
    (setProperty s n p v).m_Nodes[m]? = s.m_Nodes[m]? := by
  unfold setProperty
  exact modifyNode_getElem?_ne _ _ _ _ (Ne.symm h)

/-- A property write keeps every handle as valid as it was. -/
theorem IsValidNode_setProperty (s : Scene) (n p : Nat) (v : Vector4) (h : Nat) :
    IsValidNode (setProperty s n p v) h = IsValidNode s h := by
  have hiff : IsValidNode (setProperty s n p v) h = true ↔ IsValidNode s h = true := by
    rw [IsValidNode_eq_true_iff, IsValidNode_eq_true_iff]
    by_cases hn : (h &&& 0xffff) = n
    · cases hnd : s.m_Nodes[n]? with
      | none =>
        have h1 : (setProperty s n p v).m_Nodes[h &&& 0xffff]? = Option.none := by
          rw [hn]
          unfold setProperty
          rw [modifyNode_getElem?_self, hnd]
          rfl
        rw [h1, hn, hnd]
      | some nd =>
        rw [hn, setProperty_getElem?_self s n p v nd hnd, hnd]
        constructor
        · rintro ⟨m, hm, h1, h2⟩
          cases hm
          exact ⟨nd, rfl, h1, h2⟩
        · rintro ⟨m, hm, h1, h2⟩
          cases hm
          exact ⟨_, rfl, h1, h2⟩
    · rw [setProperty_getElem?_ne s n p _ v hn]
  cases h1 : IsValidNode (setProperty s n p v) h <;> cases h2 : IsValidNode s h <;> simp_all

/-- The read `GetNodeProperty` through a handle is the property of the slot
of the handle. -/
theorem GetNodeProperty_slot (s : Scene) (h p : Nat) (nd : InternalNode)
    (hnd : s.m_Nodes[h &&& 0xffff]? = some nd) :
    GetNodeProperty s h p = nd.m_Node.m_Properties[p]? := by
  simp only [GetNodeProperty, GetNode, slotIndex_mod, hnd]

/-- What a setter does on a valid node that is not a bone, for a value
`setterValue` accepts. -/
theorem LUASET_run (p : Nat) (w : World) (args : List LuaValue) (np : NodeProxy)
    (nd : InternalNode) (v : Vector4)
    (harg : luaArg args 1 = LuaValue.node np)
    (hs : w.m_Instance = some np.m_Scene)
    (hv : IsValidNode w.scene np.m_Node = true)
    (hnd : w.scene.m_Nodes[np.m_Node &&& 0xffff]? = some nd)
    (hbone : nd.m_Node.m_IsBone = false)
    (hval : setterValue w args np.m_Node p = LuaResult.ok v)
    (hp : p < nd.m_Node.m_Properties.length) :
    LUASET p w args =
      ({ w with scene := setProperty w.scene (np.m_Node &&& 0xffff) p v }, LuaResult.ok ()) := by
  simp [LUASET, LuaCheckNode_valid w args 1 np harg hs hv, hnd, hbone, hval, hp]

/-- What `gui.set_size` does on a valid node in manual size mode that is not
a bone, for a value `setterValue` accepts. -/
theorem LuaSetSize_run (M p : Nat) (w : World) (args : List LuaValue) (np : NodeProxy)
    (nd : InternalNode) (v : Vector4)
    (harg : luaArg args 1 = LuaValue.node np)
    (hs : w.m_Instance = some np.m_Scene)
    (hv : IsValidNode w.scene np.m_Node = true)
    (hnd : w.scene.m_Nodes[np.m_Node &&& 0xffff]? = some nd)
    (hmode : nd.m_Node.m_SizeMode = M)
    (hbone : nd.m_Node.m_IsBone = false)
    (hval : setterValue w args np.m_Node p = LuaResult.ok v)
    (hp : p < nd.m_Node.m_Properties.length) :
    LuaSetSize M p w args =
      ({ w with scene := setProperty w.scene (np.m_Node &&& 0xffff) p v }, LuaResult.ok ()) := by
  simp [LuaSetSize, LuaCheckNode_valid w args 1 np harg hs hv, hnd, hbone, hval, hp, hmode]

/-- A check of a node after a property write gives what it gave before. -/
theorem LuaCheckNode_setProperty (w : World) (args : List LuaValue) (i n p : Nat) (v : Vector4) :
    LuaCheckNode { w with scene := setProperty w.scene n p v } args i = LuaCheckNode w args i := by
  simp only [LuaCheckNode, GetScene, GetNode, IsValidNode_setProperty]

/-! ### C21 -/

/-- C21: `gui.set_size` on a valid node of the running gui script whose size
mode is not `SIZE_MODE_MANUAL` returns without an error and leaves the whole
world, with the size property and the dirty flag of the node, as it was,
whatever the value argument is; and a call of `gui.set_size` after which the
world is not as before was made on a valid node that is in manual size
mode (and is not a bone). -/
theorem C21_set_size_manual_only (SIZE_MODE_MANUAL PROPERTY_SIZE : Nat) (w : World)
    (args : List LuaValue) :
    (∀ (np : NodeProxy) (nd : InternalNode),
      luaArg args 1 = LuaValue.node np →
      w.m_Instance = some np.m_Scene →
      IsValidNode w.scene np.m_Node = true →
      w.scene.m_Nodes[np.m_Node &&& 0xffff]? = some nd →
      nd.m_Node.m_SizeMode ≠ SIZE_MODE_MANUAL →
      LuaSetSize SIZE_MODE_MANUAL PROPERTY_SIZE w args = (w, LuaResult.ok ()) ∧
      (LuaSetSize SIZE_MODE_MANUAL PROPERTY_SIZE w args).1.scene.m_Nodes[np.m_Node &&& 0xffff]? =
        some nd ∧
      LuaGetSize PROPERTY_SIZE (LuaSetSize SIZE_MODE_MANUAL PROPERTY_SIZE w args).1 args =
        LuaGetSize PROPERTY_SIZE w args) ∧
    ((LuaSetSize SIZE_MODE_MANUAL PROPERTY_SIZE w args).1 ≠ w →
      ∃ (np : NodeProxy) (nd : InternalNode),
        luaArg args 1 = LuaValue.node np ∧
        IsValidNode w.scene np.m_Node = true ∧
        w.scene.m_Nodes[np.m_Node &&& 0xffff]? = some nd ∧
        nd.m_Node.m_SizeMode = SIZE_MODE_MANUAL ∧ nd.m_Node.m_IsBone = false) := by
  constructor
  · intro np nd harg hs hv hnd hmode
    have hrun : LuaSetSize SIZE_MODE_MANUAL PROPERTY_SIZE w args = (w, LuaResult.ok ()) := by
      simp [LuaSetSize, LuaCheckNode_valid w args 1 np harg hs hv, hnd, hmode]
    rw [hrun]
    exact ⟨rfl, hnd, rfl⟩
  · intro hne
    cases hc : LuaCheckNode w args 1 with
    | ok r =>
      obtain ⟨n, h⟩ := r
      obtain ⟨np, harg, _, hv, hn, _⟩ := LuaCheckNode_ok_inv w args 1 n h hc
      subst hn
      cases hnd : w.scene.m_Nodes[np.m_Node &&& 0xffff]? with
      | none =>
        exfalso
        apply hne
        simp [LuaSetSize, hc, hnd]
      | some nd =>
        by_cases hmode : nd.m_Node.m_SizeMode = SIZE_MODE_MANUAL
        · cases hbone : nd.m_Node.m_IsBone with
          | false => exact ⟨np, nd, harg, hv, hnd, hmode, hbone⟩
          | true =>
            exfalso
            apply hne
            simp [LuaSetSize, hc, hnd, hmode, hbone]
        · exfalso
          apply hne
          simp [LuaSetSize, hc, hnd, hmode]
    | error e =>
      exfalso
      apply hne
      simp [LuaSetSize, hc]
    | abort =>
      exfalso
      apply hne
      simp [LuaSetSize, hc]

/-- C21 on the node in slot 1 of `sceneProperties`, whose size mode is not
the manual one: `gui.set_size` with a vector3 changes nothing, and the size
read back is the one the node had. -/
theorem C21_set_size_manual_only_witness :
    LuaSetSize 0 4 (worldOf sceneProperties)
        [LuaValue.node { m_Scene := 1, m_Node := 0x30001 }, LuaValue.vector3 7 8 9] =
      (worldOf sceneProperties, LuaResult.ok ()) ∧
    LuaGetSize 4 (worldOf sceneProperties)
        [LuaValue.node { m_Scene := 1, m_Node := 0x30001 }, LuaValue.vector3 7 8 9] =
      LuaResult.ok (LuaValue.vector3 16 17 18) :=
  ⟨((C21_set_size_manual_only 0 4 (worldOf sceneProperties)
      [LuaValue.node { m_Scene := 1, m_Node := 0x30001 }, LuaValue.vector3 7 8 9]).1
      { m_Scene := 1, m_Node := 0x30001 }
      { slotOf 3 1 31 with
         m_ParentIndex := 0
         m_Node := { plainNode with m_Properties := sampleProperties, m_SizeMode := 1 } }
      rfl rfl (by decide) (by decide) (by decide)).1,
   by decide⟩

/-! ### C29 -/

/-- C29: on a valid node of the running gui script that is a bone, every
setter generated by `LUASET` (`gui.set_position`, `gui.set_rotation`,
`gui.set_scale`, `gui.set_color`, `gui.set_outline`, `gui.set_shadow`) and
`gui.set_size`, in manual size mode as in any other, return without an error
and leave the whole world, with all properties and the dirty flag of the
node, as it was; the value argument is not looked at. -/
theorem C29_bone_setters_noop (w : World) (args : List LuaValue) (np : NodeProxy)
    (nd : InternalNode)
    (harg : luaArg args 1 = LuaValue.node np)
    (hs : w.m_Instance = some np.m_Scene)
    (hv : IsValidNode w.scene np.m_Node = true)
    (hnd : w.scene.m_Nodes[np.m_Node &&& 0xffff]? = some nd)
    (hbone : nd.m_Node.m_IsBone = true) :
    (∀ property, LUASET property w args = (w, LuaResult.ok ())) ∧
    (∀ SIZE_MODE_MANUAL PROPERTY_SIZE,
      LuaSetSize SIZE_MODE_MANUAL PROPERTY_SIZE w args = (w, LuaResult.ok ())) := by
  constructor
  · intro p
    simp [LUASET, LuaCheckNode_valid w args 1 np harg hs hv, hnd, hbone]
  · intro M P
    simp [LuaSetSize, LuaCheckNode_valid w args 1 np harg hs hv, hnd, hbone]

/-- C29 on the bone node in slot 3 of `sceneProperties`, which is in manual
size mode: a setter with a value that is no vector at all and `gui.set_size`
with the same value change nothing. -/
theorem C29_bone_setters_noop_witness :
    LUASET 0 (worldOf sceneProperties)
        [LuaValue.node { m_Scene := 1, m_Node := 0x10003 }, LuaValue.boolean true] =
      (worldOf sceneProperties, LuaResult.ok ()) ∧
    LuaSetSize 0 4 (worldOf sceneProperties)
        [LuaValue.node { m_Scene := 1, m_Node := 0x10003 }, LuaValue.boolean true] =
      (worldOf sceneProperties, LuaResult.ok ()) :=
  have h := C29_bone_setters_noop (worldOf sceneProperties)
    [LuaValue.node { m_Scene := 1, m_Node := 0x10003 }, LuaValue.boolean true]
    { m_Scene := 1, m_Node := 0x10003 }
    { slotOf 1 3 33 with
         m_ParentIndex := 2
         m_Node := { plainNode with m_Properties := sampleProperties, m_IsBone := true } }
    rfl rfl (by decide) (by decide) rfl
  ⟨h.1 0, h.2 0 4⟩

/-- The entry written by `List.set` is read back. -/
theorem set_getElem?_self {α : Type} (l : List α) (i : Nat) (a : α) (h : i < l.length) :
    (l.set i a)[i]? = some a := by
  simp [List.getElem?_set, h]

/-! ### C23 -/

/-- C23: for every property index (each of position, rotation, scale,
color, outline and shadow has one), on a valid node of the running gui
script that is not a bone, the setter with a vector4 `v` returns without an
error; in the slot of the node exactly `v` is stored under that property,
every other property is as before, the dirty flag is set and no other field
of the slot changes; the other slots and the rest of the world are as
before; and a getter called right after on the same node returns `v` (the
vector4 getters of color, outline and shadow) or its components x, y and z
(the vector3 getters of position, rotation and scale). -/
theorem C23_set_then_get (property : Nat) (w : World) (args : List LuaValue) (np : NodeProxy)
    (nd : InternalNode) (v : Vector4)
    (harg : luaArg args 1 = LuaValue.node np)
    (hs : w.m_Instance = some np.m_Scene)
    (hv : IsValidNode w.scene np.m_Node = true)
    (hnd : w.scene.m_Nodes[np.m_Node &&& 0xffff]? = some nd)
    (hbone : nd.m_Node.m_IsBone = false)
    (hval : luaArg args 2 = LuaValue.vector4 v)
    (hp : property < nd.m_Node.m_Properties.length) :
    (LUASET property w args).2 = LuaResult.ok () ∧
    (∃ nd2, (LUASET property w args).1.scene.m_Nodes[np.m_Node &&& 0xffff]? = some nd2 ∧
      nd2.m_Node.m_Properties[property]? = some v ∧
      (∀ q, q ≠ property → nd2.m_Node.m_Properties[q]? = nd.m_Node.m_Properties[q]?) ∧
      nd2.m_Node.m_Properties.length = nd.m_Node.m_Properties.length ∧
      nd2.m_Node.m_DirtyLocal = true ∧
      nd2 = { nd with
              m_Node := { nd.m_Node with
                          m_Properties := nd2.m_Node.m_Properties
                          m_DirtyLocal := true } }) ∧
    (∀ m, m ≠ (np.m_Node &&& 0xffff) →
      (LUASET property w args).1.scene.m_Nodes[m]? = w.scene.m_Nodes[m]?) ∧
    (LUASET property w args).1.scene.m_NodePool = w.scene.m_NodePool ∧
    (LUASET property w args).1.scene.m_RenderHead = w.scene.m_RenderHead ∧
    (LUASET property w args).1.scene.m_RenderOrder = w.scene.m_RenderOrder ∧
    (LUASET property w args).1.m_Instance = w.m_Instance ∧
    (LUASET property w args).1.refTable = w.refTable ∧
    (LUASET property w args).1.animations = w.animations ∧
    LUAGETV4 property (LUASET property w args).1 args = LuaResult.ok (LuaValue.vector4 v) ∧
    LUAGETV3 property (LUASET property w args).1 args =
      LuaResult.ok (LuaValue.vector3 v.x v.y v.z) := by
  have hsv : setterValue w args np.m_Node property = LuaResult.ok v := by
    simp [setterValue, hval, CheckVector4]
  have hrun := LUASET_run property w args np nd v harg hs hv hnd hbone hsv hp
  have hslot := setProperty_getElem?_self w.scene (np.m_Node &&& 0xffff) property v nd hnd
  have hget : (nd.m_Node.m_Properties.set property v)[property]? = some v := by
    exact set_getElem?_self _ _ _ hp
  have hcheck : LuaCheckNode
      { w with scene := setProperty w.scene (np.m_Node &&& 0xffff) property v } args 1 =
      LuaResult.ok (np.m_Node &&& 0xffff, np.m_Node) := by
    rw [LuaCheckNode_setProperty]
    exact LuaCheckNode_valid w args 1 np harg hs hv
  rw [hrun]
  refine ⟨rfl, ⟨_, hslot, hget, ?_, ?_, rfl, rfl⟩, ?_, ?_, ?_, ?_, rfl, rfl, rfl, ?_, ?_⟩
  · intro q hq
    exact List.getElem?_set_ne (Ne.symm hq)
  · exact List.length_set _ _ _
  · intro m hm
    exact setProperty_getElem?_ne _ _ _ _ _ hm
  · simp only [setProperty, modifyNode_pool]
  · simp only [setProperty, modifyNode_renderHead]
  · simp only [setProperty, modifyNode, hnd]
  · simp only [LUAGETV4, hcheck, hslot, hget]
  · simp only [LUAGETV3, hcheck, hslot, hget]

/-- C23 on the node in slot 0 of `sceneProperties`: after the setter of
property 3 with the vector4 (7, 8, 9, 10) both getters of that property
return it, and property 2 is still (8, 9, 10, 11). -/
theorem C23_set_then_get_witness :
    LUAGETV4 3 (LUASET 3 (worldOf sceneProperties)
        [LuaValue.node { m_Scene := 1, m_Node := 0x10000 },
         LuaValue.vector4 { x := 7, y := 8, z := 9, w := 10 }]).1
        [LuaValue.node { m_Scene := 1, m_Node := 0x10000 },
         LuaValue.vector4 { x := 7, y := 8, z := 9, w := 10 }] =
      LuaResult.ok (LuaValue.vector4 { x := 7, y := 8, z := 9, w := 10 }) ∧
    LUAGETV3 3 (LUASET 3 (worldOf sceneProperties)
        [LuaValue.node { m_Scene := 1, m_Node := 0x10000 },
         LuaValue.vector4 { x := 7, y := 8, z := 9, w := 10 }]).1
        [LuaValue.node { m_Scene := 1, m_Node := 0x10000 },
         LuaValue.vector4 { x := 7, y := 8, z := 9, w := 10 }] =
      LuaResult.ok (LuaValue.vector3 7 8 9) ∧
    LUAGETV4 2 (LUASET 3 (worldOf sceneProperties)
        [LuaValue.node { m_Scene := 1, m_Node := 0x10000 },
         LuaValue.vector4 { x := 7, y := 8, z := 9, w := 10 }]).1
        [LuaValue.node { m_Scene := 1, m_Node := 0x10000 }] =
      LuaResult.ok (LuaValue.vector4 { x := 8, y := 9, z := 10, w := 11 }) :=
  have h := C23_set_then_get 3 (worldOf sceneProperties)
    [LuaValue.node { m_Scene := 1, m_Node := 0x10000 },
     LuaValue.vector4 { x := 7, y := 8, z := 9, w := 10 }]
    { m_Scene := 1, m_Node := 0x10000 }
    { slotOf 1 0 30 with
         m_ChildHead := 1, m_NextIndex := 2
         m_Node := { plainNode with m_Properties := sampleProperties } }
    { x := 7, y := 8, z := 9, w := 10 } rfl rfl (by decide) (by decide) rfl rfl (by decide)
  ⟨h.2.2.2.2.2.2.2.2.2.1, h.2.2.2.2.2.2.2.2.2.2, by decide⟩

/-! ### C28 -/

/-- C28: for every setter generated by `LUASET` (one for each property
index) and for `gui.set_size` on a node in manual size mode: on a valid node
of the running gui script that is not a bone, with a vector3 (x, y, z) as
the new value, the call returns without an error and the value stored under
the property is (x, y, z, w_old), where w_old is the `w` component the
property had before the call; the dirty flag is set and the other properties
are as before. -/
theorem C28_vector3_keeps_w (property : Nat) (w : World) (args : List LuaValue) (np : NodeProxy)
    (nd : InternalNode) (x y z : Int) (old : Vector4)
    (harg : luaArg args 1 = LuaValue.node np)
    (hs : w.m_Instance = some np.m_Scene)
    (hv : IsValidNode w.scene np.m_Node = true)
    (hnd : w.scene.m_Nodes[np.m_Node &&& 0xffff]? = some nd)
    (hbone : nd.m_Node.m_IsBone = false)
    (hval : luaArg args 2 = LuaValue.vector3 x y z)
    (hold : nd.m_Node.m_Properties[property]? = some old) :
    (LUASET property w args).2 = LuaResult.ok () ∧
    (LUASET property w args).1.scene.m_Nodes[np.m_Node &&& 0xffff]? =
      some { nd with
             m_Node := { nd.m_Node with
                         m_Properties :=
                           nd.m_Node.m_Properties.set property { x := x, y := y, z := z, w := old.w }
                         m_DirtyLocal := true } } ∧
    (nd.m_Node.m_Properties.set property { x := x, y := y, z := z, w := old.w })[property]? =
      some { x := x, y := y, z := z, w := old.w } ∧
    (∀ q, q ≠ property →
      (nd.m_Node.m_Properties.set property { x := x, y := y, z := z, w := old.w })[q]? =
        nd.m_Node.m_Properties[q]?) ∧
    (∀ SIZE_MODE_MANUAL, nd.m_Node.m_SizeMode = SIZE_MODE_MANUAL →
      LuaSetSize SIZE_MODE_MANUAL property w args = LUASET property w args) := by
  have hp : property < nd.m_Node.m_Properties.length := getElem?_lt _ _ _ hold
  have hsv : setterValue w args np.m_Node property =
      LuaResult.ok { x := x, y := y, z := z, w := old.w } := by
    simp [setterValue, hval, GetNodeProperty_slot w.scene np.m_Node property nd hnd, hold]
  have hrun := LUASET_run property w args np nd _ harg hs hv hnd hbone hsv hp
  have hslot := setProperty_getElem?_self w.scene (np.m_Node &&& 0xffff) property
    { x := x, y := y, z := z, w := old.w } nd hnd
  refine ⟨?_, ?_, ?_, ?_, ?_⟩
  · rw [hrun]
  · rw [hrun]
    exact hslot
  · exact set_getElem?_self _ _ _ hp
  · intro q hq
    exact List.getElem?_set_ne (Ne.symm hq)
  · intro M hmode
    rw [hrun]
    exact LuaSetSize_run M property w args np nd _ harg hs hv hnd hmode hbone hsv hp

/-- C28 on the node in slot 0 of `sceneProperties`, whose property 4 is
(16, 17, 18, 19): after `gui.set_size` (manual mode 0, size property 4) with
the vector3 (7, 8, 9) the stored value is (7, 8, 9, 19). -/
theorem C28_vector3_keeps_w_witness :
    LUAGETV4 4 (LuaSetSize 0 4 (worldOf sceneProperties)
        [LuaValue.node { m_Scene := 1, m_Node := 0x10000 }, LuaValue.vector3 7 8 9]).1
        [LuaValue.node { m_Scene := 1, m_Node := 0x10000 }] =
      LuaResult.ok (LuaValue.vector4 { x := 7, y := 8, z := 9, w := 19 }) := by
  have h := C28_vector3_keeps_w 4 (worldOf sceneProperties)
    [LuaValue.node { m_Scene := 1, m_Node := 0x10000 }, LuaValue.vector3 7 8 9]
    { m_Scene := 1, m_Node := 0x10000 }
    { slotOf 1 0 30 with
         m_ChildHead := 1, m_NextIndex := 2
         m_Node := { plainNode with m_Properties := sampleProperties } }
    7 8 9 { x := 16, y := 17, z := 18, w := 19 } rfl rfl (by decide) (by decide) rfl rfl
    (by decide)
  rw [h.2.2.2.2 0 rfl]
  decide

/-! ### C22 -/

/-- C22: for every handle `h` of 32 bits, the generation `h >> 16` and the
slot index `h & 0xffff` that `IsValidNode` decodes are both below 2^16 (the
casts to `uint16_t` lose nothing) and they recombine to `h`:
`(generation << 16) | slot_index = h`; so two handles of 32 bits are equal
exactly when they have the same generation and the same slot index.  In the
program: `GetNode` resolves `h` to the slot `h & 0xffff`, `GetNodeHandle`
of a slot that carries this generation and this index is `h`, and a handle
that passes `IsValidNode` is the handle of the slot it resolves to. -/
theorem C22_handle_layout (h : Nat) (hh : h < 2 ^ 32) :
    h >>> 16 < 2 ^ 16 ∧ (h &&& 0xffff) < 2 ^ 16 ∧
    ((h >>> 16) <<< 16) ||| (h &&& 0xffff) = h ∧
    (∀ g, g < 2 ^ 32 → (h = g ↔ (h >>> 16 = g >>> 16 ∧ (h &&& 0xffff) = (g &&& 0xffff)))) ∧
    (∀ scene, GetNode scene h = (h &&& 0xffff)) ∧
    (∀ nd : InternalNode, nd.m_Version = h >>> 16 → nd.m_Index = (h &&& 0xffff) →
      GetNodeHandle nd = h) ∧
    (∀ scene, IsValidNode scene h = true →
      ∃ nd, scene.m_Nodes[h &&& 0xffff]? = some nd ∧ nd.m_Version = h >>> 16 ∧
        nd.m_Index = (h &&& 0xffff) ∧ GetNodeHandle nd = h) := by
  have hgen : h >>> 16 < 2 ^ 16 := by
    rw [← generation_mod h hh]
    exact Nat.mod_lt _ (by norm_num)
  have hidx : (h &&& 0xffff) < 2 ^ 16 := slotIndex_lt h
  have hre : ((h >>> 16) <<< 16) ||| (h &&& 0xffff) = h := by
    rw [handle_arith _ _ hidx]
    have := handle_halves h hh
    rw [generation_mod h hh] at this
    exact this
  refine ⟨hgen, hidx, hre, ?_, ?_, ?_, ?_⟩
  · intro g hg
    constructor
    · intro e
      subst e
      exact ⟨rfl, rfl⟩
    · rintro ⟨e1, e2⟩
      have h1 := handle_halves h hh
      have h2 := handle_halves g hg
      rw [generation_mod h hh] at h1
      rw [generation_mod g hg] at h2
      rw [← h1, ← h2, e1, e2]
  · intro scene
    simp only [GetNode, slotIndex_mod]
  · intro nd hver hind
    rw [GetNodeHandle_eq nd (by rw [hver]; exact hgen) (by rw [hind]; exact hidx), hver, hind]
    have := handle_halves h hh
    rw [generation_mod h hh] at this
    exact this
  · intro scene hv
    have hv2 := hv
    rw [IsValidNode_eq_true_iff, generation_mod h hh] at hv2
    obtain ⟨nd, hnd, hver, hind⟩ := hv2
    exact ⟨nd, hnd, hver, hind, GetNodeHandle_of_valid scene h nd hh hv hnd⟩

/-- C22 at the handle `0x30001`: generation 3 and slot index 1, which is the
handle of the node in slot 1 of `sceneProperties`. -/
theorem C22_handle_layout_witness :
    (0x30001 : Nat) >>> 16 = 3 ∧ ((0x30001 : Nat) &&& 0xffff) = 1 ∧
    ((((0x30001 : Nat) >>> 16) <<< 16) ||| ((0x30001 : Nat) &&& 0xffff)) = 0x30001 ∧
    ∃ nd, sceneProperties.m_Nodes[(0x30001 : Nat) &&& 0xffff]? = some nd ∧
      GetNodeHandle nd = 0x30001 := by
  have h := C22_handle_layout 0x30001 (by norm_num)
  obtain ⟨nd, hnd, _, _, hh⟩ := h.2.2.2.2.2.2 sceneProperties (by decide)
  exact ⟨by decide, by decide, h.2.2.1, nd, hnd, hh⟩

/-! ### C24 -/

/-- C24: `gui.get_parent` on a valid node of the running gui script (scene
address `scene`) returns `nil` when the parent index of the node is
`INVALID_INDEX`, and nothing but a node proxy otherwise, so `nil` is
returned exactly when the parent index is `INVALID_INDEX`.  When it is not,
the proxy returned is bound to the running scene and holds the handle
`GetNodeHandle` of the slot at the parent index; where that slot carries its
own position as self index (and generation and position fit 16 bits), the
handle has that slot index and the generation the slot has now, it passes
`IsValidNode`, and `LuaCheckNode` resolves the proxy to the parent slot. -/
theorem C24_get_parent (w : World) (args : List LuaValue) (np : NodeProxy) (scene : Nat)
    (nd : InternalNode)
    (harg : luaArg args 1 = LuaValue.node np)
    (hs : w.m_Instance = some scene)
    (hsc : np.m_Scene = scene)
    (hv : IsValidNode w.scene np.m_Node = true)
    (hnd : w.scene.m_Nodes[np.m_Node &&& 0xffff]? = some nd)
    (hparent : nd.m_ParentIndex ≠ INVALID_INDEX →
      ∃ parent, w.scene.m_Nodes[nd.m_ParentIndex]? = some parent) :
    (LuaGetParent w args = LuaResult.ok LuaValue.nil ↔ nd.m_ParentIndex = INVALID_INDEX) ∧
    (nd.m_ParentIndex ≠ INVALID_INDEX →
      ∃ parent, w.scene.m_Nodes[nd.m_ParentIndex]? = some parent ∧
        LuaGetParent w args =
          LuaResult.ok (LuaValue.node { m_Scene := scene, m_Node := GetNodeHandle parent }) ∧
        (parent.m_Index = nd.m_ParentIndex → parent.m_Version < 65536 →
          nd.m_ParentIndex < 65536 →
          (GetNodeHandle parent &&& 0xffff) = nd.m_ParentIndex ∧
          GetNodeHandle parent >>> 16 = parent.m_Version ∧
          IsValidNode w.scene (GetNodeHandle parent) = true ∧
          LuaCheckNode w
              [LuaValue.node { m_Scene := scene, m_Node := GetNodeHandle parent }] 1 =
            LuaResult.ok (nd.m_ParentIndex, GetNodeHandle parent))) := by
  have hcheck := LuaCheckNode_valid w args 1 np harg (by rw [hs, hsc]) hv
  have hgsi : GuiScriptInstance_Check w = LuaResult.ok scene := by
    simp [GuiScriptInstance_Check, hs]
  by_cases hp : nd.m_ParentIndex = INVALID_INDEX
  · have hrun : LuaGetParent w args = LuaResult.ok LuaValue.nil := by
      simp [LuaGetParent, hgsi, hcheck, hnd, hp]
    exact ⟨⟨fun _ => hp, fun _ => hrun⟩, fun h => absurd hp h⟩
  · obtain ⟨parent, hpar⟩ := hparent hp
    have hrun : LuaGetParent w args =
        LuaResult.ok (LuaValue.node { m_Scene := scene, m_Node := GetNodeHandle parent }) := by
      simp [LuaGetParent, hgsi, hcheck, hnd, hp, hpar]
    refine ⟨⟨fun h => ?_, fun h => absurd h hp⟩, fun _ => ⟨parent, hpar, hrun, ?_⟩⟩
    · rw [hrun] at h
      cases h
    · intro hidx hver hlt
      have hslot : (GetNodeHandle parent &&& 0xffff) = nd.m_ParentIndex := by
        rw [GetNodeHandle_slot parent hver (by omega), hidx]
      have hvalid : IsValidNode w.scene (GetNodeHandle parent) = true :=
        IsValidNode_GetNodeHandle w.scene nd.m_ParentIndex parent hpar hver hidx hlt
      refine ⟨hslot, ?_, hvalid, ?_⟩
      · rw [GetNodeHandle_eq parent hver (by omega), Nat.shiftRight_eq_div_pow]
        omega
      · have := LuaCheckNode_valid w
          [LuaValue.node { m_Scene := scene, m_Node := GetNodeHandle parent }] 1
          { m_Scene := scene, m_Node := GetNodeHandle parent } rfl hs hvalid
        rw [this]
        simp only [hslot]

/-- C24 on `sceneProperties`: the parent of the node in slot 3 is the node in
slot 2, generation 1, and the node in slot 0 has no parent. -/
theorem C24_get_parent_witness :
    LuaGetParent (worldOf sceneProperties) [LuaValue.node { m_Scene := 1, m_Node := 0x10003 }] =
      LuaResult.ok (LuaValue.node { m_Scene := 1, m_Node := 0x10002 }) ∧
    IsValidNode sceneProperties 0x10002 = true ∧
    LuaGetParent (worldOf sceneProperties) [LuaValue.node { m_Scene := 1, m_Node := 0x10000 }] =
      LuaResult.ok LuaValue.nil := by
  have h := C24_get_parent (worldOf sceneProperties)
    [LuaValue.node { m_Scene := 1, m_Node := 0x10003 }] { m_Scene := 1, m_Node := 0x10003 } 1
    { slotOf 1 3 33 with
         m_ParentIndex := 2
         m_Node := { plainNode with m_Properties := sampleProperties, m_IsBone := true } }
    rfl rfl rfl (by decide) (by decide)
    (fun _ => ⟨{ slotOf 1 2 32 with
         m_ChildHead := 3
         m_Node := { plainNode with m_Properties := sampleProperties } }, by decide⟩)
  obtain ⟨parent, hpar, hrun, hrest⟩ := h.2 (by decide)
  have hpd : parent = { slotOf 1 2 32 with
         m_ChildHead := 3
         m_Node := { plainNode with m_Properties := sampleProperties } } := by
    have h2 : (worldOf sceneProperties).scene.m_Nodes[2]? = some parent := hpar
    have h3 : (worldOf sceneProperties).scene.m_Nodes[2]? =
        some { slotOf 1 2 32 with
         m_ChildHead := 3
         m_Node := { plainNode with m_Properties := sampleProperties } } := by decide
    rw [h2] at h3
    exact Option.some.inj h3
  subst hpd
  exact ⟨hrun, (hrest (by decide) (by decide) (by decide)).2.2.1, by decide⟩

/-! ### C26 -/

/-- A Lua string without a NUL character is seen in full by the C library. -/
theorem cString_of_no_nul (s : String) (h : ∀ c ∈ s.data, c ≠ Char.ofNat 0) : cString s = s := by
  unfold cString
  have : s.data.takeWhile (fun c => decide (c ≠ Char.ofNat 0)) = s.data := by
    rw [List.takeWhile_eq_self_iff]
    intro c hc
    exact decide_eq_true (h c hc)
  rw [this]

/-- C25: `ToImageType` receives the type string as a C string, which holds
no NUL character.  It maps "rgb" to `TYPE_RGB`, "rgba" to `TYPE_RGBA` and
"l" to `TYPE_LUMINANCE`, and raises "unsupported texture format" for every
other string; the match is exact and case-sensitive.  Consequently every
call of `NewDynamicTexture` made by `gui.new_texture` and of
`SetDynamicTextureData` made by `gui.set_texture_data` has one of these
three types, and with any other type string as argument 4 the two functions
raise without making a call. -/
theorem C25_image_type (ext : TextureExternals) (type_str : String)
    (hc : ∀ c ∈ type_str.data, c ≠ Char.ofNat 0) :
    ToImageType ext "rgb" = LuaResult.ok ext.TYPE_RGB ∧
    ToImageType ext "rgba" = LuaResult.ok ext.TYPE_RGBA ∧
    ToImageType ext "l" = LuaResult.ok ext.TYPE_LUMINANCE ∧
    (type_str ≠ "rgb" → type_str ≠ "rgba" → type_str ≠ "l" →
      ToImageType ext type_str = LuaResult.error "unsupported texture format '%s'") ∧
    (∀ (w : World) (args : List LuaValue) (call : TextureCall),
      (call ∈ (LuaNewTexture ext w args).1 ∨ call ∈ (LuaSetTextureData ext w args).1) →
      call.type = ext.TYPE_RGB ∨ call.type = ext.TYPE_RGBA ∨ call.type = ext.TYPE_LUMINANCE) ∧
    (∀ (w : World) (args : List LuaValue),
      luaL_checkstring 4 (luaArg args 4) = LuaResult.ok type_str →
      type_str ≠ "rgb" → type_str ≠ "rgba" → type_str ≠ "l" →
      (LuaNewTexture ext w args).1 = [] ∧ (LuaSetTextureData ext w args).1 = [] ∧
      (∀ b, (LuaNewTexture ext w args).2 ≠ LuaResult.ok b) ∧
      (∀ b, (LuaSetTextureData ext w args).2 ≠ LuaResult.ok b)) := by
  have hcs : cString type_str = type_str := cString_of_no_nul type_str hc
  have hty : ∀ (s : String) (t : Nat), ToImageType ext s = LuaResult.ok t →
      (t = ext.TYPE_RGB ∨ t = ext.TYPE_RGBA ∨ t = ext.TYPE_LUMINANCE) ∧
      (cString s = "rgb" ∨ cString s = "rgba" ∨ cString s = "l") := by
    intro s t h
    unfold ToImageType at h
    by_cases h1 : cString s = "rgb"
    · rw [if_pos h1] at h
      injection h with h
      exact ⟨Or.inl h.symm, Or.inl h1⟩
    · rw [if_neg h1] at h
      by_cases h2 : cString s = "rgba"
      · rw [if_pos h2] at h
        injection h with h
        exact ⟨Or.inr (Or.inl h.symm), Or.inr (Or.inl h2)⟩
      · rw [if_neg h2] at h
        by_cases h3 : cString s = "l"
        · rw [if_pos h3] at h
          injection h with h
          exact ⟨Or.inr (Or.inr h.symm), Or.inr (Or.inr h3)⟩
        · rw [if_neg h3] at h
          cases h
  have hargs : ∀ (w : World) (args : List LuaValue) (call : TextureCall),
      textureArguments ext w args = LuaResult.ok call →
      ∃ s, luaL_checkstring 4 (luaArg args 4) = LuaResult.ok s ∧
        ToImageType ext s = LuaResult.ok call.type := by
    intro w args call h
    unfold textureArguments at h
    cases h1 : luaL_checkstring 1 (luaArg args 1) <;> rw [h1] at h <;>
      simp only [LuaResult.andThen] at h <;> try cases h
    cases h2 : luaL_checknumber 2 (luaArg args 2) <;> rw [h2] at h <;>
      simp only [LuaResult.andThen] at h <;> try cases h
    cases h3 : luaL_checknumber 3 (luaArg args 3) <;> rw [h3] at h <;>
      simp only [LuaResult.andThen] at h <;> try cases h
    cases h4 : luaL_checkstring 4 (luaArg args 4) <;> rw [h4] at h <;>
      simp only [LuaResult.andThen] at h <;> try cases h
    cases h5 : checkBuffer (luaArg args 5) <;> rw [h5] at h <;>
      simp only [LuaResult.andThen] at h <;> try cases h
    cases h6 : GuiScriptInstance_Check w <;> rw [h6] at h <;>
      simp only [LuaResult.andThen] at h <;> try cases h
    cases h7 : checkFlip args <;> rw [h7] at h <;>
      simp only [LuaResult.andThen] at h <;> try cases h
    rename_i name width height s buffer inst flip
    cases h8 : ToImageType ext s <;> rw [h8] at h <;>
      simp only [LuaResult.andThen] at h <;> try cases h
    exact ⟨s, rfl, h8⟩
  have hcalls : ∀ (w : World) (args : List LuaValue) (call : TextureCall),
      (call ∈ (LuaNewTexture ext w args).1 ∨ call ∈ (LuaSetTextureData ext w args).1) →
      textureArguments ext w args = LuaResult.ok call := by
    intro w args call h
    unfold LuaNewTexture LuaSetTextureData at h
    cases ht : textureArguments ext w args with
    | ok c =>
      rw [ht] at h
      simp at h
      rw [h]
    | error e =>
      rw [ht] at h
      simp at h
    | abort =>
      rw [ht] at h
      simp at h
  refine ⟨?_, ?_, ?_, ?_, ?_, ?_⟩
  · have h : cString "rgb" = "rgb" := by decide
    simp [ToImageType, h]
  · have h : cString "rgba" = "rgba" := by decide
    simp [ToImageType, h]
  · have h : cString "l" = "l" := by decide
    simp [ToImageType, h]
  · intro h1 h2 h3
    simp [ToImageType, hcs, h1, h2, h3]
  · intro w args call h
    obtain ⟨s, _, hs⟩ := hargs w args call (hcalls w args call h)
    exact (hty s call.type hs).1
  · intro w args h4 h1 h2 h3
    have hno : ∀ call, textureArguments ext w args ≠ LuaResult.ok call := by
      intro call hcall
      obtain ⟨s, hs4, hs⟩ := hargs w args call hcall
      rw [h4] at hs4
      injection hs4 with hs4
      subst hs4
      rcases (hty type_str call.type hs).2 with h | h | h
      · exact h1 (hcs ▸ h)
      · exact h2 (hcs ▸ h)
      · exact h3 (hcs ▸ h)
    unfold LuaNewTexture LuaSetTextureData
    cases ht : textureArguments ext w args with
    | ok c => exact absurd ht (hno c)
    | error e => simp
    | abort => simp

/-- C25 on the type string "RGB" in capitals: `ToImageType` raises and
`gui.new_texture` makes no call; with "rgba" `gui.set_texture_data` makes
its call with `TYPE_RGBA`. -/
theorem C25_image_type_witness :
    ToImageType sampleTextureExternals "RGB" =
      LuaResult.error "unsupported texture format '%s'" ∧
    (LuaNewTexture sampleTextureExternals (worldOf sceneOneNode)
        [LuaValue.string "tx" Option.none, LuaValue.number 2, LuaValue.number 3,
         LuaValue.string "RGB" Option.none, LuaValue.string "abc" Option.none]).1 = [] ∧
    LuaSetTextureData sampleTextureExternals (worldOf sceneOneNode)
        [LuaValue.string "tx" Option.none, LuaValue.number 2, LuaValue.number 3,
         LuaValue.string "rgba" Option.none, LuaValue.string "abc" Option.none,
         LuaValue.boolean true] =
      ([{ name := "tx", width := 2, height := 3, type := 1, flip := false, buffer := "abc" }],
       LuaResult.ok true) :=
  have h := C25_image_type sampleTextureExternals "RGB" (by decide)
  ⟨h.2.2.2.1 (by decide) (by decide) (by decide),
   (h.2.2.2.2.2 (worldOf sceneOneNode)
      [LuaValue.string "tx" Option.none, LuaValue.number 2, LuaValue.number 3,
       LuaValue.string "RGB" Option.none, LuaValue.string "abc" Option.none]
      rfl (by decide) (by decide) (by decide)).1,
   by decide⟩

/-! ### C27 -/

/-- C27 does not hold of the code: in a call with a numeric delay, whatever
number `n` below 2^31 is given as argument 8, `gui.animate` hands `n` on to
`AnimateNodeHash` as the playback mode; argument 8 is not compared with
anything (the easing constant of argument 4 is compared with `TYPE_COUNT`).
With 42 the mode passed on is none of the six defined ones.  When argument 8
is absent, `nil` or another value that is not a number the mode is
`PLAYBACK_ONCE_FORWARD`, as the claim says. -/
theorem C27_playback_not_validated :
    (∀ n : Nat,
      LuaAnimate sampleExternals (worldOf sceneOneNode)
          (animateArgs [LuaValue.number ((n % 2 ^ 31 : Nat) : Int)]) =
        ({ worldOf sceneOneNode with
           animations :=
             [{ node := 0x10000, property := 8, target := { x := 1, y := 2, z := 3, w := 4 },
                curveType := 0, curveRef := Option.none, playback := ((n % 2 ^ 31 : Nat) : Int),
                duration := 1, delay := 0, complete := Option.none }] },
         LuaResult.ok ())) ∧
    (42 : Int) ∉ definedPlaybacks ∧
    (LuaAnimate sampleExternals (worldOf sceneOneNode)
        (animateArgs [LuaValue.number 42])).1.animations.map (fun c => c.playback) = [42] ∧
    (LuaAnimate sampleExternals (worldOf sceneOneNode)
        (animateArgs [])).1.animations.map (fun c => c.playback) = [PLAYBACK_ONCE_FORWARD] ∧
    (LuaAnimate sampleExternals (worldOf sceneOneNode)
        (animateArgs [LuaValue.nil])).1.animations.map (fun c => c.playback) =
      [PLAYBACK_ONCE_FORWARD] ∧
    (LuaAnimate sampleExternals (worldOf sceneOneNode)
        (animateArgs [LuaValue.boolean true])).1.animations.map (fun c => c.playback) =
      [PLAYBACK_ONCE_FORWARD] ∧
    (LuaAnimate sampleExternals (worldOf sceneOneNode)
        ((animateArgs []).take 5)).1.animations.map (fun c => c.playback) =
      [PLAYBACK_ONCE_FORWARD] := by
  refine ⟨fun n => rfl, by decide, by decide, by decide, by decide, by decide, by decide⟩

/-! ### C30 -/

/-- A reference that fits a 32-bit `int` comes back from the pointer it was
cast to, for pointers of 64 bits. -/
theorem refOfUserdata_userdataOfRef (r : Int) (h1 : -2 ^ 31 ≤ r) (h2 : r < 2 ^ 31) :
    refOfUserdata (userdataOfRef r) = r := by
  unfold refOfUserdata userdataOfRef
  have hc : (((r % 2 ^ 64).toNat : Nat) : Int) = r % 2 ^ 64 :=
    Int.toNat_of_nonneg (Int.emod_nonneg _ (by norm_num))
  generalize hu : (r % 2 ^ 64).toNat = u at hc
  have hm : (((u % 2 ^ 32 : Nat) : Nat) : Int) = (u : Int) % 2 ^ 32 := by push_cast; rfl
  split_ifs with hlt
  · rw [hm, hc]
    have : (u : Int) % 2 ^ 32 < 2 ^ 31 := by
      rw [← hm]
      exact_mod_cast hlt
    rw [hc] at this
    omega
  · rw [hm, hc]
    have : ¬ (u : Int) % 2 ^ 32 < 2 ^ 31 := by
      rw [← hm]
      exact_mod_cast hlt
    rw [hc] at this
    omega

/-- A reference that fits a 32-bit `int` comes back from the pointer it was
cast to, for pointers of 32 bits. -/
theorem refOfUserdata_pointer32 (r : Int) (h1 : -2 ^ 31 ≤ r) (h2 : r < 2 ^ 31) :
    refOfUserdata (r % 2 ^ 32).toNat = r := by
  unfold refOfUserdata
  have hc : (((r % 2 ^ 32).toNat : Nat) : Int) = r % 2 ^ 32 :=
    Int.toNat_of_nonneg (Int.emod_nonneg _ (by norm_num))
  generalize hu : (r % 2 ^ 32).toNat = u at hc
  have hm : (((u % 2 ^ 32 : Nat) : Nat) : Int) = (u : Int) % 2 ^ 32 := by push_cast; rfl
  split_ifs with hlt
  · rw [hm, hc]
    have : (u : Int) % 2 ^ 32 < 2 ^ 31 := by
      rw [← hm]
      exact_mod_cast hlt
    rw [hc] at this
    omega
  · rw [hm, hc]
    have : ¬ (u : Int) % 2 ^ 32 < 2 ^ 31 := by
      rw [← hm]
      exact_mod_cast hlt
    rw [hc] at this
    omega

/-- C30: for every reference `r` that fits a 32-bit signed `int`, the cast of
`r` to a pointer (of 64 bits, by sign extension, or of 32 bits), masked with
`0xffffffff` and converted back to `int`, is `r`.  So `LuaCurveRelease` on
the pointer made from the curve reference `r` releases `r` and nothing else,
and `LuaAnimationComplete` on the pointers made from a callback reference
`r` and a node reference `r2` releases these two references, `r` first,
after it has called the function stored under `r` with the value stored
under `r2` when `finished` is set. -/
theorem C30_references_recovered (r : Int) (h1 : -2 ^ 31 ≤ r) (h2 : r < 2 ^ 31) :
    refOfUserdata (userdataOfRef r) = r ∧
    refOfUserdata (r % 2 ^ 32).toNat = r ∧
    (∀ w : World,
      LuaCurveRelease w (userdataOfRef r) = { w with refTable := luaUnref w.refTable r }) ∧
    (∀ (PCall : LuaValue → Nat → LuaValue → World → World) (sceneAddr : Nat) (w : World)
        (node : Nat) (finished : Bool) (r2 : Int), -2 ^ 31 ≤ r2 → r2 < 2 ^ 31 →
      (finished = true → ∃ id, rawgeti w.refTable r = LuaValue.function id) →
      ∃ w2 : World,
        w2 = (if finished then
                PCall (rawgeti w.refTable r) sceneAddr (rawgeti w.refTable r2)
                  { w with m_Instance := some sceneAddr }
              else { w with m_Instance := some sceneAddr }) ∧
        LuaAnimationComplete PCall sceneAddr w node finished (userdataOfRef r)
            (userdataOfRef r2) =
          ({ w2 with
             m_Instance := Option.none
             refTable := luaUnref (luaUnref w2.refTable r) r2 },
           LuaResult.ok
            ((if finished then
                [CompletionStep.call (rawgeti w.refTable r) sceneAddr (rawgeti w.refTable r2)]
              else []) ++
             [CompletionStep.unref r, CompletionStep.unref r2]))) := by
  have hr := refOfUserdata_userdataOfRef r h1 h2
  refine ⟨hr, refOfUserdata_pointer32 r h1 h2, ?_, ?_⟩
  · intro w
    simp only [LuaCurveRelease, hr]
  · intro PCall sceneAddr w node finished r2 h3 h4 hf
    have hr2 := refOfUserdata_userdataOfRef r2 h3 h4
    refine ⟨_, rfl, ?_⟩
    cases finished with
    | false => simp [LuaAnimationComplete, hr, hr2]
    | true =>
      obtain ⟨id, hid⟩ := hf rfl
      simp [LuaAnimationComplete, hr, hr2, hid]

/-- C30 on the references of one call of `gui.animate` with a custom easing
vector and a completion function in a script without references: the call
takes the curve reference 1, the callback reference 2 and the node reference
3; `LuaCurveRelease` and `LuaAnimationComplete` on the pointers made from
them leave no reference behind.  The reference -2 (`LUA_NOREF`) comes back
from its pointer as well. -/
theorem C30_references_recovered_witness :
    refOfUserdata (userdataOfRef (-2)) = -2 ∧
    (LuaAnimate sampleExternals (worldOf sceneOneNode)
        [LuaValue.node { m_Scene := 1, m_Node := 0x10000 },
         LuaValue.string "position" Option.none,
         LuaValue.vector4 { x := 1, y := 2, z := 3, w := 4 }, LuaValue.vector [0, 1],
         LuaValue.number 1, LuaValue.number 0, LuaValue.function 5]).1.animations.map
        (fun c => (c.curveRef, c.complete)) = [(some 1, some (2, 3))] ∧
    (LuaAnimationComplete samplePCall 1
        (LuaCurveRelease
          (LuaAnimate sampleExternals (worldOf sceneOneNode)
            [LuaValue.node { m_Scene := 1, m_Node := 0x10000 },
             LuaValue.string "position" Option.none,
             LuaValue.vector4 { x := 1, y := 2, z := 3, w := 4 }, LuaValue.vector [0, 1],
             LuaValue.number 1, LuaValue.number 0, LuaValue.function 5]).1
          (userdataOfRef 1))
        0x10000 false (userdataOfRef 2) (userdataOfRef 3)).1.refTable = [] ∧
    LuaCurveRelease completionWorld (userdataOfRef 2) =
      { completionWorld with refTable := luaUnref completionWorld.refTable 2 } :=
  ⟨(C30_references_recovered (-2) (by norm_num) (by norm_num)).1, by decide, by decide,
   (C30_references_recovered 2 (by norm_num) (by norm_num)).2.2.1 completionWorld⟩

/-! ### C17: a move to the first position -/

end dmGui
